import Mathlib

/-! # MilGige: feature reporting and triggered acquisition

A shallow embedding of `src/C++/MilGige.cpp`.  The program is a script of
calls into the MIL runtime; the embedding makes every such call an `Event`
appended to a trace, and takes everything the runtime hands back (device
answers, key presses, console numbers, allocation results) from the
`World` the script runs in.
-/

namespace MilGige

/-! ## Data model -/

/-- MIL integer types are modelled by unbounded integers; no arithmetic in the
program can overflow them. -/
abbrev MIL_INT := Int

/-- MIL identifiers; `0` is `M_NULL`. -/
abbrev MIL_ID := Int

/-- MIL doubles are modelled by rationals; the program only tests one against `0.0`
and prints it. -/
abbrev MIL_DOUBLE := Rat

/-- The inquire type of `MdigInquireFeature`: `M_FEATURE_VALUE`, `M_FEATURE_MIN`,
`M_FEATURE_MAX`, `M_FEATURE_ENUM_ENTRY_COUNT` and `M_FEATURE_ENUM_ENTRY_NAME + i`. -/
inductive FeatureKind
| value
| min
| max
| enumEntryCount
| enumEntryName (i : Nat)
deriving DecidableEq, Repr

/-- A value written with `MdigControlFeature(..., M_FEATURE_VALUE, ...)`. -/
inductive FeatureValue
| str (s : String)
| int (n : Int)
deriving DecidableEq, Repr

/-- An argument of a `MosPrintf` call. -/
inductive Arg
| s (v : String)
| d (v : Int)
| f (v : MIL_DOUBLE)
deriving DecidableEq, Repr

/-- The operation of a `MdigProcess` call: `M_START`, `M_SEQUENCE + M_COUNT(n)`,
`M_STOP` and `M_STOP + M_WAIT`. -/
inductive ProcessOp
| start
| sequenceCount (n : Int)
| stop
| stopWait
deriving DecidableEq, Repr

/-- The trigger type enumeration; `none` is the value `(eTriggerType)0` a variable
holds before `SetTriggerControls` assigns it. -/
inductive eTriggerType
| none
| eSingleFrame
| eMultiFrame
| eContinuous
deriving DecidableEq, Repr

/-- One call into the runtime, with the arguments the program passes and, for console
reads and allocations, the value the runtime handed back. -/
inductive Event
| MosPrintf (fmt : String) (args : List Arg)
| MosGetch (key : MIL_INT)
| MosKbhit (hit : Bool)
| scanf (fmt : String) (value : Int)
| MappControlError (printEnable : Bool)
| MdigInquireFeature (kind : FeatureKind) (name : String)
| MdigControlFeature (name : String) (value : FeatureValue)
| MdigExecuteFeature (name : String)
| MdigInquire (what : String)
| MdigControl (what : String) (value : String)
| MdigProcess (buffers : List MIL_ID) (size : MIL_INT) (op : ProcessOp)
| MbufAlloc2d (result : MIL_ID)
| MbufClear (buffer : MIL_ID) (value : Int)
| MbufFree (buffer : MIL_ID)
| call (name : String)
deriving DecidableEq, Repr

/-- The camera, the driver and the host as the program sees them.  An answer may depend
on every call made so far (the history), so a selector written earlier can change what a
later query returns.  `none` means that the query fails and leaves the output variable as
it was.  `memory` is the number of elements of the largest array or vector the free
memory of the host has room for. -/
structure Device where
  systemType    : MIL_INT
  featureString : List Event → FeatureKind → String → Option String
  featureInt    : List Event → FeatureKind → String → Option Int
  featureBool   : List Event → FeatureKind → String → Option Bool
  featureDouble : List Event → FeatureKind → String → Option MIL_DOUBLE
  inquireInt    : List Event → String → Option Int
  inquireString : List Event → String → Option String
  memory        : Nat

/-- No array or vector has more elements than this, whatever the memory: a request for
more than `PTRDIFF_MAX` bytes is refused with `std::length_error` or
`std::bad_array_new_length`, and the elements the program allocates (`MIL_INT`,
`MIL_STRING`) have eight bytes or more. -/
def maxElements : Nat := 2 ^ 60 - 1

/-- The largest element count for which an array or vector allocation succeeds: what the
memory has room for (`std::bad_alloc` above it), never more than `maxElements`.  A
request for at most ten elements, the length of the default buffer list of
`DoTriggeredAcquisition`, always succeeds, like the other allocations of a fixed small
size the program makes (its strings, the hook data). -/
def Device.limit (d : Device) : Nat := max 10 (min d.memory maxElements)

/-- The global variables that store the camera capabilities. -/
structure Capabilities where
  ContinuousAMSupport : Bool
  SingleFrameAMSupport : Bool
  MultiFrameAMSupport : Bool
  MultipleAcquisitionModeSupport : MIL_INT
  CanTriggerAcquisitionStart : Bool
  CanTriggerFrameStart : Bool
deriving DecidableEq, Repr

/-- The initial values of the capability globals. -/
def Capabilities.initial : Capabilities :=
  { ContinuousAMSupport := false, SingleFrameAMSupport := false,
    MultiFrameAMSupport := false, MultipleAcquisitionModeSupport := 0,
    CanTriggerAcquisitionStart := false, CanTriggerFrameStart := false }

/-- Everything a run depends on and everything it leaves behind.
* `keys`: the key codes `MosGetch` will return, in order; with none left it blocks;
* `nums`: the numbers `scanf` will store, in order; with none left it blocks;
* `kbhit`: the answers of successive `MosKbhit` polls;
* `allocs`: the identifiers successive `MbufAlloc2d` calls produce, `0` (`M_NULL`) for a
  failed allocation; with none left the allocation fails;
* `caps`: the capability globals;
* `trace`: the calls made so far, oldest first. -/
structure World where
  dev    : Device
  keys   : List MIL_INT
  nums   : List Int
  kbhit  : List Bool
  allocs : List MIL_ID
  caps   : Capabilities
  trace  : List Event

/-- Why a run does not return: it waits for input that never comes (or polls for ever),
a C++ exception leaves the function, or an array is indexed outside its bounds. -/
inductive Halt
| hang
| exception
| outOfBounds
deriving DecidableEq, Repr

/-- The result of running a piece of the program. -/
inductive Outcome (α : Type)
| ret (a : α) (w : World)
| halt (h : Halt) (w : World)

/-- The world a run ends in. -/
def Outcome.world {α : Type} : Outcome α → World
| .ret _ w => w
| .halt _ w => w

/-- The value a run returns, if it returns. -/
def Outcome.value? {α : Type} : Outcome α → Option α
| .ret a _ => some a
| .halt _ _ => none

/-- Why a run did not return, if it did not. -/
def Outcome.stopped {α : Type} : Outcome α → Option Halt
| .ret _ _ => none
| .halt h _ => some h

/-- Whether a run returns. -/
def Outcome.returns {α : Type} : Outcome α → Bool
| .ret _ _ => true
| .halt _ _ => false

/-- A piece of the program: a function from the world before to the outcome. -/
def Prog (α : Type) : Type := World → Outcome α

/-- Continue a run that returned; a run that did not return stays as it is. -/
def Outcome.andThen {α β : Type} (o : Outcome α) (f : α → World → Outcome β) : Outcome β :=
  match o with
  | .ret a w1 => f a w1
  | .halt h w1 => .halt h w1

/-- Sequencing: the second part runs in the world the first part returned in. -/
def Prog.bind {α β : Type} (m : Prog α) (f : α → Prog β) : Prog β := fun w =>
  (m w).andThen f

/-- Returning a value changes nothing. -/
def Prog.pure {α : Type} (a : α) : Prog α := fun w => .ret a w

instance : Monad Prog where
  pure := Prog.pure
  bind := Prog.bind

/-- The calls a run added to the trace of the world it started in. -/
def newEvents {α : Type} (w : World) (o : Outcome α) : List Event :=
  o.world.trace.drop w.trace.length

/-! ## Runtime calls -/

/-- Append a call to the trace. -/
def emit (e : Event) : Prog Unit := fun w =>
  .ret () { w with trace := w.trace ++ [e] }

/-- Leave the function by a C++ exception. -/
def throwException {α : Type} : Prog α := fun w => .halt .exception w

/-- Formatted output to the console. -/
def MosPrintf (fmt : String) (args : List Arg) : Prog Unit :=
  emit (.MosPrintf fmt args)

/-- Blocking read of one key. -/
def MosGetch : Prog MIL_INT := fun w =>
  match w.keys with
  | [] => .halt .hang w
  | k :: ks => .ret k { w with keys := ks, trace := w.trace ++ [.MosGetch k] }

/-- Non-blocking test for a pending key; a poll stream that has run dry never reports a
key, so the polling loop around it spins for ever. -/
def MosKbhit : Prog Bool := fun w =>
  match w.kbhit with
  | [] => .halt .hang w
  | b :: bs => .ret b { w with kbhit := bs, trace := w.trace ++ [.MosKbhit b] }

/-- A numeric console read (`scanf` with one conversion): stores the next number. -/
def scanf (fmt : String) : Prog Int := fun w =>
  match w.nums with
  | [] => .halt .hang w
  | n :: ns => .ret n { w with nums := ns, trace := w.trace ++ [.scanf fmt n] }

/-- The call `MappControl(M_DEFAULT, M_ERROR, M_PRINT_ENABLE / M_PRINT_DISABLE)`. -/
def MappControlError (printEnable : Bool) : Prog Unit :=
  emit (.MappControlError printEnable)

/-- A string feature query; `cur` is the output variable before the call. -/
def MdigInquireFeatureString (kind : FeatureKind) (name : String) (cur : String) :
    Prog String := fun w =>
  .ret ((w.dev.featureString w.trace kind name).getD cur)
    { w with trace := w.trace ++ [.MdigInquireFeature kind name] }

/-- An integer feature query (`M_TYPE_INT64` or `M_TYPE_MIL_INT`). -/
def MdigInquireFeatureInt (kind : FeatureKind) (name : String) (cur : Int) :
    Prog Int := fun w =>
  .ret ((w.dev.featureInt w.trace kind name).getD cur)
    { w with trace := w.trace ++ [.MdigInquireFeature kind name] }

/-- A boolean feature query. -/
def MdigInquireFeatureBool (kind : FeatureKind) (name : String) (cur : Bool) :
    Prog Bool := fun w =>
  .ret ((w.dev.featureBool w.trace kind name).getD cur)
    { w with trace := w.trace ++ [.MdigInquireFeature kind name] }

/-- A double feature query. -/
def MdigInquireFeatureDouble (kind : FeatureKind) (name : String) (cur : MIL_DOUBLE) :
    Prog MIL_DOUBLE := fun w =>
  .ret ((w.dev.featureDouble w.trace kind name).getD cur)
    { w with trace := w.trace ++ [.MdigInquireFeature kind name] }

/-- A feature write with `M_FEATURE_VALUE`. -/
def MdigControlFeature (name : String) (value : FeatureValue) : Prog Unit :=
  emit (.MdigControlFeature name value)

/-- A feature command with `M_FEATURE_EXECUTE`. -/
def MdigExecuteFeature (name : String) : Prog Unit :=
  emit (.MdigExecuteFeature name)

/-- The call `MdigInquire` for an integer property, named by its macro. -/
def MdigInquireInt (what : String) (cur : Int) : Prog Int := fun w =>
  .ret ((w.dev.inquireInt w.trace what).getD cur)
    { w with trace := w.trace ++ [.MdigInquire what] }

/-- The call `MdigInquire` for a string property, named by its macro. -/
def MdigInquireString (what : String) (cur : String) : Prog String := fun w =>
  .ret ((w.dev.inquireString w.trace what).getD cur)
    { w with trace := w.trace ++ [.MdigInquire what] }

/-- The call `MbufAlloc2d`: the identifier written to the destination slot. -/
def MbufAlloc2d : Prog MIL_ID := fun w =>
  match w.allocs with
  | [] => .ret 0 { w with trace := w.trace ++ [.MbufAlloc2d 0] }
  | b :: bs => .ret b { w with allocs := bs, trace := w.trace ++ [.MbufAlloc2d b] }

/-- The global capability flags, read. -/
def getCaps : Prog Capabilities := fun w => .ret w.caps w

/-- The global capability flags, updated. -/
def modifyCaps (f : Capabilities → Capabilities) : Prog Unit := fun w =>
  .ret () { w with caps := f w.caps }

/-- The code of a character key. -/
def key (c : Char) : MIL_INT := c.toNat

/-- The call `v[i]` on a vector; an index outside the vector is out of bounds. -/
def index (v : List String) (i : Int) : Prog String := fun w =>
  if i < 0 then .halt .outOfBounds w
  else match v[i.toNat]? with
    | some x => .ret x w
    | none => .halt .outOfBounds w

/-- Resize to `Count` empty strings, `v.assign(Count, "")`.  The count is converted to
`size_t`, so a negative one exceeds the largest vector; `assign` throws
(`std::length_error`, `std::bad_alloc`) for every count above the limit of the host. -/
def vectorAssign (Count : MIL_INT) : Prog Nat := fun w =>
  if Count < 0 ∨ (w.dev.limit : Int) < Count then throwException w
  else Prog.pure Count.toNat w

/-- The array expression `new T[(size_t)n]`.  A negative `n`, converted to `size_t`, is
larger than any array; the expression throws (`std::bad_array_new_length`,
`std::bad_alloc`) for every length above the limit of the host. -/
def arrayNew (n : Int) : Prog Nat := fun w =>
  if n < 0 ∨ (w.dev.limit : Int) < n then throwException w
  else Prog.pure n.toNat w

/-- The loop `for (i = start; i < v.size(); i++)` that queries entry name `i` of the
enumeration `feature` into `v[i]` and then runs `body` on it; `todo` is the number of
indices left, and the result is the names read. -/
def inquireEntryNames (feature : String) (body : String → Prog Unit) :
    Nat → Nat → Prog (List String)
| 0, _ => Prog.pure []
| todo + 1, i => do
    let name ← MdigInquireFeatureString (.enumEntryName i) feature ""
    body name
    let rest ← inquireEntryNames feature body todo (i + 1)
    Prog.pure (name :: rest)

/-! ## Triggered acquisition -/

/-- The variables `SetTriggerControls` receives by reference. -/
structure TriggerSetup where
  TriggerType : eTriggerType
  NbFrames : Int
  oTriggerSelector : String
  SoftwareTriggerSelected : Bool
deriving DecidableEq, Repr

/-- The loop of `SelectTriggerSource` that prints the sources from index `i` on. -/
def printTriggerSources : List String → Nat → Prog Unit
| [], _ => Prog.pure ()
| name :: rest, i => do
    MosPrintf "%-35s(%d) %-20s\n" [.s "", .d i, .s name]
    printTriggerSources rest (i + 1)

/-- The `do ... while(!Done)` loop of `SelectTriggerSource`; it returns `Selection`.
Every iteration reads one number, so `fuel` above the count of pending numbers is never
used up. -/
def selectionLoop (Cnt : MIL_INT) (TriggerSource : List String) : Nat → Prog Int
| 0 => fun w => .halt .hang w
| fuel + 1 => do
    let Selection ← scanf "%d"
    if Selection ≥ 0 ∧ Selection < Cnt then
      let name ← index TriggerSource Selection
      MosPrintf "%s selected\n" [.s name]
      Prog.pure Selection
    else
      MosPrintf "Invalid selection.\n" []
      selectionLoop Cnt TriggerSource fuel

/-- Set the source of the trigger according to the user's input; the result is
`SoftwareTriggerSelected`. -/
def SelectTriggerSource : Prog Bool := do
  MosPrintf "%-35s" [.s "Please select the trigger source:"]
  let Cnt ← MdigInquireFeatureInt .enumEntryCount "TriggerSource" 0
  if Cnt ≠ 0 then
    let size ← vectorAssign Cnt
    let TriggerSource ← inquireEntryNames "TriggerSource" (fun _ => Prog.pure ()) size 0
    let first ← index TriggerSource 0
    MosPrintf "(%d) %-30s\n" [.d 0, .s first]
    printTriggerSources (TriggerSource.drop 1) 1
    let Selection ← fun w => selectionLoop Cnt TriggerSource (w.nums.length + 1) w
    let chosen ← index TriggerSource Selection
    MdigControlFeature "TriggerSource" (.str chosen)
    if chosen = "Software" then Prog.pure true else Prog.pure false
  else
    Prog.pure false

/-- The menu header and the option lines, printed at the start of every iteration of
the menu loop of `SetTriggerControls`. -/
def printMenu : Prog Unit := do
  let caps ← getCaps
  MosPrintf "\n\n%-35s" [.s "Do you want to trigger a:"]
  (if caps.ContinuousAMSupport then
    MosPrintf "(C) %-30s\n%35s" [.s "Continuous acquisition", .s ""] else Prog.pure ())
  (if caps.MultiFrameAMSupport then
    MosPrintf "(M) %-30s\n%35s" [.s "MultiFrame acquisition", .s ""] else Prog.pure ())
  (if caps.SingleFrameAMSupport then
    MosPrintf "(S) %-30s\n%35s" [.s "SingleFrame acquisition", .s ""] else Prog.pure ())
  MosPrintf "\n" []

/-- The rest of an iteration of the menu loop of `SetTriggerControls`: the key read and
the `switch` on it.  `again` is the next iteration of the loop, taken when the `default`
case leaves `Done` at `0`. -/
def menuSwitch (s : TriggerSetup) (again : Prog TriggerSetup) : Prog TriggerSetup := do
  let Selection ← MosGetch
  if Selection = key 'c' ∨ Selection = key 'C' then
    MdigControlFeature "AcquisitionMode" (.str "Continuous")
    MdigControlFeature "TriggerSelector" (.str "AcquisitionStart")
    MdigControlFeature "TriggerMode" (.str "On")
    MosPrintf "Continuous acquisition trigger selected.\n" []
    let soft ← SelectTriggerSource
    Prog.pure { s with oTriggerSelector := "AcquisitionStart", SoftwareTriggerSelected := soft,
                       TriggerType := .eContinuous }
  else if Selection = key 'm' ∨ Selection = key 'M' then
    MdigControlFeature "AcquisitionMode" (.str "MultiFrame")
    MdigControlFeature "TriggerSelector" (.str "AcquisitionStart")
    MdigControlFeature "TriggerMode" (.str "On")
    MosPrintf "Multi Frame acquisition trigger selected.\n" []
    let soft ← SelectTriggerSource
    MosPrintf "\n%-30s" [.s "\nHow many frames per trigger?", .s ""]
    let NbFrames ← scanf "%lld"
    MosPrintf "%lld Frames will be acquired per trigger.\n" [.d NbFrames]
    MdigControlFeature "AcquisitionFrameCount" (.int NbFrames)
    Prog.pure { oTriggerSelector := "AcquisitionStart", SoftwareTriggerSelected := soft,
                NbFrames := NbFrames, TriggerType := .eMultiFrame }
  else if Selection = key 's' ∨ Selection = key 'S' then
    let caps ← getCaps
    let sel := if caps.CanTriggerFrameStart then "FrameStart" else "AcquisitionStart"
    (if caps.CanTriggerFrameStart then do
      MdigControlFeature "AcquisitionMode" (.str "Continuous")
      MdigControlFeature "TriggerSelector" (.str "FrameStart")
      MdigControlFeature "TriggerMode" (.str "On")
    else do
      MdigControlFeature "AcquisitionMode" (.str "SingleFrame")
      MdigControlFeature "TriggerSelector" (.str "AcquisitionStart")
      MdigControlFeature "TriggerMode" (.str "On"))
    MosPrintf "Single Frame acquisition trigger selected.\n" []
    let soft ← SelectTriggerSource
    Prog.pure { s with oTriggerSelector := sel, SoftwareTriggerSelected := soft,
                       TriggerType := .eSingleFrame }
  else
    MosPrintf "Invalid selection." []
    again

/-- The `do ... while(!Done)` menu loop of `SetTriggerControls`.  Every iteration reads
one key, so `fuel` above the count of pending keys is never used up. -/
def menuLoop (s : TriggerSetup) : Nat → Prog TriggerSetup
| 0 => fun w => .halt .hang w
| fuel + 1 => do
    printMenu
    menuSwitch s (menuLoop s fuel)

/-- Set the camera in triggered mode according to the user's input. -/
def SetTriggerControls (s : TriggerSetup) : Prog TriggerSetup := do
  let caps ← getCaps
  if caps.CanTriggerAcquisitionStart ∧ caps.MultipleAcquisitionModeSupport ≠ 0 then
    fun w => menuLoop s (w.keys.length + 1) w
  else if caps.CanTriggerFrameStart then
    MdigControlFeature "TriggerSelector" (.str "FrameStart")
    MdigControlFeature "TriggerMode" (.str "On")
    MosPrintf "\n\nFrame start trigger will be performed.\n" []
    let soft ← SelectTriggerSource
    Prog.pure { s with oTriggerSelector := "FrameStart", SoftwareTriggerSelected := soft,
                       TriggerType := .eSingleFrame }
  else
    Prog.pure s

/-- Puts the camera back in non-triggered mode. -/
def ResetTriggerControls : Prog Unit := do
  MappControlError false
  MdigControlFeature "TriggerSelector" (.str "FrameStart")
  MdigControlFeature "TriggerMode" (.str "Off")
  MdigControlFeature "TriggerSelector" (.str "AcquisitionStart")
  MdigControlFeature "TriggerMode" (.str "Off")
  MappControlError true

/-- The allocation loop of `DoTriggeredAcquisition`,
`for (size = 0; size < NbFrames; size++)`, on an array of `len` slots: `todo` is
`NbFrames - size`, `list` holds the slots written so far (slot `size` is written next).
The result is the array and `MilGrabBufferListSize` after the loop. -/
def allocLoop (len : Nat) : Nat → Nat → List MIL_ID → Prog (List MIL_ID × Nat)
| 0, size, list => Prog.pure (list, size)
| todo + 1, size, list => do
    let _ ← MdigInquireInt "M_SIZE_X" 0
    let _ ← MdigInquireInt "M_SIZE_Y" 0
    if size < len then
      let id ← MbufAlloc2d
      if id ≠ 0 then
        emit (.MbufClear id 0xFF)
        allocLoop len todo (size + 1) (list ++ [id])
      else
        Prog.pure (list ++ [id], size)
    else
      fun w => .halt .outOfBounds w

/-- The inner `do ... while(!Done)` loop of the software-trigger branch; the result is
`Done`, which is still `0` when the loop is left by `break`.  Every iteration reads one
key, so `fuel` above the count of pending keys is never used up. -/
def softwareTriggerLoop (TriggerType : eTriggerType) (TriggerSelector : String) :
    Nat → Prog MIL_INT
| 0 => fun w => .halt .hang w
| fuel + 1 => do
    let Ch ← MosGetch
    if Ch = key 'T' ∨ Ch = key 't' then
      MdigControlFeature "TriggerSelector" (.str TriggerSelector)
      MdigExecuteFeature "TriggerSoftware"
      if TriggerType = .eMultiFrame then
        Prog.pure 0
      else
        softwareTriggerLoop TriggerType TriggerSelector fuel
    else
      Prog.pure 1

/-- The middle of an iteration of the outer loop of `DoTriggeredAcquisition`, between
the start and the stop of the processing; the result is `Done`. -/
def waitForStop (s : TriggerSetup) : Prog MIL_INT :=
  if s.SoftwareTriggerSelected then
    fun w => softwareTriggerLoop s.TriggerType s.oTriggerSelector (w.keys.length + 1) w
  else if s.TriggerType ≠ .eMultiFrame then
    MosGetch
  else do
    let hit ← MosKbhit
    Prog.pure (if hit then 1 else 0)

/-- The outer `do ... while(!Done)` loop of `DoTriggeredAcquisition`.  Every iteration
reads a key or polls the keyboard once, so `fuel` above the count of pending keys and
polls is never used up. -/
def processLoop (s : TriggerSetup) (buffers : List MIL_ID) (size : Nat) (StartOp : ProcessOp) :
    Nat → Prog Unit
| 0 => fun w => .halt .hang w
| fuel + 1 => do
    emit (.MdigProcess buffers size StartOp)
    let Done ← waitForStop s
    emit (.MdigProcess buffers size (if Done ≠ 0 then .stop else .stopWait))
    if Done ≠ 0 then Prog.pure () else processLoop s buffers size StartOp fuel

/-- The loop `while (size > 0) MbufFree(list[--size])`. -/
def freeLoop (list : List MIL_ID) : Nat → Prog Unit
| 0 => Prog.pure ()
| size + 1 => do
    match list[size]? with
    | some id =>
      emit (.MbufFree id)
      freeLoop list size
    | none => fun w => .halt .outOfBounds w

/-- The part of `DoTriggeredAcquisition` after `SetTriggerControls` has returned.
`M_INFINITE` is a macro of `mil.h`, taken as a parameter.  The array expression
`new MIL_INT[(NbFrames == M_INFINITE) ? 10 : (size_t)NbFrames]` throws for a negative
length and for one above the limit of the host; the length ten is within every limit. -/
def acquire (M_INFINITE : Int) (s : TriggerSetup) : Prog Unit := do
  let len ← (if s.NbFrames = M_INFINITE then Prog.pure 10 else arrayNew s.NbFrames)
  MappControlError false
  let (MilGrabBufferList, MilGrabBufferListSize) ← allocLoop len s.NbFrames.toNat 0 []
  MappControlError true
  emit (.MdigControl "M_GRAB_TIMEOUT" "M_INFINITE")
  (if s.SoftwareTriggerSelected then
    MosPrintf "\n\nPress <t> to do a software trigger.\n" []
  else
    MosPrintf "\n\nWaiting for a input trigger signal.\n" [])
  MosPrintf "Press any other key to quit.\n\n" []
  let StartOp : ProcessOp :=
    if s.TriggerType = .eMultiFrame then .sequenceCount s.NbFrames else .start
  let buffers := MilGrabBufferList.take MilGrabBufferListSize
  (fun w => processLoop s buffers MilGrabBufferListSize StartOp
    (w.keys.length + w.kbhit.length + 1) w)
  ResetTriggerControls
  freeLoop MilGrabBufferList MilGrabBufferListSize

/-- The values `DoTriggeredAcquisition` gives its variables before the set-up. -/
def initialSetup : TriggerSetup :=
  { TriggerType := .none, NbFrames := 10, oTriggerSelector := "",
    SoftwareTriggerSelected := false }

/-- The function `DoTriggeredAcquisition`: set the camera up, then acquire. -/
def DoTriggeredAcquisition (M_INFINITE : Int) : Prog Unit := do
  let s ← SetTriggerControls initialSetup
  acquire M_INFINITE s

/-! ## The processing hook -/

/-- User's processing function hook data structure. -/
structure HookDataStruct where
  MilDigitizer : MIL_ID
  MilImageDisp : MIL_ID
  ProcessedImageCount : MIL_INT
deriving DecidableEq, Repr

/-- One call made by the processing hook.  The hook runs on the grab thread of the
runtime, so its calls are kept apart from the trace of the main script. -/
inductive HookCall
| MdigGetHookInfo (ModifiedBufferId : MIL_ID)
| MosPrintf (fmt : String) (args : List Arg)
| MosSprintf (size : Nat) (fmt : String) (args : List Arg)
| MgraText (buffer : MIL_ID) (x y : Int) (text : String)
| MbufCopy (src dst : MIL_ID)
deriving DecidableEq, Repr

/-- Length of the text buffer of the hook. -/
def STRING_LENGTH_MAX : Nat := 20

/-- Horizontal position of the text drawn by the hook. -/
def STRING_POS_X : Int := 20

/-- Vertical position of the text drawn by the hook. -/
def STRING_POS_Y : Int := 20

/-- User's processing function, called every time a grab buffer is modified.
`ModifiedBufferId` is the identifier `MdigGetHookInfo` hands back for the hook event and
`d` is the structure behind `HookDataPtr`; the result is the value returned, the
structure after the call, and the calls made.  `MosSprintf` with `%lld` leaves the
decimal text of the count in `Text`; a text that would not fit the buffer is outside the
model. -/
def ProcessingFunction (ModifiedBufferId : MIL_ID) (d : HookDataStruct) :
    MIL_INT × HookDataStruct × List HookCall :=
  let d1 := { d with ProcessedImageCount := d.ProcessedImageCount + 1 }
  let Text := toString d1.ProcessedImageCount
  (0, d1,
    [.MdigGetHookInfo ModifiedBufferId,
     .MosPrintf "Processing frame #%lld.\r" [.d d1.ProcessedImageCount],
     .MosSprintf STRING_LENGTH_MAX "%lld" [.d d1.ProcessedImageCount],
     .MgraText ModifiedBufferId STRING_POS_X STRING_POS_Y Text,
     .MbufCopy ModifiedBufferId d1.MilImageDisp])

/-- The hook data as `DoTriggeredAcquisition` initialises it before the processing. -/
def UserHookData (MilDigitizer MilImageDisp : MIL_ID) : HookDataStruct :=
  { MilDigitizer := MilDigitizer, MilImageDisp := MilImageDisp, ProcessedImageCount := 0 }

/-- The runtime calls the hook once per grabbed frame, always with the same data
pointer: the structure after the frames `frames` (the modified buffer of each hook
event), and the return value and calls of each invocation. -/
def processFrames : List MIL_ID → HookDataStruct →
    HookDataStruct × List (MIL_INT × List HookCall)
| [], d => (d, [])
| b :: bs, d =>
    let r := ProcessingFunction b d
    let rest := processFrames bs r.2.1
    (rest.1, (r.1, r.2.2) :: rest.2)

/-! ## Feature reporters -/

/-- The loop `for (...) body(x)` over the elements of a vector, in index order. -/
def forEach {α : Type} (body : α → Prog Unit) : List α → Prog Unit
| [] => Prog.pure ()
| x :: rest => do
    body x
    forEach body rest

/-- The enumeration idiom of the reporters: query the entry count of `feature` and, if it
is not zero, size the vector with it and query every entry name; the vector stays empty
otherwise.  `afterAssign` runs between the `assign` and the loop and `body` on every name
read. -/
def inquireEnum (feature : String) (afterAssign : MIL_INT → Prog Unit)
    (body : String → Prog Unit) : Prog (MIL_INT × List String) := do
  let Count ← MdigInquireFeatureInt .enumEntryCount feature 0
  if Count ≠ 0 then
    let size ← vectorAssign Count
    afterAssign Count
    let names ← inquireEntryNames feature body size 0
    Prog.pure (Count, names)
  else
    Prog.pure (Count, [])

/-- The first entry of a vector of names, or `N/A` for an empty vector:
`v.size() ? v[0].c_str() : "N/A"`. -/
def firstOrNA (v : List String) : String :=
  match v with
  | [] => "N/A"
  | x :: _ => x

/-- The text of a string feature, or `N/A` when it is empty:
`s.empty() ? "N/A" : s.c_str()`. -/
def orNA (s : String) : String := if s = "" then "N/A" else s

/-- The conversion `(int)v` of a 64-bit value. -/
def toInt32 (v : Int) : Int := (v + 2 ^ 31) % 2 ^ 32 - 2 ^ 31

/-- Byte `i` of the 64-bit value `v` in memory, `((MIL_UINT8*)&v)[i]`, on a little-endian
machine. -/
def byteAt (v : Int) (i : Nat) : Int := v % 2 ^ 64 / 2 ^ (8 * i) % 256

/-- Prints SFNC features: device controls. -/
def CameraPrintDeviceControls : Prog Unit := do
  let CameraVendor ← MdigInquireFeatureString .value "DeviceVendorName" ""
  let CameraModel ← MdigInquireFeatureString .value "DeviceModelName" ""
  let CameraSerialNumber ← MdigInquireFeatureString .value "DeviceID" ""
  let CameraUserName ← MdigInquireFeatureString .value "DeviceUserID" ""
  let CameraScanType ← MdigInquireFeatureString .value "DeviceScanType" ""
  MosPrintf "\n------------------ Camera Device Controls ------------------\n\n" []
  MosPrintf "%30s %s %s\n" [.s "Camera:", .s (orNA CameraVendor), .s (orNA CameraModel)]
  MosPrintf "%30s %s\n" [.s "Serial number:", .s (orNA CameraSerialNumber)]
  MosPrintf "%30s %s\n" [.s "User-defined name:", .s (orNA CameraUserName)]
  MosPrintf "%30s %s\n" [.s "Device scan type:", .s (orNA CameraScanType)]
  let IpAddress ← MdigInquireString "M_GC_LOCAL_IP_ADDRESS_STRING" ""
  let InterfaceName ← MdigInquireString "M_GC_INTERFACE_NAME" ""
  MosPrintf "%30s %s (%s)\n" [.s "Camera is connected to:", .s InterfaceName, .s IpAddress]

/-- Prints SFNC features: image format controls. -/
def CameraPrintImageFormatControls : Prog Unit := do
  let SensorWidth ← MdigInquireFeatureInt .value "SensorWidth" 0
  let SensorHeight ← MdigInquireFeatureInt .value "SensorHeight" 0
  let Width ← MdigInquireFeatureInt .value "Width" 0
  let Height ← MdigInquireFeatureInt .value "Height" 0
  let ReverseX ← MdigInquireFeatureBool .value "ReverseX" false
  let ReverseY ← MdigInquireFeatureBool .value "ReverseY" false
  let WidthMax ← MdigInquireFeatureInt .max "Width" 0
  let HeightMax ← MdigInquireFeatureInt .max "Height" 0
  let WidthMin ← MdigInquireFeatureInt .min "Width" 0
  let HeightMin ← MdigInquireFeatureInt .min "Height" 0
  let (_, PixelFormats) ← inquireEnum "PixelFormat" (fun _ => Prog.pure ())
    (fun _ => Prog.pure ())
  MosPrintf "\n------------------- Image Format Controls ------------------\n\n" []
  MosPrintf "%30s %4lld x %-4lld\n" [.s "Sensor size:",
    .d (if SensorWidth ≠ 0 then SensorWidth else Width),
    .d (if SensorHeight ≠ 0 then SensorHeight else Height)]
  MosPrintf "%30s %4lld x %-4lld\n" [.s "Current ROI:", .d Width, .d Height]
  MosPrintf "%30s %4lld x %-4lld;%4lld x %-4lld\n" [.s "Maximum and Minimum ROI:",
    .d WidthMax, .d HeightMax, .d WidthMin, .d HeightMin]
  MosPrintf "\n%30s %s\n" [.s "Image Reverse X:", .s (if ReverseX then "true" else "false")]
  MosPrintf "%30s %s\n" [.s "Image Reverse Y:", .s (if ReverseY then "true" else "false")]
  MosPrintf "\n%30s %s\n" [.s "Supported pixel formats:", .s (firstOrNA PixelFormats)]
  forEach (fun name => MosPrintf "                               %s\n" [.s name])
    (PixelFormats.drop 1)

/-- The body of the `AcquisitionMode` loop of `CameraPrintAcquisitionControls`. -/
def noteAcquisitionMode (name : String) : Prog Unit :=
  if "Continuous" = name then
    modifyCaps fun c => { c with ContinuousAMSupport := true }
  else if "SingleFrame" = name then
    modifyCaps fun c => { c with SingleFrameAMSupport := true }
  else if "MultiFrame" = name then
    modifyCaps fun c => { c with MultiFrameAMSupport := true }
  else Prog.pure ()

/-- The body of the `TriggerSelector` loop of `CameraPrintAcquisitionControls`. -/
def noteTriggerSelector (name : String) : Prog Unit :=
  if "AcquisitionStart" = name then
    modifyCaps fun c => { c with CanTriggerAcquisitionStart := true }
  else if "FrameStart" = name then
    modifyCaps fun c => { c with CanTriggerFrameStart := true }
  else Prog.pure ()

/-- Prints SFNC features: acquisition controls; records the capabilities. -/
def CameraPrintAcquisitionControls : Prog Unit := do
  let (_, AcquisitionModes) ← inquireEnum "AcquisitionMode"
    (fun AcMdCount =>
      if AcMdCount > 1 then modifyCaps fun c => { c with MultipleAcquisitionModeSupport := 1 }
      else Prog.pure ())
    noteAcquisitionMode
  let (_, TriggerSelectors) ← inquireEnum "TriggerSelector" (fun _ => Prog.pure ())
    noteTriggerSelector
  let (_, ExposureModes) ← inquireEnum "ExposureMode" (fun _ => Prog.pure ())
    (fun _ => Prog.pure ())
  let ExposureTime ← MdigInquireFeatureDouble .value "ExposureTime" 0
  MosPrintf "\n------------------- Acquisition Controls -------------------\n\n" []
  MosPrintf "%30s %s\n" [.s "Supported acquisition modes:", .s (firstOrNA AcquisitionModes)]
  forEach (fun name => MosPrintf "%30s %s\n" [.s "", .s name]) (AcquisitionModes.drop 1)
  MosPrintf "\n%30s %s\n" [.s "Supported trigger selectors:", .s (firstOrNA TriggerSelectors)]
  forEach (fun name => MosPrintf "%30s %s\n" [.s "", .s name]) (TriggerSelectors.drop 1)
  MosPrintf "\n%30s %s\n" [.s "Supported exposure modes:", .s (firstOrNA ExposureModes)]
  forEach (fun name => MosPrintf "%30s %s\n" [.s "", .s name]) (ExposureModes.drop 1)
  (if ExposureTime = 0 then
    MosPrintf "\n%30s %s\n" [.s "Exposure time:", .s "N/A"]
  else
    MosPrintf "\n%30s %.1f us\n" [.s "Exposure time:", .f ExposureTime])

/-- The loop of the reporters that selects every entry of a selector feature in turn and
reads the string features `queried` under it; the result has one row of answers per
entry. -/
def inquireSelected (selector : String) (queried : List String) :
    List String → Prog (List (List String))
| [] => Prog.pure []
| entry :: rest => do
    MdigControlFeature selector (.str entry)
    let row ← (queried.foldr
      (fun name (acc : Prog (List String)) => do
        let v ← MdigInquireFeatureString .value name ""
        let vs ← acc
        Prog.pure (v :: vs))
      (Prog.pure []))
    let rows ← inquireSelected selector queried rest
    Prog.pure (row :: rows)

/-- Prints SFNC features: digital I/O controls. -/
def CameraPrintIOControls : Prog Unit := do
  let (LineCnt, Lines) ← inquireEnum "LineSelector" (fun _ => Prog.pure ())
    (fun _ => Prog.pure ())
  let rows ← inquireSelected "LineSelector" ["LineMode", "LineFormat"] Lines
  MosPrintf "\n------------------- Digital I/O Controls -------------------\n\n" []
  MosPrintf "%7s%-18s%-18s%-18s%7s\n\n" [.s "", .s "Name", .s "Mode", .s "Format", .s ""]
  (if LineCnt = 0 then
    MosPrintf "%7s%-18s%-18s%-18s%7s\n" [.s "", .s "N/A", .s "N/A", .s "N/A", .s ""]
  else
    forEach (fun (line : String × List String) =>
        MosPrintf "%7s%-18s%-18s%-18s%7s\n"
          [.s "", .s line.1, .s (line.2.getD 0 ""), .s (line.2.getD 1 ""), .s ""])
      (Lines.zip rows))

/-- Prints SFNC features: transport layer controls. -/
def CameraPrintTransportLayerControls : Prog Unit := do
  let GigEMajorVersion ← MdigInquireFeatureInt .value "GevVersionMajor" 0
  let GigEMinorVersion ← MdigInquireFeatureInt .value "GevVersionMinor" 0
  let StreamChannelPacketSize ← MdigInquireFeatureInt .value "GevSCPSPacketSize" 0
  let MAC ← MdigInquireFeatureInt .value "GevMACAddress" (-1)
  let CurrentIp ← MdigInquireFeatureInt .value "GevCurrentIPAddress" (-1)
  MosPrintf "\n-------------- Camera Transport Layer Controls -------------\n\n" []
  (if GigEMajorVersion = 0 then
    MosPrintf "%30s N/A\n" [.s "GigE Vision Version:"]
  else
    MosPrintf "%30s %d.%d\n" [.s "GigE Vision Version:", .d (toInt32 GigEMajorVersion),
      .d (toInt32 GigEMinorVersion)])
  (if MAC = -1 then
    MosPrintf "%30s N/A\n" [.s "MAC Address:"]
  else
    MosPrintf "%30s %.2X-%.2X-%.2X-%.2X-%.2X-%.2X\n" [.s "MAC Address:", .d (byteAt MAC 5),
      .d (byteAt MAC 4), .d (byteAt MAC 3), .d (byteAt MAC 2), .d (byteAt MAC 1),
      .d (byteAt MAC 0)])
  (if CurrentIp = -1 then
    MosPrintf "%30s N/A\n" [.s "Current IP Address:"]
  else
    MosPrintf "%30s %d.%d.%d.%d\n" [.s "Current IP Address:", .d (byteAt CurrentIp 3),
      .d (byteAt CurrentIp 2), .d (byteAt CurrentIp 1), .d (byteAt CurrentIp 0)])
  MosPrintf "%30s %lld\n" [.s "Packet size:", .d StreamChannelPacketSize]

/-- Prints SFNC features: counter and timer controls. -/
def CameraPrintCounterAndTimerControls : Prog Unit := do
  let (_, Counters) ← inquireEnum "CounterSelector" (fun _ => Prog.pure ())
    (fun _ => Prog.pure ())
  let (_, Timers) ← inquireEnum "TimerSelector" (fun _ => Prog.pure ())
    (fun _ => Prog.pure ())
  let CountersStatus ← inquireSelected "CounterSelector" ["CounterStatus"] Counters
  let TimersStatus ← inquireSelected "TimerSelector" ["TimerStatus"] Timers
  MosPrintf "\n---------------- Counter and Timer Controls ----------------\n\n" []
  MosPrintf "%20s%-15s%-15s%20s\n\n" [.s "", .s "Name", .s "Status", .s ""]
  (if Counters.length = 0 then
    MosPrintf "%20s%-15s%-15s%20s\n" [.s "", .s "N/A", .s "N/A", .s ""]
  else
    forEach (fun (c : String × List String) =>
        MosPrintf "%20s%-15s%-15s%20s\n" [.s "", .s c.1, .s (c.2.getD 0 ""), .s ""])
      (Counters.zip CountersStatus))
  (if Timers.length = 0 then
    MosPrintf "%20s%-15s%-15s%20s\n" [.s "", .s "N/A", .s "N/A", .s ""]
  else
    forEach (fun (t : String × List String) =>
        MosPrintf "%20s%-15s%-15s%20s\n" [.s "", .s t.1, .s (t.2.getD 0 ""), .s ""])
      (Timers.zip TimersStatus))

/-- Prints SFNC features: event controls. -/
def CameraPrintEventControls : Prog Unit := do
  let (_, Events) ← inquireEnum "EventSelector" (fun _ => Prog.pure ())
    (fun _ => Prog.pure ())
  MosPrintf "\n---------------------- Event Controls ----------------------\n\n" []
  MosPrintf "%30s " [.s "Supported events:"]
  (if Events.length = 0 then
    MosPrintf "N/A\n" []
  else do
    MosPrintf "%s\n" [.s (Events.getD 0 "")]
    forEach (fun name => MosPrintf "                               %s\n" [.s name])
      (Events.drop 1))

/-! ## Capability printers and the main function -/

/-- The tests `if (Capability & M_GC_..._SUPPORT) MosPrintf(text);` of a capability
printer, in source order.  The mask macros come from `mil.h`; `mask` gives the value of
each by name. -/
def printFlags (mask : String → Int) (Capability : MIL_INT) :
    List (String × String) → Prog Unit
| [] => Prog.pure ()
| (name, text) :: rest => do
    (if Int.land Capability (mask name) ≠ 0 then MosPrintf text [] else Prog.pure ())
    printFlags mask Capability rest

/-- The common shape of the capability printers: inquire the capability word `what`,
print the title, then `None` for a zero word or else one line per flag that is set. -/
def printCapabilities (mask : String → Int) (what title : String)
    (flags : List (String × String)) : Prog Unit := do
  let Capability ← MdigInquireInt what 0
  MosPrintf title []
  if Capability = 0 then MosPrintf "None\n" [] else printFlags mask Capability flags

/-- Prints the control protocol capabilities. -/
def CameraPrintControlProtocolCapabilities (mask : String → Int) : Prog Unit :=
  printCapabilities mask "M_GC_CONTROL_PROTOCOL_CAPABILITY" "Control Protocol Capabilities\n\n"
    [("M_GC_USER_DEFINED_NAME_SUPPORT", "User defined name\n"),
     ("M_GC_SERIAL_NUMBER_SUPPORT", "Serial number\n"),
     ("M_GC_HEARTBEAT_DISABLE_SUPPORT", "Heartbeat disable\n"),
     ("M_GC_LINK_SPEED_REGISTER_SUPPORT", "Link speed register\n"),
     ("M_GC_PORT_AND_IP_REGISTER_SUPPORT", "Port and IP register\n"),
     ("M_GC_MANIFEST_TABLE_SUPPORT", "Manifest table\n"),
     ("M_GC_TEST_DATA_SUPPORT", "Test data\n"),
     ("M_GC_DISCOVERY_ACK_DELAY_SUPPORT", "Discovery ack delay\n"),
     ("M_GC_WRITABLE_DISCOVERY_ACK_DELAY_SUPPORT", "Writable discovery ack_delay\n"),
     ("M_GC_EXTENDED_STATUS_CODES_1_SUPPORT", "Extended status codes 1.1\n"),
     ("M_GC_PRIMARY_APP_SWITCHOVER_SUPPORT", "Primary app switchover\n"),
     ("M_GC_UNCONDITIONAL_ACTION_SUPPORT", "Unconditional action\n"),
     ("M_GC_IEEE_1588_SUPPORT", "IEEE 1588\n"),
     ("M_GC_EXTENDED_STATUS_CODES_2_SUPPORT", "Extended status codes 2.0\n"),
     ("M_GC_SCHEDULED_ACTION_SUPPORT", "Scheduled action\n"),
     ("M_GC_ACTION_SUPPORT", "Action\n"),
     ("M_GC_PENDING_ACK_SUPPORT", "Pending ack\n"),
     ("M_GC_EVENT_DATA_SUPPORT", "Event data\n"),
     ("M_GC_EVENT_SUPPORT", "Event\n"),
     ("M_GC_PACKET_RESEND_SUPPORT", "Packet resend\n"),
     ("M_GC_WRITE_MEM_SUPPORT", "Write mem\n"),
     ("M_GC_CONCATENATION_SUPPORT", "Concatenation\n")]

/-- Prints the stream protocol capabilities. -/
def CameraPrintStreamProtocolCapabilities (mask : String → Int) : Prog Unit :=
  printCapabilities mask "M_GC_STREAM_PROTOCOL_CAPABILITY" "Stream Protocol Capabilities\n\n"
    [("M_GC_FIREWALL_TRAVERSAL_SUPPORT", "Firewall traversal\n"),
     ("M_GC_LEGACY_16BIT_BLOCK_SUPPORT", "Legacy 16bit block\n")]

/-- Prints the message protocol capabilities. -/
def CameraPrintMessageProtocolCapabilities (mask : String → Int) : Prog Unit :=
  printCapabilities mask "M_GC_MESSAGE_PROTOCOL_CAPABILITY" "Message Protocol Capabilities\n\n"
    [("M_GC_FIREWALL_TRAVERSAL_SUPPORT", "Firewall traversal\n")]

/-- Prints the stream channel capabilities. -/
def CameraPrintStreamChannelCapabilities (mask : String → Int) : Prog Unit :=
  printCapabilities mask "M_GC_STREAM_CHANNEL_CAPABILITY" "Stream Channel Capabilities\n\n"
    [("M_GC_BIG_AND_LITTLE_ENDIAN_SUPPORT", "Big and little_endian\n"),
     ("M_GC_IP_REASSEMBLY_SUPPORT", "IP reassembly\n"),
     ("M_GC_MULTI_ZONE_SUPPORT", "Multi zone\n"),
     ("M_GC_PACKET_RESEND_OPTION_SUPPORT", "Packet resend option\n"),
     ("M_GC_ALL_IN_SUPPORT", "All in\n"),
     ("M_GC_UNCONDITIONAL_STREAMING_SUPPORT", "Unconditional streaming\n"),
     ("M_GC_EXTENDED_CHUNK_DATA_SUPPORT", "Extended chunk data\n")]

/-- Prints the physical link configuration capabilities. -/
def CameraPrintPhysicalLinkConfigurationCapabilities (mask : String → Int) : Prog Unit :=
  printCapabilities mask "M_GC_PHYSICAL_LINK_CONFIGURATION_CAPABILITY"
    "Physical Link Configuration Capabilities\n\n"
    [("M_GC_SINGLE_LINK_SUPPORT", "Single link\n"),
     ("M_GC_MULTIPLE_LINK_SUPPORT", "Multiple link\n"),
     ("M_GC_STATIC_LINK_AGGREGATION_SUPPORT", "Static link aggregation\n"),
     ("M_GC_DYNAMIC_LINK_AGGREGATION_SUPPORT", "Dynamic link aggregation\n")]

/-- Prints the network interface capabilities. -/
def CameraPrintNetworkInterfaceCapabilities (mask : String → Int) : Prog Unit :=
  printCapabilities mask "M_GC_NETWORK_INTERFACE_CAPABILITY"
    "Network Interface Capabilities\n\n"
    [("M_GC_PAUSE_RECEPTION_SUPPORT", "Pause reception\n"),
     ("M_GC_PAUSE_GENERATION_SUPPORT", "Pause generation\n"),
     ("M_GC_LINK_LOCAL_ADDRESS_SUPPORT", "Link local address\n"),
     ("M_GC_DHCP_SUPPORT", "DHCP\n"),
     ("M_GC_PERSISTENT_IP_SUPPORT", "Persistent IP\n")]

/-- Prints the network interface configuration. -/
def CameraPrintNetworkInterfaceConfiguration (mask : String → Int) : Prog Unit :=
  printCapabilities mask "M_GC_NETWORK_INTERFACE_CONFIGURATION"
    "Network Interface Configuration\n\n"
    [("M_GC_PAUSE_RECEPTION_SUPPORT", "Pause reception Enabled\n"),
     ("M_GC_PAUSE_GENERATION_SUPPORT", "Pause generation Enabled\n"),
     ("M_GC_LINK_LOCAL_ADDRESS_SUPPORT", "Link local address Enabled\n"),
     ("M_GC_DHCP_SUPPORT", "DHCP Enabled\n"),
     ("M_GC_PERSISTENT_IP_SUPPORT", "Persistent IP Enabled\n")]

/-- The heading printed above every capability page. -/
def capabilitiesHeading : Prog Unit := do
  MosPrintf "------------------------------------------------------------\n\n" []
  MosPrintf "                      Camera capabilities.                  \n\n" []

/-- The prompt and key read between two capability pages. -/
def pressEnterToContinue : Prog Unit := do
  MosPrintf "\nPress <Enter> to continue\n" []
  let _ ← MosGetch
  Prog.pure ()

/-- Prints the seven capability pages, waiting for a key after each of the first six.
Clearing the console (`system("cls")` on Windows) is not part of the model. -/
def CameraPrintDeviceCapabilities (mask : String → Int) : Prog Unit := do
  capabilitiesHeading
  CameraPrintControlProtocolCapabilities mask
  pressEnterToContinue
  capabilitiesHeading
  CameraPrintStreamProtocolCapabilities mask
  pressEnterToContinue
  capabilitiesHeading
  CameraPrintMessageProtocolCapabilities mask
  pressEnterToContinue
  capabilitiesHeading
  CameraPrintStreamChannelCapabilities mask
  pressEnterToContinue
  capabilitiesHeading
  CameraPrintPhysicalLinkConfigurationCapabilities mask
  pressEnterToContinue
  capabilitiesHeading
  CameraPrintNetworkInterfaceCapabilities mask
  pressEnterToContinue
  capabilitiesHeading
  CameraPrintNetworkInterfaceConfiguration mask

/-- The call `MsysInquire(MilSystem, M_SYSTEM_TYPE, &SystemType)`. -/
def MsysInquire : Prog MIL_INT := fun w =>
  .ret w.dev.systemType { w with trace := w.trace ++ [.call "MsysInquire"] }

/-- The branch of `MosMain` taken for an unsupported system type. -/
def quitUnsupported : Prog Int := do
  MosPrintf "This example program can only be used with the Matrox Driver for GigE Vision or the\nMatrox GevIQ Smart GigE Vision Adapter.\n" []
  MosPrintf "Please ensure that the default system type is set accordingly in MIL Config.\n" []
  MosPrintf "-------------------------------------------------------------\n\n" []
  MosPrintf "Press <enter> to quit.\n" []
  let _ ← MosGetch
  emit (.call "MappFreeDefault")
  Prog.pure 1

/-- The part of `MosMain` from the allocation of the digitizer to the end of the
continuous grab.  The handles of the digitizer and of the display image are not tracked:
their allocation, the clearing of the image and the grab are recorded by name only.
`PRINT_LOOKUP_TABLE` is `0`, so `CameraPrintLUT` is not called. -/
def showFeatures (mask : String → Int) : Prog Unit := do
  emit (.call "MdigAlloc")
  emit (.call "MbufAllocColor")
  emit (.call "MbufClear")
  MosPrintf "This example showcases GigE Vision specific features.\n" []
  MosPrintf "Press <Enter> to start.\n\n" []
  let _ ← MosGetch
  MosPrintf "------------------------------------------------------------\n\n" []
  MosPrintf "                  Camera features summary.                  \n" []
  MappControlError false
  CameraPrintDeviceControls
  CameraPrintTransportLayerControls
  CameraPrintImageFormatControls
  CameraPrintAcquisitionControls
  CameraPrintEventControls
  CameraPrintIOControls
  CameraPrintCounterAndTimerControls
  MappControlError true
  MosPrintf "\nPress <Enter> to continue.\n" []
  let _ ← MosGetch
  CameraPrintDeviceCapabilities mask
  MosPrintf "\nPress <Enter> to continue.\n" []
  let _ ← MosGetch
  emit (.MdigControl "M_GC_FEATURE_BROWSER" "M_OPEN+M_ASYNCHRONOUS")
  MosPrintf "\nDisplaying the camera's feature browser.\n" []
  MosPrintf "Press <Enter> to continue.\n" []
  let _ ← MosGetch
  emit (.call "MdispSelect")
  emit (.call "MdigGrabContinuous")
  MosPrintf "\nContinuous image grab in progress.\n" []
  MosPrintf "Press <Enter> to stop.\n" []
  let _ ← MosGetch
  emit (.call "MdigHalt")

/-- The end of `MosMain`: offer the triggered acquisition if the camera can trigger,
otherwise wait for a key. -/
def offerTriggeredAcquisition (M_INFINITE : Int) : Prog Unit := do
  let caps ← getCaps
  if caps.CanTriggerAcquisitionStart ∨ caps.CanTriggerFrameStart then
    MosPrintf "\nYour camera supports acquisition triggers.\n" []
    MosPrintf "Do you want to test triggered acquisition (Y/N)? " []
    let Selection ← MosGetch
    MosPrintf "\n" []
    if Selection = key 'Y' ∨ Selection = key 'y' then
      DoTriggeredAcquisition M_INFINITE
    else
      Prog.pure ()
  else
    MosPrintf "\nPress <Enter> to quit.\n" []
    let _ ← MosGetch
    Prog.pure ()

/-- Main function.  The two supported system types and `M_INFINITE` are macros of
`mil.h`, taken as parameters; the result is the value `MosMain` returns. -/
def MosMain (M_SYSTEM_GIGE_VISION_TYPE M_SYSTEM_GEVIQ_TYPE M_INFINITE : Int)
    (mask : String → Int) : Prog Int := do
  emit (.call "MappAllocDefault")
  let SystemType ← MsysInquire
  if SystemType ≠ M_SYSTEM_GIGE_VISION_TYPE ∧ SystemType ≠ M_SYSTEM_GEVIQ_TYPE then
    quitUnsupported
  else
    showFeatures mask
    offerTriggeredAcquisition M_INFINITE
    emit (.call "MappFreeDefault")
    Prog.pure 0

/-- The device has no feature called `name`: every query for it fails. -/
def Device.lacks (d : Device) (name : String) : Prop :=
  ∀ (h : List Event) (kind : FeatureKind),
    d.featureString h kind name = none ∧ d.featureInt h kind name = none ∧
    d.featureBool h kind name = none ∧ d.featureDouble h kind name = none

/-- The reporter `R` prints `line` on every device that has no feature `feature`. -/
def printsWhenAbsent (R : Prog Unit) (feature : String) (line : Event) (w : World) : Prop :=
  w.dev.lacks feature → line ∈ newEvents w (R w)

/-- Every entry count the device reports for an enumeration can be allocated on the
host: it is not negative and not above the limit. -/
def Device.countsFit (d : Device) : Prop :=
  ∀ (h : List Event) (name : String) (c : Int),
    d.featureInt h .enumEntryCount name = some c → 0 ≤ c ∧ c ≤ (d.limit : Int)

/-! ## Sample worlds -/

/-- A device that answers no query at all, on a host with room for a thousand
elements. -/
def bareDevice : Device :=
  { systemType := 0,
    featureString := fun _ _ _ => none, featureInt := fun _ _ _ => none,
    featureBool := fun _ _ _ => none, featureDouble := fun _ _ _ => none,
    inquireInt := fun _ _ => none, inquireString := fun _ _ => none, memory := 1000 }

/-- A camera with two trigger sources, `Line1` and `Software`, and no other feature. -/
def twoSourceCamera : Device :=
  { bareDevice with
    featureInt := fun _ kind name =>
      if kind = .enumEntryCount ∧ name = "TriggerSource" then some 2 else none,
    featureString := fun _ kind name =>
      if name = "TriggerSource" then
        (if kind = .enumEntryName 0 then some "Line1"
         else if kind = .enumEntryName 1 then some "Software" else none)
      else none }

/-- A world with the device that answers nothing, no input and an empty trace. -/
def bareWorld : World :=
  { dev := bareDevice, keys := [], nums := [], kbhit := [], allocs := [],
    caps := Capabilities.initial, trace := [] }

/-- A world with the given device, capabilities and console input, an empty trace and
allocations `1, 2, 3, ...` that never fail within the first twelve. -/
def sampleWorld (dev : Device) (caps : Capabilities) (keys : List MIL_INT) (nums : List Int) :
    World :=
  { dev := dev, keys := keys, nums := nums, kbhit := [], caps := caps, trace := [],
    allocs := [1, 2, 3, 4, 5, 6, 7, 8, 9, 10, 11, 12] }

/-- A camera that can trigger both events and offers continuous and single-frame
acquisition, with several acquisition modes. -/
def menuCaps : Capabilities :=
  { ContinuousAMSupport := true, SingleFrameAMSupport := true,
    MultiFrameAMSupport := false, MultipleAcquisitionModeSupport := 1,
    CanTriggerAcquisitionStart := true, CanTriggerFrameStart := true }

/-- A camera that can only trigger frame starts. -/
def frameStartCaps : Capabilities :=
  { Capabilities.initial with CanTriggerFrameStart := true }

/-- The first call of every display of the menu: the question. -/
def menuHeader : Event := .MosPrintf "\n\n%-35s" [.s "Do you want to trigger a:"]

/-- The menu line that offers continuous acquisition. -/
def optionC : Event := .MosPrintf "(C) %-30s\n%35s" [.s "Continuous acquisition", .s ""]

/-- The menu line that offers multi-frame acquisition. -/
def optionM : Event := .MosPrintf "(M) %-30s\n%35s" [.s "MultiFrame acquisition", .s ""]

/-- The menu line that offers single-frame acquisition. -/
def optionS : Event := .MosPrintf "(S) %-30s\n%35s" [.s "SingleFrame acquisition", .s ""]

/-- The option lines of the menu for the given support flags, in the order printed. -/
def menuOptions (caps : Capabilities) : List Event :=
  (if caps.ContinuousAMSupport then [optionC] else []) ++
  (if caps.MultiFrameAMSupport then [optionM] else []) ++
  (if caps.SingleFrameAMSupport then [optionS] else [])

/-- The keys the menu of `SetTriggerControls` accepts. -/
def menuKeys : List MIL_INT := [key 'c', key 'C', key 'm', key 'M', key 's', key 'S']

/-- The first calls of the fallback branch of `SetTriggerControls`. -/
def frameStartWrites : List Event :=
  [.MdigControlFeature "TriggerSelector" (.str "FrameStart"),
   .MdigControlFeature "TriggerMode" (.str "On"),
   .MosPrintf "\n\nFrame start trigger will be performed.\n" []]

/-- The calls of `ResetTriggerControls`. -/
def resetEvents : List Event :=
  [.MappControlError false,
   .MdigControlFeature "TriggerSelector" (.str "FrameStart"),
   .MdigControlFeature "TriggerMode" (.str "Off"),
   .MdigControlFeature "TriggerSelector" (.str "AcquisitionStart"),
   .MdigControlFeature "TriggerMode" (.str "Off"),
   .MappControlError true]

/-- The buffers that `MbufAlloc2d` allocated successfully, in the order of the calls. -/
def allocated (evs : List Event) : List MIL_ID :=
  evs.filterMap fun e =>
    match e with
    | .MbufAlloc2d id => if id ≠ 0 then some id else none
    | _ => none

/-- The buffers passed to `MbufFree`, in the order of the calls. -/
def freed (evs : List Event) : List MIL_ID :=
  evs.filterMap fun e =>
    match e with
    | .MbufFree id => some id
    | _ => none

/-- The commands issued with `M_FEATURE_EXECUTE`, in the order of the calls. -/
def executed (evs : List Event) : List String :=
  evs.filterMap fun e =>
    match e with
    | .MdigExecuteFeature name => some name
    | _ => none

/-- The trigger part of a camera, after the device model of the trigger claims:
`TriggerMode` is stored per `TriggerSelector` value. -/
structure TriggerState where
  selector : String
  mode : String → String

/-- The effect of one call on the trigger part: a `TriggerSelector` write selects, a
`TriggerMode` write applies to the selected selector, any other call changes nothing. -/
def TriggerState.write (st : TriggerState) : Event → TriggerState
| .MdigControlFeature name (.str v) =>
    if name = "TriggerSelector" then { st with selector := v }
    else if name = "TriggerMode" then
      { st with mode := fun sel => if sel = st.selector then v else st.mode sel }
    else st
| _ => st

/-- The effect of a sequence of calls on the trigger part. -/
def TriggerState.run (st : TriggerState) (evs : List Event) : TriggerState :=
  evs.foldl TriggerState.write st

/-- The calls of the software-trigger branch for the keys `Ts`, all of them `T` or `t`:
each key is read and answered by a selector write and a `TriggerSoftware` command, and
in multi-frame mode the processing is then stopped with `M_STOP + M_WAIT` and started
again. -/
def triggerEvents (s : TriggerSetup) (buffers : List MIL_ID) (size : Nat) (StartOp : ProcessOp) :
    List MIL_INT → List Event
| [] => []
| k :: Ts =>
    [.MosGetch k, .MdigControlFeature "TriggerSelector" (.str s.oTriggerSelector),
      .MdigExecuteFeature "TriggerSoftware"] ++
    (if s.TriggerType = .eMultiFrame then
      [.MdigProcess buffers size .stopWait, .MdigProcess buffers size StartOp] else []) ++
    triggerEvents s buffers size StartOp Ts

/-- A GigE Vision camera (system type `1`) that can trigger the acquisition start and
offers continuous and multi-frame acquisition, with no other feature. -/
def multiFrameCamera : Device :=
  { bareDevice with
    systemType := 1,
    featureInt := fun _ kind name =>
      if kind = .enumEntryCount ∧ name = "AcquisitionMode" then some 2
      else if kind = .enumEntryCount ∧ name = "TriggerSelector" then some 1
      else none,
    featureString := fun _ kind name =>
      if name = "AcquisitionMode" then
        (if kind = .enumEntryName 0 then some "Continuous"
         else if kind = .enumEntryName 1 then some "MultiFrame" else none)
      else if name = "TriggerSelector" then
        (if kind = .enumEntryName 0 then some "AcquisitionStart" else none)
      else none }

/-- The user presses Enter twelve times on a system of type `1` whose camera answers
nothing. -/
def twelveEnters : World :=
  sampleWorld { bareDevice with systemType := 1 } Capabilities.initial
    [13, 13, 13, 13, 13, 13, 13, 13, 13, 13, 13, 13] []

/-- A coarse classification of the runtime calls. -/
inductive Kind
| console
| inquireFeature
| controlFeature
| executeFeature
| inquire
| errorPrint
| process
| buffer
| other
deriving DecidableEq, Repr

/-- The class of a call. -/
def Event.kind : Event → Kind
| .MosPrintf _ _ => .console
| .MosGetch _ => .console
| .MosKbhit _ => .console
| .scanf _ _ => .console
| .MappControlError _ => .errorPrint
| .MdigInquireFeature _ _ => .inquireFeature
| .MdigControlFeature _ _ => .controlFeature
| .MdigExecuteFeature _ => .executeFeature
| .MdigInquire _ => .inquire
| .MdigControl _ _ => .other
| .MdigProcess _ _ _ => .process
| .MbufAlloc2d _ => .buffer
| .MbufClear _ _ => .buffer
| .MbufFree _ => .buffer
| .call _ => .other

/-- The classes of the calls made while the trigger is set up. -/
def setupKinds : List Kind := [.console, .inquireFeature, .controlFeature]

/-- The classes of the calls made by the processing loop. -/
def loopKinds : List Kind := [.process, .console, .controlFeature, .executeFeature]

/-- Every class of call. -/
def allKinds : List Kind :=
  [.console, .inquireFeature, .controlFeature, .executeFeature, .inquire, .errorPrint,
    .process, .buffer, .other]

/-- The classes of the calls made by the feature reporters. -/
def reportKinds : List Kind := [.console, .inquireFeature, .controlFeature, .inquire]

/-- The run `m` always returns, keeps the device, and only adds calls of the classes of
the feature reporters to the trace. -/
def Steady {α : Type} (m : Prog α) : Prop :=
  ∀ w, ∃ a w2 evs, m w = .ret a w2 ∧ w2.dev = w.dev ∧ w2.trace = w.trace ++ evs ∧
    ∀ e ∈ evs, e.kind ∈ reportKinds

/-- The run `m` only appends to the trace, and only calls of the classes `ks`. -/
def Emits {α : Type} (ks : List Kind) (m : Prog α) : Prop :=
  ∀ w, ∃ evs, (m w).world.trace = w.trace ++ evs ∧ ∀ e ∈ evs, e.kind ∈ ks

/-- The names a device gives for the entries `i, i + 1, ..., i + todo - 1` of the
enumeration `feature` when they are queried in index order after the calls `h`; a query
that fails leaves the empty string the vector was filled with. -/
def entryNamesFrom (d : Device) (feature : String) : Nat → Nat → List Event → List String
| 0, _, _ => []
| todo + 1, i, h =>
    (d.featureString h (.enumEntryName i) feature).getD "" ::
      entryNamesFrom d feature todo (i + 1) (h ++ [.MdigInquireFeature (.enumEntryName i) feature])

/-- The entry name queries for the indices `i, i + 1, ..., i + todo - 1` of `feature`. -/
def entryQueries (feature : String) : Nat → Nat → List Event
| 0, _ => []
| todo + 1, i =>
    .MdigInquireFeature (.enumEntryName i) feature :: entryQueries feature todo (i + 1)

/-- The prompt `SelectTriggerSource` starts with. -/
def sourcePrompt : Event := .MosPrintf "%-35s" [.s "Please select the trigger source:"]

/-- The entry count of `TriggerSource` as `SelectTriggerSource` reads it in the world
`w`: the answer to the count query after the prompt, `0` when the query fails. -/
def sourceCount (w : World) : Int :=
  (w.dev.featureInt (w.trace ++ [sourcePrompt]) .enumEntryCount "TriggerSource").getD 0

/-- The trigger source names `SelectTriggerSource` reads in the world `w`, in index
order. -/
def sourceNames (w : World) : List String :=
  entryNamesFrom w.dev "TriggerSource" (sourceCount w).toNat 0
    (w.trace ++ [sourcePrompt, .MdigInquireFeature .enumEntryCount "TriggerSource"])

/-- The selection `SelectTriggerSource` accepts in the world `w`: the first pending
number that is an index into the enumerated sources. -/
def acceptedSelection (w : World) : Option Int :=
  w.nums.find? (fun n => 0 ≤ n ∧ n < sourceCount w)

/-- The calls of the hardware-trigger branch for the keys `zs` that do not end the loop:
the processing is started, the key is read, and the processing is stopped with
`M_STOP + M_WAIT`, once per key. -/
def restartEvents (buffers : List MIL_ID) (size : Nat) (StartOp : ProcessOp) :
    List MIL_INT → List Event
| [] => []
| z :: zs =>
    [.MdigProcess buffers size StartOp, .MosGetch z, .MdigProcess buffers size .stopWait] ++
    restartEvents buffers size StartOp zs

/-- Whether a processing operation starts the processing. -/
def ProcessOp.isStart : ProcessOp → Bool
| .start => true
| .sequenceCount _ => true
| .stop => false
| .stopWait => false

/-- The operations of the processing starts among the calls `evs`, in order. -/
def processStarts (evs : List Event) : List ProcessOp :=
  evs.filterMap fun e =>
    match e with
    | .MdigProcess _ _ op => if op.isStart then some op else none
    | _ => none

/-- The keys read among the calls `evs`, in order. -/
def keysRead (evs : List Event) : List MIL_INT :=
  evs.filterMap fun e =>
    match e with
    | .MosGetch k => some k
    | _ => none

/-- The calls of the software-trigger branch in multi-frame mode for the keys `Ts`, all
of them `T` or `t`: each key is read and answered by a selector write and a
`TriggerSoftware` command, then the processing is stopped with `M_STOP + M_WAIT` and
started again with `M_SEQUENCE + M_COUNT(NbFrames)`. -/
def burstEvents (TriggerSelector : String) (buffers : List MIL_ID) (size : Nat)
    (NbFrames : Int) : List MIL_INT → List Event
| [] => []
| k :: Ts =>
    [.MosGetch k, .MdigControlFeature "TriggerSelector" (.str TriggerSelector),
      .MdigExecuteFeature "TriggerSoftware", .MdigProcess buffers size .stopWait,
      .MdigProcess buffers size (.sequenceCount NbFrames)] ++
    burstEvents TriggerSelector buffers size NbFrames Ts

/-- The call `e`, if it starts the processing, starts it with the operation `op0`. -/
def startsWith (op0 : ProcessOp) (e : Event) : Prop :=
  match e with
  | .MdigProcess _ _ op => op.isStart = true → op = op0
  | _ => True

/-- The run `m` only appends to the trace, and only calls that satisfy `P`; this holds
for the runs that return and for those that do not. -/
def Only {α : Type} (P : Event → Prop) (m : Prog α) : Prop :=
  ∀ w, ∃ evs, (m w).world.trace = w.trace ++ evs ∧ ∀ e ∈ evs, P e

/-- Whether error printing is enabled after the calls `evs`, when it was `enabled` before:
the state is set by every `MappControl(M_DEFAULT, M_ERROR, ...)` call. -/
def errorPrinting (enabled : Bool) : List Event → Bool
| [] => enabled
| .MappControlError b :: rest => errorPrinting b rest
| _ :: rest => errorPrinting enabled rest

/-- Whether the call is a feature query or a feature write. -/
def Event.isFeatureAccess (e : Event) : Bool :=
  match e with
  | .MdigInquireFeature _ _ => true
  | .MdigControlFeature _ _ => true
  | _ => false

/-- Every feature query and feature write among the calls `evs` is made while error
printing is disabled, when the state before the calls was `enabled`. -/
def guarded (enabled : Bool) : List Event → Bool
| [] => true
| .MappControlError b :: rest => guarded b rest
| e :: rest => (!e.isFeatureAccess || !enabled) && guarded enabled rest

/-- The feature writes among the calls `evs`, in order. -/
def featureWrites (evs : List Event) : List (String × FeatureValue) :=
  evs.filterMap fun e =>
    match e with
    | .MdigControlFeature name value => some (name, value)
    | _ => none

/-- The entry count of the enumeration `feature` as a reporter reads it after the calls
`h`: the answer of the device, `0` when the query fails. -/
def entryCount (d : Device) (h : List Event) (feature : String) : Int :=
  (d.featureInt h .enumEntryCount feature).getD 0

/-- The queries a reporter makes to enumerate `feature` after the calls `h`: the count
query, then one name query per entry, in index order. -/
def enumQueries (d : Device) (h : List Event) (feature : String) : List Event :=
  .MdigInquireFeature .enumEntryCount feature ::
    entryQueries feature (entryCount d h feature).toNat 0

/-- The entry names of `feature` a reporter reads after the calls `h`, in index
order. -/
def enumNames (d : Device) (h : List Event) (feature : String) : List String :=
  entryNamesFrom d feature (entryCount d h feature).toNat 0
    (h ++ [.MdigInquireFeature .enumEntryCount feature])

/-- The update of the capability flags for one `AcquisitionMode` entry name. -/
def acquisitionModeFlags (name : String) (c : Capabilities) : Capabilities :=
  if "Continuous" = name then { c with ContinuousAMSupport := true }
  else if "SingleFrame" = name then { c with SingleFrameAMSupport := true }
  else if "MultiFrame" = name then { c with MultiFrameAMSupport := true }
  else c

/-- The update of the capability flags for one `TriggerSelector` entry name. -/
def triggerSelectorFlags (name : String) (c : Capabilities) : Capabilities :=
  if "AcquisitionStart" = name then { c with CanTriggerAcquisitionStart := true }
  else if "FrameStart" = name then { c with CanTriggerFrameStart := true }
  else c

/-- The `AcquisitionMode` entry names `CameraPrintAcquisitionControls` reads in the
world `w`. -/
def acquisitionModes (w : World) : List String :=
  enumNames w.dev w.trace "AcquisitionMode"

/-- The `TriggerSelector` entry names `CameraPrintAcquisitionControls` reads in the
world `w`, after it has enumerated `AcquisitionMode`. -/
def triggerSelectors (w : World) : List String :=
  enumNames w.dev (w.trace ++ enumQueries w.dev w.trace "AcquisitionMode") "TriggerSelector"

/-- The `ExposureMode` entry names `CameraPrintAcquisitionControls` reads in the world
`w`, after it has enumerated `AcquisitionMode` and `TriggerSelector`. -/
def exposureModes (w : World) : List String :=
  enumNames w.dev
    (w.trace ++ enumQueries w.dev w.trace "AcquisitionMode" ++
      enumQueries w.dev (w.trace ++ enumQueries w.dev w.trace "AcquisitionMode")
        "TriggerSelector")
    "ExposureMode"

/-- The value lines a reporter prints for an enumeration with the entry names `names`:
the line `first`, which carries the label, with the first name or `N/A`, then one line
`next` per further name. -/
def valueLines (first next : String → Event) (names : List String) : List Event :=
  first (firstOrNA names) :: (names.drop 1).map next

/-- The feature writes the claim on the menu of `SetTriggerControls` lists for the
accepted key `k`, before the trigger source is selected: the acquisition mode, the
trigger selector and the trigger mode. -/
def menuWrites (k : MIL_INT) (caps : Capabilities) : List (String × FeatureValue) :=
  if k = key 'c' ∨ k = key 'C' then
    [("AcquisitionMode", .str "Continuous"), ("TriggerSelector", .str "AcquisitionStart"),
     ("TriggerMode", .str "On")]
  else if k = key 'm' ∨ k = key 'M' then
    [("AcquisitionMode", .str "MultiFrame"), ("TriggerSelector", .str "AcquisitionStart"),
     ("TriggerMode", .str "On")]
  else if caps.CanTriggerFrameStart then
    [("AcquisitionMode", .str "Continuous"), ("TriggerSelector", .str "FrameStart"),
     ("TriggerMode", .str "On")]
  else
    [("AcquisitionMode", .str "SingleFrame"), ("TriggerSelector", .str "AcquisitionStart"),
     ("TriggerMode", .str "On")]

/-- The trigger type the menu yields for the accepted key `k`. -/
def menuType (k : MIL_INT) : eTriggerType :=
  if k = key 'c' ∨ k = key 'C' then .eContinuous
  else if k = key 'm' ∨ k = key 'M' then .eMultiFrame
  else .eSingleFrame

/-- The line the menu prints for the accepted key `k` after its writes. -/
def menuMessage (k : MIL_INT) : String :=
  if k = key 'c' ∨ k = key 'C' then "Continuous acquisition trigger selected.\n"
  else if k = key 'm' ∨ k = key 'M' then "Multi Frame acquisition trigger selected.\n"
  else "Single Frame acquisition trigger selected.\n"

/-- The calls of a `switch` case of the menu for the accepted key `k`, up to the
selection of the trigger source. -/
def menuEvents (k : MIL_INT) (caps : Capabilities) : List Event :=
  (menuWrites k caps).map (fun p => .MdigControlFeature p.1 p.2) ++
    [.MosPrintf (menuMessage k) []]

/-- The end of a `switch` case of the menu for the accepted key `k`, after the trigger
source has been selected with the result `soft`: the multi-frame case asks for the frame
count and writes it; every case then assigns the output variables. -/
def menuFinish (k : MIL_INT) (s : TriggerSetup) (caps : Capabilities) (soft : Bool) :
    Prog TriggerSetup :=
  if k = key 'c' ∨ k = key 'C' then
    Prog.pure { s with oTriggerSelector := "AcquisitionStart", SoftwareTriggerSelected := soft,
                       TriggerType := .eContinuous }
  else if k = key 'm' ∨ k = key 'M' then do
    MosPrintf "\n%-30s" [.s "\nHow many frames per trigger?", .s ""]
    let NbFrames ← scanf "%lld"
    MosPrintf "%lld Frames will be acquired per trigger.\n" [.d NbFrames]
    MdigControlFeature "AcquisitionFrameCount" (.int NbFrames)
    Prog.pure { oTriggerSelector := "AcquisitionStart", SoftwareTriggerSelected := soft,
                NbFrames := NbFrames, TriggerType := .eMultiFrame }
  else
    Prog.pure { s with
      oTriggerSelector := if caps.CanTriggerFrameStart then "FrameStart" else "AcquisitionStart",
      SoftwareTriggerSelected := soft, TriggerType := .eSingleFrame }

/-- A world at the menu: a key that is not accepted, then `m`, then the choice of the
source `1` (`Software`) and the frame count `3`. -/
def multiFrameMenuWorld : World :=
  sampleWorld twoSourceCamera menuCaps [key 'x', key 'm'] [1, 3]

/-- The seven feature reporters, in the order `MosMain` calls them. -/
def reportFeatures : Prog Unit := do
  CameraPrintDeviceControls
  CameraPrintTransportLayerControls
  CameraPrintImageFormatControls
  CameraPrintAcquisitionControls
  CameraPrintEventControls
  CameraPrintIOControls
  CameraPrintCounterAndTimerControls

/-- The calls of `MosMain` on a supported system up to the heading of the feature summary,
when the key `k` answers the first prompt. -/
def mainStart (k : MIL_INT) : List Event :=
  [.call "MappAllocDefault", .call "MsysInquire", .call "MdigAlloc", .call "MbufAllocColor",
   .call "MbufClear",
   .MosPrintf "This example showcases GigE Vision specific features.\n" [],
   .MosPrintf "Press <Enter> to start.\n\n" [],
   .MosGetch k,
   .MosPrintf "------------------------------------------------------------\n\n" [],
   .MosPrintf "                  Camera features summary.                  \n" []]

/-- The world in which `MosMain` calls the first feature reporter, when it started in `w`
with the key `k` pending before the keys `ks`: the last call made is the one that sets
error printing to `M_PRINT_DISABLE`. -/
def reportWorld (w : World) (k : MIL_INT) (ks : List MIL_INT) : World :=
  { w with keys := ks, trace := w.trace ++ mainStart k ++ [.MappControlError false] }

/-- Whether the call is console output. -/
def Event.isPrint (e : Event) : Bool :=
  match e with
  | .MosPrintf _ _ => true
  | _ => false

/-- The calls among `evs` other than console output, in order. -/
def silent (evs : List Event) : List Event :=
  evs.filter fun e => !e.isPrint

/-- The answers of the device do not depend on what the program has printed: histories
with the same calls other than console output get the same answers. -/
def Device.printBlind (d : Device) : Prop :=
  ∀ h1 h2 : List Event, silent h1 = silent h2 →
    d.featureString h1 = d.featureString h2 ∧ d.featureInt h1 = d.featureInt h2 ∧
    d.featureBool h1 = d.featureBool h2 ∧ d.featureDouble h1 = d.featureDouble h2 ∧
    d.inquireInt h1 = d.inquireInt h2 ∧ d.inquireString h1 = d.inquireString h2

/-- The capability flags `c` and `c2` agree on everything but the three flags
`ContinuousAMSupport`, `MultiFrameAMSupport` and `SingleFrameAMSupport`. -/
def Capabilities.sameTriggers (c c2 : Capabilities) : Prop :=
  c2.MultipleAcquisitionModeSupport = c.MultipleAcquisitionModeSupport ∧
  c2.CanTriggerAcquisitionStart = c.CanTriggerAcquisitionStart ∧
  c2.CanTriggerFrameStart = c.CanTriggerFrameStart

/-- The worlds `w` and `w2` differ at most in the three acquisition mode support flags
and in what has been printed so far, and their device is blind to console output. -/
def Agree (w w2 : World) : Prop :=
  w.dev.printBlind ∧ w2.dev = w.dev ∧ w2.keys = w.keys ∧ w2.nums = w.nums ∧
  w2.kbhit = w.kbhit ∧ w2.allocs = w.allocs ∧ w.caps.sameTriggers w2.caps ∧
  silent w2.trace = silent w.trace

/-- The outcomes `o` and `o2` are of the same kind, with the same result or the same
reason to stop, in worlds that agree. -/
def Outcome.agree {α : Type} (o o2 : Outcome α) : Prop :=
  match o, o2 with
  | .ret a w, .ret a2 w2 => a2 = a ∧ Agree w w2
  | .halt r w, .halt r2 w2 => r2 = r ∧ Agree w w2
  | _, _ => False

/-- Runs of `m` and `m2` from worlds that agree have outcomes that agree. -/
def Sim {α : Type} (m m2 : Prog α) : Prop :=
  ∀ w w2, Agree w w2 → (m w).agree (m2 w2)

/-- The world `w` with the three acquisition mode support flags set to `a`, `b`, `c`. -/
def withSupportFlags (w : World) (a b c : Bool) : World :=
  { w with caps := { w.caps with
      ContinuousAMSupport := a, MultiFrameAMSupport := b, SingleFrameAMSupport := c } }

/-- The byte `(v >> 8k) & 255` of a 64-bit value, with the arithmetic shift and the mask
of two's complement. -/
def shiftedByte (v : Int) (k : Nat) : Int := Int.land (v >>> (8 * k)) 255

/-- The MAC address as `CameraPrintTransportLayerControls` reads it in the world `w`: the
answer to the fourth query, `-1` when the query fails. -/
def macAddress (w : World) : Int :=
  (w.dev.featureInt
    (w.trace ++ [.MdigInquireFeature .value "GevVersionMajor",
      .MdigInquireFeature .value "GevVersionMinor",
      .MdigInquireFeature .value "GevSCPSPacketSize"]) .value "GevMACAddress").getD (-1)

/-- The IP address as `CameraPrintTransportLayerControls` reads it in the world `w`: the
answer to the fifth query, `-1` when the query fails. -/
def currentIp (w : World) : Int :=
  (w.dev.featureInt
    (w.trace ++ [.MdigInquireFeature .value "GevVersionMajor",
      .MdigInquireFeature .value "GevVersionMinor",
      .MdigInquireFeature .value "GevSCPSPacketSize",
      .MdigInquireFeature .value "GevMACAddress"]) .value "GevCurrentIPAddress").getD (-1)

/-- The MAC address line the claim describes for the value `v`. -/
def macLine (v : Int) : Event :=
  if v = -1 then .MosPrintf "%30s N/A\n" [.s "MAC Address:"]
  else .MosPrintf "%30s %.2X-%.2X-%.2X-%.2X-%.2X-%.2X\n" [.s "MAC Address:",
    .d (shiftedByte v 5), .d (shiftedByte v 4), .d (shiftedByte v 3), .d (shiftedByte v 2),
    .d (shiftedByte v 1), .d (shiftedByte v 0)]

/-- The IP address line the claim describes for the value `v`. -/
def ipLine (v : Int) : Event :=
  if v = -1 then .MosPrintf "%30s N/A\n" [.s "Current IP Address:"]
  else .MosPrintf "%30s %d.%d.%d.%d\n" [.s "Current IP Address:",
    .d (shiftedByte v 3), .d (shiftedByte v 2), .d (shiftedByte v 1), .d (shiftedByte v 0)]

/-- A camera that answers `0` for its MAC address and the address `192.168.1.10`
(`0xC0A8010A`) for its IP address, and nothing else. -/
def addressCamera : Device :=
  { bareDevice with
    featureInt := fun _ kind name =>
      if kind = .value ∧ name = "GevMACAddress" then some 0
      else if kind = .value ∧ name = "GevCurrentIPAddress" then some 3232235786
      else none }

/-- The lines `SelectTriggerSource` prints for the sources after the first, `names` from
the index `i` on. -/
def sourceLines : List String → Nat → List Event
| [], _ => []
| name :: rest, i =>
    .MosPrintf "%-35s(%d) %-20s\n" [.s "", .d i, .s name] :: sourceLines rest (i + 1)

/-- The calls of `SelectTriggerSource` in the world `w` before its selection loop, when
the device enumerates at least one source: the prompt, the count query, the name queries
and the list of the sources. -/
def sourceMenu (w : World) : List Event :=
  [sourcePrompt, .MdigInquireFeature .enumEntryCount "TriggerSource"] ++
    entryQueries "TriggerSource" (sourceCount w).toNat 0 ++
    [.MosPrintf "(%d) %-30s\n" [.d 0, .s ((sourceNames w).getD 0 "")]] ++
    sourceLines ((sourceNames w).drop 1) 1

/-- The calls of the selection loop for the numbers `rej`, none of them accepted: each is
read and answered by the complaint. -/
def rejections : List Int → List Event
| [] => []
| n :: rest => .scanf "%d" n :: .MosPrintf "Invalid selection.\n" [] :: rejections rest

/-- The operations of the `MdigProcess` calls among `evs`, each with the buffer list and
the buffer count passed, in order. -/
def processCalls (evs : List Event) : List (List MIL_ID × MIL_INT × ProcessOp) :=
  evs.filterMap fun e =>
    match e with
    | .MdigProcess buffers size op => some (buffers, size, op)
    | _ => none

/-- The call pairs of `n` rounds of the processing that do not end it: a start with the
operation `op0` and a stop with `M_STOP + M_WAIT`, all with the buffer list `buffers`
and the count `size`. -/
def restartCalls (buffers : List MIL_ID) (size : MIL_INT) (op0 : ProcessOp) :
    Nat → List (List MIL_ID × MIL_INT × ProcessOp)
| 0 => []
| n + 1 => (buffers, size, op0) :: (buffers, size, .stopWait) ::
    restartCalls buffers size op0 n

/-- The `MdigProcess` calls `calls` alternate between starts and stops, beginning with a
start; all pass the same buffer list and count; every stop but the last is
`M_STOP + M_WAIT`; the list ends after a `M_STOP`, and it may end before one (in a run
that has not ended). -/
def Alternating (calls : List (List MIL_ID × MIL_INT × ProcessOp)) : Prop :=
  ∃ (buffers : List MIL_ID) (size : MIL_INT) (op0 : ProcessOp) (n : Nat)
    (last : List (List MIL_ID × MIL_INT × ProcessOp)),
    op0.isStart = true ∧ calls = restartCalls buffers size op0 n ++ last ∧
    (last = [] ∨ last = [(buffers, size, op0)] ∨
      last = [(buffers, size, op0), (buffers, size, .stop)])

/-- The length of the array `DoTriggeredAcquisition` allocates for `NbFrames` frames. -/
def arrayLength (M_INFINITE NbFrames : Int) : Nat :=
  if NbFrames = M_INFINITE then 10 else NbFrames.toNat

/-- A world in which the numbers `5`, `-1` and `1` are pending, on the camera with two
trigger sources. -/
def selectionWorld : World :=
  sampleWorld twoSourceCamera Capabilities.initial [] [5, -1, 1]

/-- The run `m` only appends to the trace, and the `MdigProcess` calls it appends
alternate; this holds for the runs that return and for those that do not. -/
def AlternatingRun {α : Type} (m : Prog α) : Prop :=
  ∀ w, ∃ evs, (m w).world.trace = w.trace ++ evs ∧ Alternating (processCalls evs)

/-- A world at the menu of `SetTriggerControls`: the key `c`, the hardware source `0`
(`Line1`), then a key with the code `0` and the key `q`. -/
def restartWorld : World :=
  sampleWorld twoSourceCamera menuCaps [key 'c', 0, key 'q'] [0]

/-- The run `m` returns or waits for input for ever: it never throws and never uses an
index out of bounds. -/
def Waits {α : Type} (m : Prog α) : Prop :=
  ∀ w, (m w).stopped = none ∨ (m w).stopped = some .hang

/-- The feature writes among the calls `evs` other than the trigger source, in order. -/
def configWrites (evs : List Event) : List (String × FeatureValue) :=
  (featureWrites evs).filter fun p => p.1 ≠ "TriggerSource"

/-- The last value written to the feature `name` among the calls `evs`. -/
def lastWritten (name : String) (evs : List Event) : Option FeatureValue :=
  ((featureWrites evs).filter fun p => p.1 = name).getLast?.map Prod.snd

/-- The numbers read with the format `fmt` among the calls `evs`, in order. -/
def numbersRead (fmt : String) (evs : List Event) : List Int :=
  evs.filterMap fun e =>
    match e with
    | .scanf f v => if f = fmt then some v else none
    | _ => none

/-- The calls of one display of the menu. -/
def menuPrints (caps : Capabilities) : List Event :=
  menuHeader :: menuOptions caps ++ [.MosPrintf "\n" []]

/-- The calls of the iterations of the menu loop that read the keys `bad`, none of them
accepted: the menu, the key read and the complaint, for every key. -/
def invalidRounds (caps : Capabilities) : List MIL_INT → List Event
| [] => []
| b :: bad =>
    menuPrints caps ++ [.MosGetch b, .MosPrintf "Invalid selection." []] ++
      invalidRounds caps bad

/-- A call `SelectTriggerSource` can make: no key read, and no feature write other than
to `TriggerSource`. -/
def Event.isSourceCall (e : Event) : Bool :=
  match e with
  | .MosPrintf _ _ => true
  | .scanf fmt _ => fmt = "%d"
  | .MdigInquireFeature _ _ => true
  | .MdigControlFeature name _ => name = "TriggerSource"
  | _ => false

/-- The run `m` leaves the capability flags as they were, whether it returns or not. -/
def KeepsCaps {α : Type} (m : Prog α) : Prop :=
  ∀ w, (m w).world.caps = w.caps

/-- Whenever the run `m` returns, it has left the device and the pending keys as they
were. -/
def Keeps {α : Type} (m : Prog α) : Prop :=
  ∀ w a w2, m w = .ret a w2 → w2.dev = w.dev ∧ w2.keys = w.keys

/-- The run `m` leaves the device as it was, whether it returns or not. -/
def KeepsDev {α : Type} (m : Prog α) : Prop :=
  ∀ w, (m w).world.dev = w.dev

/-- The world waits for input that is not there: no key is pending, no number is pending,
or the keyboard polls have run dry. -/
def World.starved (w : World) : Prop :=
  w.keys = [] ∨ w.nums = [] ∨ w.kbhit = []

/-- The ways a run of the main function on a supported system ends: it returns; or it
stays blocked at a console read or a keyboard poll with no input for it; or the buffer
array of `DoTriggeredAcquisition` cannot be allocated, right after the frame count `n`
that was typed has been written to `AcquisitionFrameCount`, `n` being negative (and
not `M_INFINITE`) or beyond the limit of the host. -/
def Outcome.settled {α : Type} (M_INFINITE : Int) (o : Outcome α) : Prop :=
  o.stopped = none ∨ (o.stopped = some .hang ∧ o.world.starved) ∨
  (o.stopped = some .exception ∧ ∃ n : Int,
    o.world.trace.getLast? =
      some (.MdigControlFeature "AcquisitionFrameCount" (.int n)) ∧
    n ≠ M_INFINITE ∧ (n < 0 ∨ (o.world.dev.limit : Int) < n))

/-- On a device whose entry counts can be allocated, the run `m` keeps the device and
ends in one of the ways of `Outcome.settled`. -/
def Settles {α : Type} (M_INFINITE : Int) (m : Prog α) : Prop :=
  ∀ w, w.dev.countsFit → (m w).world.dev = w.dev ∧ (m w).settled M_INFINITE

@[simp] theorem pure_apply {α : Type} (a : α) (w : World) :
    (Pure.pure a : Prog α) w = .ret a w := rfl

@[simp] theorem Prog_pure_apply {α : Type} (a : α) (w : World) :
    (Prog.pure a : Prog α) w = .ret a w := rfl

theorem bind_apply {α β : Type} (m : Prog α) (f : α → Prog β) (w : World) :
    (m >>= f) w = (m w).andThen f := rfl

@[simp] theorem andThen_ret {α β : Type} (a : α) (w : World) (f : α → World → Outcome β) :
    (Outcome.ret a w).andThen f = f a w := rfl

@[simp] theorem andThen_halt {α β : Type} (r : Halt) (w : World)
    (f : α → World → Outcome β) :
    (Outcome.halt r w : Outcome α).andThen f = .halt r w := rfl

theorem bind_ret {α β : Type} {m : Prog α} {f : α → Prog β} {w w1 : World} {a : α}
    (h : m w = .ret a w1) : (m >>= f) w = f a w1 := by
  simp [bind_apply, h]

theorem bind_halt {α β : Type} {m : Prog α} {f : α → Prog β} {w w1 : World} {r : Halt}
    (h : m w = .halt r w1) : (m >>= f) w = .halt r w1 := by
  simp [bind_apply, h]

@[simp] theorem emit_apply (e : Event) (w : World) :
    emit e w = .ret () { w with trace := w.trace ++ [e] } := rfl

@[simp] theorem world_ret {α : Type} (a : α) (w : World) : (Outcome.ret a w).world = w := rfl

@[simp] theorem world_halt {α : Type} (h : Halt) (w : World) :
    (Outcome.halt h w : Outcome α).world = w := rfl

theorem vectorAssign_fits {c : Int} {w : World} (h0 : 0 ≤ c) (h1 : c ≤ (w.dev.limit : Int)) :
    vectorAssign c w = .ret c.toNat w := by
  have h : ¬ (c < 0 ∨ (w.dev.limit : Int) < c) := by omega
  simp only [vectorAssign, h, if_false, Prog_pure_apply]

theorem vectorAssign_throws {c : Int} {w : World} (h : c < 0 ∨ (w.dev.limit : Int) < c) :
    vectorAssign c w = .halt .exception w := by
  simp only [vectorAssign, h, if_true, throwException]

theorem vectorAssign_cases (c : Int) (w : World) :
    vectorAssign c w = .ret c.toNat w ∨ vectorAssign c w = .halt .exception w := by
  by_cases h : c < 0 ∨ (w.dev.limit : Int) < c
  · exact Or.inr (vectorAssign_throws h)
  · exact Or.inl (vectorAssign_fits (by omega) (by omega))

theorem arrayNew_fits {n : Int} {w : World} (h0 : 0 ≤ n) (h1 : n ≤ (w.dev.limit : Int)) :
    arrayNew n w = .ret n.toNat w := by
  have h : ¬ (n < 0 ∨ (w.dev.limit : Int) < n) := by omega
  simp only [arrayNew, h, if_false, Prog_pure_apply]

theorem arrayNew_throws {n : Int} {w : World} (h : n < 0 ∨ (w.dev.limit : Int) < n) :
    arrayNew n w = .halt .exception w := by
  simp only [arrayNew, h, if_true, throwException]

theorem arrayNew_cases (n : Int) (w : World) :
    arrayNew n w = .ret n.toNat w ∨ arrayNew n w = .halt .exception w := by
  by_cases h : n < 0 ∨ (w.dev.limit : Int) < n
  · exact Or.inr (arrayNew_throws h)
  · exact Or.inl (arrayNew_fits (by omega) (by omega))

theorem ten_le_limit (d : Device) : (10 : Int) ≤ (d.limit : Int) := by
  have : 10 ≤ d.limit := Nat.le_max_left _ _
  omega

theorem Emits.pure {α : Type} (ks : List Kind) (a : α) : Emits ks (Pure.pure a : Prog α) := by
  intro w
  exact ⟨[], by simp, by simp⟩

theorem Emits.bind {α β : Type} {ks : List Kind} {m : Prog α} {f : α → Prog β}
    (hm : Emits ks m) (hf : ∀ a, Emits ks (f a)) : Emits ks (m >>= f) := by
  intro w
  obtain ⟨e1, h1, p1⟩ := hm w
  rw [bind_apply]
  cases hmw : m w with
  | ret a w1 =>
    obtain ⟨e2, h2, p2⟩ := hf a w1
    rw [hmw] at h1
    simp only [world_ret] at h1
    refine ⟨e1 ++ e2, ?_, ?_⟩
    · simp only [andThen_ret, h2, h1, List.append_assoc]
    · intro e he
      rcases List.mem_append.mp he with h | h
      · exact p1 e h
      · exact p2 e h
  | halt r w1 =>
    rw [hmw] at h1
    exact ⟨e1, h1, p1⟩

theorem Emits.emit {ks : List Kind} {e : Event} (h : e.kind ∈ ks) : Emits ks (emit e) := by
  intro w
  exact ⟨[e], rfl, by simpa using h⟩

theorem Emits.ite {α : Type} {ks : List Kind} {c : Prop} [Decidable c] {m n : Prog α}
    (hm : Emits ks m) (hn : Emits ks n) : Emits ks (if c then m else n) := by
  split
  · exact hm
  · exact hn

theorem Emits.halt {α : Type} (ks : List Kind) (r : Halt) :
    Emits ks (fun w => (Outcome.halt r w : Outcome α)) := by
  intro w
  exact ⟨[], by simp, by simp⟩

theorem Emits.fueled {α : Type} {ks : List Kind} {g : Nat → Prog α} (n : World → Nat)
    (h : ∀ k, Emits ks (g k)) : Emits ks (fun w => g (n w) w) := by
  intro w
  exact h (n w) w

theorem Emits.mono {α : Type} {ks ks2 : List Kind} {m : Prog α} (h : Emits ks m)
    (hk : ∀ k ∈ ks, k ∈ ks2) : Emits ks2 m := by
  intro w
  obtain ⟨evs, h1, h2⟩ := h w
  exact ⟨evs, h1, fun e he => hk _ (h2 e he)⟩

theorem Emits.trace_eq {α : Type} {ks : List Kind} {m : Prog α} (h : Emits ks m) (w : World) :
    (m w).world.trace = w.trace ++ newEvents w (m w) ∧ ∀ e ∈ newEvents w (m w), e.kind ∈ ks := by
  obtain ⟨evs, h1, h2⟩ := h w
  have : newEvents w (m w) = evs := by simp [newEvents, h1]
  rw [this]
  exact ⟨h1, h2⟩

theorem MosPrintf_emits {ks : List Kind} (fmt : String) (args : List Arg) (h : Kind.console ∈ ks) :
    Emits ks (MosPrintf fmt args) := Emits.emit h

theorem MosGetch_emits {ks : List Kind} (h : Kind.console ∈ ks) : Emits ks MosGetch := by
  intro w
  unfold MosGetch
  cases hk : w.keys with
  | nil => exact ⟨[], by simp, by simp⟩
  | cons k rest => exact ⟨[.MosGetch k], by simp, by simpa [Event.kind] using h⟩

theorem MosKbhit_emits {ks : List Kind} (h : Kind.console ∈ ks) : Emits ks MosKbhit := by
  intro w
  unfold MosKbhit
  cases hk : w.kbhit with
  | nil => exact ⟨[], by simp, by simp⟩
  | cons k rest => exact ⟨[.MosKbhit k], by simp, by simpa [Event.kind] using h⟩

theorem scanf_emits {ks : List Kind} (fmt : String) (h : Kind.console ∈ ks) :
    Emits ks (scanf fmt) := by
  intro w
  unfold scanf
  cases hk : w.nums with
  | nil => exact ⟨[], by simp, by simp⟩
  | cons k rest => exact ⟨[.scanf fmt k], by simp, by simpa [Event.kind] using h⟩

theorem MbufAlloc2d_emits {ks : List Kind} (h : Kind.buffer ∈ ks) : Emits ks MbufAlloc2d := by
  intro w
  unfold MbufAlloc2d
  cases hk : w.allocs with
  | nil => exact ⟨[.MbufAlloc2d 0], by simp, by simpa [Event.kind] using h⟩
  | cons k rest => exact ⟨[.MbufAlloc2d k], by simp, by simpa [Event.kind] using h⟩

theorem MdigInquireFeatureString_emits {ks : List Kind} (kind : FeatureKind) (name cur : String)
    (h : Kind.inquireFeature ∈ ks) : Emits ks (MdigInquireFeatureString kind name cur) := by
  intro w
  exact ⟨[.MdigInquireFeature kind name], rfl, by simpa [Event.kind] using h⟩

theorem MdigInquireFeatureInt_emits {ks : List Kind} (kind : FeatureKind) (name : String)
    (cur : Int) (h : Kind.inquireFeature ∈ ks) : Emits ks (MdigInquireFeatureInt kind name cur) := by
  intro w
  exact ⟨[.MdigInquireFeature kind name], rfl, by simpa [Event.kind] using h⟩

theorem MdigInquireFeatureBool_emits {ks : List Kind} (kind : FeatureKind) (name : String)
    (cur : Bool) (h : Kind.inquireFeature ∈ ks) : Emits ks (MdigInquireFeatureBool kind name cur) := by
  intro w
  exact ⟨[.MdigInquireFeature kind name], rfl, by simpa [Event.kind] using h⟩

theorem MdigInquireFeatureDouble_emits {ks : List Kind} (kind : FeatureKind) (name : String)
    (cur : MIL_DOUBLE) (h : Kind.inquireFeature ∈ ks) :
    Emits ks (MdigInquireFeatureDouble kind name cur) := by
  intro w
  exact ⟨[.MdigInquireFeature kind name], rfl, by simpa [Event.kind] using h⟩

theorem MdigControlFeature_emits {ks : List Kind} (name : String) (v : FeatureValue)
    (h : Kind.controlFeature ∈ ks) : Emits ks (MdigControlFeature name v) := Emits.emit h

theorem MdigExecuteFeature_emits {ks : List Kind} (name : String)
    (h : Kind.executeFeature ∈ ks) : Emits ks (MdigExecuteFeature name) := Emits.emit h

theorem MappControlError_emits {ks : List Kind} (b : Bool)
    (h : Kind.errorPrint ∈ ks) : Emits ks (MappControlError b) := Emits.emit h

theorem MdigInquireInt_emits {ks : List Kind} (what : String) (cur : Int)
    (h : Kind.inquire ∈ ks) : Emits ks (MdigInquireInt what cur) := by
  intro w
  exact ⟨[.MdigInquire what], rfl, by simpa [Event.kind] using h⟩

theorem MdigInquireString_emits {ks : List Kind} (what : String) (cur : String)
    (h : Kind.inquire ∈ ks) : Emits ks (MdigInquireString what cur) := by
  intro w
  exact ⟨[.MdigInquire what], rfl, by simpa [Event.kind] using h⟩

theorem getCaps_emits (ks : List Kind) : Emits ks getCaps := by
  intro w
  exact ⟨[], by simp [getCaps], by simp⟩

theorem modifyCaps_emits (ks : List Kind) (f : Capabilities → Capabilities) :
    Emits ks (modifyCaps f) := by
  intro w
  exact ⟨[], by simp [modifyCaps], by simp⟩

theorem index_emits (ks : List Kind) (v : List String) (i : Int) : Emits ks (index v i) := by
  intro w
  refine ⟨[], ?_, by simp⟩
  unfold index
  split
  · simp
  · split <;> simp

theorem vectorAssign_emits (ks : List Kind) (n : Int) : Emits ks (vectorAssign n) := by
  intro w
  refine ⟨[], ?_, by simp⟩
  rcases vectorAssign_cases n w with e | e <;> rw [e] <;> simp

theorem arrayNew_emits (ks : List Kind) (n : Int) : Emits ks (arrayNew n) := by
  intro w
  refine ⟨[], ?_, by simp⟩
  rcases arrayNew_cases n w with e | e <;> rw [e] <;> simp

/-! ## The calls each function makes -/

theorem inquireEntryNames_emits {ks : List Kind} (feature : String) (body : String → Prog Unit)
    (h : Kind.inquireFeature ∈ ks) (hb : ∀ s, Emits ks (body s)) (todo : Nat) :
    ∀ i, Emits ks (inquireEntryNames feature body todo i) := by
  induction todo with
  | zero => intro i; exact Emits.pure ks _
  | succ n ih =>
    intro i
    unfold inquireEntryNames
    refine Emits.bind (MdigInquireFeatureString_emits _ _ _ h) (fun name => ?_)
    refine Emits.bind (hb name) (fun _ => ?_)
    exact Emits.bind (ih (i + 1)) (fun _ => Emits.pure ks _)

theorem printTriggerSources_emits {ks : List Kind} (h : Kind.console ∈ ks) (names : List String) :
    ∀ i, Emits ks (printTriggerSources names i) := by
  induction names with
  | nil => intro i; exact Emits.pure ks _
  | cons n rest ih =>
    intro i
    unfold printTriggerSources
    exact Emits.bind (MosPrintf_emits _ _ h) (fun _ => ih (i + 1))

theorem selectionLoop_emits {ks : List Kind} (h : Kind.console ∈ ks) (Cnt : MIL_INT)
    (names : List String) (fuel : Nat) : Emits ks (selectionLoop Cnt names fuel) := by
  induction fuel with
  | zero => exact Emits.halt ks _
  | succ n ih =>
    unfold selectionLoop
    refine Emits.bind (scanf_emits _ h) (fun sel => ?_)
    refine Emits.ite ?_ ?_
    · refine Emits.bind (index_emits ks _ _) (fun _ => ?_)
      exact Emits.bind (MosPrintf_emits _ _ h) (fun _ => Emits.pure ks _)
    · exact Emits.bind (MosPrintf_emits _ _ h) (fun _ => ih)

theorem SelectTriggerSource_emits : Emits setupKinds SelectTriggerSource := by
  have hc : Kind.console ∈ setupKinds := by decide
  have hi : Kind.inquireFeature ∈ setupKinds := by decide
  have hf : Kind.controlFeature ∈ setupKinds := by decide
  unfold SelectTriggerSource
  repeat' first
    | exact Emits.pure _ _
    | exact MosPrintf_emits _ _ hc
    | exact MdigInquireFeatureInt_emits _ _ _ hi
    | exact MdigControlFeature_emits _ _ hf
    | exact vectorAssign_emits _ _
    | exact index_emits _ _ _
    | exact inquireEntryNames_emits _ _ hi (fun _ => Emits.pure _ _) _ _
    | exact printTriggerSources_emits hc _ _
    | exact Emits.fueled _ (selectionLoop_emits hc _ _)
    | apply Emits.bind
    | apply Emits.ite
    | intro _

theorem printMenu_emits {ks : List Kind} (hc : Kind.console ∈ ks) : Emits ks printMenu := by
  unfold printMenu
  repeat' first
    | exact Emits.pure ks _
    | exact MosPrintf_emits _ _ hc
    | exact getCaps_emits ks
    | apply Emits.bind
    | apply Emits.ite
    | intro _

theorem menuSwitch_emits (s : TriggerSetup) (again : Prog TriggerSetup)
    (ih : Emits setupKinds again) : Emits setupKinds (menuSwitch s again) := by
  have hc : Kind.console ∈ setupKinds := by decide
  have hf : Kind.controlFeature ∈ setupKinds := by decide
  unfold menuSwitch
  repeat' first
    | exact Emits.pure _ _
    | exact ih
    | exact MosPrintf_emits _ _ hc
    | exact MosGetch_emits hc
    | exact scanf_emits _ hc
    | exact getCaps_emits _
    | exact MdigControlFeature_emits _ _ hf
    | exact SelectTriggerSource_emits
    | apply Emits.bind
    | apply Emits.ite
    | intro _

theorem menuLoop_emits (s : TriggerSetup) (fuel : Nat) : Emits setupKinds (menuLoop s fuel) := by
  induction fuel with
  | zero => exact Emits.halt _ _
  | succ n ih =>
    unfold menuLoop
    exact Emits.bind (printMenu_emits (by decide)) (fun _ => menuSwitch_emits s _ ih)

theorem SetTriggerControls_emits (s : TriggerSetup) :
    Emits setupKinds (SetTriggerControls s) := by
  have hc : Kind.console ∈ setupKinds := by decide
  have hf : Kind.controlFeature ∈ setupKinds := by decide
  unfold SetTriggerControls
  repeat' first
    | exact Emits.pure _ _
    | exact MosPrintf_emits _ _ hc
    | exact getCaps_emits _
    | exact MdigControlFeature_emits _ _ hf
    | exact SelectTriggerSource_emits
    | exact Emits.fueled _ (menuLoop_emits _)
    | apply Emits.bind
    | apply Emits.ite
    | intro _

theorem softwareTriggerLoop_emits (t : eTriggerType) (sel : String) (fuel : Nat) :
    Emits loopKinds (softwareTriggerLoop t sel fuel) := by
  have hc : Kind.console ∈ loopKinds := by decide
  have hf : Kind.controlFeature ∈ loopKinds := by decide
  have he : Kind.executeFeature ∈ loopKinds := by decide
  induction fuel with
  | zero => exact Emits.halt _ _
  | succ n ih =>
    unfold softwareTriggerLoop
    repeat' first
      | exact Emits.pure _ _
      | exact ih
      | exact MosGetch_emits hc
      | exact MdigControlFeature_emits _ _ hf
      | exact MdigExecuteFeature_emits _ he
      | apply Emits.bind
      | apply Emits.ite
      | intro _

theorem bind_eq_ret {α β : Type} {m : Prog α} {f : α → Prog β} {w w2 : World} {b : β}
    (h : (m >>= f) w = .ret b w2) : ∃ a w1, m w = .ret a w1 ∧ f a w1 = .ret b w2 := by
  rw [bind_apply] at h
  cases hm : m w with
  | ret a w1 => rw [hm] at h; exact ⟨a, w1, rfl, h⟩
  | halt r w1 => rw [hm] at h; cases h

theorem newEvents_eq {α : Type} {w : World} {o : Outcome α} {evs : List Event}
    (h : o.world.trace = w.trace ++ evs) : newEvents w o = evs := by
  simp [newEvents, h]

theorem printMenu_apply (w : World) :
    printMenu w = .ret () { w with
      trace := w.trace ++ (menuHeader :: menuOptions w.caps ++
        [.MosPrintf "\n" []]) } := by
  unfold printMenu menuOptions menuHeader optionC optionM optionS
  simp only [bind_apply, getCaps, MosPrintf, emit_apply, andThen_ret]
  cases w.caps.ContinuousAMSupport <;> cases w.caps.MultiFrameAMSupport <;>
    cases w.caps.SingleFrameAMSupport <;> simp [bind_apply]

theorem ResetTriggerControls_apply (w : World) :
    ResetTriggerControls w = .ret () { w with trace := w.trace ++ resetEvents } := by
  simp [ResetTriggerControls, resetEvents, bind_apply, MappControlError, MdigControlFeature]

/-! ## Choosing the trigger type -/

theorem newEvents_after {α : Type} {ks : List Kind} {m : Prog α} (hm : Emits ks m)
    {w w1 : World} {pre : List Event} (h1 : w1.trace = w.trace ++ pre) :
    newEvents w (m w1) = pre ++ newEvents w1 (m w1) := by
  obtain ⟨evs, h, _⟩ := hm w1
  rw [newEvents_eq h]
  apply newEvents_eq
  rw [h, h1, List.append_assoc]

theorem mem_allKinds (k : Kind) : k ∈ allKinds := by
  cases k <;> simp [allKinds]

theorem Emits.any {α : Type} {ks : List Kind} {m : Prog α} (h : Emits ks m) :
    Emits allKinds m :=
  h.mono (fun k _ => mem_allKinds k)

theorem menuLoop_succ (s : TriggerSetup) (fuel : Nat) (w : World) :
    menuLoop s (fuel + 1) w = menuSwitch s (menuLoop s fuel)
      { w with trace := w.trace ++ (menuHeader :: menuOptions w.caps ++ [.MosPrintf "\n" []]) } := by
  rw [menuLoop, bind_ret (printMenu_apply w)]

theorem SetTriggerControls_menu (s : TriggerSetup) (w : World)
    (h : w.caps.CanTriggerAcquisitionStart = true ∧ w.caps.MultipleAcquisitionModeSupport ≠ 0) :
    SetTriggerControls s w = menuLoop s (w.keys.length + 1) w := by
  simp [SetTriggerControls, bind_apply, getCaps, h]

theorem SetTriggerControls_fallback (s : TriggerSetup) (w : World)
    (h : ¬ (w.caps.CanTriggerAcquisitionStart = true ∧ w.caps.MultipleAcquisitionModeSupport ≠ 0))
    (hfs : w.caps.CanTriggerFrameStart = true) :
    SetTriggerControls s w =
      (SelectTriggerSource >>= fun soft => (Pure.pure
        { s with oTriggerSelector := "FrameStart", SoftwareTriggerSelected := soft,
                 TriggerType := .eSingleFrame } : Prog TriggerSetup))
        { w with trace := w.trace ++ frameStartWrites } := by
  simp [SetTriggerControls, bind_apply, getCaps, h, hfs, MdigControlFeature, MosPrintf,
    frameStartWrites]
  rfl

theorem SetTriggerControls_nothing (s : TriggerSetup) (w : World)
    (h : ¬ (w.caps.CanTriggerAcquisitionStart = true ∧ w.caps.MultipleAcquisitionModeSupport ≠ 0))
    (hfs : w.caps.CanTriggerFrameStart = false) :
    SetTriggerControls s w = .ret s w := by
  simp [SetTriggerControls, bind_apply, getCaps, h, hfs]

theorem newEvents_self {α : Type} (a : α) (w : World) :
    newEvents w (Outcome.ret a w) = [] := by
  simp [newEvents]

theorem SetTriggerControls_menu_events (s : TriggerSetup) (w : World)
    (h : w.caps.CanTriggerAcquisitionStart = true ∧ w.caps.MultipleAcquisitionModeSupport ≠ 0) :
    ∃ rest, newEvents w (SetTriggerControls s w) =
      (menuHeader :: menuOptions w.caps ++ [.MosPrintf "\n" []]) ++ rest := by
  rw [SetTriggerControls_menu s w h, menuLoop_succ]
  exact ⟨_, newEvents_after (menuSwitch_emits s _ (menuLoop_emits s _)) rfl⟩

theorem SetTriggerControls_fallback_events (s : TriggerSetup) (w : World)
    (h : ¬ (w.caps.CanTriggerAcquisitionStart = true ∧ w.caps.MultipleAcquisitionModeSupport ≠ 0))
    (hfs : w.caps.CanTriggerFrameStart = true) :
    ∃ rest, newEvents w (SetTriggerControls s w) = frameStartWrites ++ rest := by
  rw [SetTriggerControls_fallback s w h hfs]
  exact ⟨_, newEvents_after
    (Emits.bind SelectTriggerSource_emits (fun _ => Emits.pure _ _)) rfl⟩

/-- C2. The branch `SetTriggerControls` takes is decided by the capability flags alone:
its first call is the menu question exactly when `CanTriggerAcquisitionStart` and
`MultipleAcquisitionModeSupport` are both set; its first calls are the frame-start
configuration exactly when that fails and `CanTriggerFrameStart` is set; and it returns
at once, with its arguments and the world untouched, exactly when both fail. -/
theorem SetTriggerControls_branch (s : TriggerSetup) (w : World) :
    ((newEvents w (SetTriggerControls s w)).head? = some menuHeader ↔
      (w.caps.CanTriggerAcquisitionStart = true ∧
        w.caps.MultipleAcquisitionModeSupport ≠ 0)) ∧
    ((newEvents w (SetTriggerControls s w)).take 3 = frameStartWrites ↔
      (¬ (w.caps.CanTriggerAcquisitionStart = true ∧
          w.caps.MultipleAcquisitionModeSupport ≠ 0) ∧
        w.caps.CanTriggerFrameStart = true)) ∧
    (SetTriggerControls s w = .ret s w ↔
      (¬ (w.caps.CanTriggerAcquisitionStart = true ∧
          w.caps.MultipleAcquisitionModeSupport ≠ 0) ∧
        w.caps.CanTriggerFrameStart = false)) := by
  by_cases h : w.caps.CanTriggerAcquisitionStart = true ∧
      w.caps.MultipleAcquisitionModeSupport ≠ 0
  · obtain ⟨rest, hr⟩ := SetTriggerControls_menu_events s w h
    refine ⟨⟨fun _ => h, fun _ => by simp [hr]⟩, ⟨fun h3 => ?_, fun h3 => absurd h h3.1⟩,
      ⟨fun h3 => ?_, fun h3 => absurd h h3.1⟩⟩
    · rw [hr] at h3
      simp [frameStartWrites, menuHeader] at h3
    · rw [h3, newEvents_self] at hr
      simp at hr
  · cases hfs : w.caps.CanTriggerFrameStart with
    | true =>
      obtain ⟨rest, hr⟩ := SetTriggerControls_fallback_events s w h hfs
      refine ⟨⟨fun h3 => ?_, fun h3 => absurd h3 h⟩, ⟨fun _ => ⟨h, rfl⟩, fun _ => ?_⟩,
        ⟨fun h3 => ?_, fun h3 => by simp at h3⟩⟩
      · rw [hr] at h3
        simp [frameStartWrites, menuHeader] at h3
      · rw [hr]
        simp [frameStartWrites]
      · rw [h3, newEvents_self] at hr
        simp [frameStartWrites] at hr
    | false =>
      have hn := SetTriggerControls_nothing s w h hfs
      refine ⟨⟨fun h3 => ?_, fun h3 => absurd h3 h⟩, ⟨fun h3 => ?_, fun h3 => by simp at h3⟩,
        ⟨fun _ => ⟨h, rfl⟩, fun _ => hn⟩⟩
      · rw [hn, newEvents_self] at h3
        simp at h3
      · rw [hn, newEvents_self] at h3
        simp [frameStartWrites] at h3


theorem mem_newEvents_of_later {α : Type} {w w1 : World} {o : Outcome α} (pre : List Event)
    {e : Event} (h1 : w1.trace = w.trace ++ pre) (he : e ∈ newEvents w1 o) :
    e ∈ newEvents w o := by
  unfold newEvents at he ⊢
  rw [h1, List.length_append, ← List.drop_drop] at he
  exact List.mem_of_mem_drop he

theorem menuSwitch_invalid (s : TriggerSetup) (again : Prog TriggerSetup) (w : World)
    (k : MIL_INT) (ks : List MIL_INT) (hk : w.keys = k :: ks) (hbad : k ∉ menuKeys) :
    menuSwitch s again w = again
      { w with
        keys := ks
        trace := w.trace ++ [.MosGetch k, .MosPrintf "Invalid selection." []] } := by
  have hget : MosGetch w = .ret k { w with keys := ks, trace := w.trace ++ [.MosGetch k] } := by
    simp [MosGetch, hk]
  simp only [menuKeys, List.mem_cons, List.mem_singleton, not_or, List.not_mem_nil,
    or_false] at hbad
  obtain ⟨h1, h2, h3, h4, h5, h6⟩ := hbad
  unfold menuSwitch
  rw [bind_ret hget]
  simp [h1, h2, h3, h4, h5, h6, bind_apply, MosPrintf]

theorem menuSwitch_getch (s : TriggerSetup) (again : Prog TriggerSetup) (w : World)
    (hagain : Emits setupKinds again)
    (k : MIL_INT) (ks : List MIL_INT) (hk : w.keys = k :: ks) :
    Event.MosGetch k ∈ newEvents w (menuSwitch s again w) := by
  have hget : MosGetch w = .ret k { w with keys := ks, trace := w.trace ++ [.MosGetch k] } := by
    simp [MosGetch, hk]
  have hc : Kind.console ∈ setupKinds := by decide
  have hf : Kind.controlFeature ∈ setupKinds := by decide
  unfold menuSwitch
  have hrest : ∀ m : Prog TriggerSetup, Emits setupKinds m →
      Event.MosGetch k ∈ newEvents w
        (m { w with keys := ks, trace := w.trace ++ [.MosGetch k] }) := by
    intro m hm
    rw [newEvents_after hm rfl]
    simp
  rw [bind_ret hget]
  apply hrest
  · repeat' first
      | exact Emits.pure _ _
      | exact hagain
      | exact MosPrintf_emits _ _ hc
      | exact scanf_emits _ hc
      | exact getCaps_emits _
      | exact MdigControlFeature_emits _ _ hf
      | exact SelectTriggerSource_emits
      | apply Emits.bind
      | apply Emits.ite
      | intro _

theorem menuLoop_returns_after_valid_key (s : TriggerSetup) (fuel : Nat) :
    ∀ (w : World) (s2 : TriggerSetup) (w2 : World), menuLoop s fuel w = .ret s2 w2 →
      ∃ k ∈ menuKeys, Event.MosGetch k ∈ newEvents w (Outcome.ret s2 w2) := by
  induction fuel with
  | zero => intro w s2 w2 h; simp [menuLoop] at h
  | succ n ih =>
    intro w s2 w2 h
    rw [menuLoop_succ] at h
    generalize hw1 : ({ w with trace := w.trace ++
      (menuHeader :: menuOptions w.caps ++ [.MosPrintf "\n" []]) } : World) = w1 at h
    have ht : w1.trace = w.trace ++ (menuHeader :: menuOptions w.caps ++ [.MosPrintf "\n" []]) := by
      rw [← hw1]
    cases hk : w1.keys with
    | nil =>
      have : MosGetch w1 = .halt .hang w1 := by simp [MosGetch, hk]
      unfold menuSwitch at h
      rw [bind_halt this] at h
      cases h
    | cons k ks =>
      by_cases hv : k ∈ menuKeys
      · refine ⟨k, hv, mem_newEvents_of_later _ ht ?_⟩
        rw [← h]
        exact menuSwitch_getch s _ w1 (menuLoop_emits s n) k ks hk
      · rw [menuSwitch_invalid s _ w1 k ks hk hv] at h
        obtain ⟨k2, hk2, hm⟩ := ih _ s2 w2 h
        exact ⟨k2, hk2, mem_newEvents_of_later _ ht (mem_newEvents_of_later
          [.MosGetch k, .MosPrintf "Invalid selection." []] rfl hm)⟩

/-- C7. Every display of the menu of `SetTriggerControls` consists of the question, the
option lines, and a line break, after which the key is read; the option lines are those
of (C), (M), (S) whose support flag is set, in that order and each at most once. -/
theorem SetTriggerControls_menu_options (s : TriggerSetup) (w : World)
    (h : w.caps.CanTriggerAcquisitionStart = true ∧
      w.caps.MultipleAcquisitionModeSupport ≠ 0) :
    SetTriggerControls s w = menuLoop s (w.keys.length + 1) w ∧
    (∀ (fuel : Nat) (w1 : World), menuLoop s (fuel + 1) w1 =
      menuSwitch s (menuLoop s fuel)
        { w1 with trace := w1.trace ++
            (menuHeader :: menuOptions w1.caps ++ [.MosPrintf "\n" []]) }) ∧
    (∀ caps : Capabilities,
      (optionC ∈ menuOptions caps ↔ caps.ContinuousAMSupport = true) ∧
      (optionM ∈ menuOptions caps ↔ caps.MultiFrameAMSupport = true) ∧
      (optionS ∈ menuOptions caps ↔ caps.SingleFrameAMSupport = true) ∧
      List.Sublist (menuOptions caps) [optionC, optionM, optionS] ∧
      (menuOptions caps).Nodup) := by
  refine ⟨SetTriggerControls_menu s w h, fun fuel w1 => menuLoop_succ s fuel w1, fun caps => ?_⟩
  unfold menuOptions
  cases caps.ContinuousAMSupport <;> cases caps.MultiFrameAMSupport <;>
    cases caps.SingleFrameAMSupport <;> simp [optionC, optionM, optionS]

/-- C8. In the menu of `SetTriggerControls` a key other than the six accepted ones makes
only console calls, and the function then continues exactly as a fresh call with the same
arguments would in the world where that key has been consumed, so the menu is shown
again; and a call that returns has read one of the six keys. -/
theorem SetTriggerControls_invalid_key (s : TriggerSetup) (w : World)
    (h : w.caps.CanTriggerAcquisitionStart = true ∧
      w.caps.MultipleAcquisitionModeSupport ≠ 0) :
    (∀ (k : MIL_INT) (ks : List MIL_INT), w.keys = k :: ks → k ∉ menuKeys →
      SetTriggerControls s w = SetTriggerControls s
        { w with
          keys := ks
          trace := w.trace ++ (menuHeader :: menuOptions w.caps ++
            [.MosPrintf "\n" [], .MosGetch k, .MosPrintf "Invalid selection." []]) } ∧
      ∀ e ∈ menuHeader :: menuOptions w.caps ++
          [.MosPrintf "\n" [], .MosGetch k, .MosPrintf "Invalid selection." []],
        e.kind = .console) ∧
    (∀ (s2 : TriggerSetup) (w2 : World), SetTriggerControls s w = .ret s2 w2 →
      ∃ k ∈ menuKeys, Event.MosGetch k ∈ newEvents w (SetTriggerControls s w)) := by
  constructor
  · intro k ks hk hbad
    constructor
    · have e2 := SetTriggerControls_menu s
        { w with
          keys := ks
          trace := w.trace ++ (menuHeader :: menuOptions w.caps ++
            [.MosPrintf "\n" [], .MosGetch k, .MosPrintf "Invalid selection." []]) } h
      have e3 := menuSwitch_invalid s (menuLoop s (ks.length + 1))
        { w with trace := w.trace ++ (menuHeader :: menuOptions w.caps ++ [.MosPrintf "\n" []]) }
        k ks hk hbad
      rw [SetTriggerControls_menu s w h, e2, hk]
      simp only [List.length_cons]
      rw [menuLoop_succ, e3]
      simp
    · intro e he
      simp only [List.mem_cons, List.mem_append, List.mem_singleton, List.not_mem_nil,
        or_false] at he
      rcases he with (rfl | he) | rfl | rfl | rfl
      · rfl
      · unfold menuOptions at he
        simp only [List.mem_append] at he
        rcases he with (he | he) | he <;> split at he <;> simp at he <;> subst he <;> rfl
      · rfl
      · rfl
      · rfl
  · intro s2 w2 hret
    rw [hret]
    rw [SetTriggerControls_menu s w h] at hret
    exact menuLoop_returns_after_valid_key s _ w s2 w2 hret


theorem Outcome.eq_ret_of_value {α : Type} {o : Outcome α} {a : α} (h : o.value? = some a) :
    o = .ret a o.world := by
  cases o with
  | ret b w => simp [Outcome.value?] at h; subst h; rfl
  | halt r w => simp [Outcome.value?] at h

/-- C10, as amended. In its fallback branch `SetTriggerControls` writes
`TriggerSelector = "FrameStart"` and `TriggerMode = "On"`, announces the frame-start
trigger, selects the trigger source, and, when that returns, hands back the single-frame
trigger type with `oTriggerSelector = "FrameStart"` and `NbFrames` untouched. -/
theorem SetTriggerControls_fallback_single_frame (s : TriggerSetup) (w : World)
    (h : ¬ (w.caps.CanTriggerAcquisitionStart = true ∧
      w.caps.MultipleAcquisitionModeSupport ≠ 0))
    (hfs : w.caps.CanTriggerFrameStart = true) :
    (newEvents w (SetTriggerControls s w)).take 3 = frameStartWrites ∧
    SetTriggerControls s w =
      (match SelectTriggerSource { w with trace := w.trace ++ frameStartWrites } with
       | .ret soft w2 =>
         .ret { TriggerType := .eSingleFrame, NbFrames := s.NbFrames,
                oTriggerSelector := "FrameStart", SoftwareTriggerSelected := soft } w2
       | .halt r w2 => .halt r w2) := by
  refine ⟨((SetTriggerControls_branch s w).2.1).2 ⟨h, hfs⟩, ?_⟩
  rw [SetTriggerControls_fallback s w h hfs, bind_apply]
  cases SelectTriggerSource { w with trace := w.trace ++ frameStartWrites } <;> rfl

theorem SetTriggerControls_fallback_single_frame_witness :
    (SetTriggerControls initialSetup
      (sampleWorld twoSourceCamera frameStartCaps [] [0])).value? =
      some { TriggerType := .eSingleFrame, NbFrames := 10,
             oTriggerSelector := "FrameStart", SoftwareTriggerSelected := false } := by
  rw [(SetTriggerControls_fallback_single_frame initialSetup
    (sampleWorld twoSourceCamera frameStartCaps [] [0]) (by decide) (by decide)).2]
  decide!

/-- C10 fails as stated: on a camera that can only trigger frame starts, with `Line1`
chosen as source, the fallback branch makes no `AcquisitionMode` write and hands back
`eSingleFrame`, not `eContinuous`. -/
theorem SetTriggerControls_fallback_not_continuous :
    ¬ (Event.MdigControlFeature "TriggerSelector" (.str "FrameStart") ∈
          newEvents (sampleWorld twoSourceCamera frameStartCaps [] [0])
            (SetTriggerControls initialSetup (sampleWorld twoSourceCamera frameStartCaps [] [0])) ∧
        Event.MdigControlFeature "TriggerMode" (.str "On") ∈
          newEvents (sampleWorld twoSourceCamera frameStartCaps [] [0])
            (SetTriggerControls initialSetup (sampleWorld twoSourceCamera frameStartCaps [] [0])) ∧
        Event.MdigControlFeature "AcquisitionMode" (.str "Continuous") ∈
          newEvents (sampleWorld twoSourceCamera frameStartCaps [] [0])
            (SetTriggerControls initialSetup (sampleWorld twoSourceCamera frameStartCaps [] [0])) ∧
        ((SetTriggerControls initialSetup
          (sampleWorld twoSourceCamera frameStartCaps [] [0])).value?.map
            (fun s => s.TriggerType)) = some .eContinuous) := by
  decide!

theorem SetTriggerControls_branch_witness :
    (newEvents (sampleWorld twoSourceCamera menuCaps [key 'c'] [0])
      (SetTriggerControls initialSetup
        (sampleWorld twoSourceCamera menuCaps [key 'c'] [0]))).head? = some menuHeader :=
  ((SetTriggerControls_branch initialSetup
    (sampleWorld twoSourceCamera menuCaps [key 'c'] [0])).1).2 (by decide)

theorem SetTriggerControls_menu_options_witness :
    SetTriggerControls initialSetup (sampleWorld twoSourceCamera menuCaps [key 'x', key 'c'] [0]) =
      menuLoop initialSetup 3 (sampleWorld twoSourceCamera menuCaps [key 'x', key 'c'] [0]) :=
  (SetTriggerControls_menu_options initialSetup
    (sampleWorld twoSourceCamera menuCaps [key 'x', key 'c'] [0]) (by decide)).1

theorem SetTriggerControls_invalid_key_witness :
    ∃ k ∈ menuKeys, Event.MosGetch k ∈
      newEvents (sampleWorld twoSourceCamera menuCaps [key 'x', key 'c'] [0])
        (SetTriggerControls initialSetup
          (sampleWorld twoSourceCamera menuCaps [key 'x', key 'c'] [0])) :=
  (SetTriggerControls_invalid_key initialSetup
    (sampleWorld twoSourceCamera menuCaps [key 'x', key 'c'] [0]) (by decide)).2
      { TriggerType := .eContinuous, NbFrames := 10, oTriggerSelector := "AcquisitionStart",
        SoftwareTriggerSelected := false }
      (SetTriggerControls initialSetup
        (sampleWorld twoSourceCamera menuCaps [key 'x', key 'c'] [0])).world
      (Outcome.eq_ret_of_value (by decide!))


/-! ## The acquisition loop -/

theorem waitForStop_emits (s : TriggerSetup) : Emits loopKinds (waitForStop s) := by
  have hc : Kind.console ∈ loopKinds := by decide
  unfold waitForStop
  repeat' first
    | exact Emits.pure _ _
    | exact MosGetch_emits hc
    | exact MosKbhit_emits hc
    | exact Emits.fueled _ (softwareTriggerLoop_emits _ _)
    | apply Emits.bind
    | apply Emits.ite
    | intro _

theorem take_succ_reverse {α : Type} (l : List α) (n : Nat) (h : n < l.length) :
    (l.take (n + 1)).reverse = l[n] :: (l.take n).reverse := by
  rw [List.take_succ, List.getElem?_eq_getElem h]
  simp

theorem freeLoop_apply (list : List MIL_ID) (size : Nat) :
    ∀ w : World, size ≤ list.length →
      freeLoop list size w =
        .ret () { w with trace := w.trace ++ ((list.take size).reverse.map .MbufFree) } := by
  induction size with
  | zero => intro w _; simp [freeLoop]
  | succ n ih =>
    intro w h
    have hn : n < list.length := h
    unfold freeLoop
    rw [List.getElem?_eq_getElem hn]
    simp only [bind_apply, emit_apply, andThen_ret]
    rw [ih _ (Nat.le_of_lt hn), take_succ_reverse list n hn]
    simp

theorem MbufAlloc2d_apply (w : World) :
    ∃ id allocs, MbufAlloc2d w =
      .ret id { w with allocs := allocs, trace := w.trace ++ [.MbufAlloc2d id] } := by
  unfold MbufAlloc2d
  cases h : w.allocs with
  | nil => exact ⟨0, w.allocs, by simp [h]⟩
  | cons b bs => exact ⟨b, bs, rfl⟩

theorem allocLoop_spec (len : Nat) (todo : Nat) :
    ∀ (size : Nat) (list : List MIL_ID) (w : World) (list2 : List MIL_ID) (size2 : Nat)
      (w2 : World),
      allocLoop len todo size list w = .ret (list2, size2) w2 → size = list.length →
      size ≤ len →
      ∃ evs, w2.trace = w.trace ++ evs ∧ (∀ e ∈ evs, e.kind ∈ [Kind.inquire, Kind.buffer]) ∧
        freed evs = [] ∧ list2.take size2 = list ++ allocated evs ∧
        size2 = (list ++ allocated evs).length ∧ size2 ≤ len ∧
        w2.keys = w.keys ∧ w2.kbhit = w.kbhit := by
  induction todo with
  | zero =>
    intro size list w list2 size2 w2 h hs hl
    simp only [allocLoop, Prog_pure_apply, Outcome.ret.injEq, Prod.mk.injEq] at h
    obtain ⟨⟨rfl, rfl⟩, rfl⟩ := h
    exact ⟨[], by simp, by simp, rfl, by simp [allocated, hs], by simp [allocated, hs], hl,
      rfl, rfl⟩
  | succ n ih =>
    intro size list w list2 size2 w2 h hs hl
    unfold allocLoop at h
    simp only [bind_apply, MdigInquireInt, andThen_ret] at h
    by_cases hlt : size < len
    · simp only [hlt, if_true, bind_apply] at h
      obtain ⟨id, allocs, ha⟩ := MbufAlloc2d_apply
        { w with trace := w.trace ++ [.MdigInquire "M_SIZE_X"] ++ [.MdigInquire "M_SIZE_Y"] }
      rw [ha, andThen_ret] at h
      by_cases hid : id = 0
      · subst hid
        simp only [ne_eq, not_true_eq_false, if_false, Prog_pure_apply, Outcome.ret.injEq,
          Prod.mk.injEq] at h
        obtain ⟨⟨rfl, rfl⟩, rfl⟩ := h
        refine ⟨[.MdigInquire "M_SIZE_X", .MdigInquire "M_SIZE_Y", .MbufAlloc2d 0], by simp,
          by simp [Event.kind], by simp [freed], ?_, ?_, hl, rfl, rfl⟩
        · simp [allocated, hs]
        · simp [allocated, hs]
      · simp only [ne_eq, hid, not_false_eq_true, if_true, emit_apply, bind_apply,
          andThen_ret] at h
        obtain ⟨evs, h1, h2, h3, h4, h5, h6, h7, h8⟩ :=
          ih _ _ _ _ _ _ h (by simp [hs]) hlt
        refine ⟨[.MdigInquire "M_SIZE_X", .MdigInquire "M_SIZE_Y", .MbufAlloc2d id,
          .MbufClear id 0xFF] ++ evs, by simp [h1], ?_, ?_, ?_, ?_, h6, h7, h8⟩
        · intro e he
          simp only [List.mem_append, List.mem_cons, List.mem_singleton, List.not_mem_nil,
            or_false] at he
          rcases he with (rfl | rfl | rfl | rfl) | he
          · simp [Event.kind]
          · simp [Event.kind]
          · simp [Event.kind]
          · simp [Event.kind]
          · exact h2 e he
        · simpa [freed] using h3
        · rw [h4]
          simp [allocated, hid]
        · rw [h5]
          simp [allocated, hid]
    · simp only [hlt, if_false] at h
      cases h


theorem andThen_eq_ret {α β : Type} {o : Outcome α} {f : α → World → Outcome β} {b : β}
    {w2 : World} (h : o.andThen f = .ret b w2) : ∃ a w1, o = .ret a w1 ∧ f a w1 = .ret b w2 := by
  cases o with
  | ret a w1 => exact ⟨a, w1, rfl, h⟩
  | halt r w1 => cases h

theorem Emits.of_ret {α : Type} {ks : List Kind} {m : Prog α} (hm : Emits ks m) {w w1 : World}
    {a : α} (h : m w = .ret a w1) : ∃ evs, w1.trace = w.trace ++ evs ∧ ∀ e ∈ evs, e.kind ∈ ks := by
  obtain ⟨evs, h1, h2⟩ := hm w
  rw [h] at h1
  exact ⟨evs, h1, h2⟩

theorem processLoop_spec (s : TriggerSetup) (buffers : List MIL_ID) (size : Nat)
    (StartOp : ProcessOp) (fuel : Nat) :
    ∀ (w w2 : World), processLoop s buffers size StartOp fuel w = .ret () w2 →
      ∃ evs, w2.trace = w.trace ++ evs ++ [.MdigProcess buffers size .stop] ∧
        ∀ e ∈ evs, e.kind ∈ loopKinds := by
  induction fuel with
  | zero => intro w w2 h; cases h
  | succ n ih =>
    intro w w2 h
    unfold processLoop at h
    simp only [bind_apply, emit_apply, andThen_ret] at h
    obtain ⟨Done, w1, hd, h⟩ := andThen_eq_ret h
    obtain ⟨devs, hd1, hd2⟩ := (waitForStop_emits s).of_ret hd
    simp only [bind_apply, emit_apply, andThen_ret] at h
    by_cases hD : Done = 0
    · simp only [hD, ne_eq, not_true_eq_false, if_false] at h
      obtain ⟨evs, h1, h2⟩ := ih _ _ h
      refine ⟨[.MdigProcess buffers size StartOp] ++ devs ++
        [.MdigProcess buffers size .stopWait] ++ evs, ?_, ?_⟩
      · rw [h1]
        simp [hd1]
      · intro e he
        simp only [List.mem_append, List.mem_singleton] at he
        rcases he with ((rfl | he) | rfl) | he
        · simp [Event.kind, loopKinds]
        · exact hd2 e he
        · simp [Event.kind, loopKinds]
        · exact h2 e he
    · simp only [hD, ne_eq, not_false_eq_true, if_true, Prog_pure_apply, Outcome.ret.injEq,
        true_and] at h
      subst h
      refine ⟨[.MdigProcess buffers size StartOp] ++ devs, ?_, ?_⟩
      · simp [hd1]
      · intro e he
        simp only [List.mem_append, List.mem_singleton] at he
        rcases he with rfl | he
        · simp [Event.kind, loopKinds]
        · exact hd2 e he


theorem arrayNew_ret {n : Int} {w w1 : World} {len : Nat} (h : arrayNew n w = .ret len w1) :
    w1 = w ∧ 0 ≤ n ∧ len = n.toNat := by
  rcases arrayNew_cases n w with e | e
  · rw [e] at h
    cases h
    by_cases hn : n < 0 ∨ (w.dev.limit : Int) < n
    · rw [arrayNew_throws hn] at e
      cases e
    · exact ⟨rfl, by omega, rfl⟩
  · rw [e] at h
    cases h

theorem arrayLength_ret {inf n : Int} {w w1 : World} {len : Nat}
    (h : (if n = inf then Prog.pure 10 else arrayNew n) w = .ret len w1) :
    w1 = w ∧ (if n = inf then len = 10 else 0 ≤ n ∧ len = n.toNat) := by
  by_cases hn : n = inf
  · rw [if_pos hn] at h ⊢
    simp only [Prog_pure_apply, Outcome.ret.injEq] at h
    exact ⟨h.2.symm, h.1.symm⟩
  · rw [if_neg hn] at h ⊢
    obtain ⟨h1, h2, h3⟩ := arrayNew_ret h
    exact ⟨h1, h2, h3⟩

theorem allocated_eq_nil {evs : List Event} (h : ∀ e ∈ evs, e.kind ≠ .buffer) :
    allocated evs = [] := by
  unfold allocated
  rw [List.filterMap_eq_nil_iff]
  intro e he
  have := h e he
  cases e <;> simp_all [Event.kind]

theorem freed_eq_nil {evs : List Event} (h : ∀ e ∈ evs, e.kind ≠ .buffer) :
    freed evs = [] := by
  unfold freed
  rw [List.filterMap_eq_nil_iff]
  intro e he
  have := h e he
  cases e <;> simp_all [Event.kind]

theorem allocated_append (a b : List Event) : allocated (a ++ b) = allocated a ++ allocated b := by
  simp [allocated]

theorem freed_append (a b : List Event) : freed (a ++ b) = freed a ++ freed b := by
  simp [freed]

theorem freed_map_MbufFree (l : List MIL_ID) : freed (l.map .MbufFree) = l := by
  induction l with
  | nil => rfl
  | cons a t ih => simpa [freed] using ih

theorem allocated_map_MbufFree (l : List MIL_ID) : allocated (l.map .MbufFree) = [] := by
  induction l with
  | nil => rfl
  | cons a t ih => simp [allocated]

theorem acquire_ret {inf : Int} {s : TriggerSetup} {w w2 : World}
    (h : acquire inf s w = .ret () w2) :
    ∃ pre loop bufs, w2.trace = w.trace ++ pre ++ loop ++
        [.MdigProcess bufs bufs.length .stop] ++ resetEvents ++ bufs.reverse.map .MbufFree ∧
      allocated pre = bufs ∧ freed pre = [] ∧
      (∀ e ∈ pre, e.kind ∈ [Kind.errorPrint, .inquire, .buffer, .other, .console]) ∧
      (∀ e ∈ loop, e.kind ∈ loopKinds) := by
  unfold acquire at h
  simp only [bind_apply] at h
  obtain ⟨len, w0, h0, g1⟩ := andThen_eq_ret h
  clear h
  obtain ⟨rfl, -⟩ := arrayLength_ret h0
  simp only [bind_apply, MappControlError, emit_apply, andThen_ret] at g1
  obtain ⟨⟨list, size⟩, w1, ha, g2⟩ := andThen_eq_ret g1
  clear g1
  obtain ⟨evsA, a1, a2, a3, a4, a5, a6, -, -⟩ := allocLoop_spec _ _ _ _ _ _ _ _ ha rfl
    (Nat.zero_le _)
  simp only [List.nil_append] at a4 a5
  have hsz : size ≤ list.length := by
    have := congrArg List.length a4
    rw [List.length_take, ← a5] at this
    omega
  have hmsg : ∃ msg, (if s.SoftwareTriggerSelected = true then
        emit (.MosPrintf "\n\nPress <t> to do a software trigger.\n" [])
      else emit (.MosPrintf "\n\nWaiting for a input trigger signal.\n" [])) =
      emit (.MosPrintf msg []) := by
    split
    · exact ⟨_, rfl⟩
    · exact ⟨_, rfl⟩
  obtain ⟨msg, hmsg⟩ := hmsg
  simp only [bind_apply, MosPrintf, hmsg, emit_apply, andThen_ret] at g2
  obtain ⟨_, w3, hp, g3⟩ := andThen_eq_ret g2
  clear g2
  obtain ⟨evsP, p1, p2⟩ := processLoop_spec _ _ _ _ _ _ _ hp
  rw [bind_apply, ResetTriggerControls_apply, andThen_ret, freeLoop_apply _ _ _ hsz] at g3
  simp only [Outcome.ret.injEq, true_and] at g3
  subst g3
  refine ⟨[.MappControlError false] ++ evsA ++ [.MappControlError true,
    .MdigControl "M_GRAB_TIMEOUT" "M_INFINITE", .MosPrintf msg [],
    .MosPrintf "Press any other key to quit.\n\n" []], evsP, list.take size, ?_, ?_, ?_, ?_, p2⟩
  · have hl : (list.take size).length = size := by rw [a4]; exact a5.symm
    simp only [p1, a1, hl]
    simp [List.append_assoc]
  · rw [allocated_append, allocated_append, ← a4]
    simp [allocated]
  · rw [freed_append, freed_append, a3]
    simp [freed]
  · intro e he
    simp only [List.mem_append, List.mem_cons, List.mem_singleton, List.not_mem_nil,
      or_false] at he
    rcases he with (rfl | he) | rfl | rfl | rfl | rfl
    · simp [Event.kind]
    · have := a2 e he
      simp only [List.mem_cons, List.mem_singleton, List.not_mem_nil, or_false] at this ⊢
      rcases this with h | h <;> simp [h]
    · simp [Event.kind]
    · simp [Event.kind]
    · simp [Event.kind]
    · simp [Event.kind]


theorem DoTriggeredAcquisition_ret {inf : Int} {w w2 : World}
    (h : DoTriggeredAcquisition inf w = .ret () w2) :
    ∃ setup pre loop bufs, newEvents w (DoTriggeredAcquisition inf w) =
        setup ++ pre ++ loop ++ [.MdigProcess bufs bufs.length .stop] ++ resetEvents ++
          bufs.reverse.map .MbufFree ∧
      (∀ e ∈ setup, e.kind ∈ setupKinds) ∧
      allocated pre = bufs ∧ freed pre = [] ∧
      (∀ e ∈ pre, e.kind ∈ [Kind.errorPrint, .inquire, .buffer, .other, .console]) ∧
      (∀ e ∈ loop, e.kind ∈ loopKinds) := by
  have h0 := h
  unfold DoTriggeredAcquisition at h0
  obtain ⟨s, w1, hs, ha⟩ := bind_eq_ret h0
  obtain ⟨setup, s1, s2⟩ := (SetTriggerControls_emits initialSetup).of_ret hs
  obtain ⟨pre, loop, bufs, a1, a2, a3, a4, a5⟩ := acquire_ret ha
  refine ⟨setup, pre, loop, bufs, ?_, s2, a2, a3, a4, a5⟩
  rw [h]
  apply newEvents_eq
  simp only [world_ret, a1, s1, List.append_assoc]

/-- C4. In a run of `DoTriggeredAcquisition` that returns, the buffers passed to
`MbufFree` are, in order, the reverse of the buffers `MbufAlloc2d` allocated
successfully: as many are freed as were allocated, and none is freed twice unless the
runtime handed the same identifier out twice. -/
theorem DoTriggeredAcquisition_frees_allocated (inf : Int) (w w2 : World)
    (h : DoTriggeredAcquisition inf w = .ret () w2) :
    freed (newEvents w (DoTriggeredAcquisition inf w)) =
      (allocated (newEvents w (DoTriggeredAcquisition inf w))).reverse ∧
    (freed (newEvents w (DoTriggeredAcquisition inf w))).length =
      (allocated (newEvents w (DoTriggeredAcquisition inf w))).length ∧
    ((allocated (newEvents w (DoTriggeredAcquisition inf w))).Nodup →
      (freed (newEvents w (DoTriggeredAcquisition inf w))).Nodup) := by
  obtain ⟨setup, pre, loop, bufs, e, s2, a2, a3, a4, a5⟩ := DoTriggeredAcquisition_ret h
  have hS : ∀ e ∈ setup, e.kind ≠ .buffer := by
    intro e he hk
    have := s2 e he
    rw [hk] at this
    simp [setupKinds] at this
  have hL : ∀ e ∈ loop, e.kind ≠ .buffer := by
    intro e he hk
    have := a5 e he
    rw [hk] at this
    simp [loopKinds] at this
  have hR : ∀ e ∈ resetEvents, e.kind ≠ .buffer := by
    intro e he
    simp only [resetEvents, List.mem_cons, List.mem_singleton, List.not_mem_nil, or_false] at he
    rcases he with rfl | rfl | rfl | rfl | rfl | rfl <;> simp [Event.kind]
  have hfree : freed (newEvents w (DoTriggeredAcquisition inf w)) = bufs.reverse := by
    rw [e]
    simp only [freed_append, freed_eq_nil hS, freed_eq_nil hL, freed_eq_nil hR, a3,
      freed_map_MbufFree]
    simp [freed]
  have halloc : allocated (newEvents w (DoTriggeredAcquisition inf w)) = bufs := by
    rw [e]
    simp only [allocated_append, allocated_eq_nil hS, allocated_eq_nil hL, allocated_eq_nil hR,
      a2, allocated_map_MbufFree]
    simp [allocated]
  rw [hfree, halloc]
  exact ⟨rfl, by simp, fun hn => List.nodup_reverse.mpr hn⟩

theorem TriggerState.run_append (st : TriggerState) (a b : List Event) :
    st.run (a ++ b) = (st.run a).run b := by
  simp [TriggerState.run]

theorem TriggerState.run_resetEvents (st : TriggerState) :
    (st.run resetEvents).mode "FrameStart" = "Off" ∧
    (st.run resetEvents).mode "AcquisitionStart" = "Off" := by
  simp [TriggerState.run, resetEvents, TriggerState.write]

theorem TriggerState.run_frees (st : TriggerState) (l : List MIL_ID) :
    st.run (l.map .MbufFree) = st := by
  induction l generalizing st with
  | nil => rfl
  | cons a t ih => simpa [TriggerState.run, TriggerState.write] using ih st

/-- C5. Over a device that stores `TriggerMode` per `TriggerSelector` value:
whatever the state before, after the calls of `ResetTriggerControls` the trigger mode of
both `FrameStart` and `AcquisitionStart` is `Off`; and a run of `DoTriggeredAcquisition`
that returns ends with a processing stop `M_STOP`, the calls of `ResetTriggerControls`,
and buffer frees only, so it returns with both modes `Off`. -/
theorem DoTriggeredAcquisition_resets_trigger_modes (inf : Int) (w w2 : World)
    (h : DoTriggeredAcquisition inf w = .ret () w2) (st : TriggerState) :
    (∀ (w0 : World) (st0 : TriggerState),
      (st0.run (newEvents w0 (ResetTriggerControls w0))).mode "FrameStart" = "Off" ∧
      (st0.run (newEvents w0 (ResetTriggerControls w0))).mode "AcquisitionStart" = "Off") ∧
    (∃ before bufs, newEvents w (DoTriggeredAcquisition inf w) =
        before ++ [.MdigProcess bufs bufs.length .stop] ++
          newEvents w2 (ResetTriggerControls w2) ++ bufs.reverse.map .MbufFree) ∧
    (st.run (newEvents w (DoTriggeredAcquisition inf w))).mode "FrameStart" = "Off" ∧
    (st.run (newEvents w (DoTriggeredAcquisition inf w))).mode "AcquisitionStart" = "Off" := by
  have hreset : ∀ w0 : World, newEvents w0 (ResetTriggerControls w0) = resetEvents := by
    intro w0
    rw [ResetTriggerControls_apply]
    exact newEvents_eq rfl
  obtain ⟨setup, pre, loop, bufs, e, -⟩ := DoTriggeredAcquisition_ret h
  refine ⟨fun w0 st0 => ?_, ⟨setup ++ pre ++ loop, bufs, ?_⟩, ?_⟩
  · rw [hreset]
    exact TriggerState.run_resetEvents st0
  · rw [hreset, e]
  · rw [e, TriggerState.run_append, TriggerState.run_append, TriggerState.run_frees]
    exact TriggerState.run_resetEvents _


theorem softwareTriggerLoop_T (t : eTriggerType) (sel : String) (fuel : Nat) (w : World)
    (k : MIL_INT) (ks : List MIL_INT) (hk : w.keys = k :: ks)
    (hT : k = key 'T' ∨ k = key 't') :
    softwareTriggerLoop t sel (fuel + 1) w =
      (if t = .eMultiFrame then Prog.pure 0 else softwareTriggerLoop t sel fuel)
        { w with
          keys := ks
          trace := w.trace ++ [.MosGetch k, .MdigControlFeature "TriggerSelector" (.str sel),
            .MdigExecuteFeature "TriggerSoftware"] } := by
  have hget : MosGetch w = .ret k { w with keys := ks, trace := w.trace ++ [.MosGetch k] } := by
    simp [MosGetch, hk]
  rw [softwareTriggerLoop, bind_ret hget]
  simp only [hT, if_true, bind_apply, MdigControlFeature, MdigExecuteFeature, emit_apply,
    andThen_ret, List.append_assoc, List.cons_append, List.nil_append]

theorem softwareTriggerLoop_other (t : eTriggerType) (sel : String) (fuel : Nat) (w : World)
    (k : MIL_INT) (ks : List MIL_INT) (hk : w.keys = k :: ks)
    (hT : ¬ (k = key 'T' ∨ k = key 't')) :
    softwareTriggerLoop t sel (fuel + 1) w =
      .ret 1 { w with keys := ks, trace := w.trace ++ [.MosGetch k] } := by
  have hget : MosGetch w = .ret k { w with keys := ks, trace := w.trace ++ [.MosGetch k] } := by
    simp [MosGetch, hk]
  rw [softwareTriggerLoop, bind_ret hget]
  simp only [hT, if_false, Prog_pure_apply]

theorem softwareTriggerLoop_run (s : TriggerSetup) (buffers : List MIL_ID) (size : Nat)
    (StartOp : ProcessOp) (hm : s.TriggerType ≠ .eMultiFrame) (other : MIL_INT)
    (rest : List MIL_INT) (ho : ¬ (other = key 'T' ∨ other = key 't')) (Ts : List MIL_INT) :
    ∀ (w : World) (fuel : Nat), w.keys = Ts ++ other :: rest →
      (∀ k ∈ Ts, k = key 'T' ∨ k = key 't') → Ts.length + 1 ≤ fuel →
      softwareTriggerLoop s.TriggerType s.oTriggerSelector fuel w =
        .ret 1 { w with
          keys := rest
          trace := w.trace ++ (triggerEvents s buffers size StartOp Ts ++ [.MosGetch other]) } := by
  induction Ts with
  | nil =>
    intro w fuel hk _ hf
    obtain ⟨n, rfl⟩ : ∃ n, fuel = n + 1 := ⟨fuel - 1, by simp at hf; omega⟩
    rw [softwareTriggerLoop_other _ _ _ _ other rest hk ho]
    simp [triggerEvents]
  | cons k Ts ih =>
    intro w fuel hk hT hf
    obtain ⟨n, rfl⟩ : ∃ n, fuel = n + 1 := ⟨fuel - 1, by simp at hf; omega⟩
    rw [softwareTriggerLoop_T _ _ _ _ k (Ts ++ other :: rest) hk (hT k (by simp)), if_neg hm,
      ih _ n rfl (fun j hj => hT j (by simp [hj])) (by simp at hf; omega)]
    simp [triggerEvents, hm]

theorem processLoop_software (s : TriggerSetup) (buffers : List MIL_ID) (size : Nat)
    (StartOp : ProcessOp) (hs : s.SoftwareTriggerSelected = true) (other : MIL_INT)
    (rest : List MIL_INT) (ho : ¬ (other = key 'T' ∨ other = key 't')) (Ts : List MIL_INT) :
    ∀ (w : World) (fuel : Nat), w.keys = Ts ++ other :: rest →
      (∀ k ∈ Ts, k = key 'T' ∨ k = key 't') → Ts.length + 1 ≤ fuel →
      processLoop s buffers size StartOp fuel w =
        .ret () { w with
          keys := rest
          trace := w.trace ++ ([.MdigProcess buffers size StartOp] ++
            triggerEvents s buffers size StartOp Ts ++
            [.MosGetch other, .MdigProcess buffers size .stop]) } := by
  by_cases hm : s.TriggerType = .eMultiFrame
  · induction Ts with
    | nil =>
      intro w fuel hk _ hf
      obtain ⟨n, rfl⟩ : ∃ n, fuel = n + 1 := ⟨fuel - 1, by simp at hf; omega⟩
      unfold processLoop
      simp only [bind_apply, emit_apply, andThen_ret, waitForStop, hs, if_true]
      rw [softwareTriggerLoop_other s.TriggerType s.oTriggerSelector w.keys.length
        { w with trace := w.trace ++ [.MdigProcess buffers size StartOp] } other rest hk ho]
      simp [triggerEvents, bind_apply]
    | cons k Ts ih =>
      intro w fuel hk hT hf
      obtain ⟨n, rfl⟩ : ∃ n, fuel = n + 1 := ⟨fuel - 1, by simp at hf; omega⟩
      unfold processLoop
      simp only [bind_apply, emit_apply, andThen_ret, waitForStop, hs, if_true]
      rw [softwareTriggerLoop_T s.TriggerType s.oTriggerSelector w.keys.length
        { w with trace := w.trace ++ [.MdigProcess buffers size StartOp] }
        k (Ts ++ other :: rest) hk (hT k (by simp)), if_pos hm]
      simp only [Prog_pure_apply, andThen_ret, ne_eq, not_true_eq_false, if_false, bind_apply,
        emit_apply]
      rw [ih _ n rfl (fun j hj => hT j (by simp [hj])) (by simp at hf; omega)]
      simp [triggerEvents, hm]
  · intro w fuel hk hT hf
    obtain ⟨n, rfl⟩ : ∃ n, fuel = n + 1 := ⟨fuel - 1, by omega⟩
    unfold processLoop
    simp only [bind_apply, emit_apply, andThen_ret, waitForStop, hs, if_true]
    rw [softwareTriggerLoop_run s buffers size StartOp hm other rest ho Ts
      { w with trace := w.trace ++ [.MdigProcess buffers size StartOp] } _ hk hT
      (by simp [hk])]
    simp [bind_apply]


theorem allocLoop_returns (len : Nat) (todo : Nat) :
    ∀ (size : Nat) (list : List MIL_ID) (w : World), size + todo ≤ len →
      ∃ list2 size2 w2, allocLoop len todo size list w = .ret (list2, size2) w2 := by
  induction todo with
  | zero => intro size list w _; exact ⟨list, size, w, rfl⟩
  | succ n ih =>
    intro size list w h
    have hlt : size < len := by omega
    unfold allocLoop
    simp only [bind_apply, MdigInquireInt, andThen_ret, hlt, if_true]
    obtain ⟨id, allocs, ha⟩ := MbufAlloc2d_apply
      { w with trace := w.trace ++ [.MdigInquire "M_SIZE_X"] ++ [.MdigInquire "M_SIZE_Y"] }
    rw [ha, andThen_ret]
    by_cases hid : id = 0
    · simp only [hid, ne_eq, not_true_eq_false, if_false, Prog_pure_apply]
      exact ⟨_, _, _, rfl⟩
    · simp only [hid, ne_eq, not_false_eq_true, if_true, bind_apply, emit_apply, andThen_ret]
      exact ih _ _ _ (by omega)

theorem acquire_software (inf : Int) (s : TriggerSetup) (w : World) (Ts : List MIL_INT)
    (other : MIL_INT) (rest : List MIL_INT)
    (hs : s.SoftwareTriggerSelected = true)
    (hfit : if s.NbFrames = inf then inf ≤ 10
      else 0 ≤ s.NbFrames ∧ s.NbFrames ≤ (w.dev.limit : Int))
    (hk : w.keys = Ts ++ other :: rest) (hT : ∀ k ∈ Ts, k = key 'T' ∨ k = key 't')
    (ho : ¬ (other = key 'T' ∨ other = key 't')) :
    ∃ pre bufs w2, acquire inf s w = .ret () w2 ∧ w2.keys = rest ∧
      w2.trace = w.trace ++ (pre ++
        triggerEvents s bufs bufs.length
          (if s.TriggerType = .eMultiFrame then .sequenceCount s.NbFrames else .start) Ts ++
        [.MosGetch other, .MdigProcess bufs bufs.length .stop] ++ resetEvents ++
        bufs.reverse.map .MbufFree) ∧
      (∀ e ∈ pre, e.kind ∈ [Kind.errorPrint, .inquire, .buffer, .other, .console, .process]) := by
  have hlen : ∃ len : Nat, (if s.NbFrames = inf then Prog.pure 10 else arrayNew s.NbFrames) w =
      .ret len w ∧ 0 + s.NbFrames.toNat ≤ len := by
    by_cases hn : s.NbFrames = inf
    · rw [if_pos hn] at hfit ⊢
      exact ⟨10, rfl, by omega⟩
    · rw [if_neg hn] at hfit ⊢
      exact ⟨s.NbFrames.toNat, arrayNew_fits hfit.1 hfit.2, by omega⟩
  obtain ⟨len, hl1, hl2⟩ := hlen
  obtain ⟨list, size, w1, ha⟩ := allocLoop_returns len s.NbFrames.toNat 0 []
    { w with trace := w.trace ++ [.MappControlError false] } hl2
  obtain ⟨evsA, a1, a2, a3, a4, a5, a6, a7, a8⟩ := allocLoop_spec _ _ _ _ _ _ _ _ ha rfl
    (Nat.zero_le _)
  simp only [List.nil_append] at a4 a5
  have hsz : size ≤ list.length := by
    have := congrArg List.length a4
    rw [List.length_take, ← a5] at this
    omega
  have hlt : (list.take size).length = size := by rw [a4]; exact a5.symm
  have hp := processLoop_software s (list.take size) size
    (if s.TriggerType = .eMultiFrame then .sequenceCount s.NbFrames else .start) hs other rest ho Ts
    { w1 with trace := w1.trace ++ [.MappControlError true] ++
        [.MdigControl "M_GRAB_TIMEOUT" "M_INFINITE"] ++
        [.MosPrintf "\n\nPress <t> to do a software trigger.\n" []] ++
        [.MosPrintf "Press any other key to quit.\n\n" []] }
    (w1.keys.length + w1.kbhit.length + 1) (by rw [a7]; exact hk) hT
    (by rw [a7, hk]; simp; omega)
  refine ⟨[.MappControlError false] ++ evsA ++ [.MappControlError true,
    .MdigControl "M_GRAB_TIMEOUT" "M_INFINITE",
    .MosPrintf "\n\nPress <t> to do a software trigger.\n" [],
    .MosPrintf "Press any other key to quit.\n\n" [],
    .MdigProcess (list.take size) size
      (if s.TriggerType = .eMultiFrame then .sequenceCount s.NbFrames else .start)],
    list.take size, ?_⟩
  unfold acquire
  simp only [bind_apply, hl1, andThen_ret, MappControlError, emit_apply, ha, MosPrintf, hs,
    if_true, hp, ResetTriggerControls_apply, freeLoop_apply _ _ _ hsz]
  refine ⟨_, rfl, rfl, ?_, ?_⟩
  · simp only [a1, hlt]
    simp [List.append_assoc]
  · intro e he
    simp only [List.mem_append, List.mem_cons, List.mem_singleton, List.not_mem_nil,
      or_false] at he
    rcases he with (rfl | he) | rfl | rfl | rfl | rfl | rfl
    · simp [Event.kind]
    · have := a2 e he
      simp only [List.mem_cons, List.mem_singleton, List.not_mem_nil, or_false] at this ⊢
      rcases this with h | h <;> simp [h]
    · simp [Event.kind]
    · simp [Event.kind]
    · simp [Event.kind]
    · simp [Event.kind]
    · simp [Event.kind]


theorem executed_append (a b : List Event) : executed (a ++ b) = executed a ++ executed b := by
  simp [executed]

theorem executed_eq_nil {evs : List Event} (h : ∀ e ∈ evs, e.kind ≠ .executeFeature) :
    executed evs = [] := by
  unfold executed
  rw [List.filterMap_eq_nil_iff]
  intro e he
  have := h e he
  cases e <;> simp_all [Event.kind]

theorem executed_triggerEvents (s : TriggerSetup) (buffers : List MIL_ID) (size : Nat)
    (StartOp : ProcessOp) (Ts : List MIL_INT) :
    executed (triggerEvents s buffers size StartOp Ts) =
      List.replicate Ts.length "TriggerSoftware" := by
  induction Ts with
  | nil => rfl
  | cons k Ts ih =>
    unfold triggerEvents
    rw [executed_append, executed_append, ih]
    split <;> simp [executed, List.replicate_succ]

/-- C3. With software triggering selected, a frame count the host can allocate the
buffer array for (`0 ≤ NbFrames ≤` the limit of the host, or `NbFrames = M_INFINITE` with
`M_INFINITE ≤ 10`, where the array has ten elements) and the pending keys being `Ts`,
all of them `T` or `t`, followed by one other key, `DoTriggeredAcquisition` returns; the
commands it
executes are exactly one `TriggerSoftware` per key of `Ts`, each right after its key is
read; the other key is answered by the processing stop `M_STOP` alone, which ends the
loop; the keys after it are left unread. -/
theorem DoTriggeredAcquisition_software_trigger (inf : Int) (w w1 : World) (s : TriggerSetup)
    (Ts : List MIL_INT) (other : MIL_INT) (rest : List MIL_INT)
    (hset : SetTriggerControls initialSetup w = .ret s w1)
    (hsoft : s.SoftwareTriggerSelected = true)
    (hfit : if s.NbFrames = inf then inf ≤ 10
      else 0 ≤ s.NbFrames ∧ s.NbFrames ≤ (w1.dev.limit : Int))
    (hkeys : w1.keys = Ts ++ other :: rest)
    (hT : ∀ k ∈ Ts, k = key 'T' ∨ k = key 't')
    (ho : ¬ (other = key 'T' ∨ other = key 't')) :
    ∃ w2 before bufs,
      DoTriggeredAcquisition inf w = .ret () w2 ∧ w2.keys = rest ∧
      newEvents w (DoTriggeredAcquisition inf w) =
        before ++
        triggerEvents s bufs bufs.length
          (if s.TriggerType = .eMultiFrame then .sequenceCount s.NbFrames else .start) Ts ++
        [.MosGetch other, .MdigProcess bufs bufs.length .stop] ++ resetEvents ++
        bufs.reverse.map .MbufFree ∧
      executed before = [] ∧
      executed (newEvents w (DoTriggeredAcquisition inf w)) =
        List.replicate Ts.length "TriggerSoftware" := by
  obtain ⟨setup, s1, s2⟩ := (SetTriggerControls_emits initialSetup).of_ret hset
  obtain ⟨pre, bufs, w2, a1, a2, a3, a4⟩ :=
    acquire_software inf s w1 Ts other rest hsoft hfit hkeys hT ho
  have hrun : DoTriggeredAcquisition inf w = .ret () w2 := by
    unfold DoTriggeredAcquisition
    rw [bind_ret hset, a1]
  have hS : executed setup = [] := by
    apply executed_eq_nil
    intro e he hk
    have := s2 e he
    rw [hk] at this
    simp [setupKinds] at this
  have hP : executed pre = [] := by
    apply executed_eq_nil
    intro e he hk
    have := a4 e he
    rw [hk] at this
    simp at this
  have hR : executed resetEvents = [] := by
    simp [executed, resetEvents]
  have hF : ∀ l : List MIL_ID, executed (l.map .MbufFree) = [] := by
    intro l
    induction l with
    | nil => rfl
    | cons a t ih => simp [executed]
  have hnew : newEvents w (DoTriggeredAcquisition inf w) = (setup ++ pre) ++
      triggerEvents s bufs bufs.length
        (if s.TriggerType = .eMultiFrame then .sequenceCount s.NbFrames else .start) Ts ++
      [.MosGetch other, .MdigProcess bufs bufs.length .stop] ++ resetEvents ++
      bufs.reverse.map .MbufFree := by
    rw [hrun]
    apply newEvents_eq
    simp only [world_ret, a3, s1, List.append_assoc]
  refine ⟨w2, setup ++ pre, bufs, hrun, a2, hnew, ?_, ?_⟩
  · rw [executed_append, hS, hP]
    rfl
  · rw [hnew]
    simp only [executed_append, hS, hP, hR, hF, executed_triggerEvents]
    simp [executed]


theorem processLoop_emits (s : TriggerSetup) (buffers : List MIL_ID) (size : Nat)
    (StartOp : ProcessOp) (fuel : Nat) :
    Emits loopKinds (processLoop s buffers size StartOp fuel) := by
  have hp : ∀ op, (Event.MdigProcess buffers size op).kind ∈ loopKinds := by
    intro op
    simp [Event.kind, loopKinds]
  induction fuel with
  | zero => exact Emits.halt _ _
  | succ n ih =>
    unfold processLoop
    repeat' first
      | exact Emits.pure _ _
      | exact ih
      | exact Emits.emit (hp _)
      | exact waitForStop_emits s
      | apply Emits.bind
      | apply Emits.ite
      | intro _

theorem freeLoop_emits (list : List MIL_ID) (size : Nat) :
    Emits [Kind.buffer] (freeLoop list size) := by
  induction size with
  | zero => exact Emits.pure _ _
  | succ n ih =>
    unfold freeLoop
    split
    · exact Emits.bind (Emits.emit (by simp [Event.kind])) (fun _ => ih)
    · exact Emits.halt _ _

theorem ResetTriggerControls_emits :
    Emits [Kind.errorPrint, Kind.controlFeature] ResetTriggerControls := by
  intro w
  rw [ResetTriggerControls_apply]
  refine ⟨resetEvents, rfl, ?_⟩
  intro e he
  simp only [resetEvents, List.mem_cons, List.mem_singleton, List.not_mem_nil, or_false] at he
  rcases he with rfl | rfl | rfl | rfl | rfl | rfl <;> simp [Event.kind]

/-- C9 fails when the frame count is `M_INFINITE`: for every value of the macro that is
not positive (MIL defines it as `-1`), a request for `M_INFINITE` frames reserves an array
but makes `DoTriggeredAcquisition` allocate no buffer at all: the first calls after the
set-up are the two error-print switches, the grab time-out, the two messages, and a
`MdigProcess` start that is handed an empty buffer list of size `0`. -/
theorem DoTriggeredAcquisition_infinite_allocates_nothing (inf : Int) (w w1 : World)
    (s : TriggerSetup)
    (hset : SetTriggerControls initialSetup w = .ret s w1)
    (hinf : s.NbFrames = inf) (hneg : inf ≤ 0) :
    ∃ rest, newEvents w1 (DoTriggeredAcquisition inf w) =
      [.MappControlError false, .MappControlError true,
        .MdigControl "M_GRAB_TIMEOUT" "M_INFINITE",
        .MosPrintf (if s.SoftwareTriggerSelected then
          "\n\nPress <t> to do a software trigger.\n"
          else "\n\nWaiting for a input trigger signal.\n") [],
        .MosPrintf "Press any other key to quit.\n\n" [],
        .MdigProcess [] 0
          (if s.TriggerType = .eMultiFrame then .sequenceCount s.NbFrames else .start)] ++
      rest := by
  subst hinf
  have htodo : s.NbFrames.toNat = 0 := by omega
  have hmsg : (if s.SoftwareTriggerSelected = true then
        emit (.MosPrintf "\n\nPress <t> to do a software trigger.\n" [])
      else emit (.MosPrintf "\n\nWaiting for a input trigger signal.\n" [])) =
      emit (.MosPrintf (if s.SoftwareTriggerSelected then
          "\n\nPress <t> to do a software trigger.\n"
          else "\n\nWaiting for a input trigger signal.\n") []) := by
    split <;> rfl
  have hrest : ∀ fuel : Nat, Emits allKinds
      ((waitForStop s >>= fun Done =>
        emit (.MdigProcess [] (0 : Nat) (if Done ≠ 0 then .stop else .stopWait)) >>= fun _ =>
        (if Done ≠ 0 then Prog.pure () else processLoop s [] 0
          (if s.TriggerType = .eMultiFrame then .sequenceCount s.NbFrames else .start) fuel))
        >>= fun _ => ResetTriggerControls >>= fun _ => freeLoop [] 0) := fun fuel =>
    Emits.bind
      (Emits.bind (waitForStop_emits s).any (fun _ =>
        Emits.bind (Emits.emit (mem_allKinds _)) (fun _ =>
          Emits.ite (Emits.pure _ _) (processLoop_emits _ _ _ _ _).any)))
      (fun _ => Emits.bind ResetTriggerControls_emits.any (fun _ => (freeLoop_emits _ _).any))
  have hrun : DoTriggeredAcquisition s.NbFrames w =
      ((waitForStop s >>= fun Done =>
        emit (.MdigProcess [] (0 : Nat) (if Done ≠ 0 then .stop else .stopWait)) >>= fun _ =>
        (if Done ≠ 0 then Prog.pure () else processLoop s [] 0
          (if s.TriggerType = .eMultiFrame then .sequenceCount s.NbFrames else .start)
          (w1.keys.length + w1.kbhit.length)))
        >>= fun _ => ResetTriggerControls >>= fun _ => freeLoop [] 0)
      { w1 with trace := w1.trace ++
        [.MappControlError false, .MappControlError true,
          .MdigControl "M_GRAB_TIMEOUT" "M_INFINITE",
          .MosPrintf (if s.SoftwareTriggerSelected then
            "\n\nPress <t> to do a software trigger.\n"
            else "\n\nWaiting for a input trigger signal.\n") [],
          .MosPrintf "Press any other key to quit.\n\n" [],
          .MdigProcess [] (0 : Nat)
            (if s.TriggerType = .eMultiFrame then .sequenceCount s.NbFrames else .start)] } := by
    unfold DoTriggeredAcquisition
    rw [bind_ret hset]
    unfold acquire
    simp only [bind_apply, if_true, Prog_pure_apply, andThen_ret, MappControlError,
      emit_apply, htodo, allocLoop, MosPrintf, hmsg, List.take_nil, processLoop,
      List.append_assoc, List.cons_append, List.nil_append]
  rw [hrun]
  exact ⟨_, newEvents_after (hrest _) rfl⟩


theorem DoTriggeredAcquisition_software_trigger_witness :
    ∃ w2 before bufs,
      DoTriggeredAcquisition (-1)
        (sampleWorld twoSourceCamera menuCaps [key 'c', key 'T', key 't', key 'q', key 'z'] [1]) =
        .ret () w2 ∧ w2.keys = [key 'z'] ∧
      newEvents
        (sampleWorld twoSourceCamera menuCaps [key 'c', key 'T', key 't', key 'q', key 'z'] [1])
        (DoTriggeredAcquisition (-1)
          (sampleWorld twoSourceCamera menuCaps
            [key 'c', key 'T', key 't', key 'q', key 'z'] [1])) =
        before ++
        triggerEvents
          { TriggerType := .eContinuous, NbFrames := 10, oTriggerSelector := "AcquisitionStart",
            SoftwareTriggerSelected := true } bufs bufs.length
          (if eTriggerType.eContinuous = .eMultiFrame then .sequenceCount 10 else .start)
          [key 'T', key 't'] ++
        [.MosGetch (key 'q'), .MdigProcess bufs bufs.length .stop] ++ resetEvents ++
        bufs.reverse.map .MbufFree ∧
      executed before = [] ∧
      executed (newEvents
        (sampleWorld twoSourceCamera menuCaps [key 'c', key 'T', key 't', key 'q', key 'z'] [1])
        (DoTriggeredAcquisition (-1)
          (sampleWorld twoSourceCamera menuCaps
            [key 'c', key 'T', key 't', key 'q', key 'z'] [1]))) =
        List.replicate [key 'T', key 't'].length "TriggerSoftware" :=
  DoTriggeredAcquisition_software_trigger (-1)
    (sampleWorld twoSourceCamera menuCaps [key 'c', key 'T', key 't', key 'q', key 'z'] [1])
    (SetTriggerControls initialSetup
      (sampleWorld twoSourceCamera menuCaps
        [key 'c', key 'T', key 't', key 'q', key 'z'] [1])).world
    { TriggerType := .eContinuous, NbFrames := 10, oTriggerSelector := "AcquisitionStart",
      SoftwareTriggerSelected := true }
    [key 'T', key 't'] (key 'q') [key 'z']
    (Outcome.eq_ret_of_value (by decide!)) rfl (by decide!) (by decide!) (by decide) (by decide)

theorem DoTriggeredAcquisition_frees_allocated_witness :
    freed (newEvents (sampleWorld twoSourceCamera menuCaps [key 'm', key 'T', key 'q'] [1, 3])
      (DoTriggeredAcquisition (-1)
        (sampleWorld twoSourceCamera menuCaps [key 'm', key 'T', key 'q'] [1, 3]))) =
    (allocated (newEvents (sampleWorld twoSourceCamera menuCaps [key 'm', key 'T', key 'q'] [1, 3])
      (DoTriggeredAcquisition (-1)
        (sampleWorld twoSourceCamera menuCaps [key 'm', key 'T', key 'q'] [1, 3])))).reverse :=
  (DoTriggeredAcquisition_frees_allocated (-1)
    (sampleWorld twoSourceCamera menuCaps [key 'm', key 'T', key 'q'] [1, 3])
    (DoTriggeredAcquisition (-1)
      (sampleWorld twoSourceCamera menuCaps [key 'm', key 'T', key 'q'] [1, 3])).world
    (Outcome.eq_ret_of_value (by decide!))).1

theorem DoTriggeredAcquisition_resets_trigger_modes_witness :
    (({ selector := "AcquisitionStart", mode := fun _ => "On" } : TriggerState).run
      (newEvents (sampleWorld twoSourceCamera menuCaps [key 'm', key 'T', key 'q'] [1, 3])
        (DoTriggeredAcquisition (-1)
          (sampleWorld twoSourceCamera menuCaps [key 'm', key 'T', key 'q'] [1, 3])))).mode
      "FrameStart" = "Off" :=
  (DoTriggeredAcquisition_resets_trigger_modes (-1)
    (sampleWorld twoSourceCamera menuCaps [key 'm', key 'T', key 'q'] [1, 3])
    (DoTriggeredAcquisition (-1)
      (sampleWorld twoSourceCamera menuCaps [key 'm', key 'T', key 'q'] [1, 3])).world
    (Outcome.eq_ret_of_value (by decide!))
    { selector := "AcquisitionStart", mode := fun _ => "On" }).2.2.1

theorem DoTriggeredAcquisition_infinite_allocates_nothing_witness :
    ∃ rest, newEvents
      (SetTriggerControls initialSetup
        (sampleWorld twoSourceCamera menuCaps [key 'm', key 'q'] [0, -1])).world
      (DoTriggeredAcquisition (-1)
        (sampleWorld twoSourceCamera menuCaps [key 'm', key 'q'] [0, -1])) =
      [.MappControlError false, .MappControlError true,
        .MdigControl "M_GRAB_TIMEOUT" "M_INFINITE",
        .MosPrintf "\n\nWaiting for a input trigger signal.\n" [],
        .MosPrintf "Press any other key to quit.\n\n" [],
        .MdigProcess [] 0 (.sequenceCount (-1))] ++ rest :=
  DoTriggeredAcquisition_infinite_allocates_nothing (-1)
    (sampleWorld twoSourceCamera menuCaps [key 'm', key 'q'] [0, -1])
    (SetTriggerControls initialSetup
      (sampleWorld twoSourceCamera menuCaps [key 'm', key 'q'] [0, -1])).world
    { TriggerType := .eMultiFrame, NbFrames := -1, oTriggerSelector := "AcquisitionStart",
      SoftwareTriggerSelected := false }
    (Outcome.eq_ret_of_value (by decide!)) rfl (by decide)


/-! ## The feature reporters -/

theorem steady_pure {α : Type} (a : α) : Steady (Pure.pure a : Prog α) := by
  intro w
  exact ⟨a, w, [], rfl, rfl, by simp, by simp⟩

theorem steady_bind {α β : Type} {m : Prog α} {f : α → Prog β}
    (hm : Steady m) (hf : ∀ a, Steady (f a)) : Steady (m >>= f) := by
  intro w
  obtain ⟨a, w1, e1, h1, d1, t1, k1⟩ := hm w
  obtain ⟨b, w2, e2, h2, d2, t2, k2⟩ := hf a w1
  refine ⟨b, w2, e1 ++ e2, ?_, d2.trans d1, ?_, ?_⟩
  · rw [bind_apply, h1, andThen_ret, h2]
  · rw [t2, t1, List.append_assoc]
  · intro e he
    rcases List.mem_append.mp he with h | h
    · exact k1 e h
    · exact k2 e h

theorem steady_ite {α : Type} {c : Prop} [Decidable c] {m n : Prog α}
    (hm : Steady m) (hn : Steady n) : Steady (if c then m else n) := by
  split
  · exact hm
  · exact hn

theorem steady_emit {e : Event} (h : e.kind ∈ reportKinds) : Steady (emit e) := by
  intro w
  exact ⟨(), _, [e], rfl, rfl, rfl, by simpa using h⟩

theorem steady_MosPrintf (fmt : String) (args : List Arg) : Steady (MosPrintf fmt args) :=
  steady_emit (by simp [Event.kind, reportKinds])

theorem steady_MdigControlFeature (name : String) (v : FeatureValue) :
    Steady (MdigControlFeature name v) :=
  steady_emit (by simp [Event.kind, reportKinds])

theorem steady_modifyCaps (f : Capabilities → Capabilities) : Steady (modifyCaps f) := by
  intro w
  exact ⟨(), _, [], rfl, rfl, by simp, by simp⟩

theorem steady_MdigInquireFeatureString (kind : FeatureKind) (name cur : String) :
    Steady (MdigInquireFeatureString kind name cur) := by
  intro w
  exact ⟨_, _, [.MdigInquireFeature kind name], rfl, rfl, rfl, by simp [Event.kind, reportKinds]⟩

theorem steady_noteAcquisitionMode (name : String) : Steady (noteAcquisitionMode name) := by
  unfold MilGige.noteAcquisitionMode
  repeat' first
    | exact steady_pure _
    | exact steady_modifyCaps _
    | apply steady_ite

theorem steady_noteTriggerSelector (name : String) : Steady (noteTriggerSelector name) := by
  unfold MilGige.noteTriggerSelector
  repeat' first
    | exact steady_pure _
    | exact steady_modifyCaps _
    | apply steady_ite

theorem steady_inquireEntryNames (feature : String) (body : String → Prog Unit)
    (hb : ∀ s, Steady (body s)) (todo : Nat) :
    ∀ i, Steady (inquireEntryNames feature body todo i) := by
  induction todo with
  | zero => intro i; exact steady_pure _
  | succ n ih =>
    intro i
    unfold MilGige.inquireEntryNames
    exact steady_bind (steady_MdigInquireFeatureString _ _ _) (fun name =>
      steady_bind (hb name) (fun _ => steady_bind (ih (i + 1)) (fun _ => steady_pure _)))

theorem steady_forEach {α : Type} (body : α → Prog Unit) (hb : ∀ a, Steady (body a))
    (l : List α) : Steady (forEach body l) := by
  induction l with
  | nil => exact steady_pure _
  | cons a t ih =>
    unfold MilGige.forEach
    exact steady_bind (hb a) (fun _ => ih)

theorem steady_inquireSelected (selector : String) (queried : List String)
    (entries : List String) : Steady (inquireSelected selector queried entries) := by
  have hrow : Steady (queried.foldr
      (fun name (acc : Prog (List String)) => do
        let v ← MilGige.MdigInquireFeatureString .value name ""
        let vs ← acc
        Prog.pure (v :: vs))
      (Prog.pure [])) := by
    induction queried with
    | nil => exact steady_pure _
    | cons q t ih =>
      exact steady_bind (steady_MdigInquireFeatureString _ _ _) (fun _ =>
        steady_bind ih (fun _ => steady_pure _))
  induction entries with
  | nil => exact steady_pure _
  | cons e t ih =>
    unfold MilGige.inquireSelected
    exact steady_bind (steady_MdigControlFeature _ _) (fun _ =>
      steady_bind hrow (fun _ => steady_bind ih (fun _ => steady_pure _)))

/-- The enumeration idiom on a device whose entry counts can be allocated: it returns,
with no names when the count is zero or the query fails. -/
theorem inquireEnum_run (feature : String) (afterAssign : MIL_INT → Prog Unit)
    (body : String → Prog Unit) (ha : ∀ c, Steady (afterAssign c))
    (hb : ∀ s, Steady (body s)) (w : World) (hc : w.dev.countsFit) :
    ∃ c names w2 evs, inquireEnum feature afterAssign body w = .ret (c, names) w2 ∧
      w2.dev = w.dev ∧ w2.trace = w.trace ++ evs ∧ (∀ e ∈ evs, e.kind ∈ reportKinds) ∧
      (c = 0 → names = []) ∧ (w.dev.lacks feature → c = 0) := by
  unfold inquireEnum
  simp only [bind_apply, MdigInquireFeatureInt, andThen_ret]
  cases hq : w.dev.featureInt w.trace .enumEntryCount feature with
  | none =>
    simp only [Option.getD_none, ne_eq, not_true_eq_false, if_false, Prog_pure_apply]
    exact ⟨0, [], _, [.MdigInquireFeature .enumEntryCount feature], rfl, rfl, rfl,
      by simp [Event.kind, reportKinds], fun _ => rfl, fun _ => rfl⟩
  | some c =>
    have hnn := hc _ _ _ hq
    simp only [Option.getD_some]
    by_cases h0 : c = 0
    · simp only [h0, ne_eq, not_true_eq_false, if_false, Prog_pure_apply]
      exact ⟨0, [], _, [.MdigInquireFeature .enumEntryCount feature], rfl, rfl, rfl,
        by simp [Event.kind, reportKinds], fun _ => rfl, fun _ => rfl⟩
    · have hva : vectorAssign c
          { w with trace := w.trace ++ [.MdigInquireFeature .enumEntryCount feature] } =
          .ret c.toNat
            { w with trace := w.trace ++ [.MdigInquireFeature .enumEntryCount feature] } :=
        vectorAssign_fits hnn.1 hnn.2
      simp only [h0, ne_eq, not_false_eq_true, if_true, bind_apply, hva, andThen_ret]
      obtain ⟨_, w1, e1, h1, d1, t1, k1⟩ := ha c
        { w with trace := w.trace ++ [.MdigInquireFeature .enumEntryCount feature] }
      obtain ⟨names, w2, e2, h2, d2, t2, k2⟩ :=
        steady_inquireEntryNames feature body hb c.toNat 0 w1
      rw [h1, andThen_ret, bind_apply, h2, andThen_ret]
      refine ⟨c, names, w2, [.MdigInquireFeature .enumEntryCount feature] ++ e1 ++ e2, rfl,
        d2.trans d1, ?_, ?_, fun h => absurd h h0, fun hl => ?_⟩
      · rw [t2, t1]
        simp
      · intro e he
        simp only [List.mem_append, List.mem_singleton] at he
        rcases he with (rfl | he) | he
        · simp [Event.kind, reportKinds]
        · exact k1 e he
        · exact k2 e he
      · have := (hl w.trace .enumEntryCount).2.1
        rw [hq] at this
        cases this


theorem forEach_emit {α : Type} (g : α → Event) (l : List α) :
    ∀ w : World, forEach (fun x => emit (g x)) l w =
      .ret () { w with trace := w.trace ++ l.map g } := by
  induction l with
  | nil => intro w; simp [forEach]
  | cons a t ih =>
    intro w
    unfold forEach
    rw [bind_apply, emit_apply, andThen_ret, ih]
    simp

/-- The shape of every run of `CameraPrintEventControls` on a device whose entry counts
the host can allocate: the enumeration queries, then the heading, the label and the value
lines. -/
theorem CameraPrintEventControls_run (w : World) (hc : w.dev.countsFit) :
    ∃ (c : MIL_INT) (Events : List String) (w1 : World) (evs : List Event), w1.dev = w.dev ∧ w1.trace = w.trace ++ evs ∧
      (∀ e ∈ evs, e.kind ∈ reportKinds) ∧ (c = 0 → Events = []) ∧
      (w.dev.lacks "EventSelector" → c = 0) ∧
      CameraPrintEventControls w = .ret () { w1 with trace := w1.trace ++
        ([.MosPrintf "\n---------------------- Event Controls ----------------------\n\n" [],
          .MosPrintf "%30s " [.s "Supported events:"]] ++
        (if Events.length = 0 then [.MosPrintf "N/A\n" []]
         else [.MosPrintf "%s\n" [.s (Events.getD 0 "")]] ++
           (Events.drop 1).map
             (fun name => .MosPrintf "                               %s\n" [.s name]))) } := by
  obtain ⟨c, Events, w1, evs, h1, d1, t1, k1, z1, l1⟩ := inquireEnum_run "EventSelector"
    (fun _ => Prog.pure ()) (fun _ => Prog.pure ()) (fun _ => steady_pure _)
    (fun _ => steady_pure _) w hc
  refine ⟨c, Events, w1, evs, d1, t1, k1, z1, l1, ?_⟩
  unfold CameraPrintEventControls
  rw [bind_apply, h1, andThen_ret]
  simp only [MosPrintf, bind_apply, emit_apply, andThen_ret]
  split
  · simp
  · simp only [bind_apply, emit_apply, andThen_ret, forEach_emit]
    simp


theorem countsFit_of_dev {w w1 : World} (h : w1.dev = w.dev) (hc : w.dev.countsFit) :
    w1.dev.countsFit := by
  rw [h]
  exact hc

theorem lacks_of_dev {w w1 : World} {name : String} (h : w1.dev = w.dev)
    (hl : w.dev.lacks name) : w1.dev.lacks name := by
  rw [h]
  exact hl

theorem kinds_singleton_inquireFeature (kind : FeatureKind) (name : String) :
    ∀ e ∈ [Event.MdigInquireFeature kind name], e.kind ∈ reportKinds := by
  intro e he
  simp only [List.mem_singleton] at he
  subst he
  simp [Event.kind, reportKinds]

theorem kinds_append {a b : List Event} (ha : ∀ e ∈ a, e.kind ∈ reportKinds)
    (hb : ∀ e ∈ b, e.kind ∈ reportKinds) : ∀ e ∈ a ++ b, e.kind ∈ reportKinds := by
  intro e he
  rcases List.mem_append.mp he with h | h
  · exact ha e h
  · exact hb e h

/-- The shape of every run of `CameraPrintAcquisitionControls` on a device whose entry
counts the host can allocate. -/
theorem CameraPrintAcquisitionControls_run (w : World) (hc : w.dev.countsFit) :
    ∃ (c1 c2 c3 : MIL_INT) (AcquisitionModes TriggerSelectors ExposureModes : List String)
      (ExposureTime : MIL_DOUBLE) (w1 : World) (evs : List Event),
      w1.dev = w.dev ∧ w1.trace = w.trace ++ evs ∧ (∀ e ∈ evs, e.kind ∈ reportKinds) ∧
      (c1 = 0 → AcquisitionModes = []) ∧ (w.dev.lacks "AcquisitionMode" → c1 = 0) ∧
      (c2 = 0 → TriggerSelectors = []) ∧ (w.dev.lacks "TriggerSelector" → c2 = 0) ∧
      (c3 = 0 → ExposureModes = []) ∧ (w.dev.lacks "ExposureMode" → c3 = 0) ∧
      (w.dev.lacks "ExposureTime" → ExposureTime = 0) ∧
      CameraPrintAcquisitionControls w = .ret () { w1 with trace := w1.trace ++
        ([.MosPrintf "\n------------------- Acquisition Controls -------------------\n\n" [],
          .MosPrintf "%30s %s\n"
            [.s "Supported acquisition modes:", .s (firstOrNA AcquisitionModes)]] ++
        (AcquisitionModes.drop 1).map (fun name => .MosPrintf "%30s %s\n" [.s "", .s name]) ++
        [.MosPrintf "\n%30s %s\n"
            [.s "Supported trigger selectors:", .s (firstOrNA TriggerSelectors)]] ++
        (TriggerSelectors.drop 1).map (fun name => .MosPrintf "%30s %s\n" [.s "", .s name]) ++
        [.MosPrintf "\n%30s %s\n"
            [.s "Supported exposure modes:", .s (firstOrNA ExposureModes)]] ++
        (ExposureModes.drop 1).map (fun name => .MosPrintf "%30s %s\n" [.s "", .s name]) ++
        [if ExposureTime = 0 then .MosPrintf "\n%30s %s\n" [.s "Exposure time:", .s "N/A"]
         else .MosPrintf "\n%30s %.1f us\n" [.s "Exposure time:", .f ExposureTime]]) } := by
  obtain ⟨c1, n1, w1, e1, h1, d1, t1, k1, z1, l1⟩ := inquireEnum_run "AcquisitionMode"
    (fun AcMdCount =>
      if AcMdCount > 1 then modifyCaps fun c => { c with MultipleAcquisitionModeSupport := 1 }
      else Prog.pure ())
    noteAcquisitionMode
    (fun _ => steady_ite (steady_modifyCaps _) (steady_pure _))
    steady_noteAcquisitionMode w hc
  obtain ⟨c2, n2, w2, e2, h2, d2, t2, k2, z2, l2⟩ := inquireEnum_run "TriggerSelector"
    (fun _ => Prog.pure ()) noteTriggerSelector (fun _ => steady_pure _)
    steady_noteTriggerSelector w1 (countsFit_of_dev d1 hc)
  obtain ⟨c3, n3, w3, e3, h3, d3, t3, k3, z3, l3⟩ := inquireEnum_run "ExposureMode"
    (fun _ => Prog.pure ()) (fun _ => Prog.pure ()) (fun _ => steady_pure _)
    (fun _ => steady_pure _) w2 (countsFit_of_dev (d2.trans d1) hc)
  refine ⟨c1, c2, c3, n1, n2, n3, (w3.dev.featureDouble w3.trace .value "ExposureTime").getD 0,
    { w3 with trace := w3.trace ++ [.MdigInquireFeature .value "ExposureTime"] },
    e1 ++ e2 ++ e3 ++ [.MdigInquireFeature .value "ExposureTime"],
    d3.trans (d2.trans d1), ?_, ?_, z1, l1, z2, fun hl => l2 (lacks_of_dev d1 hl), z3,
    fun hl => l3 (lacks_of_dev (d2.trans d1) hl), fun hl => ?_, ?_⟩
  · simp only [t3, t2, t1, List.append_assoc]
  · exact kinds_append (kinds_append (kinds_append k1 k2) k3) (kinds_singleton_inquireFeature _ _)
  · rw [((lacks_of_dev (d3.trans (d2.trans d1)) hl) w3.trace .value).2.2.2]
    rfl
  · unfold CameraPrintAcquisitionControls
    rw [bind_apply, h1, andThen_ret]
    simp only [bind_apply, h2, andThen_ret, h3]
    by_cases hE : (w3.dev.featureDouble w3.trace .value "ExposureTime").getD 0 = 0 <;>
      simp [hE, bind_apply, MdigInquireFeatureDouble, MosPrintf, forEach_emit]


theorem MdigInquireFeatureInt_run (kind : FeatureKind) (name : String) (cur : Int) (w : World) :
    ∃ v w1, MdigInquireFeatureInt kind name cur w = .ret v w1 ∧ w1.dev = w.dev ∧
      w1.trace = w.trace ++ [.MdigInquireFeature kind name] ∧ (w.dev.lacks name → v = cur) := by
  refine ⟨_, _, rfl, rfl, rfl, fun hl => ?_⟩
  rw [(hl w.trace kind).2.1]
  rfl

theorem MdigInquireFeatureBool_run (kind : FeatureKind) (name : String) (cur : Bool)
    (w : World) :
    ∃ v w1, MdigInquireFeatureBool kind name cur w = .ret v w1 ∧ w1.dev = w.dev ∧
      w1.trace = w.trace ++ [.MdigInquireFeature kind name] ∧ (w.dev.lacks name → v = cur) := by
  refine ⟨_, _, rfl, rfl, rfl, fun hl => ?_⟩
  rw [(hl w.trace kind).2.2.1]
  rfl

/-- The shape of every run of `CameraPrintImageFormatControls` on a device whose entry
counts the host can allocate. -/
theorem CameraPrintImageFormatControls_run (w : World) (hc : w.dev.countsFit) :
    ∃ (SensorWidth SensorHeight Width Height WidthMax HeightMax WidthMin HeightMin : Int)
      (ReverseX ReverseY : Bool) (c : MIL_INT) (PixelFormats : List String)
      (w1 : World) (evs : List Event),
      w1.dev = w.dev ∧ w1.trace = w.trace ++ evs ∧ (∀ e ∈ evs, e.kind ∈ reportKinds) ∧
      (w.dev.lacks "SensorWidth" → SensorWidth = 0) ∧
      (w.dev.lacks "SensorHeight" → SensorHeight = 0) ∧
      (c = 0 → PixelFormats = []) ∧ (w.dev.lacks "PixelFormat" → c = 0) ∧
      CameraPrintImageFormatControls w = .ret () { w1 with trace := w1.trace ++
        ([.MosPrintf "\n------------------- Image Format Controls ------------------\n\n" [],
          .MosPrintf "%30s %4lld x %-4lld\n" [.s "Sensor size:",
            .d (if SensorWidth ≠ 0 then SensorWidth else Width),
            .d (if SensorHeight ≠ 0 then SensorHeight else Height)],
          .MosPrintf "%30s %4lld x %-4lld\n" [.s "Current ROI:", .d Width, .d Height],
          .MosPrintf "%30s %4lld x %-4lld;%4lld x %-4lld\n" [.s "Maximum and Minimum ROI:",
            .d WidthMax, .d HeightMax, .d WidthMin, .d HeightMin],
          .MosPrintf "\n%30s %s\n"
            [.s "Image Reverse X:", .s (if ReverseX then "true" else "false")],
          .MosPrintf "%30s %s\n"
            [.s "Image Reverse Y:", .s (if ReverseY then "true" else "false")],
          .MosPrintf "\n%30s %s\n"
            [.s "Supported pixel formats:", .s (firstOrNA PixelFormats)]] ++
        (PixelFormats.drop 1).map
          (fun name => .MosPrintf "                               %s\n" [.s name])) } := by
  obtain ⟨v1, w1, q1, d1, t1, r1⟩ := MdigInquireFeatureInt_run .value "SensorWidth" 0 w
  obtain ⟨v2, w2, q2, d2, t2, r2⟩ := MdigInquireFeatureInt_run .value "SensorHeight" 0 w1
  obtain ⟨v3, w3, q3, d3, t3, -⟩ := MdigInquireFeatureInt_run .value "Width" 0 w2
  obtain ⟨v4, w4, q4, d4, t4, -⟩ := MdigInquireFeatureInt_run .value "Height" 0 w3
  obtain ⟨b5, w5, q5, d5, t5, -⟩ := MdigInquireFeatureBool_run .value "ReverseX" false w4
  obtain ⟨b6, w6, q6, d6, t6, -⟩ := MdigInquireFeatureBool_run .value "ReverseY" false w5
  obtain ⟨v7, w7, q7, d7, t7, -⟩ := MdigInquireFeatureInt_run .max "Width" 0 w6
  obtain ⟨v8, w8, q8, d8, t8, -⟩ := MdigInquireFeatureInt_run .max "Height" 0 w7
  obtain ⟨v9, w9, q9, d9, t9, -⟩ := MdigInquireFeatureInt_run .min "Width" 0 w8
  obtain ⟨v10, w10, q10, d10, t10, -⟩ := MdigInquireFeatureInt_run .min "Height" 0 w9
  have hd : w10.dev = w.dev := by
    rw [d10, d9, d8, d7, d6, d5, d4, d3, d2, d1]
  obtain ⟨c, names, w11, e11, h11, d11, t11, k11, z11, l11⟩ := inquireEnum_run "PixelFormat"
    (fun _ => Prog.pure ()) (fun _ => Prog.pure ()) (fun _ => steady_pure _)
    (fun _ => steady_pure _) w10 (countsFit_of_dev hd hc)
  refine ⟨v1, v2, v3, v4, v7, v8, v9, v10, b5, b6, c, names, w11,
    [.MdigInquireFeature .value "SensorWidth", .MdigInquireFeature .value "SensorHeight",
     .MdigInquireFeature .value "Width", .MdigInquireFeature .value "Height",
     .MdigInquireFeature .value "ReverseX", .MdigInquireFeature .value "ReverseY",
     .MdigInquireFeature .max "Width", .MdigInquireFeature .max "Height",
     .MdigInquireFeature .min "Width", .MdigInquireFeature .min "Height"] ++ e11,
    d11.trans hd, ?_, ?_, r1, fun hl => r2 (lacks_of_dev d1 hl), z11,
    fun hl => l11 (lacks_of_dev hd hl), ?_⟩
  · simp only [t11, t10, t9, t8, t7, t6, t5, t4, t3, t2, t1, List.append_assoc,
      List.cons_append, List.nil_append]
  · intro e he
    rcases List.mem_append.mp he with h | h
    · simp only [List.mem_cons, List.mem_singleton, List.not_mem_nil, or_false] at h
      rcases h with rfl | rfl | rfl | rfl | rfl | rfl | rfl | rfl | rfl | rfl <;>
        simp [Event.kind, reportKinds]
    · exact k11 e h
  · unfold CameraPrintImageFormatControls
    rw [bind_apply, q1, andThen_ret, bind_apply, q2, andThen_ret, bind_apply, q3, andThen_ret,
      bind_apply, q4, andThen_ret, bind_apply, q5, andThen_ret, bind_apply, q6, andThen_ret,
      bind_apply, q7, andThen_ret, bind_apply, q8, andThen_ret, bind_apply, q9, andThen_ret,
      bind_apply, q10, andThen_ret, bind_apply, h11, andThen_ret]
    simp [bind_apply, MosPrintf, forEach_emit]


/-- The shape of every run of `CameraPrintIOControls` on a device whose entry counts the
host can allocate. -/
theorem CameraPrintIOControls_run (w : World) (hc : w.dev.countsFit) :
    ∃ (LineCnt : MIL_INT) (Lines : List String) (rows : List (List String))
      (w1 : World) (evs : List Event),
      w1.dev = w.dev ∧ w1.trace = w.trace ++ evs ∧ (∀ e ∈ evs, e.kind ∈ reportKinds) ∧
      (LineCnt = 0 → Lines = []) ∧ (w.dev.lacks "LineSelector" → LineCnt = 0) ∧
      CameraPrintIOControls w = .ret () { w1 with trace := w1.trace ++
        ([.MosPrintf "\n------------------- Digital I/O Controls -------------------\n\n" [],
          .MosPrintf "%7s%-18s%-18s%-18s%7s\n\n"
            [.s "", .s "Name", .s "Mode", .s "Format", .s ""]] ++
        (if LineCnt = 0 then
          [.MosPrintf "%7s%-18s%-18s%-18s%7s\n" [.s "", .s "N/A", .s "N/A", .s "N/A", .s ""]]
         else (Lines.zip rows).map (fun (line : String × List String) =>
          .MosPrintf "%7s%-18s%-18s%-18s%7s\n"
            [.s "", .s line.1, .s (line.2.getD 0 ""), .s (line.2.getD 1 ""), .s ""]))) } := by
  obtain ⟨c, Lines, w1, e1, h1, d1, t1, k1, z1, l1⟩ := inquireEnum_run "LineSelector"
    (fun _ => Prog.pure ()) (fun _ => Prog.pure ()) (fun _ => steady_pure _)
    (fun _ => steady_pure _) w hc
  obtain ⟨rows, w2, e2, h2, d2, t2, k2⟩ :=
    steady_inquireSelected "LineSelector" ["LineMode", "LineFormat"] Lines w1
  refine ⟨c, Lines, rows, w2, e1 ++ e2, d2.trans d1, ?_, kinds_append k1 k2, z1, l1, ?_⟩
  · rw [t2, t1, List.append_assoc]
  · unfold CameraPrintIOControls
    rw [bind_apply, h1, andThen_ret]
    simp only [bind_apply, h2, andThen_ret]
    by_cases h0 : c = 0 <;> simp [h0, bind_apply, MosPrintf, forEach_emit]

/-- The shape of every run of `CameraPrintCounterAndTimerControls` on a device whose
entry counts the host can allocate. -/
theorem CameraPrintCounterAndTimerControls_run (w : World) (hc : w.dev.countsFit) :
    ∃ (c1 c2 : MIL_INT) (Counters Timers : List String)
      (CountersStatus TimersStatus : List (List String)) (w1 : World) (evs : List Event),
      w1.dev = w.dev ∧ w1.trace = w.trace ++ evs ∧ (∀ e ∈ evs, e.kind ∈ reportKinds) ∧
      (c1 = 0 → Counters = []) ∧ (w.dev.lacks "CounterSelector" → c1 = 0) ∧
      (c2 = 0 → Timers = []) ∧ (w.dev.lacks "TimerSelector" → c2 = 0) ∧
      CameraPrintCounterAndTimerControls w = .ret () { w1 with trace := w1.trace ++
        ([.MosPrintf "\n---------------- Counter and Timer Controls ----------------\n\n" [],
          .MosPrintf "%20s%-15s%-15s%20s\n\n" [.s "", .s "Name", .s "Status", .s ""]] ++
        (if Counters.length = 0 then
          [.MosPrintf "%20s%-15s%-15s%20s\n" [.s "", .s "N/A", .s "N/A", .s ""]]
         else (Counters.zip CountersStatus).map (fun (c : String × List String) =>
          .MosPrintf "%20s%-15s%-15s%20s\n" [.s "", .s c.1, .s (c.2.getD 0 ""), .s ""])) ++
        (if Timers.length = 0 then
          [.MosPrintf "%20s%-15s%-15s%20s\n" [.s "", .s "N/A", .s "N/A", .s ""]]
         else (Timers.zip TimersStatus).map (fun (t : String × List String) =>
          .MosPrintf "%20s%-15s%-15s%20s\n" [.s "", .s t.1, .s (t.2.getD 0 ""), .s ""]))) } := by
  obtain ⟨c1, Counters, w1, e1, h1, d1, t1, k1, z1, l1⟩ := inquireEnum_run "CounterSelector"
    (fun _ => Prog.pure ()) (fun _ => Prog.pure ()) (fun _ => steady_pure _)
    (fun _ => steady_pure _) w hc
  obtain ⟨c2, Timers, w2, e2, h2, d2, t2, k2, z2, l2⟩ := inquireEnum_run "TimerSelector"
    (fun _ => Prog.pure ()) (fun _ => Prog.pure ()) (fun _ => steady_pure _)
    (fun _ => steady_pure _) w1 (countsFit_of_dev d1 hc)
  obtain ⟨cs, w3, e3, h3, d3, t3, k3⟩ :=
    steady_inquireSelected "CounterSelector" ["CounterStatus"] Counters w2
  obtain ⟨ts, w4, e4, h4, d4, t4, k4⟩ :=
    steady_inquireSelected "TimerSelector" ["TimerStatus"] Timers w3
  refine ⟨c1, c2, Counters, Timers, cs, ts, w4, e1 ++ e2 ++ e3 ++ e4,
    d4.trans (d3.trans (d2.trans d1)), ?_, kinds_append (kinds_append (kinds_append k1 k2) k3) k4,
    z1, l1, z2, fun hl => l2 (lacks_of_dev d1 hl), ?_⟩
  · simp only [t4, t3, t2, t1, List.append_assoc]
  · unfold CameraPrintCounterAndTimerControls
    rw [bind_apply, h1, andThen_ret]
    simp only [bind_apply, h2, andThen_ret, h3, h4]
    by_cases hC : Counters.length = 0 <;> by_cases hT : Timers.length = 0 <;>
      simp [hC, hT, bind_apply, MosPrintf, forEach_emit]

theorem MdigInquireFeatureString_run (kind : FeatureKind) (name : String) (cur : String)
    (w : World) :
    ∃ v w1, MdigInquireFeatureString kind name cur w = .ret v w1 ∧ w1.dev = w.dev ∧
      w1.trace = w.trace ++ [.MdigInquireFeature kind name] ∧ (w.dev.lacks name → v = cur) := by
  refine ⟨_, _, rfl, rfl, rfl, fun hl => ?_⟩
  rw [(hl w.trace kind).1]
  rfl

theorem MdigInquireString_run (what : String) (cur : String) (w : World) :
    ∃ v w1, MdigInquireString what cur w = .ret v w1 ∧ w1.dev = w.dev ∧
      w1.trace = w.trace ++ [.MdigInquire what] :=
  ⟨_, _, rfl, rfl, rfl⟩

/-- The shape of every run of `CameraPrintDeviceControls`. -/
theorem CameraPrintDeviceControls_run (w : World) :
    ∃ (CameraVendor CameraModel CameraSerialNumber CameraUserName CameraScanType
        InterfaceName IpAddress : String) (w2 : World),
      (w.dev.lacks "DeviceVendorName" → CameraVendor = "") ∧
      (w.dev.lacks "DeviceModelName" → CameraModel = "") ∧
      (w.dev.lacks "DeviceID" → CameraSerialNumber = "") ∧
      (w.dev.lacks "DeviceUserID" → CameraUserName = "") ∧
      (w.dev.lacks "DeviceScanType" → CameraScanType = "") ∧
      CameraPrintDeviceControls w = .ret () w2 ∧ w2.dev = w.dev ∧
      w2.trace = w.trace ++
        [.MdigInquireFeature .value "DeviceVendorName",
         .MdigInquireFeature .value "DeviceModelName",
         .MdigInquireFeature .value "DeviceID",
         .MdigInquireFeature .value "DeviceUserID",
         .MdigInquireFeature .value "DeviceScanType",
         .MosPrintf "\n------------------ Camera Device Controls ------------------\n\n" [],
         .MosPrintf "%30s %s %s\n" [.s "Camera:", .s (orNA CameraVendor), .s (orNA CameraModel)],
         .MosPrintf "%30s %s\n" [.s "Serial number:", .s (orNA CameraSerialNumber)],
         .MosPrintf "%30s %s\n" [.s "User-defined name:", .s (orNA CameraUserName)],
         .MosPrintf "%30s %s\n" [.s "Device scan type:", .s (orNA CameraScanType)],
         .MdigInquire "M_GC_LOCAL_IP_ADDRESS_STRING",
         .MdigInquire "M_GC_INTERFACE_NAME",
         .MosPrintf "%30s %s (%s)\n"
           [.s "Camera is connected to:", .s InterfaceName, .s IpAddress]] := by
  obtain ⟨v1, w1, q1, d1, t1, r1⟩ := MdigInquireFeatureString_run .value "DeviceVendorName" "" w
  obtain ⟨v2, w2, q2, d2, t2, r2⟩ := MdigInquireFeatureString_run .value "DeviceModelName" "" w1
  obtain ⟨v3, w3, q3, d3, t3, r3⟩ := MdigInquireFeatureString_run .value "DeviceID" "" w2
  obtain ⟨v4, w4, q4, d4, t4, r4⟩ := MdigInquireFeatureString_run .value "DeviceUserID" "" w3
  obtain ⟨v5, w5, q5, d5, t5, r5⟩ := MdigInquireFeatureString_run .value "DeviceScanType" "" w4
  obtain ⟨ip, w6, q6, d6, t6⟩ := MdigInquireString_run "M_GC_LOCAL_IP_ADDRESS_STRING" ""
    { w5 with trace := w5.trace ++
      [.MosPrintf "\n------------------ Camera Device Controls ------------------\n\n" [],
       .MosPrintf "%30s %s %s\n" [.s "Camera:", .s (orNA v1), .s (orNA v2)],
       .MosPrintf "%30s %s\n" [.s "Serial number:", .s (orNA v3)],
       .MosPrintf "%30s %s\n" [.s "User-defined name:", .s (orNA v4)],
       .MosPrintf "%30s %s\n" [.s "Device scan type:", .s (orNA v5)]] }
  obtain ⟨ifn, w7, q7, d7, t7⟩ := MdigInquireString_run "M_GC_INTERFACE_NAME" "" w6
  refine ⟨v1, v2, v3, v4, v5, ifn, ip,
    { w7 with trace := w7.trace ++
      [.MosPrintf "%30s %s (%s)\n" [.s "Camera is connected to:", .s ifn, .s ip]] },
    r1, fun hl => r2 (lacks_of_dev d1 hl),
    fun hl => r3 (lacks_of_dev (d2.trans d1) hl),
    fun hl => r4 (lacks_of_dev (d3.trans (d2.trans d1)) hl),
    fun hl => r5 (lacks_of_dev (d4.trans (d3.trans (d2.trans d1))) hl), ?_, ?_, ?_⟩
  · unfold CameraPrintDeviceControls
    rw [bind_apply, q1, andThen_ret, bind_apply, q2, andThen_ret, bind_apply, q3, andThen_ret,
      bind_apply, q4, andThen_ret, bind_apply, q5, andThen_ret]
    simp only [bind_apply, MosPrintf, emit_apply, andThen_ret, List.append_assoc,
      List.cons_append, List.nil_append, q6, q7]
  · exact d7.trans (d6.trans (d5.trans (d4.trans (d3.trans (d2.trans d1)))))
  · simp only [t7, t6, t5, t4, t3, t2, t1, List.append_assoc, List.cons_append,
      List.nil_append]

/-- The shape of every run of `CameraPrintTransportLayerControls`. -/
theorem CameraPrintTransportLayerControls_run (w : World) :
    ∃ (GigEMajorVersion GigEMinorVersion StreamChannelPacketSize MAC CurrentIp : Int)
      (w2 : World),
      (w.dev.lacks "GevVersionMajor" → GigEMajorVersion = 0) ∧
      (w.dev.lacks "GevSCPSPacketSize" → StreamChannelPacketSize = 0) ∧
      (w.dev.lacks "GevMACAddress" → MAC = -1) ∧
      (w.dev.lacks "GevCurrentIPAddress" → CurrentIp = -1) ∧
      CameraPrintTransportLayerControls w = .ret () w2 ∧ w2.dev = w.dev ∧
      w2.trace = w.trace ++
        [.MdigInquireFeature .value "GevVersionMajor",
         .MdigInquireFeature .value "GevVersionMinor",
         .MdigInquireFeature .value "GevSCPSPacketSize",
         .MdigInquireFeature .value "GevMACAddress",
         .MdigInquireFeature .value "GevCurrentIPAddress",
         .MosPrintf "\n-------------- Camera Transport Layer Controls -------------\n\n" [],
         (if GigEMajorVersion = 0 then .MosPrintf "%30s N/A\n" [.s "GigE Vision Version:"]
          else .MosPrintf "%30s %d.%d\n" [.s "GigE Vision Version:",
            .d (toInt32 GigEMajorVersion), .d (toInt32 GigEMinorVersion)]),
         (if MAC = -1 then .MosPrintf "%30s N/A\n" [.s "MAC Address:"]
          else .MosPrintf "%30s %.2X-%.2X-%.2X-%.2X-%.2X-%.2X\n" [.s "MAC Address:",
            .d (byteAt MAC 5), .d (byteAt MAC 4), .d (byteAt MAC 3), .d (byteAt MAC 2),
            .d (byteAt MAC 1), .d (byteAt MAC 0)]),
         (if CurrentIp = -1 then .MosPrintf "%30s N/A\n" [.s "Current IP Address:"]
          else .MosPrintf "%30s %d.%d.%d.%d\n" [.s "Current IP Address:",
            .d (byteAt CurrentIp 3), .d (byteAt CurrentIp 2), .d (byteAt CurrentIp 1),
            .d (byteAt CurrentIp 0)]),
         .MosPrintf "%30s %lld\n" [.s "Packet size:", .d StreamChannelPacketSize]] := by
  obtain ⟨v1, w1, q1, d1, t1, r1⟩ := MdigInquireFeatureInt_run .value "GevVersionMajor" 0 w
  obtain ⟨v2, w2, q2, d2, t2, -⟩ := MdigInquireFeatureInt_run .value "GevVersionMinor" 0 w1
  obtain ⟨v3, w3, q3, d3, t3, r3⟩ := MdigInquireFeatureInt_run .value "GevSCPSPacketSize" 0 w2
  obtain ⟨v4, w4, q4, d4, t4, r4⟩ := MdigInquireFeatureInt_run .value "GevMACAddress" (-1) w3
  obtain ⟨v5, w5, q5, d5, t5, r5⟩ :=
    MdigInquireFeatureInt_run .value "GevCurrentIPAddress" (-1) w4
  refine ⟨v1, v2, v3, v4, v5,
    { w5 with trace := w5.trace ++
      [.MosPrintf "\n-------------- Camera Transport Layer Controls -------------\n\n" [],
       (if v1 = 0 then .MosPrintf "%30s N/A\n" [.s "GigE Vision Version:"]
        else .MosPrintf "%30s %d.%d\n" [.s "GigE Vision Version:",
          .d (toInt32 v1), .d (toInt32 v2)]),
       (if v4 = -1 then .MosPrintf "%30s N/A\n" [.s "MAC Address:"]
        else .MosPrintf "%30s %.2X-%.2X-%.2X-%.2X-%.2X-%.2X\n" [.s "MAC Address:",
          .d (byteAt v4 5), .d (byteAt v4 4), .d (byteAt v4 3), .d (byteAt v4 2),
          .d (byteAt v4 1), .d (byteAt v4 0)]),
       (if v5 = -1 then .MosPrintf "%30s N/A\n" [.s "Current IP Address:"]
        else .MosPrintf "%30s %d.%d.%d.%d\n" [.s "Current IP Address:",
          .d (byteAt v5 3), .d (byteAt v5 2), .d (byteAt v5 1), .d (byteAt v5 0)]),
       .MosPrintf "%30s %lld\n" [.s "Packet size:", .d v3]] },
    r1, fun hl => r3 (lacks_of_dev (d2.trans d1) hl),
    fun hl => r4 (lacks_of_dev (d3.trans (d2.trans d1)) hl),
    fun hl => r5 (lacks_of_dev (d4.trans (d3.trans (d2.trans d1))) hl), ?_, ?_, ?_⟩
  · unfold CameraPrintTransportLayerControls
    rw [bind_apply, q1, andThen_ret, bind_apply, q2, andThen_ret, bind_apply, q3, andThen_ret,
      bind_apply, q4, andThen_ret, bind_apply, q5, andThen_ret]
    by_cases h1 : v1 = 0 <;> by_cases h4 : v4 = -1 <;> by_cases h5 : v5 = -1 <;>
      simp [h1, h4, h5, bind_apply, MosPrintf]
  · exact d5.trans (d4.trans (d3.trans (d2.trans d1)))
  · simp only [t5, t4, t3, t2, t1, List.append_assoc, List.cons_append, List.nil_append]


theorem newEvents_run {w w1 : World} {evs prints : List Event} {o : Outcome Unit}
    (ho : o = .ret () { w1 with trace := w1.trace ++ prints }) (ht : w1.trace = w.trace ++ evs) :
    newEvents w o = evs ++ prints := by
  subst ho
  apply newEvents_eq
  simp only [world_ret, ht, List.append_assoc]

theorem newEvents_of_ret {w w2 : World} {evs : List Event} {o : Outcome Unit}
    (ho : o = .ret () w2) (ht : w2.trace = w.trace ++ evs) : newEvents w o = evs := by
  subst ho
  exact newEvents_eq ht

theorem returns_of_eq {o : Outcome Unit} {w : World} (h : o = .ret () w) : o.returns = true := by
  subst h
  rfl

theorem CameraPrintDeviceControls_NA (w : World) :
    (CameraPrintDeviceControls w).returns = true ∧
    (w.dev.lacks "DeviceVendorName" → ∃ model, Event.MosPrintf "%30s %s %s\n"
      [.s "Camera:", .s "N/A", .s model] ∈ newEvents w (CameraPrintDeviceControls w)) ∧
    (w.dev.lacks "DeviceModelName" → ∃ vendor, Event.MosPrintf "%30s %s %s\n"
      [.s "Camera:", .s vendor, .s "N/A"] ∈ newEvents w (CameraPrintDeviceControls w)) ∧
    (w.dev.lacks "DeviceID" → Event.MosPrintf "%30s %s\n"
      [.s "Serial number:", .s "N/A"] ∈ newEvents w (CameraPrintDeviceControls w)) ∧
    (w.dev.lacks "DeviceUserID" → Event.MosPrintf "%30s %s\n"
      [.s "User-defined name:", .s "N/A"] ∈ newEvents w (CameraPrintDeviceControls w)) ∧
    (w.dev.lacks "DeviceScanType" → Event.MosPrintf "%30s %s\n"
      [.s "Device scan type:", .s "N/A"] ∈ newEvents w (CameraPrintDeviceControls w)) := by
  obtain ⟨v1, v2, v3, v4, v5, ifn, ip, w2, r1, r2, r3, r4, r5, h, -, t⟩ :=
    CameraPrintDeviceControls_run w
  rw [newEvents_of_ret h t]
  refine ⟨returns_of_eq h, fun hl => ⟨orNA v2, ?_⟩, fun hl => ⟨orNA v1, ?_⟩, fun hl => ?_,
    fun hl => ?_, fun hl => ?_⟩
  · simp [r1 hl, orNA]
  · simp [r2 hl, orNA]
  · simp [r3 hl, orNA]
  · simp [r4 hl, orNA]
  · simp [r5 hl, orNA]

theorem CameraPrintTransportLayerControls_NA (w : World) :
    (CameraPrintTransportLayerControls w).returns = true ∧
    (w.dev.lacks "GevVersionMajor" → Event.MosPrintf "%30s N/A\n"
      [.s "GigE Vision Version:"] ∈ newEvents w (CameraPrintTransportLayerControls w)) ∧
    (w.dev.lacks "GevMACAddress" → Event.MosPrintf "%30s N/A\n"
      [.s "MAC Address:"] ∈ newEvents w (CameraPrintTransportLayerControls w)) ∧
    (w.dev.lacks "GevCurrentIPAddress" → Event.MosPrintf "%30s N/A\n"
      [.s "Current IP Address:"] ∈ newEvents w (CameraPrintTransportLayerControls w)) := by
  obtain ⟨v1, v2, v3, v4, v5, w2, r1, -, r4, r5, h, -, t⟩ :=
    CameraPrintTransportLayerControls_run w
  rw [newEvents_of_ret h t]
  refine ⟨returns_of_eq h, fun hl => ?_, fun hl => ?_, fun hl => ?_⟩
  · simp [r1 hl]
  · simp [r4 hl]
  · simp [r5 hl]

theorem CameraPrintImageFormatControls_NA (w : World) (hc : w.dev.countsFit) :
    (CameraPrintImageFormatControls w).returns = true ∧
    (w.dev.lacks "PixelFormat" → Event.MosPrintf "\n%30s %s\n"
      [.s "Supported pixel formats:", .s "N/A"] ∈
        newEvents w (CameraPrintImageFormatControls w)) ∧
    (w.dev.lacks "SensorWidth" → w.dev.lacks "SensorHeight" → ∃ Width Height,
      Event.MosPrintf "%30s %4lld x %-4lld\n" [.s "Sensor size:", .d Width, .d Height] ∈
        newEvents w (CameraPrintImageFormatControls w) ∧
      Event.MosPrintf "%30s %4lld x %-4lld\n" [.s "Current ROI:", .d Width, .d Height] ∈
        newEvents w (CameraPrintImageFormatControls w)) := by
  obtain ⟨sw, sh, wd, ht, wmax, hmax, wmin, hmin, rx, ry, c, names, w1, evs, -, t, -, r1, r2,
    z, l, h⟩ := CameraPrintImageFormatControls_run w hc
  rw [newEvents_run h t]
  refine ⟨returns_of_eq h, fun hl => ?_, fun h1 h2 => ⟨wd, ht, ?_, ?_⟩⟩
  · simp [z (l hl), firstOrNA]
  · simp [r1 h1, r2 h2]
  · simp

theorem CameraPrintAcquisitionControls_NA (w : World) (hc : w.dev.countsFit) :
    (CameraPrintAcquisitionControls w).returns = true ∧
    (w.dev.lacks "AcquisitionMode" → Event.MosPrintf "%30s %s\n"
      [.s "Supported acquisition modes:", .s "N/A"] ∈
        newEvents w (CameraPrintAcquisitionControls w)) ∧
    (w.dev.lacks "TriggerSelector" → Event.MosPrintf "\n%30s %s\n"
      [.s "Supported trigger selectors:", .s "N/A"] ∈
        newEvents w (CameraPrintAcquisitionControls w)) ∧
    (w.dev.lacks "ExposureMode" → Event.MosPrintf "\n%30s %s\n"
      [.s "Supported exposure modes:", .s "N/A"] ∈
        newEvents w (CameraPrintAcquisitionControls w)) ∧
    (w.dev.lacks "ExposureTime" → Event.MosPrintf "\n%30s %s\n"
      [.s "Exposure time:", .s "N/A"] ∈ newEvents w (CameraPrintAcquisitionControls w)) := by
  obtain ⟨c1, c2, c3, n1, n2, n3, x, w1, evs, -, t, -, z1, l1, z2, l2, z3, l3, r, h⟩ :=
    CameraPrintAcquisitionControls_run w hc
  rw [newEvents_run h t]
  refine ⟨returns_of_eq h, fun hl => ?_, fun hl => ?_, fun hl => ?_, fun hl => ?_⟩
  · simp [z1 (l1 hl), firstOrNA]
  · simp [z2 (l2 hl), firstOrNA]
  · simp [z3 (l3 hl), firstOrNA]
  · simp [r hl]

theorem CameraPrintEventControls_NA (w : World) (hc : w.dev.countsFit) :
    (CameraPrintEventControls w).returns = true ∧
    (w.dev.lacks "EventSelector" → ∃ before, newEvents w (CameraPrintEventControls w) =
      before ++ [.MosPrintf "%30s " [.s "Supported events:"], .MosPrintf "N/A\n" []]) := by
  obtain ⟨c, names, w1, evs, -, t, -, z, l, h⟩ := CameraPrintEventControls_run w hc
  rw [newEvents_run h t]
  refine ⟨returns_of_eq h, fun hl => ⟨evs ++
    [.MosPrintf "\n---------------------- Event Controls ----------------------\n\n" []], ?_⟩⟩
  simp [z (l hl)]

theorem CameraPrintIOControls_NA (w : World) (hc : w.dev.countsFit) :
    (CameraPrintIOControls w).returns = true ∧
    (w.dev.lacks "LineSelector" → Event.MosPrintf "%7s%-18s%-18s%-18s%7s\n"
      [.s "", .s "N/A", .s "N/A", .s "N/A", .s ""] ∈ newEvents w (CameraPrintIOControls w)) := by
  obtain ⟨c, Lines, rows, w1, evs, -, t, -, z, l, h⟩ := CameraPrintIOControls_run w hc
  rw [newEvents_run h t]
  refine ⟨returns_of_eq h, fun hl => ?_⟩
  simp [l hl]

theorem CameraPrintCounterAndTimerControls_NA (w : World) (hc : w.dev.countsFit) :
    (CameraPrintCounterAndTimerControls w).returns = true ∧
    (w.dev.lacks "CounterSelector" → w.dev.lacks "TimerSelector" → ∃ before,
      newEvents w (CameraPrintCounterAndTimerControls w) = before ++
        [.MosPrintf "%20s%-15s%-15s%20s\n" [.s "", .s "N/A", .s "N/A", .s ""],
         .MosPrintf "%20s%-15s%-15s%20s\n" [.s "", .s "N/A", .s "N/A", .s ""]]) ∧
    (w.dev.lacks "CounterSelector" ∨ w.dev.lacks "TimerSelector" →
      Event.MosPrintf "%20s%-15s%-15s%20s\n" [.s "", .s "N/A", .s "N/A", .s ""] ∈
        newEvents w (CameraPrintCounterAndTimerControls w)) := by
  obtain ⟨c1, c2, Counters, Timers, cs, ts, w1, evs, -, t, -, z1, l1, z2, l2, h⟩ :=
    CameraPrintCounterAndTimerControls_run w hc
  rw [newEvents_run h t]
  refine ⟨returns_of_eq h, fun h1 h2 => ⟨evs ++
    [.MosPrintf "\n---------------- Counter and Timer Controls ----------------\n\n" [],
     .MosPrintf "%20s%-15s%-15s%20s\n\n" [.s "", .s "Name", .s "Status", .s ""]], ?_⟩,
    fun hl => ?_⟩
  · simp [z1 (l1 h1), z2 (l2 h2)]
  · rcases hl with hl | hl
    · simp [z1 (l1 hl)]
    · simp [z2 (l2 hl)]


theorem bareDevice_lacks (name : String) : bareDevice.lacks name :=
  fun _ _ => ⟨rfl, rfl, rfl, rfl⟩

theorem bareDevice_countsFit : bareDevice.countsFit := by
  intro h name c hq
  simp [bareDevice] at hq

/-- The features the reporters guard.  On a device whose entry counts can be allocated,
each of the seven reporters returns, and for every feature it guards it prints `N/A`
when the device does not have that feature: the five device strings, `GevVersionMajor`,
`GevMACAddress`, `GevCurrentIPAddress`, `ExposureTime`, and the enumerations
`PixelFormat`, `AcquisitionMode`, `TriggerSelector`, `ExposureMode`, `EventSelector`,
`LineSelector`, `CounterSelector` and `TimerSelector`; where `SensorWidth` and
`SensorHeight` are absent the sensor size line shows the values of the ROI line. -/
theorem reporters_print_NA_for_guarded_features (w : World) (hc : w.dev.countsFit) :
    ((CameraPrintDeviceControls w).returns = true ∧
      (CameraPrintTransportLayerControls w).returns = true ∧
      (CameraPrintImageFormatControls w).returns = true ∧
      (CameraPrintAcquisitionControls w).returns = true ∧
      (CameraPrintEventControls w).returns = true ∧
      (CameraPrintIOControls w).returns = true ∧
      (CameraPrintCounterAndTimerControls w).returns = true) ∧
    (w.dev.lacks "DeviceVendorName" → ∃ model, Event.MosPrintf "%30s %s %s\n"
      [.s "Camera:", .s "N/A", .s model] ∈ newEvents w (CameraPrintDeviceControls w)) ∧
    (w.dev.lacks "DeviceModelName" → ∃ vendor, Event.MosPrintf "%30s %s %s\n"
      [.s "Camera:", .s vendor, .s "N/A"] ∈ newEvents w (CameraPrintDeviceControls w)) ∧
    printsWhenAbsent CameraPrintDeviceControls "DeviceID"
      (.MosPrintf "%30s %s\n" [.s "Serial number:", .s "N/A"]) w ∧
    printsWhenAbsent CameraPrintDeviceControls "DeviceUserID"
      (.MosPrintf "%30s %s\n" [.s "User-defined name:", .s "N/A"]) w ∧
    printsWhenAbsent CameraPrintDeviceControls "DeviceScanType"
      (.MosPrintf "%30s %s\n" [.s "Device scan type:", .s "N/A"]) w ∧
    printsWhenAbsent CameraPrintTransportLayerControls "GevVersionMajor"
      (.MosPrintf "%30s N/A\n" [.s "GigE Vision Version:"]) w ∧
    printsWhenAbsent CameraPrintTransportLayerControls "GevMACAddress"
      (.MosPrintf "%30s N/A\n" [.s "MAC Address:"]) w ∧
    printsWhenAbsent CameraPrintTransportLayerControls "GevCurrentIPAddress"
      (.MosPrintf "%30s N/A\n" [.s "Current IP Address:"]) w ∧
    printsWhenAbsent CameraPrintImageFormatControls "PixelFormat"
      (.MosPrintf "\n%30s %s\n" [.s "Supported pixel formats:", .s "N/A"]) w ∧
    (w.dev.lacks "SensorWidth" → w.dev.lacks "SensorHeight" → ∃ Width Height,
      Event.MosPrintf "%30s %4lld x %-4lld\n" [.s "Sensor size:", .d Width, .d Height] ∈
        newEvents w (CameraPrintImageFormatControls w) ∧
      Event.MosPrintf "%30s %4lld x %-4lld\n" [.s "Current ROI:", .d Width, .d Height] ∈
        newEvents w (CameraPrintImageFormatControls w)) ∧
    printsWhenAbsent CameraPrintAcquisitionControls "AcquisitionMode"
      (.MosPrintf "%30s %s\n" [.s "Supported acquisition modes:", .s "N/A"]) w ∧
    printsWhenAbsent CameraPrintAcquisitionControls "TriggerSelector"
      (.MosPrintf "\n%30s %s\n" [.s "Supported trigger selectors:", .s "N/A"]) w ∧
    printsWhenAbsent CameraPrintAcquisitionControls "ExposureMode"
      (.MosPrintf "\n%30s %s\n" [.s "Supported exposure modes:", .s "N/A"]) w ∧
    printsWhenAbsent CameraPrintAcquisitionControls "ExposureTime"
      (.MosPrintf "\n%30s %s\n" [.s "Exposure time:", .s "N/A"]) w ∧
    (w.dev.lacks "EventSelector" → ∃ before, newEvents w (CameraPrintEventControls w) =
      before ++ [.MosPrintf "%30s " [.s "Supported events:"], .MosPrintf "N/A\n" []]) ∧
    printsWhenAbsent CameraPrintIOControls "LineSelector"
      (.MosPrintf "%7s%-18s%-18s%-18s%7s\n" [.s "", .s "N/A", .s "N/A", .s "N/A", .s ""]) w ∧
    printsWhenAbsent CameraPrintCounterAndTimerControls "CounterSelector"
      (.MosPrintf "%20s%-15s%-15s%20s\n" [.s "", .s "N/A", .s "N/A", .s ""]) w ∧
    printsWhenAbsent CameraPrintCounterAndTimerControls "TimerSelector"
      (.MosPrintf "%20s%-15s%-15s%20s\n" [.s "", .s "N/A", .s "N/A", .s ""]) w ∧
    (w.dev.lacks "CounterSelector" → w.dev.lacks "TimerSelector" → ∃ before,
      newEvents w (CameraPrintCounterAndTimerControls w) = before ++
        [.MosPrintf "%20s%-15s%-15s%20s\n" [.s "", .s "N/A", .s "N/A", .s ""],
         .MosPrintf "%20s%-15s%-15s%20s\n" [.s "", .s "N/A", .s "N/A", .s ""]]) := by
  obtain ⟨a0, a1, a2, a3, a4, a5⟩ := CameraPrintDeviceControls_NA w
  obtain ⟨b0, b1, b2, b3⟩ := CameraPrintTransportLayerControls_NA w
  obtain ⟨c0, c1, c2⟩ := CameraPrintImageFormatControls_NA w hc
  obtain ⟨d0, d1, d2, d3, d4⟩ := CameraPrintAcquisitionControls_NA w hc
  obtain ⟨e0, e1⟩ := CameraPrintEventControls_NA w hc
  obtain ⟨f0, f1⟩ := CameraPrintIOControls_NA w hc
  obtain ⟨g0, g1, g2⟩ := CameraPrintCounterAndTimerControls_NA w hc
  exact ⟨⟨a0, b0, c0, d0, e0, f0, g0⟩, a1, a2, a3, a4, a5, b1, b2, b3, c1, c2, d1, d2, d3, d4,
    e1, f1, fun hl => g2 (Or.inl hl), fun hl => g2 (Or.inr hl), g1⟩

/-- C1 fails on the code.  `CameraPrintTransportLayerControls` guards three of the
features it prints, as the header of the file promises for every feature the camera does
not support: the version, the MAC address and the IP address are printed as `N/A` when
the device does not have them.  The packet size is not guarded: on every device without
`GevSCPSPacketSize` the reporter returns, the last line it prints is `Packet size:` with
the number `0`, the initial value of the variable, and no line it prints under that
label shows anything else. -/
theorem CameraPrintTransportLayerControls_packet_size_unguarded (w : World)
    (hl : w.dev.lacks "GevSCPSPacketSize") :
    (CameraPrintTransportLayerControls w).returns = true ∧
    (newEvents w (CameraPrintTransportLayerControls w)).getLast? =
      some (.MosPrintf "%30s %lld\n" [.s "Packet size:", .d 0]) ∧
    (∀ (fmt : String) (args : List Arg),
      Event.MosPrintf fmt (.s "Packet size:" :: args) ∈
        newEvents w (CameraPrintTransportLayerControls w) →
      fmt = "%30s %lld\n" ∧ args = [.d 0]) ∧
    (w.dev.lacks "GevVersionMajor" → Event.MosPrintf "%30s N/A\n"
      [.s "GigE Vision Version:"] ∈ newEvents w (CameraPrintTransportLayerControls w)) ∧
    (w.dev.lacks "GevMACAddress" → Event.MosPrintf "%30s N/A\n"
      [.s "MAC Address:"] ∈ newEvents w (CameraPrintTransportLayerControls w)) ∧
    (w.dev.lacks "GevCurrentIPAddress" → Event.MosPrintf "%30s N/A\n"
      [.s "Current IP Address:"] ∈ newEvents w (CameraPrintTransportLayerControls w)) := by
  obtain ⟨g0, g1, g2, g3⟩ := CameraPrintTransportLayerControls_NA w
  obtain ⟨v1, v2, v3, v4, v5, w2, -, r3, -, -, h, -, t⟩ :=
    CameraPrintTransportLayerControls_run w
  have h3 : v3 = 0 := r3 hl
  subst h3
  refine ⟨g0, ?_, ?_, g1, g2, g3⟩
  · rw [newEvents_of_ret h t]
    simp
  · intro fmt args hm
    rw [newEvents_of_ret h t] at hm
    have hv : ¬ (Arg.s "GigE Vision Version:" = Arg.s "Packet size:") := by decide
    have hma : ¬ (Arg.s "MAC Address:" = Arg.s "Packet size:") := by decide
    have hip : ¬ (Arg.s "Current IP Address:" = Arg.s "Packet size:") := by decide
    simp only [List.mem_cons, List.mem_singleton, List.not_mem_nil, or_false] at hm
    rcases hm with hm | hm | hm | hm | hm | hm | hm | hm | hm | hm
    · cases hm
    · cases hm
    · cases hm
    · cases hm
    · cases hm
    · cases hm
    · split at hm
      · injection hm with _ ha
        injection ha with ha _
        exact absurd ha.symm hv
      · injection hm with _ ha
        injection ha with ha _
        exact absurd ha.symm hv
    · split at hm
      · injection hm with _ ha
        injection ha with ha _
        exact absurd ha.symm hma
      · injection hm with _ ha
        injection ha with ha _
        exact absurd ha.symm hma
    · split at hm
      · injection hm with _ ha
        injection ha with ha _
        exact absurd ha.symm hip
      · injection hm with _ ha
        injection ha with ha _
        exact absurd ha.symm hip
    · injection hm with hf ha
      injection ha with _ ha
      exact ⟨hf, ha⟩

theorem CameraPrintTransportLayerControls_packet_size_unguarded_witness :
    bareDevice.lacks "GevSCPSPacketSize" ∧
    (newEvents bareWorld (CameraPrintTransportLayerControls bareWorld)).getLast? =
      some (.MosPrintf "%30s %lld\n" [.s "Packet size:", .d 0]) ∧
    newEvents bareWorld (CameraPrintTransportLayerControls bareWorld) =
      [.MdigInquireFeature .value "GevVersionMajor",
       .MdigInquireFeature .value "GevVersionMinor",
       .MdigInquireFeature .value "GevSCPSPacketSize",
       .MdigInquireFeature .value "GevMACAddress",
       .MdigInquireFeature .value "GevCurrentIPAddress",
       .MosPrintf "\n-------------- Camera Transport Layer Controls -------------\n\n" [],
       .MosPrintf "%30s N/A\n" [.s "GigE Vision Version:"],
       .MosPrintf "%30s N/A\n" [.s "MAC Address:"],
       .MosPrintf "%30s N/A\n" [.s "Current IP Address:"],
       .MosPrintf "%30s %lld\n" [.s "Packet size:", .d 0]] ∧
    ¬ printsWhenAbsent CameraPrintTransportLayerControls "GevSCPSPacketSize"
      (.MosPrintf "%30s %s\n" [.s "Packet size:", .s "N/A"]) bareWorld := by
  have hT := CameraPrintTransportLayerControls_packet_size_unguarded bareWorld
    (bareDevice_lacks "GevSCPSPacketSize")
  refine ⟨bareDevice_lacks _, hT.2.1, by decide!, fun hp => ?_⟩
  have hm := hT.2.2.1 _ _ (hp (bareDevice_lacks _))
  exact absurd hm.1 (by decide)


/-! ## The main function -/

theorem keeps_emit (e : Event) : Keeps (emit e) := by
  intro w b w2 h
  cases h
  exact ⟨rfl, rfl⟩

theorem keeps_MappControlError (b : Bool) : Keeps (MappControlError b) :=
  keeps_emit _

theorem keeps_throwException {α : Type} : Keeps (throwException : Prog α) := by
  intro w b w2 h
  cases h

theorem keeps_MdigInquireInt (what : String) (cur : Int) :
    Keeps (MdigInquireInt what cur) := by
  intro w b w2 h
  cases h
  exact ⟨rfl, rfl⟩

theorem MosMain_apply (G Q inf : Int) (mask : String → Int) (w : World) :
    MosMain G Q inf mask w =
      if w.dev.systemType ≠ G ∧ w.dev.systemType ≠ Q then
        quitUnsupported { w with
          trace := w.trace ++ [.call "MappAllocDefault"] ++ [.call "MsysInquire"] }
      else
        (showFeatures mask >>= fun _ => offerTriggeredAcquisition inf >>= fun _ =>
          emit (.call "MappFreeDefault") >>= fun _ => Prog.pure 0) { w with
          trace := w.trace ++ [.call "MappAllocDefault"] ++ [.call "MsysInquire"] } := by
  unfold MosMain
  simp only [bind_apply, emit_apply, andThen_ret, MsysInquire]
  split <;> rfl

theorem multiFrameCamera_countsFit : multiFrameCamera.countsFit := by
  intro h name c hq
  simp only [multiFrameCamera] at hq
  split at hq
  · cases hq; decide
  · split at hq
    · cases hq; decide
    · cases hq

/-! ## The trigger source -/

theorem entryQueries_length (feature : String) (todo : Nat) :
    ∀ i, (entryQueries feature todo i).length = todo := by
  induction todo with
  | zero => intro i; rfl
  | succ n ih => intro i; simp [entryQueries, ih]

theorem entryNamesFrom_length (d : Device) (feature : String) (todo : Nat) :
    ∀ i h, (entryNamesFrom d feature todo i h).length = todo := by
  induction todo with
  | zero => intro i h; rfl
  | succ n ih => intro i h; simp [entryNamesFrom, ih]

/-- The entry name loop with a body that only updates the capability flags: it returns
the names the device gives, has made one query per index, and has folded the body over
the names. -/
theorem inquireEntryNames_run (feature : String) (body : String → Prog Unit)
    (g : String → Capabilities → Capabilities)
    (hb : ∀ name w, body name w = .ret () { w with caps := g name w.caps }) (todo : Nat) :
    ∀ (i : Nat) (w : World), inquireEntryNames feature body todo i w =
      .ret (entryNamesFrom w.dev feature todo i w.trace) { w with
        caps := (entryNamesFrom w.dev feature todo i w.trace).foldl (fun c n => g n c) w.caps
        trace := w.trace ++ entryQueries feature todo i } := by
  induction todo with
  | zero =>
    intro i w
    simp [inquireEntryNames, entryNamesFrom, entryQueries]
  | succ n ih =>
    intro i w
    unfold inquireEntryNames
    simp only [bind_apply, MdigInquireFeatureString, andThen_ret, hb, ih, Prog_pure_apply,
      entryNamesFrom, entryQueries, List.foldl_cons, List.append_assoc, List.singleton_append]

theorem printTriggerSources_returns (l : List String) :
    ∀ (i : Nat) (w : World), ∃ w2, printTriggerSources l i w = .ret () w2 ∧
      w2.dev = w.dev ∧ w2.nums = w.nums ∧ w2.keys = w.keys ∧ w2.caps = w.caps ∧
      ∃ evs, w2.trace = w.trace ++ evs := by
  induction l with
  | nil => intro i w; exact ⟨w, rfl, rfl, rfl, rfl, rfl, [], by simp⟩
  | cons a t ih =>
    intro i w
    unfold printTriggerSources
    simp only [bind_apply, MosPrintf, emit_apply, andThen_ret]
    obtain ⟨w2, h, d, n, k, c, evs, ht⟩ := ih (i + 1)
      { w with trace := w.trace ++ [.MosPrintf "%-35s(%d) %-20s\n" [.s "", .d i, .s a]] }
    exact ⟨w2, h, d, n, k, c,
      .MosPrintf "%-35s(%d) %-20s\n" [.s "", .d i, .s a] :: evs, by rw [ht]; simp⟩


theorem foldl_keep {α β : Type} (l : List β) (a : α) : l.foldl (fun c _ => c) a = a := by
  induction l with
  | nil => rfl
  | cons x t ih => simp

theorem index_of_lt (v : List String) (i : Int) (h0 : 0 ≤ i) (h1 : i.toNat < v.length)
    (w : World) : index v i w = .ret (v.getD i.toNat "") w := by
  unfold index
  have hneg : ¬ i < 0 := by omega
  simp only [hneg, if_false]
  rw [List.getElem?_eq_getElem h1]
  simp [List.getD_eq_getElem?_getD, List.getElem?_eq_getElem h1]

/-- The selection loop reads numbers until one is an index into the `Cnt` sources: it
returns the first such number, and blocks for ever when there is none. -/
theorem selectionLoop_run (Cnt : MIL_INT) (names : List String)
    (hlen : names.length = Cnt.toNat) :
    ∀ (nums : List Int) (w : World) (fuel : Nat), w.nums = nums → nums.length < fuel →
      (∀ sel, nums.find? (fun n => 0 ≤ n ∧ n < Cnt) = some sel →
        ∃ w2, selectionLoop Cnt names fuel w = .ret sel w2 ∧ w2.dev = w.dev ∧
          w2.keys = w.keys ∧ w2.caps = w.caps ∧ (∃ evs, w2.trace = w.trace ++ evs) ∧
          0 ≤ sel ∧ sel < Cnt) ∧
      (nums.find? (fun n => 0 ≤ n ∧ n < Cnt) = none →
        (selectionLoop Cnt names fuel w).stopped = some .hang) := by
  intro nums
  induction nums with
  | nil =>
    intro w fuel hn hf
    cases fuel with
    | zero => simp at hf
    | succ f =>
      refine ⟨fun sel h => by simp at h, fun _ => ?_⟩
      unfold selectionLoop
      simp only [bind_apply, scanf, hn, andThen_halt]
      rfl
  | cons n t ih =>
    intro w fuel hn hf
    cases fuel with
    | zero => simp at hf
    | succ f =>
      have hf2 : t.length < f := by simpa using hf
      unfold selectionLoop
      simp only [bind_apply, scanf, hn, andThen_ret]
      by_cases hv : 0 ≤ n ∧ n < Cnt
      · have hidx : n.toNat < names.length := by omega
        simp only [hv, and_self, if_true, bind_apply, index_of_lt names n hv.1 hidx, andThen_ret,
          MosPrintf, emit_apply, Prog_pure_apply]
        refine ⟨fun sel h => ?_, fun h => ?_⟩
        · simp only [List.find?_cons, hv, and_self, decide_True] at h
          cases h
          exact ⟨_, rfl, rfl, rfl, rfl, ⟨_, by simp [List.append_assoc]; rfl⟩, hv.1, hv.2⟩
        · simp [List.find?_cons, hv] at h
      · simp only [hv, if_false, bind_apply, MosPrintf, emit_apply, andThen_ret]
        have hfind : (n :: t).find? (fun n => 0 ≤ n ∧ n < Cnt) =
            t.find? (fun n => 0 ≤ n ∧ n < Cnt) := by
          simp [List.find?_cons, hv]
        rw [hfind]
        obtain ⟨i1, i2⟩ := ih { w with
          nums := t
          trace := w.trace ++ [.scanf "%d" n] ++ [.MosPrintf "Invalid selection.\n" []] } f rfl hf2
        refine ⟨fun sel h => ?_, i2⟩
        obtain ⟨w2, r, d, k, c, ⟨evs, ht⟩, b⟩ := i1 sel h
        exact ⟨w2, r, d, k, c, ⟨[.scanf "%d" n] ++ [.MosPrintf "Invalid selection.\n" []] ++ evs,
          by rw [ht]; simp⟩, b⟩


theorem SelectTriggerSource_apply (w : World) :
    SelectTriggerSource w =
      if sourceCount w ≠ 0 then
        (vectorAssign (sourceCount w) >>= fun size =>
          inquireEntryNames "TriggerSource" (fun _ => Prog.pure ()) size 0 >>=
          fun TriggerSource => index TriggerSource 0 >>= fun first =>
          MosPrintf "(%d) %-30s\n" [.d 0, .s first] >>= fun _ =>
          printTriggerSources (TriggerSource.drop 1) 1 >>= fun _ =>
          (fun w1 => selectionLoop (sourceCount w) TriggerSource (w1.nums.length + 1) w1) >>=
          fun Selection => index TriggerSource Selection >>= fun chosen =>
          MdigControlFeature "TriggerSource" (.str chosen) >>= fun _ =>
          if chosen = "Software" then Prog.pure true else Prog.pure false)
          { w with trace := w.trace ++ [sourcePrompt] ++
              [.MdigInquireFeature .enumEntryCount "TriggerSource"] }
      else
        .ret false { w with trace := w.trace ++ [sourcePrompt] ++
          [.MdigInquireFeature .enumEntryCount "TriggerSource"] } := by
  unfold SelectTriggerSource
  simp only [bind_apply, MosPrintf, emit_apply, andThen_ret, MdigInquireFeatureInt]
  show (if sourceCount w ≠ 0 then _ else _ : Prog Bool) _ = _
  split <;> rfl

/-- With at least one source enumerated, `SelectTriggerSource` reaches its selection
loop with the numbers still pending and the names the device gave. -/
theorem SelectTriggerSource_reaches_selection (w : World) (hpos : 0 < sourceCount w)
    (hfit : sourceCount w ≤ (w.dev.limit : Int)) :
    ∃ w3 evs, w3.nums = w.nums ∧ w3.trace = w.trace ++ evs ∧
      (sourceNames w).length = (sourceCount w).toNat ∧
      SelectTriggerSource w =
        ((fun w1 => selectionLoop (sourceCount w) (sourceNames w) (w1.nums.length + 1) w1) >>=
          fun Selection => index (sourceNames w) Selection >>= fun chosen =>
          MdigControlFeature "TriggerSource" (.str chosen) >>= fun _ =>
          if chosen = "Software" then Prog.pure true else Prog.pure false) w3 := by
  have hne : sourceCount w ≠ 0 := by omega
  have hnn : ¬ sourceCount w < 0 := by omega
  have hlen : (sourceNames w).length = (sourceCount w).toNat :=
    entryNamesFrom_length _ _ _ _ _
  have hnames := inquireEntryNames_run "TriggerSource" (fun _ => Prog.pure ()) (fun _ c => c)
    (fun _ _ => rfl) (sourceCount w).toNat 0
    { w with trace := w.trace ++ [sourcePrompt] ++
        [.MdigInquireFeature .enumEntryCount "TriggerSource"] }
  have hsn : entryNamesFrom w.dev "TriggerSource" (sourceCount w).toNat 0
      (w.trace ++ [sourcePrompt] ++ [.MdigInquireFeature .enumEntryCount "TriggerSource"]) =
      sourceNames w := by
    unfold sourceNames
    simp
  simp only [hsn] at hnames
  have h0 : (0 : Int).toNat < (sourceNames w).length := by
    rw [hlen]
    simp only [Int.toNat_zero]
    omega
  obtain ⟨w3, hp, -, hn, -, -, evs, ht⟩ := printTriggerSources_returns ((sourceNames w).drop 1) 1
    { w with
      caps := (sourceNames w).foldl (fun c _ => c) w.caps
      trace := w.trace ++ [sourcePrompt] ++
        [.MdigInquireFeature .enumEntryCount "TriggerSource"] ++
        entryQueries "TriggerSource" (sourceCount w).toNat 0 ++
        [.MosPrintf "(%d) %-30s\n" [.d 0, .s ((sourceNames w).getD (0 : Int).toNat "")]] }
  refine ⟨w3, _, hn, ht.trans (by simp only [List.append_assoc]; rfl), hlen, ?_⟩
  rw [SelectTriggerSource_apply, if_pos hne]
  have hva : vectorAssign (sourceCount w)
      { w with trace := w.trace ++ [sourcePrompt] ++
          [.MdigInquireFeature .enumEntryCount "TriggerSource"] } =
      .ret (sourceCount w).toNat
        { w with trace := w.trace ++ [sourcePrompt] ++
            [.MdigInquireFeature .enumEntryCount "TriggerSource"] } :=
    vectorAssign_fits (by omega) hfit
  simp only [bind_apply, hva, andThen_ret, hnames,
    index_of_lt _ 0 (le_refl 0) h0, MosPrintf, emit_apply]
  rw [hp]
  rfl


theorem SelectTriggerSource_accepted (w : World) (hpos : 0 < sourceCount w)
    (hfit : sourceCount w ≤ (w.dev.limit : Int)) (sel : Int)
    (hsel : acceptedSelection w = some sel) :
    ∃ w2 evs, SelectTriggerSource w =
        .ret (decide ((sourceNames w).getD sel.toNat "" = "Software")) w2 ∧
      w2.trace = w.trace ++ evs ++
        [.MdigControlFeature "TriggerSource" (.str ((sourceNames w).getD sel.toNat ""))] := by
  obtain ⟨w3, evs, hn, ht, hlen, hrun⟩ := SelectTriggerSource_reaches_selection w hpos hfit
  have hfind : w3.nums.find? (fun n => 0 ≤ n ∧ n < sourceCount w) = some sel := by
    rw [hn]; exact hsel
  obtain ⟨w4, r, -, -, -, ⟨evs2, ht2⟩, b0, b1⟩ :=
    (selectionLoop_run (sourceCount w) (sourceNames w) hlen w3.nums w3 (w3.nums.length + 1) rfl
      (Nat.lt_succ_self _)).1 sel hfind
  have b2 : (sel : Int) < sourceCount w := b1
  have hidx : sel.toNat < (sourceNames w).length := by omega
  rw [hrun]
  simp only [bind_apply, r, andThen_ret, index_of_lt _ sel b0 hidx, MdigControlFeature,
    emit_apply]
  by_cases hsw : (sourceNames w).getD sel.toNat "" = "Software"
  · simp only [hsw, if_true, decide_True, Prog_pure_apply]
    exact ⟨_, evs ++ evs2, rfl, by simp only [ht2, ht, List.append_assoc]⟩
  · simp only [hsw, if_false, decide_False, Prog_pure_apply]
    exact ⟨_, evs ++ evs2, rfl, by simp only [ht2, ht, List.append_assoc]⟩

theorem SelectTriggerSource_no_selection (w : World) (hpos : 0 < sourceCount w)
    (hfit : sourceCount w ≤ (w.dev.limit : Int))
    (hsel : acceptedSelection w = none) : (SelectTriggerSource w).stopped = some .hang := by
  obtain ⟨w3, evs, hn, ht, hlen, hrun⟩ := SelectTriggerSource_reaches_selection w hpos hfit
  have hfind : w3.nums.find? (fun n => 0 ≤ n ∧ n < sourceCount w) = none := by
    rw [hn]; exact hsel
  have h := (selectionLoop_run (sourceCount w) (sourceNames w) hlen w3.nums w3
    (w3.nums.length + 1) rfl (Nat.lt_succ_self _)).2 hfind
  rw [hrun, bind_apply]
  cases hl : selectionLoop (sourceCount w) (sourceNames w) (w3.nums.length + 1) w3 with
  | ret a w4 => rw [hl] at h; cases h
  | halt r w4 => rw [hl] at h; exact h

theorem SelectTriggerSource_refused (w : World)
    (hbad : sourceCount w < 0 ∨ (w.dev.limit : Int) < sourceCount w) :
    SelectTriggerSource w = .halt .exception { w with trace := w.trace ++ [sourcePrompt] ++
      [.MdigInquireFeature .enumEntryCount "TriggerSource"] } := by
  have hne : sourceCount w ≠ 0 := by
    have := ten_le_limit w.dev
    omega
  have hva : vectorAssign (sourceCount w)
      { w with trace := w.trace ++ [sourcePrompt] ++
          [.MdigInquireFeature .enumEntryCount "TriggerSource"] } =
      .halt .exception
        { w with trace := w.trace ++ [sourcePrompt] ++
            [.MdigInquireFeature .enumEntryCount "TriggerSource"] } :=
    vectorAssign_throws hbad
  rw [SelectTriggerSource_apply, if_pos hne]
  simp only [bind_apply, hva, andThen_halt]

/-- C11. On return from `SelectTriggerSource` the result, which the caller stores in
`SoftwareTriggerSelected`, is `true` exactly when the device enumerates at least one
`TriggerSource` entry and the name at the accepted selection index (the first pending
number that is an index into the entries) is `Software`.  When the function returns is
settled too: with no entry it returns `false` without reading a number; with entries
that the vector can be sized for and an accepted selection it writes the selected name
to `TriggerSource` last and returns whether that name is `Software`; with such entries
and no accepted selection it waits for ever; with a count that is negative or beyond
what the host can allocate the vector resize throws right after the count query.  The
result never depends on the value the flag had on entry, which the function does not
read. -/
theorem SelectTriggerSource_software_selected (w : World) :
    (sourceCount w = 0 → ∃ w2, SelectTriggerSource w = .ret false w2 ∧ w2.nums = w.nums) ∧
    (0 < sourceCount w → sourceCount w ≤ (w.dev.limit : Int) →
      ∀ sel, acceptedSelection w = some sel →
      ∃ w2 evs, SelectTriggerSource w =
          .ret (decide ((sourceNames w).getD sel.toNat "" = "Software")) w2 ∧
        w2.trace = w.trace ++ evs ++
          [.MdigControlFeature "TriggerSource" (.str ((sourceNames w).getD sel.toNat ""))]) ∧
    (0 < sourceCount w → sourceCount w ≤ (w.dev.limit : Int) → acceptedSelection w = none →
      (SelectTriggerSource w).stopped = some .hang) ∧
    (sourceCount w < 0 ∨ (w.dev.limit : Int) < sourceCount w →
      (SelectTriggerSource w).stopped = some .exception ∧
      newEvents w (SelectTriggerSource w) =
        [sourcePrompt, .MdigInquireFeature .enumEntryCount "TriggerSource"]) ∧
    (∀ soft w2, SelectTriggerSource w = .ret soft w2 →
      (soft = true ↔ 0 < sourceCount w ∧ ∃ sel, acceptedSelection w = some sel ∧
        (sourceNames w).getD sel.toNat "" = "Software")) := by
  have h0 : sourceCount w = 0 →
      ∃ w2, SelectTriggerSource w = .ret false w2 ∧ w2.nums = w.nums := by
    intro h
    rw [SelectTriggerSource_apply, if_neg (by simp [h])]
    exact ⟨_, rfl, rfl⟩
  have hthrow : sourceCount w < 0 ∨ (w.dev.limit : Int) < sourceCount w →
      (SelectTriggerSource w).stopped = some .exception ∧
      newEvents w (SelectTriggerSource w) =
        [sourcePrompt, .MdigInquireFeature .enumEntryCount "TriggerSource"] := by
    intro hbad
    rw [SelectTriggerSource_refused w hbad]
    refine ⟨rfl, ?_⟩
    apply newEvents_eq
    simp only [world_halt, List.append_assoc, List.cons_append, List.nil_append]
  refine ⟨h0, SelectTriggerSource_accepted w, SelectTriggerSource_no_selection w,
    hthrow, fun soft w2 hr => ?_⟩
  by_cases hbad : sourceCount w < 0 ∨ (w.dev.limit : Int) < sourceCount w
  · have := (hthrow hbad).1
    rw [hr] at this
    cases this
  have hfit : sourceCount w ≤ (w.dev.limit : Int) := by omega
  rcases lt_trichotomy (sourceCount w) 0 with hneg | hz | hpos
  · omega
  · obtain ⟨w3, h3, -⟩ := h0 hz
    rw [hr] at h3
    cases h3
    constructor
    · intro h; cases h
    · rintro ⟨h, -⟩; omega
  · cases hsel : acceptedSelection w with
    | none =>
      have := SelectTriggerSource_no_selection w hpos hfit hsel
      rw [hr] at this
      cases this
    | some sel =>
      obtain ⟨w3, evs, h3, -⟩ := SelectTriggerSource_accepted w hpos hfit sel hsel
      rw [hr] at h3
      cases h3
      constructor
      · intro h
        exact ⟨hpos, sel, rfl, by simpa using h⟩
      · rintro ⟨-, sel2, hs2, hname⟩
        cases hs2
        simpa using hname

theorem SelectTriggerSource_software_selected_witness :
    (sourceNames (sampleWorld twoSourceCamera Capabilities.initial [] [1])).getD
      (1 : Int).toNat "" = "Software" ∧
    ∃ w2 evs, SelectTriggerSource (sampleWorld twoSourceCamera Capabilities.initial [] [1]) =
        .ret (decide ((sourceNames (sampleWorld twoSourceCamera Capabilities.initial [] [1])).getD
          (1 : Int).toNat "" = "Software")) w2 ∧
      w2.trace = (sampleWorld twoSourceCamera Capabilities.initial [] [1]).trace ++ evs ++
        [.MdigControlFeature "TriggerSource" (.str
          ((sourceNames (sampleWorld twoSourceCamera Capabilities.initial [] [1])).getD
            (1 : Int).toNat ""))] :=
  ⟨by decide, (SelectTriggerSource_software_selected
    (sampleWorld twoSourceCamera Capabilities.initial [] [1])).2.1 (by decide) (by decide!) 1
      (by decide)⟩

/-! ## The acquisition loop -/

theorem processStarts_append (a b : List Event) :
    processStarts (a ++ b) = processStarts a ++ processStarts b := by
  simp [processStarts]

theorem processStarts_eq_nil {evs : List Event} (h : ∀ e ∈ evs, e.kind ≠ .process) :
    processStarts evs = [] := by
  unfold processStarts
  rw [List.filterMap_eq_nil_iff]
  intro e he
  have := h e he
  cases e <;> simp_all [Event.kind]

theorem keysRead_append (a b : List Event) : keysRead (a ++ b) = keysRead a ++ keysRead b := by
  simp [keysRead]

/-- The part of `DoTriggeredAcquisition` after the set-up, given what its processing
loop does: the allocations, the calls of the loop, the reset and the frees. -/
theorem acquire_run (inf : Int) (s : TriggerSetup) (w : World) (rest : List MIL_INT)
    (loopEvs : List MIL_ID → Nat → List Event)
    (hfit : if s.NbFrames = inf then inf ≤ 10
      else 0 ≤ s.NbFrames ∧ s.NbFrames ≤ (w.dev.limit : Int))
    (hp : ∀ (bufs : List MIL_ID) (size : Nat) (w1 : World), w1.keys = w.keys →
      w1.kbhit = w.kbhit →
      ∃ w2, processLoop s bufs size
          (if s.TriggerType = .eMultiFrame then .sequenceCount s.NbFrames else .start)
          (w1.keys.length + w1.kbhit.length + 1) w1 = .ret () w2 ∧ w2.keys = rest ∧
        w2.trace = w1.trace ++ loopEvs bufs size) :
    ∃ pre bufs w2, acquire inf s w = .ret () w2 ∧ w2.keys = rest ∧
      w2.trace = w.trace ++ (pre ++ loopEvs bufs bufs.length ++ resetEvents ++
        bufs.reverse.map .MbufFree) ∧
      (∀ e ∈ pre, e.kind ∈ [Kind.errorPrint, .inquire, .buffer, .other, .console]) ∧
      keysRead pre = [] := by
  have hlen : ∃ len : Nat, (if s.NbFrames = inf then Prog.pure 10 else arrayNew s.NbFrames) w =
      .ret len w ∧ 0 + s.NbFrames.toNat ≤ len := by
    by_cases hn : s.NbFrames = inf
    · rw [if_pos hn] at hfit ⊢
      exact ⟨10, rfl, by omega⟩
    · rw [if_neg hn] at hfit ⊢
      exact ⟨s.NbFrames.toNat, arrayNew_fits hfit.1 hfit.2, by omega⟩
  obtain ⟨len, hl1, hl2⟩ := hlen
  obtain ⟨list, size, w1, ha⟩ := allocLoop_returns len s.NbFrames.toNat 0 []
    { w with trace := w.trace ++ [.MappControlError false] } hl2
  obtain ⟨evsA, a1, a2, a3, a4, a5, a6, a7, a8⟩ := allocLoop_spec _ _ _ _ _ _ _ _ ha rfl
    (Nat.zero_le _)
  simp only [List.nil_append] at a4 a5
  have hsz : size ≤ list.length := by
    have := congrArg List.length a4
    rw [List.length_take, ← a5] at this
    omega
  have hlt : (list.take size).length = size := by rw [a4]; exact a5.symm
  obtain ⟨w2, hp1, hp2, hp3⟩ := hp (list.take size) size
    { w1 with trace := w1.trace ++ [.MappControlError true] ++
        [.MdigControl "M_GRAB_TIMEOUT" "M_INFINITE"] ++
        [.MosPrintf (if s.SoftwareTriggerSelected then "\n\nPress <t> to do a software trigger.\n"
          else "\n\nWaiting for a input trigger signal.\n") []] ++
        [.MosPrintf "Press any other key to quit.\n\n" []] } a7 a8
  refine ⟨[.MappControlError false] ++ evsA ++ [.MappControlError true,
    .MdigControl "M_GRAB_TIMEOUT" "M_INFINITE",
    .MosPrintf (if s.SoftwareTriggerSelected then "\n\nPress <t> to do a software trigger.\n"
      else "\n\nWaiting for a input trigger signal.\n") [],
    .MosPrintf "Press any other key to quit.\n\n" []],
    list.take size, ?_⟩
  have hmsg : (if s.SoftwareTriggerSelected then
        MosPrintf "\n\nPress <t> to do a software trigger.\n" []
      else MosPrintf "\n\nWaiting for a input trigger signal.\n" []) =
      MosPrintf (if s.SoftwareTriggerSelected then "\n\nPress <t> to do a software trigger.\n"
        else "\n\nWaiting for a input trigger signal.\n") [] := by
    split <;> rfl
  unfold acquire
  rw [hmsg]
  simp only [bind_apply, hl1, andThen_ret, MappControlError, emit_apply, ha, MosPrintf,
    hp1, ResetTriggerControls_apply, freeLoop_apply _ _ _ hsz]
  refine ⟨_, rfl, hp2, ?_, ?_, ?_⟩
  · simp only [hp3, a1, hlt]
    simp [List.append_assoc]
  rotate_left
  · have hA : keysRead evsA = [] := by
      unfold keysRead
      rw [List.filterMap_eq_nil_iff]
      intro e he
      have := a2 e he
      cases e <;> simp_all [Event.kind]
    simp only [keysRead_append, hA]
    simp [keysRead]
  · intro e he
    simp only [List.mem_append, List.mem_cons, List.mem_singleton, List.not_mem_nil,
      or_false] at he
    rcases he with (rfl | he) | rfl | rfl | rfl | rfl
    · simp [Event.kind]
    · have := a2 e he
      simp only [List.mem_cons, List.mem_singleton, List.not_mem_nil, or_false] at this ⊢
      rcases this with h | h <;> simp [h]
    · simp [Event.kind]
    · simp [Event.kind]
    · simp [Event.kind]
    · simp [Event.kind]

/-- The processing loop with hardware triggering and a trigger type other than
multi-frame: every key with code `0` stops the processing with `M_STOP + M_WAIT` and
starts it again; the first key with another code ends the loop. -/
theorem processLoop_hardware (s : TriggerSetup) (buffers : List MIL_ID) (size : Nat)
    (StartOp : ProcessOp) (hs : s.SoftwareTriggerSelected = false)
    (ht : s.TriggerType ≠ .eMultiFrame) (k : MIL_INT) (rest : List MIL_INT) (hk : k ≠ 0)
    (zeros : List MIL_INT) :
    ∀ (w : World) (fuel : Nat), w.keys = zeros ++ k :: rest → (∀ z ∈ zeros, z = 0) →
      zeros.length + 1 ≤ fuel →
      processLoop s buffers size StartOp fuel w =
        .ret () { w with
          keys := rest
          trace := w.trace ++ (restartEvents buffers size StartOp zeros ++
            [.MdigProcess buffers size StartOp, .MosGetch k,
              .MdigProcess buffers size .stop]) } := by
  have hw : waitForStop s = MosGetch := by
    unfold waitForStop
    simp [hs, ht]
  induction zeros with
  | nil =>
    intro w fuel hkeys _ hf
    obtain ⟨n, rfl⟩ : ∃ n, fuel = n + 1 := ⟨fuel - 1, by simp at hf; omega⟩
    simp only [List.nil_append] at hkeys
    unfold processLoop
    simp only [bind_apply, emit_apply, andThen_ret, hw, MosGetch, hkeys, ne_eq, hk,
      not_false_eq_true, if_true, Prog_pure_apply, restartEvents, List.nil_append,
      List.append_assoc, List.singleton_append]
    rfl
  | cons z zs ih =>
    intro w fuel hkeys hz hf
    obtain ⟨n, rfl⟩ : ∃ n, fuel = n + 1 := ⟨fuel - 1, by simp at hf; omega⟩
    have hz0 : z = 0 := hz z (by simp)
    subst hz0
    simp only [List.cons_append] at hkeys
    unfold processLoop
    simp only [bind_apply, emit_apply, andThen_ret, hw, MosGetch, hkeys, ne_eq,
      not_true_eq_false, if_false]
    rw [ih _ n rfl (fun j hj => hz j (by simp [hj])) (by simp at hf; omega)]
    simp [restartEvents]

theorem processStarts_restartEvents (buffers : List MIL_ID) (size : Nat) (StartOp : ProcessOp)
    (h : StartOp.isStart = true) (zs : List MIL_INT) :
    processStarts (restartEvents buffers size StartOp zs) = List.replicate zs.length StartOp := by
  induction zs with
  | nil => rfl
  | cons z zs ih =>
    unfold restartEvents
    rw [processStarts_append, ih]
    have hw : ProcessOp.isStart .stopWait = false := rfl
    simp [processStarts, h, hw, List.replicate_succ]

theorem keysRead_restartEvents (buffers : List MIL_ID) (size : Nat) (StartOp : ProcessOp)
    (zs : List MIL_INT) : keysRead (restartEvents buffers size StartOp zs) = zs := by
  induction zs with
  | nil => rfl
  | cons z zs ih =>
    unfold restartEvents
    rw [keysRead_append, ih]
    simp [keysRead]

/-- A set-up that returned has left `NbFrames` as it was, unless it went through the
multi-frame case of the menu, whose last call is the write of the frame count read. -/
theorem menuSwitch_frames (s0 : TriggerSetup) (again : Prog TriggerSetup)
    (hagain : ∀ w s w1, again w = .ret s w1 → s.NbFrames = s0.NbFrames ∨
      (s.TriggerType = .eMultiFrame ∧ w1.trace.getLast? =
        some (.MdigControlFeature "AcquisitionFrameCount" (.int s.NbFrames))))
    (w : World) (s : TriggerSetup) (w1 : World) (h : menuSwitch s0 again w = .ret s w1) :
    s.NbFrames = s0.NbFrames ∨
      (s.TriggerType = .eMultiFrame ∧ w1.trace.getLast? =
        some (.MdigControlFeature "AcquisitionFrameCount" (.int s.NbFrames))) := by
  unfold menuSwitch at h
  obtain ⟨k, wk, -, h⟩ := bind_eq_ret h
  split at h
  · obtain ⟨_, _, -, h⟩ := bind_eq_ret h
    obtain ⟨_, _, -, h⟩ := bind_eq_ret h
    obtain ⟨_, _, -, h⟩ := bind_eq_ret h
    obtain ⟨_, _, -, h⟩ := bind_eq_ret h
    obtain ⟨_, _, -, h⟩ := bind_eq_ret h
    cases h
    exact Or.inl rfl
  · split at h
    · obtain ⟨_, _, -, h⟩ := bind_eq_ret h
      obtain ⟨_, _, -, h⟩ := bind_eq_ret h
      obtain ⟨_, _, -, h⟩ := bind_eq_ret h
      obtain ⟨_, _, -, h⟩ := bind_eq_ret h
      obtain ⟨_, _, -, h⟩ := bind_eq_ret h
      obtain ⟨_, _, -, h⟩ := bind_eq_ret h
      obtain ⟨n, _, -, h⟩ := bind_eq_ret h
      obtain ⟨_, _, -, h⟩ := bind_eq_ret h
      obtain ⟨_, w5, h5, h⟩ := bind_eq_ret h
      cases h
      cases h5
      exact Or.inr ⟨rfl, by simp⟩
    · split at h
      · obtain ⟨caps, _, -, h⟩ := bind_eq_ret h
        obtain ⟨_, _, -, h⟩ := bind_eq_ret h
        obtain ⟨_, _, -, h⟩ := bind_eq_ret h
        obtain ⟨_, _, -, h⟩ := bind_eq_ret h
        cases h
        exact Or.inl rfl
      · obtain ⟨_, _, -, h⟩ := bind_eq_ret h
        exact hagain _ _ _ h

theorem menuLoop_frames (s0 : TriggerSetup) (fuel : Nat) :
    ∀ (w : World) (s : TriggerSetup) (w1 : World), menuLoop s0 fuel w = .ret s w1 →
      s.NbFrames = s0.NbFrames ∨
      (s.TriggerType = .eMultiFrame ∧ w1.trace.getLast? =
        some (.MdigControlFeature "AcquisitionFrameCount" (.int s.NbFrames))) := by
  induction fuel with
  | zero => intro w s w1 h; simp [menuLoop] at h
  | succ n ih =>
    intro w s w1 h
    rw [menuLoop_succ] at h
    exact menuSwitch_frames s0 _ ih _ _ _ h

theorem SetTriggerControls_frames (s0 s : TriggerSetup) (w w1 : World)
    (h : SetTriggerControls s0 w = .ret s w1) :
    s.NbFrames = s0.NbFrames ∨
      (s.TriggerType = .eMultiFrame ∧ w1.trace.getLast? =
        some (.MdigControlFeature "AcquisitionFrameCount" (.int s.NbFrames))) := by
  by_cases hm : w.caps.CanTriggerAcquisitionStart = true ∧
      w.caps.MultipleAcquisitionModeSupport ≠ 0
  · rw [SetTriggerControls_menu s0 w hm] at h
    exact menuLoop_frames s0 _ _ _ _ h
  · cases hfs : w.caps.CanTriggerFrameStart with
    | true =>
      rw [SetTriggerControls_fallback s0 w hm hfs] at h
      obtain ⟨_, _, -, h⟩ := bind_eq_ret h
      cases h
      exact Or.inl rfl
    | false =>
      rw [SetTriggerControls_nothing s0 w hm hfs] at h
      cases h
      exact Or.inl rfl

/-- The frame count after a set-up that did not choose the multi-frame trigger type is
the default of `DoTriggeredAcquisition`, ten, which fits every host. -/
theorem frames_fit_of_not_multiFrame (inf : Int) (w w1 : World) (s : TriggerSetup)
    (hset : SetTriggerControls initialSetup w = .ret s w1)
    (htype : s.TriggerType ≠ .eMultiFrame)
    (hfit : if s.NbFrames = inf then inf ≤ 10 else 0 ≤ s.NbFrames) :
    if s.NbFrames = inf then inf ≤ 10
      else 0 ≤ s.NbFrames ∧ s.NbFrames ≤ (w1.dev.limit : Int) := by
  have h10 : s.NbFrames = 10 := by
    rcases SetTriggerControls_frames _ _ _ _ hset with h | h
    · exact h
    · exact absurd h.1 htype
  have := ten_le_limit w1.dev
  split
  · rename_i h
    rw [if_pos h] at hfit
    exact hfit
  · rw [h10]
    omega

/-- C12. `DoTriggeredAcquisition` with hardware triggering and a trigger type other than
multi-frame, after a set-up that returned `s`.  The loop does `Done = MosGetch()`, so a
key ends it exactly when its code is not `0`: with the pending keys being `zeros`, all
of code `0`, followed by a key `k` of another code, the run returns after reading these
keys and no more; it starts the processing with `M_START` once per key read, stops it
with `M_STOP + M_WAIT` after every key of code `0` and with `M_STOP` after `k`.  So the
processing is started exactly once, and ended by the first key, exactly when that first
key has a code other than `0`. -/
theorem DoTriggeredAcquisition_hardware_trigger (inf : Int) (w w1 : World) (s : TriggerSetup)
    (zeros : List MIL_INT) (k : MIL_INT) (rest : List MIL_INT)
    (hset : SetTriggerControls initialSetup w = .ret s w1)
    (hhard : s.SoftwareTriggerSelected = false)
    (htype : s.TriggerType ≠ .eMultiFrame)
    (hfit : if s.NbFrames = inf then inf ≤ 10 else 0 ≤ s.NbFrames)
    (hkeys : w1.keys = zeros ++ k :: rest)
    (hz : ∀ z ∈ zeros, z = 0) (hk : k ≠ 0) :
    ∃ w2 setup pre bufs,
      DoTriggeredAcquisition inf w = .ret () w2 ∧ w2.keys = rest ∧
      w1.trace = w.trace ++ setup ∧
      newEvents w (DoTriggeredAcquisition inf w) =
        setup ++ pre ++ restartEvents bufs bufs.length .start zeros ++
        [.MdigProcess bufs bufs.length .start, .MosGetch k,
          .MdigProcess bufs bufs.length .stop] ++ resetEvents ++ bufs.reverse.map .MbufFree ∧
      (∀ e ∈ pre, e.kind ∈ [Kind.errorPrint, .inquire, .buffer, .other, .console]) ∧
      keysRead pre = [] ∧
      processStarts (newEvents w (DoTriggeredAcquisition inf w)) =
        List.replicate (zeros.length + 1) .start := by
  obtain ⟨setup, s1, s2⟩ := (SetTriggerControls_emits initialSetup).of_ret hset
  have hop : (if s.TriggerType = .eMultiFrame then ProcessOp.sequenceCount s.NbFrames
      else ProcessOp.start) = .start := if_neg htype
  obtain ⟨pre, bufs, w2, a1, a2, a3, a4, hK⟩ := acquire_run inf s w1 rest
    (fun bufs size => restartEvents bufs size .start zeros ++
      [.MdigProcess bufs size .start, .MosGetch k, .MdigProcess bufs size .stop])
    (frames_fit_of_not_multiFrame inf w w1 s hset htype hfit)
    (fun bufs size w3 hk3 _ => ⟨_, by
      rw [hop]
      exact processLoop_hardware s bufs size .start hhard htype k rest hk zeros w3 _
        (hk3.trans hkeys) hz (by rw [hk3, hkeys]; simp; omega), rfl, rfl⟩)
  have hrun : DoTriggeredAcquisition inf w = .ret () w2 := by
    unfold DoTriggeredAcquisition
    rw [bind_ret hset, a1]
  have hnew : newEvents w (DoTriggeredAcquisition inf w) =
      setup ++ pre ++ restartEvents bufs bufs.length .start zeros ++
        [.MdigProcess bufs bufs.length .start, .MosGetch k,
          .MdigProcess bufs bufs.length .stop] ++ resetEvents ++ bufs.reverse.map .MbufFree := by
    apply newEvents_eq
    rw [hrun]
    simp only [Outcome.world, a3, s1, List.append_assoc]
  have hS : processStarts setup = [] := by
    apply processStarts_eq_nil
    intro e he hk
    have := s2 e he
    rw [hk] at this
    simp [setupKinds] at this
  have hP : processStarts pre = [] := by
    apply processStarts_eq_nil
    intro e he hk
    have := a4 e he
    rw [hk] at this
    simp at this
  have hF : ∀ l : List MIL_ID, processStarts (l.map .MbufFree) = [] := by
    intro l
    induction l with
    | nil => rfl
    | cons a t ih => simp [processStarts]
  refine ⟨w2, setup, pre, bufs, hrun, a2, s1, hnew, a4, hK, ?_⟩
  rw [hnew]
  simp only [processStarts_append, hS, hP, hF,
    processStarts_restartEvents bufs bufs.length .start rfl]
  simp [processStarts, resetEvents, ProcessOp.isStart, List.replicate_succ']

theorem DoTriggeredAcquisition_hardware_trigger_witness :
    processStarts
      (newEvents (sampleWorld twoSourceCamera menuCaps [key 'c', 0, key 'q', key 'z'] [0])
        (DoTriggeredAcquisition (-1)
          (sampleWorld twoSourceCamera menuCaps [key 'c', 0, key 'q', key 'z'] [0]))) =
      [.start, .start] ∧
    keysRead
      (newEvents (sampleWorld twoSourceCamera menuCaps [key 'c', 0, key 'q', key 'z'] [0])
        (DoTriggeredAcquisition (-1)
          (sampleWorld twoSourceCamera menuCaps [key 'c', 0, key 'q', key 'z'] [0]))) =
      [key 'c', 0, key 'q'] := by
  obtain ⟨w2, setup, pre, bufs, -, -, -, -, -, -, h⟩ :=
    DoTriggeredAcquisition_hardware_trigger (-1)
      (sampleWorld twoSourceCamera menuCaps [key 'c', 0, key 'q', key 'z'] [0])
      (SetTriggerControls initialSetup
        (sampleWorld twoSourceCamera menuCaps [key 'c', 0, key 'q', key 'z'] [0])).world
      { TriggerType := .eContinuous, NbFrames := 10, oTriggerSelector := "AcquisitionStart",
        SoftwareTriggerSelected := false }
      [0] (key 'q') [key 'z']
      (Outcome.eq_ret_of_value (by decide!)) rfl (by decide) (by decide) (by decide!)
      (by decide) (by decide)
  exact ⟨h, by decide!⟩

/-! ## Calls of a run, with a property of every call -/

theorem only_pure {α : Type} (P : Event → Prop) (a : α) : Only P (Prog.pure a : Prog α) := by
  intro w
  exact ⟨[], by simp, by simp⟩

theorem only_halt {α : Type} (P : Event → Prop) (r : Halt) :
    Only P (fun w => (Outcome.halt r w : Outcome α)) := by
  intro w
  exact ⟨[], by simp, by simp⟩

theorem only_bind {α β : Type} {P : Event → Prop} {m : Prog α} {f : α → Prog β}
    (hm : Only P m) (hf : ∀ a, Only P (f a)) : Only P (m >>= f) := by
  intro w
  obtain ⟨e1, h1, p1⟩ := hm w
  rw [bind_apply]
  cases hmw : m w with
  | ret a w1 =>
    obtain ⟨e2, h2, p2⟩ := hf a w1
    rw [hmw] at h1
    simp only [world_ret] at h1
    refine ⟨e1 ++ e2, ?_, ?_⟩
    · simp only [andThen_ret, h2, h1, List.append_assoc]
    · intro e he
      rcases List.mem_append.mp he with h | h
      · exact p1 e h
      · exact p2 e h
  | halt r w1 =>
    rw [hmw] at h1
    exact ⟨e1, h1, p1⟩

theorem only_ite {α : Type} {P : Event → Prop} {c : Prop} [Decidable c] {m n : Prog α}
    (hm : Only P m) (hn : Only P n) : Only P (if c then m else n) := by
  split
  · exact hm
  · exact hn

theorem only_emit {P : Event → Prop} {e : Event} (h : P e) : Only P (emit e) := by
  intro w
  exact ⟨[e], rfl, by simpa using h⟩

theorem only_fueled {α : Type} {P : Event → Prop} {g : Nat → Prog α} (n : World → Nat)
    (h : ∀ k, Only P (g k)) : Only P (fun w => g (n w) w) := by
  intro w
  exact h (n w) w

theorem only_of_emits {α : Type} {P : Event → Prop} {ks : List Kind} {m : Prog α}
    (hm : Emits ks m) (hk : ∀ e, e.kind ∈ ks → P e) : Only P m := by
  intro w
  obtain ⟨evs, h1, h2⟩ := hm w
  exact ⟨evs, h1, fun e he => hk e (h2 e he)⟩

theorem only_newEvents {α : Type} {P : Event → Prop} {m : Prog α} (hm : Only P m)
    (w : World) : ∀ e ∈ newEvents w (m w), P e := by
  obtain ⟨evs, h1, h2⟩ := hm w
  rw [newEvents_eq h1]
  exact h2

theorem startsWith_of_kind (op0 : ProcessOp) (e : Event) (h : e.kind ≠ .process) :
    startsWith op0 e := by
  cases e <;> simp_all [startsWith, Event.kind]

theorem processStarts_of_startsWith {op0 : ProcessOp} {evs : List Event}
    (h : ∀ e ∈ evs, startsWith op0 e) : ∀ op ∈ processStarts evs, op = op0 := by
  intro op hop
  unfold processStarts at hop
  rw [List.mem_filterMap] at hop
  obtain ⟨e, he, hm⟩ := hop
  have hs := h e he
  cases e <;> simp at hm
  rename_i b sz o
  obtain ⟨ho, rfl⟩ := hm
  exact hs ho

theorem softwareTriggerLoop_only (op0 : ProcessOp) (t : eTriggerType) (sel : String)
    (fuel : Nat) : Only (startsWith op0) (softwareTriggerLoop t sel fuel) := by
  have hk : ∀ e, e.kind ∈ [Kind.console, .controlFeature, .executeFeature] →
      startsWith op0 e := by
    intro e he
    apply startsWith_of_kind
    intro h
    rw [h] at he
    simp at he
  induction fuel with
  | zero => exact only_halt _ _
  | succ n ih =>
    unfold softwareTriggerLoop
    repeat' first
      | exact only_pure _ _
      | exact ih
      | exact only_of_emits (MosGetch_emits (List.mem_cons_self _ _)) hk
      | exact only_emit (startsWith_of_kind _ _ (by simp [Event.kind]))
      | apply only_bind
      | apply only_ite
      | intro _

theorem waitForStop_only (op0 : ProcessOp) (s : TriggerSetup) :
    Only (startsWith op0) (waitForStop s) := by
  have hk : ∀ e, e.kind ∈ [Kind.console] → startsWith op0 e := by
    intro e he
    apply startsWith_of_kind
    intro h
    rw [h] at he
    simp at he
  unfold waitForStop
  repeat' first
    | exact only_pure _ _
    | exact only_of_emits (MosGetch_emits (List.mem_cons_self _ _)) hk
    | exact only_of_emits (MosKbhit_emits (List.mem_cons_self _ _)) hk
    | exact only_fueled _ (softwareTriggerLoop_only _ _ _)
    | apply only_bind
    | apply only_ite
    | intro _

/-- Every processing start of the processing loop uses the operation it was given. -/
theorem processLoop_only (s : TriggerSetup) (buffers : List MIL_ID) (size : Nat)
    (StartOp : ProcessOp) (fuel : Nat) :
    Only (startsWith StartOp) (processLoop s buffers size StartOp fuel) := by
  have hstop : ∀ Done : MIL_INT, startsWith StartOp
      (.MdigProcess buffers size (if Done ≠ 0 then .stop else .stopWait)) := by
    intro Done
    by_cases h : Done = 0 <;> simp [startsWith, h, ProcessOp.isStart]
  induction fuel with
  | zero => exact only_halt _ _
  | succ n ih =>
    unfold processLoop
    repeat' first
      | exact only_pure _ _
      | exact ih
      | exact only_emit (hstop _)
      | exact only_emit (fun _ => rfl)
      | exact waitForStop_only _ s
      | apply only_bind
      | apply only_ite
      | intro _

theorem allocLoop_only (op0 : ProcessOp) (len : Nat) (todo : Nat) :
    ∀ size list, Only (startsWith op0) (allocLoop len todo size list) := by
  have hk : ∀ e, e.kind ∈ [Kind.inquire, .buffer] → startsWith op0 e := by
    intro e he
    apply startsWith_of_kind
    intro h
    rw [h] at he
    simp at he
  induction todo with
  | zero => intro size list; exact only_pure _ _
  | succ n ih =>
    intro size list
    unfold allocLoop
    repeat' first
      | exact only_pure _ _
      | exact only_halt _ _
      | exact ih _ _
      | exact only_of_emits (MdigInquireInt_emits _ _ (List.mem_cons_self _ _)) hk
      | exact only_of_emits (MbufAlloc2d_emits (List.mem_cons_of_mem _ (List.mem_cons_self _ _))) hk
      | exact only_emit (startsWith_of_kind _ _ (by simp [Event.kind]))
      | apply only_bind
      | apply only_ite
      | intro _

/-- Every processing start of the part of `DoTriggeredAcquisition` after the set-up uses
`M_SEQUENCE + M_COUNT(NbFrames)` for the multi-frame trigger type and `M_START` for
every other type, in the runs that return and in those that do not. -/
theorem acquire_only (inf : Int) (s : TriggerSetup) :
    Only (startsWith
      (if s.TriggerType = .eMultiFrame then .sequenceCount s.NbFrames else .start))
      (acquire inf s) := by
  have hk : ∀ e, e.kind ∈ [Kind.errorPrint, .controlFeature, .buffer] →
      startsWith (if s.TriggerType = .eMultiFrame then .sequenceCount s.NbFrames else .start)
        e := by
    intro e he
    apply startsWith_of_kind
    intro h
    rw [h] at he
    simp at he
  unfold acquire
  repeat' first
    | exact only_pure _ _
    | exact only_of_emits (arrayNew_emits [] _) (fun _ h => by simp at h)
    | exact allocLoop_only _ _ _ _ _
    | exact only_fueled _ (processLoop_only _ _ _ _)
    | exact only_of_emits ResetTriggerControls_emits
        (fun e h => hk e (by simp at h ⊢; tauto))
    | exact only_of_emits (freeLoop_emits _ _) (fun e h => hk e (by simp at h ⊢; tauto))
    | exact only_emit (startsWith_of_kind _ _ (by simp [Event.kind]))
    | apply only_bind
    | apply only_ite
    | intro _

theorem triggerEvents_multiFrame (s : TriggerSetup) (buffers : List MIL_ID) (size : Nat)
    (hm : s.TriggerType = .eMultiFrame) (Ts : List MIL_INT) :
    triggerEvents s buffers size (.sequenceCount s.NbFrames) Ts =
      burstEvents s.oTriggerSelector buffers size s.NbFrames Ts := by
  induction Ts with
  | nil => rfl
  | cons k Ts ih =>
    unfold triggerEvents burstEvents
    rw [ih, if_pos hm]
    simp

theorem processStarts_burstEvents (sel : String) (buffers : List MIL_ID) (size : Nat)
    (NbFrames : Int) (Ts : List MIL_INT) :
    processStarts (burstEvents sel buffers size NbFrames Ts) =
      List.replicate Ts.length (.sequenceCount NbFrames) := by
  induction Ts with
  | nil => rfl
  | cons k Ts ih =>
    unfold burstEvents
    rw [processStarts_append, ih]
    simp [processStarts, ProcessOp.isStart, List.replicate_succ]

/-- C16. `DoTriggeredAcquisition` after a set-up that returned `s`.
With the multi-frame trigger type and software triggering, a frame count the host can
allocate the buffer array for (`0 ≤ NbFrames ≤` the limit of the host, or
`NbFrames = M_INFINITE` with `M_INFINITE ≤ 10`), and the pending keys being `Ts`, all of
them `T` or `t`, followed by one other key: the run returns; after the
first processing start every key of `Ts` is answered by the trigger command, a
processing stop with `M_STOP + M_WAIT` and a fresh processing start with
`M_SEQUENCE + M_COUNT(NbFrames)`, and the other key by `M_STOP`; so the processing is
started `Ts.length + 1` times, each time with `M_SEQUENCE + M_COUNT(NbFrames)`.
For every other trigger type, every processing start of every run, returning or not,
uses `M_START`. -/
theorem DoTriggeredAcquisition_multiFrame_restarts (inf : Int) (w w1 : World)
    (s : TriggerSetup) (Ts : List MIL_INT) (other : MIL_INT) (rest : List MIL_INT) :
    (SetTriggerControls initialSetup w = .ret s w1 →
      s.TriggerType = .eMultiFrame → s.SoftwareTriggerSelected = true →
      (if s.NbFrames = inf then inf ≤ 10
        else 0 ≤ s.NbFrames ∧ s.NbFrames ≤ (w1.dev.limit : Int)) →
      w1.keys = Ts ++ other :: rest → (∀ k ∈ Ts, k = key 'T' ∨ k = key 't') →
      ¬ (other = key 'T' ∨ other = key 't') →
      ∃ w2 setup pre bufs,
        DoTriggeredAcquisition inf w = .ret () w2 ∧ w2.keys = rest ∧
        w1.trace = w.trace ++ setup ∧
        newEvents w (DoTriggeredAcquisition inf w) =
          setup ++ pre ++ [.MdigProcess bufs bufs.length (.sequenceCount s.NbFrames)] ++
          burstEvents s.oTriggerSelector bufs bufs.length s.NbFrames Ts ++
          [.MosGetch other, .MdigProcess bufs bufs.length .stop] ++ resetEvents ++
          bufs.reverse.map .MbufFree ∧
        (∀ e ∈ pre, e.kind ∈ [Kind.errorPrint, .inquire, .buffer, .other, .console]) ∧
        processStarts (newEvents w (DoTriggeredAcquisition inf w)) =
          List.replicate (Ts.length + 1) (.sequenceCount s.NbFrames)) ∧
    (s.TriggerType ≠ .eMultiFrame →
      ∀ op ∈ processStarts (newEvents w1 (acquire inf s w1)), op = .start) := by
  constructor
  · intro hset hmulti hsoft hfit hkeys hT ho
    obtain ⟨setup, s1, s2⟩ := (SetTriggerControls_emits initialSetup).of_ret hset
    have hop : (if s.TriggerType = .eMultiFrame then ProcessOp.sequenceCount s.NbFrames
        else ProcessOp.start) = .sequenceCount s.NbFrames := if_pos hmulti
    obtain ⟨pre, bufs, w2, a1, a2, a3, a4, -⟩ := acquire_run inf s w1 rest
      (fun bufs size => [.MdigProcess bufs size (.sequenceCount s.NbFrames)] ++
        burstEvents s.oTriggerSelector bufs size s.NbFrames Ts ++
        [.MosGetch other, .MdigProcess bufs size .stop]) hfit
      (fun bufs size w3 hk3 _ => ⟨_, by
        rw [hop]
        exact processLoop_software s bufs size (.sequenceCount s.NbFrames) hsoft other rest ho
          Ts w3 _ (hk3.trans hkeys) hT (by rw [hk3, hkeys]; simp; omega), rfl, by
        rw [triggerEvents_multiFrame s bufs size hmulti]⟩)
    have hrun : DoTriggeredAcquisition inf w = .ret () w2 := by
      unfold DoTriggeredAcquisition
      rw [bind_ret hset, a1]
    have hnew : newEvents w (DoTriggeredAcquisition inf w) =
        setup ++ pre ++ [.MdigProcess bufs bufs.length (.sequenceCount s.NbFrames)] ++
          burstEvents s.oTriggerSelector bufs bufs.length s.NbFrames Ts ++
          [.MosGetch other, .MdigProcess bufs bufs.length .stop] ++ resetEvents ++
          bufs.reverse.map .MbufFree := by
      apply newEvents_eq
      rw [hrun]
      simp only [Outcome.world, a3, s1, List.append_assoc]
    have hS : processStarts setup = [] := by
      apply processStarts_eq_nil
      intro e he hk
      have := s2 e he
      rw [hk] at this
      simp [setupKinds] at this
    have hP : processStarts pre = [] := by
      apply processStarts_eq_nil
      intro e he hk
      have := a4 e he
      rw [hk] at this
      simp at this
    have hF : ∀ l : List MIL_ID, processStarts (l.map .MbufFree) = [] := by
      intro l
      induction l with
      | nil => rfl
      | cons a t ih => simp [processStarts]
    refine ⟨w2, setup, pre, bufs, hrun, a2, s1, hnew, a4, ?_⟩
    rw [hnew]
    simp only [processStarts_append, hS, hP, hF, processStarts_burstEvents]
    simp [processStarts, resetEvents, ProcessOp.isStart, List.replicate_succ]
  · intro htype op hop
    have h := only_newEvents (acquire_only inf s) w1
    rw [if_neg htype] at h
    exact processStarts_of_startsWith h op hop

theorem DoTriggeredAcquisition_multiFrame_restarts_witness :
    processStarts
      (newEvents
        (sampleWorld twoSourceCamera menuCaps [key 'm', key 'T', key 't', key 'q', key 'z'] [1, 3])
        (DoTriggeredAcquisition (-1)
          (sampleWorld twoSourceCamera menuCaps [key 'm', key 'T', key 't', key 'q', key 'z']
            [1, 3]))) =
      [.sequenceCount 3, .sequenceCount 3, .sequenceCount 3] := by
  obtain ⟨w2, setup, pre, bufs, -, -, -, -, -, h⟩ :=
    (DoTriggeredAcquisition_multiFrame_restarts (-1)
      (sampleWorld twoSourceCamera menuCaps [key 'm', key 'T', key 't', key 'q', key 'z'] [1, 3])
      (SetTriggerControls initialSetup
        (sampleWorld twoSourceCamera menuCaps [key 'm', key 'T', key 't', key 'q', key 'z']
          [1, 3])).world
      { TriggerType := .eMultiFrame, NbFrames := 3, oTriggerSelector := "AcquisitionStart",
        SoftwareTriggerSelected := true }
      [key 'T', key 't'] (key 'q') [key 'z']).1
      (Outcome.eq_ret_of_value (by decide!)) rfl rfl (by decide!) (by decide!) (by decide)
      (by decide)
  exact h

/-! ## The processing hook -/

theorem processFrames_count (frames : List MIL_ID) :
    ∀ d : HookDataStruct,
      (processFrames frames d).1.ProcessedImageCount = d.ProcessedImageCount + frames.length ∧
      (processFrames frames d).1.MilImageDisp = d.MilImageDisp ∧
      (processFrames frames d).2.length = frames.length := by
  induction frames with
  | nil => intro d; simp [processFrames]
  | cons b bs ih =>
    intro d
    obtain ⟨h1, h2, h3⟩ := ih (ProcessingFunction b d).2.1
    simp only [processFrames, h1, h2, h3, List.length_cons]
    refine ⟨?_, rfl, trivial⟩
    simp only [ProcessingFunction]
    push_cast
    ring

theorem processFrames_get (frames : List MIL_ID) :
    ∀ (d : HookDataStruct) (i : Nat) (h : i < frames.length),
      (processFrames frames d).2[i]? =
        some (0,
          [.MdigGetHookInfo frames[i],
           .MosPrintf "Processing frame #%lld.\r" [.d (d.ProcessedImageCount + i + 1)],
           .MosSprintf STRING_LENGTH_MAX "%lld" [.d (d.ProcessedImageCount + i + 1)],
           .MgraText frames[i] STRING_POS_X STRING_POS_Y
             (toString (d.ProcessedImageCount + i + 1)),
           .MbufCopy frames[i] d.MilImageDisp]) := by
  induction frames with
  | nil => intro d i h; simp at h
  | cons b bs ih =>
    intro d i h
    cases i with
    | zero => simp [processFrames, ProcessingFunction]
    | succ j =>
      have hj : j < bs.length := by simpa using h
      have := ih (ProcessingFunction b d).2.1 j hj
      simp only [processFrames, List.getElem?_cons_succ, this, List.getElem_cons_succ]
      simp only [ProcessingFunction]
      push_cast
      have e : d.ProcessedImageCount + 1 + (j : Int) + 1 = d.ProcessedImageCount + (j + 1) + 1 := by
        ring
      rw [e]

/-- C13. One invocation of `ProcessingFunction` returns 0, increases
`ProcessedImageCount` by exactly one and leaves the rest of the hook data as it was; its
calls are, in order: the query for the modified buffer, the progress line, the
formatting of the new count, the drawing of the decimal text of the new count into the
modified buffer at (20, 20), and the copy of that buffer into the display buffer.
After the frames `frames` following the initialisation of `DoTriggeredAcquisition` the
counter equals their number, and the `k`-th invocation stamped the `k`-th frame with the
decimal text of `k` and copied it to the display buffer. -/
theorem ProcessingFunction_counts_frames (ModifiedBufferId : MIL_ID) (d : HookDataStruct)
    (frames : List MIL_ID) (MilDigitizer MilImageDisp : MIL_ID) :
    (ProcessingFunction ModifiedBufferId d).1 = 0 ∧
    (ProcessingFunction ModifiedBufferId d).2.1.ProcessedImageCount =
      d.ProcessedImageCount + 1 ∧
    (ProcessingFunction ModifiedBufferId d).2.1.MilDigitizer = d.MilDigitizer ∧
    (ProcessingFunction ModifiedBufferId d).2.1.MilImageDisp = d.MilImageDisp ∧
    (ProcessingFunction ModifiedBufferId d).2.2 =
      [.MdigGetHookInfo ModifiedBufferId,
       .MosPrintf "Processing frame #%lld.\r" [.d (d.ProcessedImageCount + 1)],
       .MosSprintf 20 "%lld" [.d (d.ProcessedImageCount + 1)],
       .MgraText ModifiedBufferId 20 20 (toString (d.ProcessedImageCount + 1)),
       .MbufCopy ModifiedBufferId d.MilImageDisp] ∧
    (UserHookData MilDigitizer MilImageDisp).ProcessedImageCount = 0 ∧
    (processFrames frames (UserHookData MilDigitizer MilImageDisp)).1.ProcessedImageCount =
      frames.length ∧
    (processFrames frames (UserHookData MilDigitizer MilImageDisp)).2.length =
      frames.length ∧
    (∀ (k : Nat) (h1 : 1 ≤ k) (h2 : k ≤ frames.length),
      (processFrames frames (UserHookData MilDigitizer MilImageDisp)).2[k - 1]? =
        some (0,
          [.MdigGetHookInfo (frames.get ⟨k - 1, by omega⟩),
           .MosPrintf "Processing frame #%lld.\r" [.d k],
           .MosSprintf 20 "%lld" [.d k],
           .MgraText (frames.get ⟨k - 1, by omega⟩) 20 20 (toString (k : Int)),
           .MbufCopy (frames.get ⟨k - 1, by omega⟩) MilImageDisp])) := by
  refine ⟨rfl, rfl, rfl, rfl, rfl, rfl, ?_, ?_, ?_⟩
  · rw [(processFrames_count frames _).1]
    simp [UserHookData]
  · exact (processFrames_count frames _).2.2
  · intro k h1 h2
    have hlt : k - 1 < frames.length := by omega
    rw [processFrames_get frames _ (k - 1) hlt]
    have e : (UserHookData MilDigitizer MilImageDisp).ProcessedImageCount + ((k - 1 : Nat) : Int) + 1
        = (k : Int) := by
      simp only [UserHookData, zero_add]
      exact_mod_cast (by omega : (k - 1) + 1 = k)
    rw [e]
    rfl

theorem ProcessingFunction_counts_frames_witness :
    (processFrames [7, 8, 9] (UserHookData 1 2)).2[3 - 1]? =
      some (0,
        [.MdigGetHookInfo 9,
         .MosPrintf "Processing frame #%lld.\r" [.d 3],
         .MosSprintf 20 "%lld" [.d 3],
         .MgraText 9 20 20 "3",
         .MbufCopy 9 2]) :=
  (ProcessingFunction_counts_frames 0 (UserHookData 1 2) [7, 8, 9] 1 2).2.2.2.2.2.2.2.2 3
    (by decide) (by decide)

/-! ## Error printing -/

theorem errorPrinting_append (st : Bool) (a b : List Event) :
    errorPrinting st (a ++ b) = errorPrinting (errorPrinting st a) b := by
  induction a generalizing st with
  | nil => rfl
  | cons e t ih => cases e <;> simp [errorPrinting, ih]

theorem guarded_append (st : Bool) (a b : List Event) :
    guarded st (a ++ b) = (guarded st a && guarded (errorPrinting st a) b) := by
  induction a generalizing st with
  | nil => simp [guarded, errorPrinting]
  | cons e t ih => cases e <;> simp [guarded, errorPrinting, ih, Bool.and_assoc]

/-- C18. `ResetTriggerControls` always returns, and its calls are, in order: error
printing set to `M_PRINT_DISABLE`, the four feature writes, error printing set to
`M_PRINT_ENABLE`.  So whatever the state of error printing was on entry, every one of
the four writes is made while it is disabled, and it is enabled on return.  The result
of a write is not read, so this does not depend on whether the writes succeed. -/
theorem ResetTriggerControls_guards_writes (w : World) (st : Bool) :
    (ResetTriggerControls w).returns = true ∧
    newEvents w (ResetTriggerControls w) =
      [.MappControlError false,
       .MdigControlFeature "TriggerSelector" (.str "FrameStart"),
       .MdigControlFeature "TriggerMode" (.str "Off"),
       .MdigControlFeature "TriggerSelector" (.str "AcquisitionStart"),
       .MdigControlFeature "TriggerMode" (.str "Off"),
       .MappControlError true] ∧
    (featureWrites (newEvents w (ResetTriggerControls w))).length = 4 ∧
    guarded st (newEvents w (ResetTriggerControls w)) = true ∧
    (∀ before e after, newEvents w (ResetTriggerControls w) = before ++ e :: after →
      e.isFeatureAccess = true → errorPrinting st before = false) ∧
    errorPrinting st (newEvents w (ResetTriggerControls w)) = true := by
  have hnew : newEvents w (ResetTriggerControls w) = resetEvents := by
    apply newEvents_eq
    rw [ResetTriggerControls_apply]
    rfl
  rw [hnew, ResetTriggerControls_apply]
  refine ⟨rfl, rfl, rfl, by cases st <;> rfl, ?_, by cases st <;> rfl⟩
  intro before e after h he
  have hg : guarded st resetEvents = true := by cases st <;> rfl
  rw [h, guarded_append] at hg
  simp only [Bool.and_eq_true] at hg
  have h2 := hg.2
  cases e <;> simp_all [guarded, Event.isFeatureAccess]

theorem ResetTriggerControls_guards_writes_witness :
    errorPrinting true [.MappControlError false] = false :=
  (ResetTriggerControls_guards_writes bareWorld true).2.2.2.2.1
    [.MappControlError false]
    (.MdigControlFeature "TriggerSelector" (.str "FrameStart"))
    [.MdigControlFeature "TriggerMode" (.str "Off"),
     .MdigControlFeature "TriggerSelector" (.str "AcquisitionStart"),
     .MdigControlFeature "TriggerMode" (.str "Off"),
     .MappControlError true]
    (by decide!) rfl

/-! ## Enumerations, exactly -/

theorem noteAcquisitionMode_apply (name : String) (w : World) :
    noteAcquisitionMode name w = .ret () { w with caps := acquisitionModeFlags name w.caps } := by
  unfold noteAcquisitionMode acquisitionModeFlags
  split
  · rfl
  · split
    · rfl
    · split <;> rfl

theorem noteTriggerSelector_apply (name : String) (w : World) :
    noteTriggerSelector name w = .ret () { w with caps := triggerSelectorFlags name w.caps } := by
  unfold noteTriggerSelector triggerSelectorFlags
  split
  · rfl
  · split <;> rfl

/-- The enumeration idiom on a device that reports a count the vector can be sized
for, with an `afterAssign` and a `body` that only update the capability flags: it returns the
count and the names the device gives, has made the count query and one name query per
entry, and has applied the updates in order. -/
theorem inquireEnum_exact (feature : String) (afterAssign : MIL_INT → Prog Unit)
    (body : String → Prog Unit) (a : MIL_INT → Capabilities → Capabilities)
    (g : String → Capabilities → Capabilities)
    (ha : ∀ c w, afterAssign c w = .ret () { w with caps := a c w.caps })
    (hb : ∀ name w, body name w = .ret () { w with caps := g name w.caps })
    (w : World) (hnn : 0 ≤ entryCount w.dev w.trace feature ∧
      entryCount w.dev w.trace feature ≤ (w.dev.limit : Int)) :
    inquireEnum feature afterAssign body w =
      .ret (entryCount w.dev w.trace feature, enumNames w.dev w.trace feature) { w with
        caps := (enumNames w.dev w.trace feature).foldl (fun c n => g n c)
          (if entryCount w.dev w.trace feature ≠ 0 then
            a (entryCount w.dev w.trace feature) w.caps else w.caps)
        trace := w.trace ++ enumQueries w.dev w.trace feature } := by
  unfold inquireEnum enumNames enumQueries
  unfold entryCount at hnn ⊢
  simp only [bind_apply, MdigInquireFeatureInt, andThen_ret]
  generalize (w.dev.featureInt w.trace .enumEntryCount feature).getD 0 = c at hnn ⊢
  by_cases h0 : c = 0
  · simp [h0, entryNamesFrom, entryQueries]
  · have hva : vectorAssign c
        { w with trace := w.trace ++ [.MdigInquireFeature .enumEntryCount feature] } =
        .ret c.toNat
          { w with trace := w.trace ++ [.MdigInquireFeature .enumEntryCount feature] } :=
      vectorAssign_fits hnn.1 hnn.2
    simp only [h0, ne_eq, not_false_eq_true, if_true, bind_apply, hva, andThen_ret, ha,
      inquireEntryNames_run feature body g hb]
    simp

theorem entryCount_fits {d : Device} (hc : d.countsFit) (h : List Event)
    (feature : String) :
    0 ≤ entryCount d h feature ∧ entryCount d h feature ≤ (d.limit : Int) := by
  unfold entryCount
  cases hq : d.featureInt h .enumEntryCount feature with
  | none =>
    have := ten_le_limit d
    simp only [Option.getD_none]
    omega
  | some c => simpa using hc h feature c hq

theorem acquisitionModeFlags_fold (l : List String) :
    ∀ c : Capabilities, l.foldl (fun c n => acquisitionModeFlags n c) c =
      { c with
        ContinuousAMSupport := c.ContinuousAMSupport || decide ("Continuous" ∈ l)
        SingleFrameAMSupport := c.SingleFrameAMSupport || decide ("SingleFrame" ∈ l)
        MultiFrameAMSupport := c.MultiFrameAMSupport || decide ("MultiFrame" ∈ l) } := by
  induction l with
  | nil => intro c; simp
  | cons x t ih =>
    intro c
    rw [List.foldl_cons, ih]
    unfold acquisitionModeFlags
    by_cases h1 : "Continuous" = x
    · subst h1
      simp
    · by_cases h2 : "SingleFrame" = x
      · subst h2
        simp
      · by_cases h3 : "MultiFrame" = x
        · subst h3
          simp
        · simp [h1, h2, h3]

theorem triggerSelectorFlags_fold (l : List String) :
    ∀ c : Capabilities, l.foldl (fun c n => triggerSelectorFlags n c) c =
      { c with
        CanTriggerAcquisitionStart :=
          c.CanTriggerAcquisitionStart || decide ("AcquisitionStart" ∈ l)
        CanTriggerFrameStart := c.CanTriggerFrameStart || decide ("FrameStart" ∈ l) } := by
  induction l with
  | nil => intro c; simp
  | cons x t ih =>
    intro c
    rw [List.foldl_cons, ih]
    unfold triggerSelectorFlags
    by_cases h1 : "AcquisitionStart" = x
    · subst h1
      simp
    · by_cases h2 : "FrameStart" = x
      · subst h2
        simp
      · simp [h1, h2]

/-- The run of `CameraPrintAcquisitionControls` when the three entry counts it reads can
be allocated, exactly: the flags it leaves and the calls it makes. -/
theorem CameraPrintAcquisitionControls_exact (w : World)
    (f1 : 0 ≤ entryCount w.dev w.trace "AcquisitionMode" ∧
      entryCount w.dev w.trace "AcquisitionMode" ≤ (w.dev.limit : Int))
    (f2 : 0 ≤ entryCount w.dev (w.trace ++ enumQueries w.dev w.trace "AcquisitionMode")
        "TriggerSelector" ∧
      entryCount w.dev (w.trace ++ enumQueries w.dev w.trace "AcquisitionMode")
        "TriggerSelector" ≤ (w.dev.limit : Int))
    (f3 : 0 ≤ entryCount w.dev
        (w.trace ++ enumQueries w.dev w.trace "AcquisitionMode" ++
          enumQueries w.dev (w.trace ++ enumQueries w.dev w.trace "AcquisitionMode")
            "TriggerSelector")
        "ExposureMode" ∧
      entryCount w.dev
        (w.trace ++ enumQueries w.dev w.trace "AcquisitionMode" ++
          enumQueries w.dev (w.trace ++ enumQueries w.dev w.trace "AcquisitionMode")
            "TriggerSelector")
        "ExposureMode" ≤ (w.dev.limit : Int)) :
    ∃ ExposureTime : MIL_DOUBLE,
      CameraPrintAcquisitionControls w = .ret () { w with
        caps := (triggerSelectors w).foldl (fun c n => triggerSelectorFlags n c)
          ((acquisitionModes w).foldl (fun c n => acquisitionModeFlags n c)
            (if entryCount w.dev w.trace "AcquisitionMode" ≠ 0 then
              (if entryCount w.dev w.trace "AcquisitionMode" > 1 then
                { w.caps with MultipleAcquisitionModeSupport := 1 } else w.caps)
             else w.caps))
        trace := w.trace ++ (enumQueries w.dev w.trace "AcquisitionMode" ++
          enumQueries w.dev (w.trace ++ enumQueries w.dev w.trace "AcquisitionMode")
            "TriggerSelector" ++
          enumQueries w.dev
            (w.trace ++ enumQueries w.dev w.trace "AcquisitionMode" ++
              enumQueries w.dev (w.trace ++ enumQueries w.dev w.trace "AcquisitionMode")
                "TriggerSelector")
            "ExposureMode" ++
          [.MdigInquireFeature .value "ExposureTime",
           .MosPrintf "\n------------------- Acquisition Controls -------------------\n\n" []] ++
          valueLines
            (fun v => .MosPrintf "%30s %s\n" [.s "Supported acquisition modes:", .s v])
            (fun v => .MosPrintf "%30s %s\n" [.s "", .s v]) (acquisitionModes w) ++
          valueLines
            (fun v => .MosPrintf "\n%30s %s\n" [.s "Supported trigger selectors:", .s v])
            (fun v => .MosPrintf "%30s %s\n" [.s "", .s v]) (triggerSelectors w) ++
          valueLines
            (fun v => .MosPrintf "\n%30s %s\n" [.s "Supported exposure modes:", .s v])
            (fun v => .MosPrintf "%30s %s\n" [.s "", .s v]) (exposureModes w) ++
          [if ExposureTime = 0 then .MosPrintf "\n%30s %s\n" [.s "Exposure time:", .s "N/A"]
           else .MosPrintf "\n%30s %.1f us\n" [.s "Exposure time:", .f ExposureTime]]) } := by
  have e1 := inquireEnum_exact "AcquisitionMode"
    (fun AcMdCount =>
      if AcMdCount > 1 then modifyCaps fun c => { c with MultipleAcquisitionModeSupport := 1 }
      else Prog.pure ())
    noteAcquisitionMode
    (fun n c => if n > 1 then { c with MultipleAcquisitionModeSupport := 1 } else c)
    acquisitionModeFlags
    (fun c w => by by_cases h : c > 1 <;> simp [h, modifyCaps])
    noteAcquisitionMode_apply w f1
  have e2 := fun (cp : Capabilities) =>
    inquireEnum_exact "TriggerSelector" (fun _ => Prog.pure ())
      noteTriggerSelector (fun _ c => c) triggerSelectorFlags (fun _ _ => rfl)
      noteTriggerSelector_apply
      { w with caps := cp, trace := (w.trace ++ enumQueries w.dev w.trace "AcquisitionMode") } f2
  have e3 := fun (cp : Capabilities) =>
    inquireEnum_exact "ExposureMode" (fun _ => Prog.pure ())
      (fun _ => Prog.pure ()) (fun _ c => c) (fun _ c => c) (fun _ _ => rfl) (fun _ _ => rfl)
      { w with caps := cp, trace := (w.trace ++ enumQueries w.dev w.trace "AcquisitionMode" ++
          enumQueries w.dev (w.trace ++ enumQueries w.dev w.trace "AcquisitionMode")
            "TriggerSelector") } f3
  refine ⟨(w.dev.featureDouble (w.trace ++ (enumQueries w.dev w.trace "AcquisitionMode" ++
      enumQueries w.dev (w.trace ++ enumQueries w.dev w.trace "AcquisitionMode")
        "TriggerSelector" ++
      enumQueries w.dev
        (w.trace ++ enumQueries w.dev w.trace "AcquisitionMode" ++
          enumQueries w.dev (w.trace ++ enumQueries w.dev w.trace "AcquisitionMode")
            "TriggerSelector")
        "ExposureMode")) .value "ExposureTime").getD 0, ?_⟩
  unfold CameraPrintAcquisitionControls
  rw [bind_apply, e1, andThen_ret]
  simp only [bind_apply]
  rw [e2, andThen_ret]
  simp only [bind_apply]
  rw [e3, andThen_ret]
  simp only [foldl_keep, ite_self, bind_apply, MdigInquireFeatureDouble, andThen_ret,
    MosPrintf, emit_apply, forEach_emit, List.append_assoc]
  split <;>
    simp [valueLines, acquisitionModes, triggerSelectors, exposureModes, List.append_assoc]

/-- An enumeration that returned was given a count the vector could be sized for. -/
theorem inquireEnum_ret_fits (feature : String) (afterAssign : MIL_INT → Prog Unit)
    (body : String → Prog Unit) (w : World) (r : MIL_INT × List String) (w2 : World)
    (h : inquireEnum feature afterAssign body w = .ret r w2) :
    0 ≤ entryCount w.dev w.trace feature ∧
      entryCount w.dev w.trace feature ≤ (w.dev.limit : Int) := by
  have h10 := ten_le_limit w.dev
  unfold inquireEnum at h
  obtain ⟨c, w1, h1, h⟩ := bind_eq_ret h
  simp only [MdigInquireFeatureInt, Outcome.ret.injEq] at h1
  obtain ⟨rfl, rfl⟩ := h1
  unfold entryCount
  split at h
  · obtain ⟨size, w3, h2, -⟩ := bind_eq_ret h
    by_cases hbad : (w.dev.featureInt w.trace .enumEntryCount feature).getD 0 < 0 ∨
        (w.dev.limit : Int) < (w.dev.featureInt w.trace .enumEntryCount feature).getD 0
    · have e : vectorAssign ((w.dev.featureInt w.trace .enumEntryCount feature).getD 0)
          { w with trace := w.trace ++ [.MdigInquireFeature .enumEntryCount feature] } =
          .halt .exception
            { w with trace := w.trace ++ [.MdigInquireFeature .enumEntryCount feature] } :=
        vectorAssign_throws hbad
      rw [e] at h2
      cases h2
    · omega
  · rename_i h0
    simp only [ne_eq, not_not] at h0
    rw [h0]
    omega

/-- A run of `CameraPrintAcquisitionControls` that returned was given three entry counts
the vectors could be sized for. -/
theorem CameraPrintAcquisitionControls_ret_fits (w wf : World)
    (h : CameraPrintAcquisitionControls w = .ret () wf) :
    (0 ≤ entryCount w.dev w.trace "AcquisitionMode" ∧
      entryCount w.dev w.trace "AcquisitionMode" ≤ (w.dev.limit : Int)) ∧
    (0 ≤ entryCount w.dev (w.trace ++ enumQueries w.dev w.trace "AcquisitionMode")
        "TriggerSelector" ∧
      entryCount w.dev (w.trace ++ enumQueries w.dev w.trace "AcquisitionMode")
        "TriggerSelector" ≤ (w.dev.limit : Int)) ∧
    (0 ≤ entryCount w.dev
        (w.trace ++ enumQueries w.dev w.trace "AcquisitionMode" ++
          enumQueries w.dev (w.trace ++ enumQueries w.dev w.trace "AcquisitionMode")
            "TriggerSelector")
        "ExposureMode" ∧
      entryCount w.dev
        (w.trace ++ enumQueries w.dev w.trace "AcquisitionMode" ++
          enumQueries w.dev (w.trace ++ enumQueries w.dev w.trace "AcquisitionMode")
            "TriggerSelector")
        "ExposureMode" ≤ (w.dev.limit : Int)) := by
  unfold CameraPrintAcquisitionControls at h
  obtain ⟨⟨c1, n1⟩, w1, h1, h⟩ := bind_eq_ret h
  have f1 := inquireEnum_ret_fits _ _ _ _ _ _ h1
  obtain ⟨⟨c2, n2⟩, w2, h2, h⟩ := bind_eq_ret h
  have f2 := inquireEnum_ret_fits _ _ _ _ _ _ h2
  obtain ⟨⟨c3, n3⟩, w3, h3, -⟩ := bind_eq_ret h
  have f3 := inquireEnum_ret_fits _ _ _ _ _ _ h3
  have e1 := inquireEnum_exact "AcquisitionMode"
    (fun AcMdCount =>
      if AcMdCount > 1 then modifyCaps fun c => { c with MultipleAcquisitionModeSupport := 1 }
      else Prog.pure ())
    noteAcquisitionMode
    (fun n c => if n > 1 then { c with MultipleAcquisitionModeSupport := 1 } else c)
    acquisitionModeFlags
    (fun c w => by by_cases h : c > 1 <;> simp [h, modifyCaps])
    noteAcquisitionMode_apply w f1
  rw [e1] at h1
  cases h1
  have e2 := inquireEnum_exact "TriggerSelector" (fun _ => Prog.pure ())
    noteTriggerSelector (fun _ c => c) triggerSelectorFlags (fun _ _ => rfl)
    noteTriggerSelector_apply _ f2
  rw [e2] at h2
  cases h2
  exact ⟨f1, f2, f3⟩

/-! ## Who writes the capability flags -/

theorem keepsCaps_pure {α : Type} (a : α) : KeepsCaps (Prog.pure a : Prog α) := by
  intro w
  rfl

theorem keepsCaps_halt {α : Type} (r : Halt) :
    KeepsCaps (fun w => (Outcome.halt r w : Outcome α)) := by
  intro w
  rfl

theorem keepsCaps_bind {α β : Type} {m : Prog α} {f : α → Prog β}
    (hm : KeepsCaps m) (hf : ∀ a, KeepsCaps (f a)) : KeepsCaps (m >>= f) := by
  intro w
  have h1 := hm w
  rw [bind_apply]
  cases hmw : m w with
  | ret a w1 =>
    rw [hmw] at h1
    rw [andThen_ret, hf a w1]
    exact h1
  | halt r w1 =>
    rw [hmw] at h1
    exact h1

theorem keepsCaps_ite {α : Type} {c : Prop} [Decidable c] {m n : Prog α}
    (hm : KeepsCaps m) (hn : KeepsCaps n) : KeepsCaps (if c then m else n) := by
  split
  · exact hm
  · exact hn

theorem keepsCaps_fueled {α : Type} {g : Nat → Prog α} (n : World → Nat)
    (h : ∀ k, KeepsCaps (g k)) : KeepsCaps (fun w => g (n w) w) := by
  intro w
  exact h (n w) w

theorem keepsCaps_emit (e : Event) : KeepsCaps (emit e) := by
  intro w
  rfl

theorem keepsCaps_MosPrintf (fmt : String) (args : List Arg) : KeepsCaps (MosPrintf fmt args) :=
  keepsCaps_emit _

theorem keepsCaps_MappControlError (b : Bool) : KeepsCaps (MappControlError b) :=
  keepsCaps_emit _

theorem keepsCaps_MdigControlFeature (name : String) (v : FeatureValue) :
    KeepsCaps (MdigControlFeature name v) :=
  keepsCaps_emit _

theorem keepsCaps_MdigExecuteFeature (name : String) : KeepsCaps (MdigExecuteFeature name) :=
  keepsCaps_emit _

theorem keepsCaps_getCaps : KeepsCaps getCaps := by
  intro w
  rfl

theorem keepsCaps_MosGetch : KeepsCaps MosGetch := by
  intro w
  unfold MosGetch
  split <;> rfl

theorem keepsCaps_MosKbhit : KeepsCaps MosKbhit := by
  intro w
  unfold MosKbhit
  split <;> rfl

theorem keepsCaps_scanf (fmt : String) : KeepsCaps (scanf fmt) := by
  intro w
  unfold scanf
  split <;> rfl

theorem keepsCaps_MbufAlloc2d : KeepsCaps MbufAlloc2d := by
  intro w
  unfold MbufAlloc2d
  split <;> rfl

theorem keepsCaps_MsysInquire : KeepsCaps MsysInquire := by
  intro w
  rfl

theorem keepsCaps_MdigInquireFeatureString (kind : FeatureKind) (name cur : String) :
    KeepsCaps (MdigInquireFeatureString kind name cur) := by
  intro w
  rfl

theorem keepsCaps_MdigInquireFeatureInt (kind : FeatureKind) (name : String) (cur : Int) :
    KeepsCaps (MdigInquireFeatureInt kind name cur) := by
  intro w
  rfl

theorem keepsCaps_MdigInquireFeatureBool (kind : FeatureKind) (name : String) (cur : Bool) :
    KeepsCaps (MdigInquireFeatureBool kind name cur) := by
  intro w
  rfl

theorem keepsCaps_MdigInquireFeatureDouble (kind : FeatureKind) (name : String)
    (cur : MIL_DOUBLE) : KeepsCaps (MdigInquireFeatureDouble kind name cur) := by
  intro w
  rfl

theorem keepsCaps_MdigInquireString (what cur : String) :
    KeepsCaps (MdigInquireString what cur) := by
  intro w
  rfl

theorem keepsCaps_MdigInquireInt (what : String) (cur : Int) :
    KeepsCaps (MdigInquireInt what cur) := by
  intro w
  rfl

theorem keepsCaps_index (v : List String) (i : Int) : KeepsCaps (index v i) := by
  intro w
  unfold index
  split
  · rfl
  · split <;> rfl

theorem keepsCaps_vectorAssign (c : MIL_INT) : KeepsCaps (vectorAssign c) := by
  intro w
  rcases vectorAssign_cases c w with e | e <;> rw [e] <;> rfl

theorem keepsCaps_arrayNew (n : Int) : KeepsCaps (arrayNew n) := by
  intro w
  rcases arrayNew_cases n w with e | e <;> rw [e] <;> rfl

theorem keepsCaps_inquireEntryNames (feature : String) (body : String → Prog Unit)
    (hb : ∀ s, KeepsCaps (body s)) (todo : Nat) :
    ∀ i, KeepsCaps (inquireEntryNames feature body todo i) := by
  induction todo with
  | zero => intro i; exact keepsCaps_pure _
  | succ n ih =>
    intro i
    unfold inquireEntryNames
    exact keepsCaps_bind (keepsCaps_MdigInquireFeatureString _ _ _) (fun name =>
      keepsCaps_bind (hb name) (fun _ => keepsCaps_bind (ih (i + 1)) (fun _ => keepsCaps_pure _)))

theorem keepsCaps_forEach {α : Type} (body : α → Prog Unit) (hb : ∀ a, KeepsCaps (body a))
    (l : List α) : KeepsCaps (forEach body l) := by
  induction l with
  | nil => exact keepsCaps_pure _
  | cons a t ih =>
    unfold forEach
    exact keepsCaps_bind (hb a) (fun _ => ih)

theorem keepsCaps_inquireSelected (selector : String) (queried : List String)
    (entries : List String) : KeepsCaps (inquireSelected selector queried entries) := by
  have hrow : KeepsCaps (queried.foldr
      (fun name (acc : Prog (List String)) => do
        let v ← MilGige.MdigInquireFeatureString .value name ""
        let vs ← acc
        Prog.pure (v :: vs))
      (Prog.pure [])) := by
    induction queried with
    | nil => exact keepsCaps_pure _
    | cons q t ih =>
      exact keepsCaps_bind (keepsCaps_MdigInquireFeatureString _ _ _) (fun _ =>
        keepsCaps_bind ih (fun _ => keepsCaps_pure _))
  induction entries with
  | nil => exact keepsCaps_pure _
  | cons e t ih =>
    unfold inquireSelected
    exact keepsCaps_bind (keepsCaps_MdigControlFeature _ _) (fun _ =>
      keepsCaps_bind hrow (fun _ => keepsCaps_bind ih (fun _ => keepsCaps_pure _)))

theorem keepsCaps_inquireEnum (feature : String) :
    KeepsCaps (inquireEnum feature (fun _ => Prog.pure ()) (fun _ => Prog.pure ())) := by
  unfold inquireEnum
  refine keepsCaps_bind (keepsCaps_MdigInquireFeatureInt _ _ _)
    (fun c => keepsCaps_ite ?_ (keepsCaps_pure _))
  exact keepsCaps_bind (keepsCaps_vectorAssign _) (fun size =>
    keepsCaps_bind (keepsCaps_pure _) (fun _ =>
      keepsCaps_bind (keepsCaps_inquireEntryNames _ _ (fun _ => keepsCaps_pure _) _ _)
        (fun _ => keepsCaps_pure _)))

theorem keepsCaps_CameraPrintDeviceControls : KeepsCaps CameraPrintDeviceControls := by
  unfold CameraPrintDeviceControls
  repeat' first
    | exact keepsCaps_MosPrintf _ _
    | exact keepsCaps_MdigInquireFeatureString _ _ _
    | exact keepsCaps_MdigInquireString _ _
    | apply keepsCaps_bind
    | intro _

theorem keepsCaps_CameraPrintTransportLayerControls :
    KeepsCaps CameraPrintTransportLayerControls := by
  unfold CameraPrintTransportLayerControls
  repeat' first
    | exact keepsCaps_MosPrintf _ _
    | exact keepsCaps_MdigInquireFeatureInt _ _ _
    | apply keepsCaps_bind
    | apply keepsCaps_ite
    | intro _

theorem keepsCaps_CameraPrintImageFormatControls :
    KeepsCaps CameraPrintImageFormatControls := by
  unfold CameraPrintImageFormatControls
  repeat' first
    | exact keepsCaps_MosPrintf _ _
    | exact keepsCaps_MdigInquireFeatureInt _ _ _
    | exact keepsCaps_MdigInquireFeatureBool _ _ _
    | exact keepsCaps_inquireEnum _
    | exact keepsCaps_forEach _ (fun _ => keepsCaps_MosPrintf _ _) _
    | apply keepsCaps_bind
    | apply keepsCaps_ite
    | intro _

theorem keepsCaps_CameraPrintEventControls : KeepsCaps CameraPrintEventControls := by
  unfold CameraPrintEventControls
  repeat' first
    | exact keepsCaps_MosPrintf _ _
    | exact keepsCaps_inquireEnum _
    | exact keepsCaps_forEach _ (fun _ => keepsCaps_MosPrintf _ _) _
    | apply keepsCaps_bind
    | apply keepsCaps_ite
    | intro _

theorem keepsCaps_CameraPrintIOControls : KeepsCaps CameraPrintIOControls := by
  unfold CameraPrintIOControls
  repeat' first
    | exact keepsCaps_MosPrintf _ _
    | exact keepsCaps_inquireEnum _
    | exact keepsCaps_inquireSelected _ _ _
    | exact keepsCaps_forEach _ (fun _ => keepsCaps_MosPrintf _ _) _
    | apply keepsCaps_bind
    | apply keepsCaps_ite
    | intro _

theorem keepsCaps_CameraPrintCounterAndTimerControls :
    KeepsCaps CameraPrintCounterAndTimerControls := by
  unfold CameraPrintCounterAndTimerControls
  repeat' first
    | exact keepsCaps_MosPrintf _ _
    | exact keepsCaps_inquireEnum _
    | exact keepsCaps_inquireSelected _ _ _
    | exact keepsCaps_forEach _ (fun _ => keepsCaps_MosPrintf _ _) _
    | apply keepsCaps_bind
    | apply keepsCaps_ite
    | intro _

theorem keepsCaps_printFlags (mask : String → Int) (Capability : MIL_INT)
    (flags : List (String × String)) : KeepsCaps (printFlags mask Capability flags) := by
  induction flags with
  | nil => exact keepsCaps_pure _
  | cons x t ih =>
    obtain ⟨name, text⟩ := x
    unfold printFlags
    exact keepsCaps_bind (keepsCaps_ite (keepsCaps_MosPrintf _ _) (keepsCaps_pure _))
      (fun _ => ih)

theorem keepsCaps_printCapabilities (mask : String → Int) (what title : String)
    (flags : List (String × String)) :
    KeepsCaps (printCapabilities mask what title flags) := by
  unfold printCapabilities
  exact keepsCaps_bind (keepsCaps_MdigInquireInt _ _) (fun _ =>
    keepsCaps_bind (keepsCaps_MosPrintf _ _)
      (fun _ => keepsCaps_ite (keepsCaps_MosPrintf _ _) (keepsCaps_printFlags _ _ _)))

theorem keepsCaps_CameraPrintDeviceCapabilities (mask : String → Int) :
    KeepsCaps (CameraPrintDeviceCapabilities mask) := by
  unfold CameraPrintDeviceCapabilities capabilitiesHeading pressEnterToContinue
  repeat' first
    | exact keepsCaps_pure _
    | exact keepsCaps_MosPrintf _ _
    | exact keepsCaps_MosGetch
    | exact keepsCaps_printCapabilities _ _ _ _
    | apply keepsCaps_bind
    | intro _

theorem keepsCaps_printTriggerSources (l : List String) :
    ∀ i, KeepsCaps (printTriggerSources l i) := by
  induction l with
  | nil => intro i; exact keepsCaps_pure _
  | cons a t ih =>
    intro i
    unfold printTriggerSources
    exact keepsCaps_bind (keepsCaps_MosPrintf _ _) (fun _ => ih _)

theorem keepsCaps_selectionLoop (Cnt : MIL_INT) (names : List String) (fuel : Nat) :
    KeepsCaps (selectionLoop Cnt names fuel) := by
  induction fuel with
  | zero => exact keepsCaps_halt _
  | succ n ih =>
    unfold selectionLoop
    repeat' first
      | exact keepsCaps_pure _
      | exact ih
      | exact keepsCaps_MosPrintf _ _
      | exact keepsCaps_scanf _
      | exact keepsCaps_index _ _
      | apply keepsCaps_bind
      | apply keepsCaps_ite
      | intro _

theorem keepsCaps_SelectTriggerSource : KeepsCaps SelectTriggerSource := by
  unfold SelectTriggerSource
  repeat' first
    | exact keepsCaps_pure _
    | exact keepsCaps_MosPrintf _ _
    | exact keepsCaps_MdigInquireFeatureInt _ _ _
    | exact keepsCaps_MdigControlFeature _ _
    | exact keepsCaps_vectorAssign _
    | exact keepsCaps_index _ _
    | exact keepsCaps_inquireEntryNames _ _ (fun _ => keepsCaps_pure _) _ _
    | exact keepsCaps_printTriggerSources _ _
    | exact keepsCaps_fueled _ (keepsCaps_selectionLoop _ _)
    | apply keepsCaps_bind
    | apply keepsCaps_ite
    | intro _

theorem keepsCaps_printMenu : KeepsCaps printMenu := by
  unfold printMenu
  repeat' first
    | exact keepsCaps_pure _
    | exact keepsCaps_getCaps
    | exact keepsCaps_MosPrintf _ _
    | apply keepsCaps_bind
    | apply keepsCaps_ite
    | intro _

theorem keepsCaps_menuSwitch (s : TriggerSetup) (again : Prog TriggerSetup)
    (ha : KeepsCaps again) : KeepsCaps (menuSwitch s again) := by
  unfold menuSwitch
  repeat' first
    | exact keepsCaps_pure _
    | exact ha
    | exact keepsCaps_getCaps
    | exact keepsCaps_MosGetch
    | exact keepsCaps_scanf _
    | exact keepsCaps_MosPrintf _ _
    | exact keepsCaps_MdigControlFeature _ _
    | exact keepsCaps_SelectTriggerSource
    | apply keepsCaps_bind
    | apply keepsCaps_ite
    | intro _

theorem keepsCaps_menuLoop (s : TriggerSetup) (fuel : Nat) : KeepsCaps (menuLoop s fuel) := by
  induction fuel with
  | zero => exact keepsCaps_halt _
  | succ n ih =>
    unfold menuLoop
    exact keepsCaps_bind keepsCaps_printMenu (fun _ => keepsCaps_menuSwitch _ _ ih)

theorem keepsCaps_SetTriggerControls (s : TriggerSetup) : KeepsCaps (SetTriggerControls s) := by
  unfold SetTriggerControls
  repeat' first
    | exact keepsCaps_pure _
    | exact keepsCaps_getCaps
    | exact keepsCaps_MosPrintf _ _
    | exact keepsCaps_MdigControlFeature _ _
    | exact keepsCaps_SelectTriggerSource
    | exact keepsCaps_fueled _ (keepsCaps_menuLoop _)
    | apply keepsCaps_bind
    | apply keepsCaps_ite
    | intro _

theorem keepsCaps_ResetTriggerControls : KeepsCaps ResetTriggerControls := by
  intro w
  rw [ResetTriggerControls_apply]
  rfl

theorem keepsCaps_allocLoop (len : Nat) (todo : Nat) :
    ∀ size list, KeepsCaps (allocLoop len todo size list) := by
  induction todo with
  | zero => intro size list; exact keepsCaps_pure _
  | succ n ih =>
    intro size list
    unfold allocLoop
    repeat' first
      | exact keepsCaps_pure _
      | exact keepsCaps_halt _
      | exact ih _ _
      | exact keepsCaps_MdigInquireInt _ _
      | exact keepsCaps_MbufAlloc2d
      | exact keepsCaps_emit _
      | apply keepsCaps_bind
      | apply keepsCaps_ite
      | intro _

theorem keepsCaps_softwareTriggerLoop (t : eTriggerType) (sel : String) (fuel : Nat) :
    KeepsCaps (softwareTriggerLoop t sel fuel) := by
  induction fuel with
  | zero => exact keepsCaps_halt _
  | succ n ih =>
    unfold softwareTriggerLoop
    repeat' first
      | exact keepsCaps_pure _
      | exact ih
      | exact keepsCaps_MosGetch
      | exact keepsCaps_MdigControlFeature _ _
      | exact keepsCaps_MdigExecuteFeature _
      | apply keepsCaps_bind
      | apply keepsCaps_ite
      | intro _

theorem keepsCaps_waitForStop (s : TriggerSetup) : KeepsCaps (waitForStop s) := by
  unfold waitForStop
  repeat' first
    | exact keepsCaps_pure _
    | exact keepsCaps_MosGetch
    | exact keepsCaps_MosKbhit
    | exact keepsCaps_fueled _ (keepsCaps_softwareTriggerLoop _ _)
    | apply keepsCaps_bind
    | apply keepsCaps_ite
    | intro _

theorem keepsCaps_processLoop (s : TriggerSetup) (buffers : List MIL_ID) (size : Nat)
    (StartOp : ProcessOp) (fuel : Nat) :
    KeepsCaps (processLoop s buffers size StartOp fuel) := by
  induction fuel with
  | zero => exact keepsCaps_halt _
  | succ n ih =>
    unfold processLoop
    repeat' first
      | exact keepsCaps_pure _
      | exact ih
      | exact keepsCaps_emit _
      | exact keepsCaps_waitForStop s
      | apply keepsCaps_bind
      | apply keepsCaps_ite
      | intro _

theorem keepsCaps_freeLoop (list : List MIL_ID) (size : Nat) :
    KeepsCaps (freeLoop list size) := by
  induction size with
  | zero => exact keepsCaps_pure _
  | succ n ih =>
    unfold freeLoop
    split
    · exact keepsCaps_bind (keepsCaps_emit _) (fun _ => ih)
    · exact keepsCaps_halt _

theorem keepsCaps_acquire (inf : Int) (s : TriggerSetup) : KeepsCaps (acquire inf s) := by
  unfold acquire
  repeat' first
    | exact keepsCaps_pure _
    | exact keepsCaps_arrayNew _
    | exact keepsCaps_allocLoop _ _ _ _
    | exact keepsCaps_fueled _ (keepsCaps_processLoop _ _ _ _)
    | exact keepsCaps_ResetTriggerControls
    | exact keepsCaps_freeLoop _ _
    | exact keepsCaps_MosPrintf _ _
    | exact keepsCaps_emit _
    | apply keepsCaps_bind
    | apply keepsCaps_ite
    | intro _

theorem keepsCaps_DoTriggeredAcquisition (inf : Int) :
    KeepsCaps (DoTriggeredAcquisition inf) := by
  unfold DoTriggeredAcquisition
  exact keepsCaps_bind (keepsCaps_SetTriggerControls _) (fun _ => keepsCaps_acquire _ _)

theorem keepsCaps_quitUnsupported : KeepsCaps quitUnsupported := by
  unfold quitUnsupported
  repeat' first
    | exact keepsCaps_pure _
    | exact keepsCaps_MosPrintf _ _
    | exact keepsCaps_MosGetch
    | exact keepsCaps_emit _
    | apply keepsCaps_bind
    | intro _

theorem keepsCaps_offerTriggeredAcquisition (inf : Int) :
    KeepsCaps (offerTriggeredAcquisition inf) := by
  unfold offerTriggeredAcquisition
  repeat' first
    | exact keepsCaps_pure _
    | exact keepsCaps_getCaps
    | exact keepsCaps_MosPrintf _ _
    | exact keepsCaps_MosGetch
    | exact keepsCaps_DoTriggeredAcquisition _
    | apply keepsCaps_bind
    | apply keepsCaps_ite
    | intro _

/-- C14. Starting from all capability flags false, a run of
`CameraPrintAcquisitionControls` that returns leaves: the three acquisition mode flags
true exactly when `Continuous`, `SingleFrame`, `MultiFrame` occur among the
`AcquisitionMode` entry names it read; `MultipleAcquisitionModeSupport` non-zero exactly
when the `AcquisitionMode` entry count exceeds 1; the two trigger flags true exactly
when `AcquisitionStart` and `FrameStart` occur among the `TriggerSelector` entry names
it read.  The run does return on a device whose entry counts can be allocated (a count
that is negative or beyond the limit of the host makes the vector resize throw, and
there is no state after the call).  Every other function of the program leaves the flags
as they were, in the runs that return and in those that do not: the other six reporters,
the capability printers, `SelectTriggerSource`, `SetTriggerControls`,
`ResetTriggerControls`, `DoTriggeredAcquisition`, and the parts of `MosMain` before and
after the reporters (`ProcessingFunction` has no access to them). -/
theorem CameraPrintAcquisitionControls_sets_flags (w : World)
    (h0 : w.caps = Capabilities.initial) (inf : Int) (mask : String → Int)
    (s : TriggerSetup) :
    (∀ w2, CameraPrintAcquisitionControls w = .ret () w2 →
      (w2.caps.ContinuousAMSupport = true ↔ "Continuous" ∈ acquisitionModes w) ∧
      (w2.caps.SingleFrameAMSupport = true ↔ "SingleFrame" ∈ acquisitionModes w) ∧
      (w2.caps.MultiFrameAMSupport = true ↔ "MultiFrame" ∈ acquisitionModes w) ∧
      (w2.caps.MultipleAcquisitionModeSupport ≠ 0 ↔
        1 < entryCount w.dev w.trace "AcquisitionMode") ∧
      (w2.caps.CanTriggerAcquisitionStart = true ↔ "AcquisitionStart" ∈ triggerSelectors w) ∧
      (w2.caps.CanTriggerFrameStart = true ↔ "FrameStart" ∈ triggerSelectors w)) ∧
    (w.dev.countsFit → (CameraPrintAcquisitionControls w).returns = true) ∧
    KeepsCaps CameraPrintDeviceControls ∧
    KeepsCaps CameraPrintTransportLayerControls ∧
    KeepsCaps CameraPrintImageFormatControls ∧
    KeepsCaps CameraPrintEventControls ∧
    KeepsCaps CameraPrintIOControls ∧
    KeepsCaps CameraPrintCounterAndTimerControls ∧
    KeepsCaps (CameraPrintDeviceCapabilities mask) ∧
    KeepsCaps SelectTriggerSource ∧
    KeepsCaps (SetTriggerControls s) ∧
    KeepsCaps ResetTriggerControls ∧
    KeepsCaps (DoTriggeredAcquisition inf) ∧
    KeepsCaps MsysInquire ∧
    KeepsCaps quitUnsupported ∧
    KeepsCaps (offerTriggeredAcquisition inf) := by
  refine ⟨?_, ?_, keepsCaps_CameraPrintDeviceControls,
    keepsCaps_CameraPrintTransportLayerControls,
    keepsCaps_CameraPrintImageFormatControls, keepsCaps_CameraPrintEventControls,
    keepsCaps_CameraPrintIOControls, keepsCaps_CameraPrintCounterAndTimerControls,
    keepsCaps_CameraPrintDeviceCapabilities mask, keepsCaps_SelectTriggerSource,
    keepsCaps_SetTriggerControls s, keepsCaps_ResetTriggerControls,
    keepsCaps_DoTriggeredAcquisition inf, keepsCaps_MsysInquire, keepsCaps_quitUnsupported,
    keepsCaps_offerTriggeredAcquisition inf⟩
  · intro w2 hret
    obtain ⟨f1, f2, f3⟩ := CameraPrintAcquisitionControls_ret_fits w w2 hret
    obtain ⟨ExposureTime, h⟩ := CameraPrintAcquisitionControls_exact w f1 f2 f3
    have hn := f1.1
    rw [h] at hret
    cases hret
    simp only [triggerSelectorFlags_fold, acquisitionModeFlags_fold, h0, Capabilities.initial]
    refine ⟨?_, ?_, ?_, ?_, ?_, ?_⟩
    · split <;> [split; skip] <;> simp
    · split <;> [split; skip] <;> simp
    · split <;> [split; skip] <;> simp
    · split
      · split
        · simp; omega
        · simp; omega
      · simp; omega
    · split <;> [split; skip] <;> simp
    · split <;> [split; skip] <;> simp
  · intro hc
    obtain ⟨ExposureTime, h⟩ := CameraPrintAcquisitionControls_exact w (entryCount_fits hc _ _)
      (entryCount_fits hc _ _) (entryCount_fits hc _ _)
    rw [h]
    rfl

theorem CameraPrintAcquisitionControls_sets_flags_witness :
    ∃ w2, CameraPrintAcquisitionControls
        (sampleWorld multiFrameCamera Capabilities.initial [] []) = .ret () w2 ∧
      (w2.caps.ContinuousAMSupport = true ↔
        "Continuous" ∈ acquisitionModes (sampleWorld multiFrameCamera Capabilities.initial [] [])) ∧
      (w2.caps.SingleFrameAMSupport = true ↔
        "SingleFrame" ∈ acquisitionModes (sampleWorld multiFrameCamera Capabilities.initial [] [])) ∧
      (w2.caps.MultiFrameAMSupport = true ↔
        "MultiFrame" ∈ acquisitionModes (sampleWorld multiFrameCamera Capabilities.initial [] [])) ∧
      (w2.caps.MultipleAcquisitionModeSupport ≠ 0 ↔
        1 < entryCount (sampleWorld multiFrameCamera Capabilities.initial [] []).dev
          (sampleWorld multiFrameCamera Capabilities.initial [] []).trace "AcquisitionMode") ∧
      (w2.caps.CanTriggerAcquisitionStart = true ↔
        "AcquisitionStart" ∈
          triggerSelectors (sampleWorld multiFrameCamera Capabilities.initial [] [])) ∧
      (w2.caps.CanTriggerFrameStart = true ↔
        "FrameStart" ∈
          triggerSelectors (sampleWorld multiFrameCamera Capabilities.initial [] [])) := by
  have hT := CameraPrintAcquisitionControls_sets_flags
    (sampleWorld multiFrameCamera Capabilities.initial [] []) rfl (-1) (fun _ => 0) initialSetup
  have hr := hT.2.1 multiFrameCamera_countsFit
  cases hm : CameraPrintAcquisitionControls
      (sampleWorld multiFrameCamera Capabilities.initial [] []) with
  | ret u w2 => exact ⟨w2, rfl, hT.1 w2 hm⟩
  | halt r w2 =>
    rw [hm] at hr
    cases hr

/-! ## The value lines of an enumeration -/

theorem entryQueries_succ (feature : String) (n : Nat) :
    ∀ s, entryQueries feature (n + 1) s =
      entryQueries feature n s ++ [.MdigInquireFeature (.enumEntryName (s + n)) feature] := by
  induction n with
  | zero => intro s; simp [entryQueries]
  | succ k ih =>
    intro s
    rw [entryQueries, ih (s + 1)]
    simp [entryQueries, Nat.add_assoc, Nat.add_comm 1 k]

theorem menuFinish_continuous (k : MIL_INT) (h : k = key 'c' ∨ k = key 'C') (s : TriggerSetup)
    (caps : Capabilities) :
    menuFinish k s caps = fun soft =>
      Prog.pure { s with oTriggerSelector := "AcquisitionStart", SoftwareTriggerSelected := soft,
                         TriggerType := .eContinuous } := by
  funext soft
  simp [menuFinish, h]

theorem menuFinish_multiFrame (k : MIL_INT) (h : k = key 'm' ∨ k = key 'M') (s : TriggerSetup)
    (caps : Capabilities) (soft : Bool) (w : World) :
    menuFinish k s caps soft w =
      match w.nums with
      | [] => .halt .hang
          { w with trace := w.trace ++
              [.MosPrintf "\n%-30s" [.s "\nHow many frames per trigger?", .s ""]] }
      | n :: ns => .ret { oTriggerSelector := "AcquisitionStart", SoftwareTriggerSelected := soft,
                          NbFrames := n, TriggerType := .eMultiFrame }
          { w with nums := ns, trace := w.trace ++
              [.MosPrintf "\n%-30s" [.s "\nHow many frames per trigger?", .s ""],
               .scanf "%lld" n,
               .MosPrintf "%lld Frames will be acquired per trigger.\n" [.d n],
               .MdigControlFeature "AcquisitionFrameCount" (.int n)] } := by
  have hc : ¬ (k = key 'c' ∨ k = key 'C') := by
    rcases h with rfl | rfl <;> decide
  unfold menuFinish
  simp only [hc, h, if_false, if_true]
  cases hn : w.nums with
  | nil => simp [bind_apply, MosPrintf, scanf, hn]
  | cons n ns => simp [bind_apply, MosPrintf, scanf, hn, MdigControlFeature]

theorem menuFinish_singleFrame (k : MIL_INT) (h : k = key 's' ∨ k = key 'S') (s : TriggerSetup)
    (caps : Capabilities) :
    menuFinish k s caps = fun soft =>
      Prog.pure { s with
        oTriggerSelector := if caps.CanTriggerFrameStart then "FrameStart" else "AcquisitionStart",
        SoftwareTriggerSelected := soft, TriggerType := .eSingleFrame } := by
  have hc : ¬ (k = key 'c' ∨ k = key 'C') := by
    rcases h with rfl | rfl <;> decide
  have hm : ¬ (k = key 'm' ∨ k = key 'M') := by
    rcases h with rfl | rfl <;> decide
  funext soft
  simp [menuFinish, hc, hm]

theorem menuSwitch_accepted (s : TriggerSetup) (again : Prog TriggerSetup) (w : World)
    (k : MIL_INT) (ks : List MIL_INT) (hk : w.keys = k :: ks) (hv : k ∈ menuKeys) :
    menuSwitch s again w =
      (SelectTriggerSource >>= menuFinish k s w.caps)
        { w with keys := ks, trace := w.trace ++ [.MosGetch k] ++ menuEvents k w.caps } := by
  have hget : MosGetch w = .ret k { w with keys := ks, trace := w.trace ++ [.MosGetch k] } := by
    simp [MosGetch, hk]
  have hm : ¬ (key 'm' = key 'c' ∨ key 'm' = key 'C') := by decide
  have hM : ¬ (key 'M' = key 'c' ∨ key 'M' = key 'C') := by decide
  have hs : ¬ (key 's' = key 'c' ∨ key 's' = key 'C') := by decide
  have hS : ¬ (key 'S' = key 'c' ∨ key 'S' = key 'C') := by decide
  have hs2 : ¬ (key 's' = key 'm' ∨ key 's' = key 'M') := by decide
  have hS2 : ¬ (key 'S' = key 'm' ∨ key 'S' = key 'M') := by decide
  unfold menuSwitch
  rw [bind_ret hget]
  simp only [menuKeys, List.mem_cons, List.mem_singleton, List.not_mem_nil, or_false] at hv
  rcases hv with rfl | rfl | rfl | rfl | rfl | rfl
  · rw [menuFinish_continuous _ (Or.inl rfl)]
    simp [menuEvents, menuWrites, menuMessage, bind_apply, MdigControlFeature, MosPrintf]
  · rw [menuFinish_continuous _ (Or.inr rfl)]
    simp [menuEvents, menuWrites, menuMessage, bind_apply, MdigControlFeature, MosPrintf]
  · simp only [hm, if_false, true_or, if_true, menuEvents, menuWrites, menuMessage,
      bind_apply, MdigControlFeature, MosPrintf, emit_apply, andThen_ret, List.map_cons,
      List.map_nil, List.append_assoc, List.cons_append, List.nil_append]
    congr 1
  · simp only [hM, if_false, or_true, if_true, menuEvents, menuWrites, menuMessage,
      bind_apply, MdigControlFeature, MosPrintf, emit_apply, andThen_ret, List.map_cons,
      List.map_nil, List.append_assoc, List.cons_append, List.nil_append]
    congr 1
  · rw [menuFinish_singleFrame _ (Or.inl rfl)]
    simp only [hs, hs2, if_false, true_or, if_true, menuEvents, menuWrites,
      menuMessage, bind_apply, getCaps, andThen_ret]
    cases hc : w.caps.CanTriggerFrameStart <;>
      simp [bind_apply, MdigControlFeature, MosPrintf]
  · rw [menuFinish_singleFrame _ (Or.inr rfl)]
    simp only [hS, hS2, if_false, or_true, if_true, menuEvents, menuWrites,
      menuMessage, bind_apply, getCaps, andThen_ret]
    cases hc : w.caps.CanTriggerFrameStart <;>
      simp [bind_apply, MdigControlFeature, MosPrintf]

/-- The property of a call that `SelectTriggerSource` can make. -/
theorem sourceCall_of_inquireFeature (e : Event) (h : e.kind ∈ [Kind.inquireFeature]) :
    e.isSourceCall = true := by
  cases e <;> simp_all [Event.kind, Event.isSourceCall]

theorem sourceCall_of_no_kind (e : Event) (h : e.kind ∈ ([] : List Kind)) :
    e.isSourceCall = true := by
  simp at h

theorem MosPrintf_sourceCall (fmt : String) (args : List Arg) :
    Only (fun e => e.isSourceCall = true) (MosPrintf fmt args) :=
  only_emit rfl

theorem printTriggerSources_sourceCall (names : List String) :
    ∀ i, Only (fun e => e.isSourceCall = true) (printTriggerSources names i) := by
  induction names with
  | nil => intro i; exact only_pure _ _
  | cons n rest ih =>
    intro i
    unfold printTriggerSources
    exact only_bind (MosPrintf_sourceCall _ _) (fun _ => ih (i + 1))

theorem scanf_sourceCall : Only (fun e => e.isSourceCall = true) (scanf "%d") := by
  intro w
  unfold scanf
  cases hn : w.nums with
  | nil => exact ⟨[], by simp, by simp⟩
  | cons n ns => exact ⟨[.scanf "%d" n], rfl, by simp [Event.isSourceCall]⟩

theorem selectionLoop_sourceCall (Cnt : MIL_INT) (names : List String) (fuel : Nat) :
    Only (fun e => e.isSourceCall = true) (selectionLoop Cnt names fuel) := by
  induction fuel with
  | zero => exact only_halt _ _
  | succ n ih =>
    unfold selectionLoop
    refine only_bind scanf_sourceCall (fun sel => ?_)
    refine only_ite ?_ ?_
    · refine only_bind (only_of_emits (index_emits [] _ _) sourceCall_of_no_kind) (fun _ => ?_)
      exact only_bind (MosPrintf_sourceCall _ _) (fun _ => only_pure _ _)
    · exact only_bind (MosPrintf_sourceCall _ _) (fun _ => ih)

theorem SelectTriggerSource_sourceCall :
    Only (fun e => e.isSourceCall = true) SelectTriggerSource := by
  unfold SelectTriggerSource
  repeat' first
    | exact only_pure _ _
    | exact MosPrintf_sourceCall _ _
    | exact only_of_emits (MdigInquireFeatureInt_emits _ _ _ (List.mem_singleton.mpr rfl))
        sourceCall_of_inquireFeature
    | exact only_emit rfl
    | exact only_of_emits (vectorAssign_emits [] _) sourceCall_of_no_kind
    | exact only_of_emits (index_emits [] _ _) sourceCall_of_no_kind
    | exact only_of_emits (inquireEntryNames_emits _ _ (List.mem_singleton.mpr rfl)
        (fun _ => Emits.pure _ _) _ _) sourceCall_of_inquireFeature
    | exact printTriggerSources_sourceCall _ _
    | exact only_fueled _ (selectionLoop_sourceCall _ _)
    | apply only_bind
    | apply only_ite
    | intro _

theorem configWrites_append (a b : List Event) :
    configWrites (a ++ b) = configWrites a ++ configWrites b := by
  simp [configWrites, featureWrites, List.filterMap_append]

theorem numbersRead_append (fmt : String) (a b : List Event) :
    numbersRead fmt (a ++ b) = numbersRead fmt a ++ numbersRead fmt b := by
  simp [numbersRead, List.filterMap_append]

theorem keysRead_of_sourceCalls (evs : List Event) (h : ∀ e ∈ evs, e.isSourceCall = true) :
    keysRead evs = [] := by
  induction evs with
  | nil => rfl
  | cons e rest ih =>
    have he := h e (List.mem_cons_self _ _)
    have hr := ih (fun x hx => h x (List.mem_cons_of_mem _ hx))
    cases e <;> simp_all [keysRead, Event.isSourceCall]

theorem configWrites_cons (e : Event) (rest : List Event) :
    configWrites (e :: rest) =
      (match e with
       | .MdigControlFeature n v => if n = "TriggerSource" then [] else [(n, v)]
       | _ => []) ++ configWrites rest := by
  cases e with
  | MdigControlFeature n v =>
    by_cases hn : n = "TriggerSource"
    · simp [configWrites, featureWrites, List.filterMap_cons, List.filter_cons, hn]
    · simp [configWrites, featureWrites, List.filterMap_cons, List.filter_cons, hn]
  | _ => simp [configWrites, featureWrites, List.filterMap_cons]

theorem configWrites_of_sourceCalls (evs : List Event) (h : ∀ e ∈ evs, e.isSourceCall = true) :
    configWrites evs = [] := by
  induction evs with
  | nil => rfl
  | cons e rest ih =>
    have he := h e (List.mem_cons_self _ _)
    have hr := ih (fun x hx => h x (List.mem_cons_of_mem _ hx))
    rw [configWrites_cons, hr]
    cases e with
    | MdigControlFeature n v =>
      have hf : n = "TriggerSource" := by simpa [Event.isSourceCall] using he
      simp only [hf, if_true, List.append_nil]
    | _ => rfl

theorem numbersRead_cons (fmt : String) (e : Event) (rest : List Event) :
    numbersRead fmt (e :: rest) =
      (match e with
       | .scanf f v => if f = fmt then [v] else []
       | _ => []) ++ numbersRead fmt rest := by
  cases e with
  | scanf f v =>
    by_cases hf : f = fmt
    · simp [numbersRead, List.filterMap_cons, hf]
    · simp [numbersRead, List.filterMap_cons, hf]
  | _ => simp [numbersRead, List.filterMap_cons]

theorem numbersRead_of_sourceCalls (evs : List Event) (h : ∀ e ∈ evs, e.isSourceCall = true) :
    numbersRead "%lld" evs = [] := by
  induction evs with
  | nil => rfl
  | cons e rest ih =>
    have he := h e (List.mem_cons_self _ _)
    have hr := ih (fun x hx => h x (List.mem_cons_of_mem _ hx))
    rw [numbersRead_cons, hr]
    cases e with
    | scanf f v =>
      have hf : f = "%d" := by simpa [Event.isSourceCall] using he
      subst hf
      have hne : ¬ ("%d" = "%lld") := by decide
      simp only [hne, if_false, List.append_nil]
    | _ => rfl

theorem menuPrints_sourceCalls (caps : Capabilities) :
    ∀ e ∈ menuPrints caps, e.isSourceCall = true := by
  intro e he
  unfold menuPrints at he
  simp only [List.mem_cons, List.mem_append, List.mem_singleton, List.not_mem_nil,
    or_false] at he
  rcases he with (rfl | he) | rfl
  · rfl
  · unfold menuOptions at he
    simp only [List.mem_append] at he
    rcases he with (he | he) | he <;> split at he <;> simp at he <;> subst he <;> rfl
  · rfl

theorem menuLoop_skips_invalid (s : TriggerSetup) (bad : List MIL_INT) :
    ∀ (w : World) (rest : List MIL_INT) (n : Nat), w.keys = bad ++ rest →
      (∀ b ∈ bad, b ∉ menuKeys) →
      menuLoop s (bad.length + n) w =
        menuLoop s n { w with keys := rest, trace := w.trace ++ invalidRounds w.caps bad } := by
  induction bad with
  | nil =>
    intro w rest n hk _
    have hw : ({ w with keys := rest, trace := w.trace ++ invalidRounds w.caps [] } : World) = w := by
      cases w
      simp_all [invalidRounds]
    rw [hw]
    simp
  | cons b bad ih =>
    intro w rest n hk hbad
    have e : (b :: bad).length + n = (bad.length + n) + 1 := by
      simp only [List.length_cons]
      omega
    have e3 := menuSwitch_invalid s (menuLoop s (bad.length + n))
      { w with trace := w.trace ++ (menuHeader :: menuOptions w.caps ++ [.MosPrintf "\n" []]) }
      b (bad ++ rest) hk (hbad b (List.mem_cons_self _ _))
    rw [e, menuLoop_succ, e3, ih _ rest n rfl (fun x hx => hbad x (List.mem_cons_of_mem _ hx))]
    simp [invalidRounds, menuPrints, List.append_assoc]

theorem SetTriggerControls_accepted (s : TriggerSetup) (w : World)
    (hmenu : w.caps.CanTriggerAcquisitionStart = true ∧ w.caps.MultipleAcquisitionModeSupport ≠ 0)
    (bad : List MIL_INT) (k : MIL_INT) (ks : List MIL_INT) (hk : w.keys = bad ++ k :: ks)
    (hbad : ∀ b ∈ bad, b ∉ menuKeys) (hv : k ∈ menuKeys) :
    SetTriggerControls s w =
      (SelectTriggerSource >>= menuFinish k s w.caps)
        { w with
          keys := ks
          trace := w.trace ++ invalidRounds w.caps bad ++ menuPrints w.caps ++ [.MosGetch k] ++
            menuEvents k w.caps } := by
  have e : w.keys.length + 1 = bad.length + ((ks.length + 1) + 1) := by
    rw [hk, List.length_append, List.length_cons]
    omega
  rw [SetTriggerControls_menu s w hmenu, e, menuLoop_skips_invalid s bad w (k :: ks) _ hk hbad,
    menuLoop_succ]
  have a := menuSwitch_accepted s (menuLoop s (ks.length + 1))
    { w with
      keys := k :: ks
      trace := w.trace ++ invalidRounds w.caps bad ++
        (menuHeader :: menuOptions w.caps ++ [.MosPrintf "\n" []]) } k ks rfl hv
  simp only [List.append_assoc] at a ⊢
  rw [a]
  simp [menuPrints, List.append_assoc]

theorem SetTriggerControls_no_accepted_key (s : TriggerSetup) (w : World)
    (hmenu : w.caps.CanTriggerAcquisitionStart = true ∧ w.caps.MultipleAcquisitionModeSupport ≠ 0)
    (hall : ∀ b ∈ w.keys, b ∉ menuKeys) : (SetTriggerControls s w).returns = false := by
  rw [SetTriggerControls_menu s w hmenu,
    menuLoop_skips_invalid s w.keys w [] 1 (by simp) hall, menuLoop_succ]
  unfold menuSwitch
  rw [bind_apply]
  simp [MosGetch, Outcome.returns]

theorem split_at_accepted (l : List MIL_INT) :
    (∀ b ∈ l, b ∉ menuKeys) ∨
      ∃ bad k ks, l = bad ++ k :: ks ∧ (∀ b ∈ bad, b ∉ menuKeys) ∧ k ∈ menuKeys := by
  induction l with
  | nil => left; simp
  | cons a l ih =>
    by_cases ha : a ∈ menuKeys
    · right
      exact ⟨[], a, l, rfl, by simp, ha⟩
    · rcases ih with h | ⟨bad, k, ks, h1, h2, h3⟩
      · left
        intro b hb
        rcases List.mem_cons.mp hb with rfl | hb
        · exact ha
        · exact h b hb
      · right
        refine ⟨a :: bad, k, ks, by rw [h1]; rfl, ?_, h3⟩
        intro b hb
        rcases List.mem_cons.mp hb with rfl | hb
        · exact ha
        · exact h2 b hb

theorem keysRead_invalidRounds (caps : Capabilities) (bad : List MIL_INT) :
    keysRead (invalidRounds caps bad) = bad := by
  induction bad with
  | nil => rfl
  | cons b bad ih =>
    unfold invalidRounds
    rw [keysRead_append, keysRead_append, ih,
      keysRead_of_sourceCalls _ (menuPrints_sourceCalls caps)]
    rfl

theorem configWrites_invalidRounds (caps : Capabilities) (bad : List MIL_INT) :
    configWrites (invalidRounds caps bad) = [] := by
  induction bad with
  | nil => rfl
  | cons b bad ih =>
    unfold invalidRounds
    rw [configWrites_append, configWrites_append, ih,
      configWrites_of_sourceCalls _ (menuPrints_sourceCalls caps)]
    rfl

theorem numbersRead_invalidRounds (caps : Capabilities) (bad : List MIL_INT) :
    numbersRead "%lld" (invalidRounds caps bad) = [] := by
  induction bad with
  | nil => rfl
  | cons b bad ih =>
    unfold invalidRounds
    rw [numbersRead_append, numbersRead_append, ih,
      numbersRead_of_sourceCalls _ (menuPrints_sourceCalls caps)]
    rfl

theorem configWrites_print (l : List (String × FeatureValue)) (msg : String) :
    configWrites (l.map (fun p => Event.MdigControlFeature p.1 p.2) ++ [.MosPrintf msg []]) =
      l.filter fun p => p.1 ≠ "TriggerSource" := by
  rw [configWrites_append]
  have h : configWrites [Event.MosPrintf msg []] = [] := rfl
  rw [h, List.append_nil]
  unfold configWrites featureWrites
  rw [List.filterMap_map]
  congr 1
  induction l with
  | nil => rfl
  | cons a l ih => simp [List.filterMap_cons, ih]

theorem menuEvents_summary (k : MIL_INT) (caps : Capabilities) :
    keysRead (menuEvents k caps) = [] ∧ configWrites (menuEvents k caps) = menuWrites k caps ∧
      numbersRead "%lld" (menuEvents k caps) = [] := by
  unfold menuEvents
  rw [configWrites_print]
  unfold menuWrites
  split
  · exact ⟨rfl, by decide, rfl⟩
  · split
    · exact ⟨rfl, by decide, rfl⟩
    · split
      · exact ⟨rfl, by decide, rfl⟩
      · exact ⟨rfl, by decide, rfl⟩

theorem menu_summary (k : MIL_INT) (caps : Capabilities) (bad : List MIL_INT)
    (e1 fin : List Event) (p1 : ∀ e ∈ e1, e.isSourceCall = true) :
    keysRead (invalidRounds caps bad ++ menuPrints caps ++ [.MosGetch k] ++ menuEvents k caps ++
        e1 ++ fin) = bad ++ [k] ++ keysRead fin ∧
      configWrites (invalidRounds caps bad ++ menuPrints caps ++ [.MosGetch k] ++
        menuEvents k caps ++ e1 ++ fin) = menuWrites k caps ++ configWrites fin ∧
      numbersRead "%lld" (invalidRounds caps bad ++ menuPrints caps ++ [.MosGetch k] ++
        menuEvents k caps ++ e1 ++ fin) = numbersRead "%lld" fin := by
  obtain ⟨m1, m2, m3⟩ := menuEvents_summary k caps
  refine ⟨?_, ?_, ?_⟩
  · simp only [keysRead_append, keysRead_invalidRounds, m1,
      keysRead_of_sourceCalls _ (menuPrints_sourceCalls caps), keysRead_of_sourceCalls _ p1,
      List.append_nil]
    rfl
  · simp only [configWrites_append, configWrites_invalidRounds, m2,
      configWrites_of_sourceCalls _ (menuPrints_sourceCalls caps),
      configWrites_of_sourceCalls _ p1, List.append_nil, List.nil_append]
    rfl
  · simp only [numbersRead_append, numbersRead_invalidRounds, m3,
      numbersRead_of_sourceCalls _ (menuPrints_sourceCalls caps),
      numbersRead_of_sourceCalls _ p1, List.append_nil, List.nil_append]
    rfl

theorem lastWritten_of_configWrites (evs : List Event) :
    lastWritten "TriggerSelector" evs =
      ((configWrites evs).filter fun p => p.1 = "TriggerSelector").getLast?.map Prod.snd := by
  unfold lastWritten configWrites
  rw [List.filter_filter]
  congr 2
  apply List.filter_congr
  intro p _
  by_cases hp : p.1 = "TriggerSelector"
  · have hne : ¬ ("TriggerSelector" = "TriggerSource") := by decide
    simp [hp, hne]
  · simp [hp]

theorem menuKeys_cases (k : MIL_INT) (hv : k ∈ menuKeys) :
    (k = key 'c' ∨ k = key 'C') ∨ (k = key 'm' ∨ k = key 'M') ∨ (k = key 's' ∨ k = key 'S') := by
  simp only [menuKeys, List.mem_cons, List.mem_singleton, List.not_mem_nil, or_false] at hv
  tauto

theorem menuFinish_ret (k : MIL_INT) (s : TriggerSetup) (caps : Capabilities) (soft : Bool)
    (w3 : World) (s' : TriggerSetup) (w2 : World) (hv : k ∈ menuKeys)
    (h : menuFinish k s caps soft w3 = .ret s' w2) :
    ∃ fin, w2.trace = w3.trace ++ fin ∧ keysRead fin = [] ∧
      configWrites fin = (if k = key 'm' ∨ k = key 'M' then
        [("AcquisitionFrameCount", FeatureValue.int s'.NbFrames)] else []) ∧
      numbersRead "%lld" fin = (if k = key 'm' ∨ k = key 'M' then [s'.NbFrames] else []) ∧
      s'.TriggerType = menuType k ∧
      (¬ (k = key 'm' ∨ k = key 'M') → s'.NbFrames = s.NbFrames) ∧
      ((menuWrites k caps).filter fun p => p.1 = "TriggerSelector").getLast?.map Prod.snd =
        some (.str s'.oTriggerSelector) ∧
      ("TriggerMode", FeatureValue.str "On") ∈ menuWrites k caps := by
  rcases menuKeys_cases k hv with hc | hm | hs
  · have hnm : ¬ (k = key 'm' ∨ k = key 'M') := by
      rcases hc with rfl | rfl <;> decide
    rw [menuFinish_continuous k hc] at h
    simp only [Prog_pure_apply, Outcome.ret.injEq] at h
    obtain ⟨rfl, rfl⟩ := h
    refine ⟨[], by simp, rfl, ?_, ?_, ?_, ?_, ?_, ?_⟩
    · simp only [hnm, if_false]; rfl
    · simp only [hnm, if_false]; rfl
    · simp [menuType, hc]
    · intro _; rfl
    · simp only [menuWrites, hc, if_true]; decide
    · simp only [menuWrites, hc, if_true]; decide
  · have hnc : ¬ (k = key 'c' ∨ k = key 'C') := by
      rcases hm with rfl | rfl <;> decide
    rw [menuFinish_multiFrame k hm] at h
    cases hn : w3.nums with
    | nil => rw [hn] at h; cases h
    | cons n ns =>
      rw [hn] at h
      simp only [Outcome.ret.injEq] at h
      obtain ⟨rfl, rfl⟩ := h
      refine ⟨_, rfl, rfl, ?_, ?_, ?_, ?_, ?_, ?_⟩
      · simp only [hm, if_true]
        rw [configWrites_cons, configWrites_cons, configWrites_cons, configWrites_cons]
        have hne : ¬ ("AcquisitionFrameCount" = "TriggerSource") := by decide
        simp only [hne, if_false]
        rfl
      · simp only [hm, if_true]
        rw [numbersRead_cons, numbersRead_cons, numbersRead_cons, numbersRead_cons]
        simp only [if_true]
        rfl
      · simp [menuType, hm, hnc]
      · intro hx; exact absurd hm hx
      · simp only [menuWrites, hnc, hm, if_true, if_false]; decide
      · simp only [menuWrites, hnc, hm, if_true, if_false]; decide
  · have hnc : ¬ (k = key 'c' ∨ k = key 'C') := by
      rcases hs with rfl | rfl <;> decide
    have hnm : ¬ (k = key 'm' ∨ k = key 'M') := by
      rcases hs with rfl | rfl <;> decide
    rw [menuFinish_singleFrame k hs] at h
    simp only [Prog_pure_apply, Outcome.ret.injEq] at h
    obtain ⟨rfl, rfl⟩ := h
    refine ⟨[], by simp, rfl, ?_, ?_, ?_, ?_, ?_, ?_⟩
    · simp only [hnm, if_false]; rfl
    · simp only [hnm, if_false]; rfl
    · simp [menuType, hnc, hnm]
    · intro _; rfl
    · simp only [menuWrites, hnc, hnm, if_false]
      cases caps.CanTriggerFrameStart
      · simp only [Bool.false_eq_true, if_false]; decide
      · simp only [if_true]; decide
    · simp only [menuWrites, hnc, hnm, if_false]
      cases caps.CanTriggerFrameStart
      · simp only [Bool.false_eq_true, if_false]; decide
      · simp only [if_true]; decide

/-- C19. In the menu branch of `SetTriggerControls` the accepted key determines the
configuration.  A call returns whenever an accepted key follows keys that are not
accepted, the selection of the trigger source returns and, for `m`/`M`, a number is
pending.  A call that returns has read keys that are not accepted and then one accepted
key `k`; its feature writes other than the trigger source are those of `menuWrites k`
(acquisition mode, trigger selector and `TriggerMode = "On"` as the claim lists them for
`c`/`C`, `m`/`M` and `s`/`S` with `CanTriggerFrameStart` set or not), followed for
`m`/`M` by `AcquisitionFrameCount` with the resulting `NbFrames`, which is the number
read with `%lld`; the resulting type is `menuType k`; `oTriggerSelector` is the last
value written to `TriggerSelector`; and `NbFrames` is unchanged unless `k` is `m`/`M`. -/
theorem SetTriggerControls_key_selects_configuration (s : TriggerSetup) (w : World)
    (hmenu : w.caps.CanTriggerAcquisitionStart = true ∧
      w.caps.MultipleAcquisitionModeSupport ≠ 0) :
    (∀ (bad : List MIL_INT) (k : MIL_INT) (ks : List MIL_INT) (soft : Bool) (w3 : World),
      w.keys = bad ++ k :: ks → (∀ b ∈ bad, b ∉ menuKeys) → k ∈ menuKeys →
      SelectTriggerSource
        { w with
          keys := ks
          trace := w.trace ++ invalidRounds w.caps bad ++ menuPrints w.caps ++ [.MosGetch k] ++
            menuEvents k w.caps } = .ret soft w3 →
      ((k = key 'm' ∨ k = key 'M') → w3.nums ≠ []) →
      (SetTriggerControls s w).returns = true) ∧
    (∀ (s' : TriggerSetup) (w2 : World), SetTriggerControls s w = .ret s' w2 →
      ∃ (bad : List MIL_INT) (k : MIL_INT), (∀ b ∈ bad, b ∉ menuKeys) ∧ k ∈ menuKeys ∧
        keysRead (newEvents w (SetTriggerControls s w)) = bad ++ [k] ∧
        configWrites (newEvents w (SetTriggerControls s w)) =
          menuWrites k w.caps ++
            (if k = key 'm' ∨ k = key 'M' then
              [("AcquisitionFrameCount", FeatureValue.int s'.NbFrames)] else []) ∧
        ("TriggerMode", FeatureValue.str "On") ∈
          configWrites (newEvents w (SetTriggerControls s w)) ∧
        s'.TriggerType = menuType k ∧
        lastWritten "TriggerSelector" (newEvents w (SetTriggerControls s w)) =
          some (.str s'.oTriggerSelector) ∧
        (k = key 'm' ∨ k = key 'M' →
          numbersRead "%lld" (newEvents w (SetTriggerControls s w)) = [s'.NbFrames]) ∧
        (¬ (k = key 'm' ∨ k = key 'M') → s'.NbFrames = s.NbFrames)) := by
  constructor
  · intro bad k ks soft w3 hk hbad hv hsel hnum
    rw [SetTriggerControls_accepted s w hmenu bad k ks hk hbad hv, bind_ret hsel]
    rcases menuKeys_cases k hv with hc | hm | hs
    · rw [menuFinish_continuous k hc]; rfl
    · rw [menuFinish_multiFrame k hm]
      cases hn : w3.nums with
      | nil => exact absurd hn (hnum hm)
      | cons n ns => rfl
    · rw [menuFinish_singleFrame k hs]; rfl
  · intro s' w2 hret
    rw [hret]
    rcases split_at_accepted w.keys with hall | ⟨bad, k, ks, hk, hbad, hv⟩
    · have hf := SetTriggerControls_no_accepted_key s w hmenu hall
      rw [hret] at hf
      cases hf
    · rw [SetTriggerControls_accepted s w hmenu bad k ks hk hbad hv] at hret
      obtain ⟨soft, w3, hsel, hfin⟩ := bind_eq_ret hret
      obtain ⟨e1, h1, p1⟩ := SelectTriggerSource_sourceCall
        { w with
          keys := ks
          trace := w.trace ++ invalidRounds w.caps bad ++ menuPrints w.caps ++ [.MosGetch k] ++
            menuEvents k w.caps }
      rw [hsel] at h1
      simp only [world_ret] at h1
      obtain ⟨fin, hf, f1, f2, f3, f4, f5, f6, f7⟩ :=
        menuFinish_ret k s w.caps soft w3 s' w2 hv hfin
      have hev : newEvents w (Outcome.ret s' w2) =
          invalidRounds w.caps bad ++ menuPrints w.caps ++ [.MosGetch k] ++ menuEvents k w.caps ++
            e1 ++ fin := by
        apply newEvents_eq
        simp only [world_ret, hf, h1, List.append_assoc]
      obtain ⟨m1, m2, m3⟩ := menu_summary k w.caps bad e1 fin p1
      rw [hev]
      have hcfg : configWrites (invalidRounds w.caps bad ++ menuPrints w.caps ++ [.MosGetch k] ++
          menuEvents k w.caps ++ e1 ++ fin) = menuWrites k w.caps ++
            (if k = key 'm' ∨ k = key 'M' then
              [("AcquisitionFrameCount", FeatureValue.int s'.NbFrames)] else []) := by
        rw [m2, f2]
      refine ⟨bad, k, hbad, hv, ?_, hcfg, ?_, f4, ?_, ?_, f5⟩
      · rw [m1, f1, List.append_nil]
      · rw [hcfg]
        exact List.mem_append_left _ f7
      · rw [lastWritten_of_configWrites, hcfg, List.filter_append]
        have hnil : (List.filter (fun p => decide (p.1 = "TriggerSelector"))
            (if k = key 'm' ∨ k = key 'M' then
              [("AcquisitionFrameCount", FeatureValue.int s'.NbFrames)] else [])) = [] := by
          split
          · have hne : ¬ ("AcquisitionFrameCount" = "TriggerSelector") := by decide
            simp [List.filter_cons, hne]
          · rfl
        rw [hnil, List.append_nil]
        exact f6
      · intro hm
        rw [m3, f3]
        simp only [hm, if_true]

theorem SetTriggerControls_key_selects_configuration_witness :
    (multiFrameMenuWorld.caps.CanTriggerAcquisitionStart = true ∧
      multiFrameMenuWorld.caps.MultipleAcquisitionModeSupport ≠ 0) ∧
    ∃ (bad : List MIL_INT) (k : MIL_INT), (∀ b ∈ bad, b ∉ menuKeys) ∧ k ∈ menuKeys ∧
      keysRead (newEvents multiFrameMenuWorld
        (SetTriggerControls initialSetup multiFrameMenuWorld)) = bad ++ [k] ∧
      configWrites (newEvents multiFrameMenuWorld
        (SetTriggerControls initialSetup multiFrameMenuWorld)) =
        menuWrites k multiFrameMenuWorld.caps ++
          (if k = key 'm' ∨ k = key 'M' then
            [("AcquisitionFrameCount", FeatureValue.int 3)] else []) ∧
      ("TriggerMode", FeatureValue.str "On") ∈
        configWrites (newEvents multiFrameMenuWorld
          (SetTriggerControls initialSetup multiFrameMenuWorld)) ∧
      eTriggerType.eMultiFrame = menuType k ∧
      lastWritten "TriggerSelector" (newEvents multiFrameMenuWorld
        (SetTriggerControls initialSetup multiFrameMenuWorld)) =
        some (.str "AcquisitionStart") ∧
      (k = key 'm' ∨ k = key 'M' →
        numbersRead "%lld" (newEvents multiFrameMenuWorld
          (SetTriggerControls initialSetup multiFrameMenuWorld)) = [3]) ∧
      (¬ (k = key 'm' ∨ k = key 'M') → (3 : Int) = initialSetup.NbFrames) :=
  ⟨by decide,
    (SetTriggerControls_key_selects_configuration initialSetup multiFrameMenuWorld
      (by decide)).2
      { TriggerType := .eMultiFrame, NbFrames := 3, oTriggerSelector := "AcquisitionStart",
        SoftwareTriggerSelected := true } _
      (Outcome.eq_ret_of_value (by decide!))⟩

/-! ## Error printing while the features are enumerated -/

theorem andThen_assoc {α β γ : Type} (o : Outcome α) (f : α → World → Outcome β)
    (g : β → World → Outcome γ) :
    (o.andThen f).andThen g = o.andThen (fun a w => (f a w).andThen g) := by
  cases o <;> rfl

theorem emits_of_only {α : Type} {P : Event → Prop} {m : Prog α} (h : Only P m) :
    Emits allKinds m := by
  intro w
  obtain ⟨evs, h1, _⟩ := h w
  exact ⟨evs, h1, fun e _ => mem_allKinds _⟩

theorem forEach_emits {α : Type} {ks : List Kind} (body : α → Prog Unit)
    (hb : ∀ a, Emits ks (body a)) (l : List α) : Emits ks (forEach body l) := by
  induction l with
  | nil => exact Emits.pure _ _
  | cons a t ih =>
    unfold forEach
    exact Emits.bind (hb a) (fun _ => ih)

theorem inquireSelected_emits (selector : String) (queried : List String)
    (entries : List String) : Emits reportKinds (inquireSelected selector queried entries) := by
  have hi : Kind.inquireFeature ∈ reportKinds := by decide
  have hf : Kind.controlFeature ∈ reportKinds := by decide
  have hrow : Emits reportKinds (queried.foldr
      (fun name (acc : Prog (List String)) => do
        let v ← MilGige.MdigInquireFeatureString .value name ""
        let vs ← acc
        Prog.pure (v :: vs))
      (Prog.pure [])) := by
    induction queried with
    | nil => exact Emits.pure _ _
    | cons q t ih =>
      exact Emits.bind (MdigInquireFeatureString_emits _ _ _ hi) (fun _ =>
        Emits.bind ih (fun _ => Emits.pure _ _))
  induction entries with
  | nil => exact Emits.pure _ _
  | cons e t ih =>
    unfold inquireSelected
    exact Emits.bind (MdigControlFeature_emits _ _ hf) (fun _ =>
      Emits.bind hrow (fun _ => Emits.bind ih (fun _ => Emits.pure _ _)))

theorem inquireEnum_emits (feature : String) (afterAssign : MIL_INT → Prog Unit)
    (body : String → Prog Unit) (ha : ∀ c, Emits reportKinds (afterAssign c))
    (hb : ∀ s, Emits reportKinds (body s)) :
    Emits reportKinds (inquireEnum feature afterAssign body) := by
  have hi : Kind.inquireFeature ∈ reportKinds := by decide
  unfold inquireEnum
  refine Emits.bind (MdigInquireFeatureInt_emits _ _ _ hi)
    (fun c => Emits.ite ?_ (Emits.pure _ _))
  exact Emits.bind (vectorAssign_emits _ _) (fun size =>
    Emits.bind (ha c) (fun _ =>
      Emits.bind (inquireEntryNames_emits _ _ hi hb _ _) (fun _ => Emits.pure _ _)))

theorem noteAcquisitionMode_emits (name : String) :
    Emits reportKinds (noteAcquisitionMode name) := by
  unfold noteAcquisitionMode
  repeat' first
    | exact Emits.pure _ _
    | exact modifyCaps_emits _ _
    | apply Emits.ite

theorem noteTriggerSelector_emits (name : String) :
    Emits reportKinds (noteTriggerSelector name) := by
  unfold noteTriggerSelector
  repeat' first
    | exact Emits.pure _ _
    | exact modifyCaps_emits _ _
    | apply Emits.ite

theorem plainEnum_emits (feature : String) :
    Emits reportKinds (inquireEnum feature (fun _ => Prog.pure ()) (fun _ => Prog.pure ())) :=
  inquireEnum_emits _ _ _ (fun _ => Emits.pure _ _) (fun _ => Emits.pure _ _)

theorem triggerSelectorEnum_emits :
    Emits reportKinds (inquireEnum "TriggerSelector" (fun _ => Prog.pure ())
      noteTriggerSelector) :=
  inquireEnum_emits _ _ _ (fun _ => Emits.pure _ _) noteTriggerSelector_emits

theorem acquisitionModeEnum_emits :
    Emits reportKinds (inquireEnum "AcquisitionMode"
      (fun AcMdCount =>
        if AcMdCount > 1 then modifyCaps fun c => { c with MultipleAcquisitionModeSupport := 1 }
        else Prog.pure ())
      noteAcquisitionMode) :=
  inquireEnum_emits _ _ _ (fun _ => Emits.ite (modifyCaps_emits _ _) (Emits.pure _ _))
    noteAcquisitionMode_emits

theorem CameraPrintDeviceControls_emits : Emits reportKinds CameraPrintDeviceControls := by
  have hc : Kind.console ∈ reportKinds := by decide
  have hi : Kind.inquireFeature ∈ reportKinds := by decide
  have hq : Kind.inquire ∈ reportKinds := by decide
  unfold CameraPrintDeviceControls
  repeat' first
    | with_reducible exact Emits.pure _ _
    | with_reducible exact MosPrintf_emits _ _ hc
    | with_reducible exact MdigInquireFeatureString_emits _ _ _ hi
    | with_reducible exact MdigInquireString_emits _ _ hq
    | with_reducible apply Emits.bind
    | with_reducible apply Emits.ite
    | intro _

theorem CameraPrintTransportLayerControls_emits :
    Emits reportKinds CameraPrintTransportLayerControls := by
  have hc : Kind.console ∈ reportKinds := by decide
  have hi : Kind.inquireFeature ∈ reportKinds := by decide
  unfold CameraPrintTransportLayerControls
  repeat' first
    | with_reducible exact Emits.pure _ _
    | with_reducible exact MosPrintf_emits _ _ hc
    | with_reducible exact MdigInquireFeatureInt_emits _ _ _ hi
    | with_reducible apply Emits.bind
    | with_reducible apply Emits.ite
    | intro _

theorem CameraPrintImageFormatControls_emits :
    Emits reportKinds CameraPrintImageFormatControls := by
  have hc : Kind.console ∈ reportKinds := by decide
  have hi : Kind.inquireFeature ∈ reportKinds := by decide
  unfold CameraPrintImageFormatControls
  repeat' first
    | with_reducible exact Emits.pure _ _
    | with_reducible exact MosPrintf_emits _ _ hc
    | with_reducible exact MdigInquireFeatureInt_emits _ _ _ hi
    | with_reducible exact MdigInquireFeatureBool_emits _ _ _ hi
    | with_reducible exact plainEnum_emits _
    | with_reducible exact forEach_emits _ (fun _ => MosPrintf_emits _ _ hc) _
    | with_reducible apply Emits.bind
    | with_reducible apply Emits.ite
    | intro _

theorem CameraPrintAcquisitionControls_emits :
    Emits reportKinds CameraPrintAcquisitionControls := by
  have hc : Kind.console ∈ reportKinds := by decide
  have hi : Kind.inquireFeature ∈ reportKinds := by decide
  unfold CameraPrintAcquisitionControls
  repeat' first
    | with_reducible exact Emits.pure _ _
    | with_reducible exact MosPrintf_emits _ _ hc
    | with_reducible exact MdigInquireFeatureDouble_emits _ _ _ hi
    | with_reducible exact plainEnum_emits _
    | with_reducible exact triggerSelectorEnum_emits
    | with_reducible exact acquisitionModeEnum_emits
    | with_reducible exact forEach_emits _ (fun _ => MosPrintf_emits _ _ hc) _
    | with_reducible apply Emits.bind
    | with_reducible apply Emits.ite
    | intro _

theorem CameraPrintEventControls_emits : Emits reportKinds CameraPrintEventControls := by
  have hc : Kind.console ∈ reportKinds := by decide
  unfold CameraPrintEventControls
  repeat' first
    | with_reducible exact Emits.pure _ _
    | with_reducible exact MosPrintf_emits _ _ hc
    | with_reducible exact plainEnum_emits _
    | with_reducible exact forEach_emits _ (fun _ => MosPrintf_emits _ _ hc) _
    | with_reducible apply Emits.bind
    | with_reducible apply Emits.ite
    | intro _

theorem CameraPrintIOControls_emits : Emits reportKinds CameraPrintIOControls := by
  have hc : Kind.console ∈ reportKinds := by decide
  unfold CameraPrintIOControls
  repeat' first
    | with_reducible exact Emits.pure _ _
    | with_reducible exact MosPrintf_emits _ _ hc
    | with_reducible exact plainEnum_emits _
    | with_reducible exact inquireSelected_emits _ _ _
    | with_reducible exact forEach_emits _ (fun _ => MosPrintf_emits _ _ hc) _
    | with_reducible apply Emits.bind
    | with_reducible apply Emits.ite
    | intro _

theorem CameraPrintCounterAndTimerControls_emits :
    Emits reportKinds CameraPrintCounterAndTimerControls := by
  have hc : Kind.console ∈ reportKinds := by decide
  unfold CameraPrintCounterAndTimerControls
  repeat' first
    | with_reducible exact Emits.pure _ _
    | with_reducible exact MosPrintf_emits _ _ hc
    | with_reducible exact plainEnum_emits _
    | with_reducible exact inquireSelected_emits _ _ _
    | with_reducible exact forEach_emits _ (fun _ => MosPrintf_emits _ _ hc) _
    | with_reducible apply Emits.bind
    | with_reducible apply Emits.ite
    | intro _

theorem reportFeatures_emits : Emits reportKinds reportFeatures := by
  unfold reportFeatures
  exact Emits.bind CameraPrintDeviceControls_emits (fun _ =>
    Emits.bind CameraPrintTransportLayerControls_emits (fun _ =>
    Emits.bind CameraPrintImageFormatControls_emits (fun _ =>
    Emits.bind CameraPrintAcquisitionControls_emits (fun _ =>
    Emits.bind CameraPrintEventControls_emits (fun _ =>
    Emits.bind CameraPrintIOControls_emits (fun _ =>
      CameraPrintCounterAndTimerControls_emits))))))

theorem printFlags_emits (mask : String → Int) (Capability : MIL_INT)
    (flags : List (String × String)) : Emits allKinds (printFlags mask Capability flags) := by
  induction flags with
  | nil => exact Emits.pure _ _
  | cons x t ih =>
    obtain ⟨name, text⟩ := x
    unfold printFlags
    exact Emits.bind (Emits.ite (MosPrintf_emits _ _ (mem_allKinds _)) (Emits.pure _ _))
      (fun _ => ih)

theorem printCapabilities_emits (mask : String → Int) (what title : String)
    (flags : List (String × String)) :
    Emits allKinds (printCapabilities mask what title flags) := by
  unfold printCapabilities
  exact Emits.bind (MdigInquireInt_emits _ _ (mem_allKinds _)) (fun _ =>
    Emits.bind (MosPrintf_emits _ _ (mem_allKinds _)) (fun _ =>
      Emits.ite (MosPrintf_emits _ _ (mem_allKinds _)) (printFlags_emits _ _ _)))

theorem CameraPrintDeviceCapabilities_emits (mask : String → Int) :
    Emits allKinds (CameraPrintDeviceCapabilities mask) := by
  unfold CameraPrintDeviceCapabilities capabilitiesHeading pressEnterToContinue
  repeat' first
    | exact Emits.pure _ _
    | exact MosPrintf_emits _ _ (mem_allKinds _)
    | exact MosGetch_emits (mem_allKinds _)
    | exact printCapabilities_emits _ _ _ _
    | apply Emits.bind
    | intro _

theorem DoTriggeredAcquisition_emits (inf : Int) :
    Emits allKinds (DoTriggeredAcquisition inf) := by
  unfold DoTriggeredAcquisition
  exact Emits.bind (SetTriggerControls_emits _).any (fun s => emits_of_only (acquire_only inf s))

theorem offerTriggeredAcquisition_emits (inf : Int) :
    Emits allKinds (offerTriggeredAcquisition inf) := by
  unfold offerTriggeredAcquisition
  repeat' first
    | exact Emits.pure _ _
    | exact getCaps_emits _
    | exact MosPrintf_emits _ _ (mem_allKinds _)
    | exact MosGetch_emits (mem_allKinds _)
    | exact DoTriggeredAcquisition_emits _
    | apply Emits.bind
    | apply Emits.ite
    | intro _

theorem bind_assoc_prog {α β γ : Type} (m : Prog α) (f : α → Prog β) (g : β → Prog γ) :
    (m >>= f) >>= g = m >>= fun a => f a >>= g := by
  funext w
  simp only [bind_apply]
  cases m w <;> rfl

theorem showFeatures_split (mask : String → Int) (inf : Int) :
    ∃ K : Prog Int, Emits allKinds K ∧
      (showFeatures mask >>= fun _ => offerTriggeredAcquisition inf >>= fun _ =>
        emit (.call "MappFreeDefault") >>= fun _ => (Prog.pure 0 : Prog Int)) =
      ((do
          emit (.call "MdigAlloc")
          emit (.call "MbufAllocColor")
          emit (.call "MbufClear")
          MosPrintf "This example showcases GigE Vision specific features.\n" []
          MosPrintf "Press <Enter> to start.\n\n" []
          let _ ← MosGetch
          MosPrintf "------------------------------------------------------------\n\n" []
          MosPrintf "                  Camera features summary.                  \n" []
          MappControlError false : Prog Unit) >>= fun _ =>
        reportFeatures >>= fun _ => MappControlError true >>= fun _ => K) := by
  refine ⟨(do
    MosPrintf "\nPress <Enter> to continue.\n" []
    let _ ← MosGetch
    CameraPrintDeviceCapabilities mask
    MosPrintf "\nPress <Enter> to continue.\n" []
    let _ ← MosGetch
    emit (.MdigControl "M_GC_FEATURE_BROWSER" "M_OPEN+M_ASYNCHRONOUS")
    MosPrintf "\nDisplaying the camera's feature browser.\n" []
    MosPrintf "Press <Enter> to continue.\n" []
    let _ ← MosGetch
    emit (.call "MdispSelect")
    emit (.call "MdigGrabContinuous")
    MosPrintf "\nContinuous image grab in progress.\n" []
    MosPrintf "Press <Enter> to stop.\n" []
    let _ ← MosGetch
    emit (.call "MdigHalt")
    offerTriggeredAcquisition inf
    emit (.call "MappFreeDefault")
    Prog.pure 0), ?_, ?_⟩
  · repeat' first
      | with_reducible exact Emits.emit (mem_allKinds _)
      | with_reducible exact MosPrintf_emits _ _ (mem_allKinds _)
      | with_reducible exact MosGetch_emits (mem_allKinds _)
      | with_reducible exact CameraPrintDeviceCapabilities_emits _
      | with_reducible exact offerTriggeredAcquisition_emits _
      | with_reducible apply Emits.bind
      | exact Emits.pure _ _
      | intro _
  · unfold showFeatures reportFeatures
    simp only [bind_assoc_prog]

theorem MosMain_window (G Q inf : Int) (mask : String → Int) :
    ∃ K : Prog Int, Emits allKinds K ∧
      ∀ (w : World) (k : MIL_INT) (ks : List MIL_INT),
        ¬ (w.dev.systemType ≠ G ∧ w.dev.systemType ≠ Q) → w.keys = k :: ks →
        MosMain G Q inf mask w =
          (reportFeatures >>= fun _ => MappControlError true >>= fun _ => K)
            { w with keys := ks, trace := w.trace ++ mainStart k ++ [.MappControlError false] } := by
  obtain ⟨K, hK, hsplit⟩ := showFeatures_split mask inf
  refine ⟨K, hK, ?_⟩
  intro w k ks hpass hk
  rw [MosMain_apply]
  simp only [hpass, if_false]
  rw [hsplit, bind_apply]
  simp [bind_apply, MosGetch, hk, MosPrintf, MappControlError, mainStart]

theorem errorPrinting_of_reportKinds (st : Bool) (l : List Event)
    (h : ∀ e ∈ l, e.kind ∈ reportKinds) : errorPrinting st l = st := by
  induction l with
  | nil => rfl
  | cons e t ih =>
    have he := h e (List.mem_cons_self _ _)
    have ht := ih (fun x hx => h x (List.mem_cons_of_mem _ hx))
    cases e <;> simp_all [errorPrinting, Event.kind, reportKinds]

theorem guarded_of_reportKinds (l : List Event)
    (h : ∀ e ∈ l, e.kind ∈ reportKinds) : guarded false l = true := by
  induction l with
  | nil => rfl
  | cons e t ih =>
    have he := h e (List.mem_cons_self _ _)
    have ht := ih (fun x hx => h x (List.mem_cons_of_mem _ hx))
    cases e <;> simp_all [guarded, Event.kind, reportKinds]

theorem MosMain_no_key (G Q inf : Int) (mask : String → Int) (w : World)
    (hpass : ¬ (w.dev.systemType ≠ G ∧ w.dev.systemType ≠ Q)) (hk : w.keys = []) :
    newEvents w (MosMain G Q inf mask w) =
      [.call "MappAllocDefault", .call "MsysInquire", .call "MdigAlloc",
       .call "MbufAllocColor", .call "MbufClear",
       .MosPrintf "This example showcases GigE Vision specific features.\n" [],
       .MosPrintf "Press <Enter> to start.\n\n" []] := by
  apply newEvents_eq
  rw [MosMain_apply]
  simp only [hpass, if_false]
  simp [showFeatures, bind_apply, MosGetch, hk, MosPrintf, Outcome.world]

/-- C15. In a run of `MosMain` on a supported system whose first prompt is answered, the
calls are: the start-up calls, the call that sets error printing to `M_PRINT_DISABLE`,
the calls of the seven feature reporters, and a rest.  No call of the reporters touches
error printing, so before every one of them, and in particular before every feature
query and feature write they issue, error printing is disabled.  If the last reporter
returns, the next call sets error printing to `M_PRINT_ENABLE`; if the reporters do not
return, nothing follows.  A run whose first prompt is never answered stops before the
reporters and makes no feature access. -/
theorem MosMain_reporters_run_with_errors_silenced (G Q inf : Int) (mask : String → Int)
    (w : World) (hpass : ¬ (w.dev.systemType ≠ G ∧ w.dev.systemType ≠ Q)) :
    (w.keys = [] →
      ∀ e ∈ newEvents w (MosMain G Q inf mask w), e.isFeatureAccess = false) ∧
    (∀ (k : MIL_INT) (ks : List MIL_INT), w.keys = k :: ks →
      ∃ tail : List Event,
        newEvents w (MosMain G Q inf mask w) =
          mainStart k ++ [.MappControlError false] ++
            newEvents (reportWorld w k ks) (reportFeatures (reportWorld w k ks)) ++ tail ∧
        (∀ e ∈ newEvents (reportWorld w k ks) (reportFeatures (reportWorld w k ks)),
          ∀ b, e ≠ .MappControlError b) ∧
        (∀ before e after,
          newEvents (reportWorld w k ks) (reportFeatures (reportWorld w k ks)) =
            before ++ e :: after →
          errorPrinting true (mainStart k ++ [.MappControlError false] ++ before) = false) ∧
        guarded true (mainStart k ++ [.MappControlError false] ++
          newEvents (reportWorld w k ks) (reportFeatures (reportWorld w k ks))) = true ∧
        ((reportFeatures (reportWorld w k ks)).returns = true →
          tail.head? = some (.MappControlError true)) ∧
        ((reportFeatures (reportWorld w k ks)).returns = false → tail = [])) := by
  constructor
  · intro hk e he
    rw [MosMain_no_key G Q inf mask w hpass hk] at he
    simp only [List.mem_cons, List.mem_singleton, List.not_mem_nil, or_false] at he
    rcases he with rfl | rfl | rfl | rfl | rfl | rfl | rfl <;> rfl
  · intro k ks hk
    obtain ⟨K, hK, hwin⟩ := MosMain_window G Q inf mask
    obtain ⟨R, hR, hkinds⟩ := reportFeatures_emits (reportWorld w k ks)
    have hnew : newEvents (reportWorld w k ks) (reportFeatures (reportWorld w k ks)) = R :=
      newEvents_eq hR
    have hstart : errorPrinting true (mainStart k ++ [.MappControlError false]) = false := rfl
    have hgs : guarded true (mainStart k ++ [.MappControlError false]) = true := rfl
    have hrun : MosMain G Q inf mask w =
        (reportFeatures >>= fun _ => MappControlError true >>= fun _ => K)
          (reportWorld w k ks) := hwin w k ks hpass hk
    rw [hnew]
    have hkey : ∃ tail : List Event,
        newEvents w (MosMain G Q inf mask w) =
          mainStart k ++ [.MappControlError false] ++ R ++ tail ∧
        ((reportFeatures (reportWorld w k ks)).returns = true →
          tail.head? = some (.MappControlError true)) ∧
        ((reportFeatures (reportWorld w k ks)).returns = false → tail = []) := by
      rw [hrun, bind_apply]
      cases hrep : reportFeatures (reportWorld w k ks) with
      | ret u w2 =>
        rw [hrep] at hR
        simp only [world_ret] at hR
        obtain ⟨evsK, hKt, _⟩ := hK { w2 with trace := w2.trace ++ [.MappControlError true] }
        refine ⟨.MappControlError true :: evsK, ?_, fun _ => rfl, fun h => by cases h⟩
        apply newEvents_eq
        simp only [andThen_ret, bind_apply, MappControlError, emit_apply]
        rw [hKt, hR]
        simp [reportWorld, List.append_assoc]
      | halt r w2 =>
        rw [hrep] at hR
        refine ⟨[], ?_, (fun h => by cases h), fun _ => rfl⟩
        apply newEvents_eq
        simp only [andThen_halt, List.append_nil]
        simpa [reportWorld, List.append_assoc, Outcome.world] using hR
    obtain ⟨tail, h1, h2, h3⟩ := hkey
    refine ⟨tail, h1, ?_, ?_, ?_, h2, h3⟩
    · intro e he b hb
      have := hkinds e he
      rw [hb] at this
      simp [Event.kind, reportKinds] at this
    · intro before e after hsplit
      rw [errorPrinting_append, hstart]
      apply errorPrinting_of_reportKinds
      intro x hx
      apply hkinds
      rw [hsplit]
      exact List.mem_append_left _ hx
    · rw [guarded_append, hgs, hstart, guarded_of_reportKinds R hkinds]
      rfl

theorem MosMain_reporters_run_with_errors_silenced_witness :
    ¬ (twelveEnters.dev.systemType ≠ 1 ∧ twelveEnters.dev.systemType ≠ 2) ∧
    ∃ tail : List Event,
      newEvents twelveEnters (MosMain 1 2 (-1) (fun _ => 0) twelveEnters) =
        mainStart 13 ++ [.MappControlError false] ++
          newEvents (reportWorld twelveEnters 13 [13, 13, 13, 13, 13, 13, 13, 13, 13, 13, 13])
            (reportFeatures
              (reportWorld twelveEnters 13 [13, 13, 13, 13, 13, 13, 13, 13, 13, 13, 13])) ++
          tail ∧
      tail.head? = some (.MappControlError true) := by
  refine ⟨by decide, ?_⟩
  obtain ⟨tail, h1, _, _, _, h5, _⟩ :=
    (MosMain_reporters_run_with_errors_silenced 1 2 (-1) (fun _ => 0) twelveEnters
      (by decide)).2 13 [13, 13, 13, 13, 13, 13, 13, 13, 13, 13, 13] rfl
  exact ⟨tail, h1, h5 (by decide!)⟩

/-! ## The menu does not depend on the support flags -/

theorem silent_append (a b : List Event) : silent (a ++ b) = silent a ++ silent b := by
  simp [silent, List.filter_append]

theorem sim_pure {α : Type} (a : α) : Sim (Prog.pure a : Prog α) (Prog.pure a) := by
  intro w w2 h
  exact ⟨rfl, h⟩

theorem sim_halt {α : Type} (r : Halt) :
    Sim (fun w => (Outcome.halt r w : Outcome α)) (fun w => Outcome.halt r w) := by
  intro w w2 h
  exact ⟨rfl, h⟩

theorem sim_bind {α β : Type} {m m2 : Prog α} {f f2 : α → Prog β} (hm : Sim m m2)
    (hf : ∀ a, Sim (f a) (f2 a)) : Sim (m >>= f) (m2 >>= f2) := by
  intro w w2 h
  have h1 := hm w w2 h
  rw [bind_apply, bind_apply]
  cases ho : m w with
  | ret a w1 =>
    cases ho2 : m2 w2 with
    | ret a2 w3 =>
      rw [ho, ho2] at h1
      obtain ⟨rfl, hw⟩ := h1
      exact hf _ w1 w3 hw
    | halt r w3 => rw [ho, ho2] at h1; exact h1.elim
  | halt r w1 =>
    cases ho2 : m2 w2 with
    | ret a2 w3 => rw [ho, ho2] at h1; exact h1.elim
    | halt r2 w3 => rw [ho, ho2] at h1; exact h1

theorem sim_ite {α : Type} {c : Prop} [Decidable c] {m m2 n n2 : Prog α}
    (hm : Sim m m2) (hn : Sim n n2) : Sim (if c then m else n) (if c then m2 else n2) := by
  split
  · exact hm
  · exact hn

theorem sim_fueled {α : Type} {g g2 : Nat → Prog α} (n : World → Nat)
    (hn : ∀ w w2, Agree w w2 → n w2 = n w) (h : ∀ k, Sim (g k) (g2 k)) :
    Sim (fun w => g (n w) w) (fun w => g2 (n w) w) := by
  intro w w2 hw
  show (g (n w) w).agree (g2 (n w2) w2)
  rw [hn w w2 hw]
  exact h (n w) w w2 hw

theorem agree_emit {w w2 : World} (h : Agree w w2) (e : Event) :
    Agree { w with trace := w.trace ++ [e] } { w2 with trace := w2.trace ++ [e] } := by
  obtain ⟨hb, hd, hk, hn, hkb, ha, hc, ht⟩ := h
  refine ⟨hb, hd, hk, hn, hkb, ha, hc, ?_⟩
  show silent (w2.trace ++ [e]) = silent (w.trace ++ [e])
  rw [silent_append, silent_append, ht]

theorem agree_prints {w w2 : World} (h : Agree w w2) (p p2 : List Event)
    (hp : silent p = []) (hp2 : silent p2 = []) :
    Agree { w with trace := w.trace ++ p } { w2 with trace := w2.trace ++ p2 } := by
  obtain ⟨hb, hd, hk, hn, hkb, ha, hc, ht⟩ := h
  refine ⟨hb, hd, hk, hn, hkb, ha, hc, ?_⟩
  show silent (w2.trace ++ p2) = silent (w.trace ++ p)
  rw [silent_append, silent_append, ht, hp, hp2]

theorem sim_emit (e : Event) : Sim (emit e) (emit e) := by
  intro w w2 h
  exact ⟨rfl, agree_emit h e⟩

theorem sim_MosGetch : Sim MosGetch MosGetch := by
  intro w w2 h
  have hk := h.2.2.1
  unfold MosGetch
  rw [hk]
  cases hkeys : w.keys with
  | nil => exact ⟨rfl, h⟩
  | cons k ks =>
    refine ⟨rfl, ?_⟩
    obtain ⟨hb, hd, _, hn, hkb, ha, hc, ht⟩ := h
    refine ⟨hb, hd, rfl, hn, hkb, ha, hc, ?_⟩
    show silent (w2.trace ++ [.MosGetch k]) = silent (w.trace ++ [.MosGetch k])
    rw [silent_append, silent_append, ht]

theorem sim_scanf (fmt : String) : Sim (scanf fmt) (scanf fmt) := by
  intro w w2 h
  have hn := h.2.2.2.1
  unfold scanf
  rw [hn]
  cases hnums : w.nums with
  | nil => exact ⟨rfl, h⟩
  | cons k ks =>
    refine ⟨rfl, ?_⟩
    obtain ⟨hb, hd, hk, _, hkb, ha, hc, ht⟩ := h
    refine ⟨hb, hd, hk, rfl, hkb, ha, hc, ?_⟩
    show silent (w2.trace ++ [.scanf fmt k]) = silent (w.trace ++ [.scanf fmt k])
    rw [silent_append, silent_append, ht]

theorem sim_MdigInquireFeatureInt (kind : FeatureKind) (name : String) (cur : Int) :
    Sim (MdigInquireFeatureInt kind name cur) (MdigInquireFeatureInt kind name cur) := by
  intro w w2 h
  have hans := (h.1 w2.trace w.trace h.2.2.2.2.2.2.2).2.1
  refine ⟨?_, agree_emit h _⟩
  show (w2.dev.featureInt w2.trace kind name).getD cur =
    (w.dev.featureInt w.trace kind name).getD cur
  rw [h.2.1, hans]

theorem sim_MdigInquireFeatureString (kind : FeatureKind) (name : String) (cur : String) :
    Sim (MdigInquireFeatureString kind name cur) (MdigInquireFeatureString kind name cur) := by
  intro w w2 h
  have hans := (h.1 w2.trace w.trace h.2.2.2.2.2.2.2).1
  refine ⟨?_, agree_emit h _⟩
  show (w2.dev.featureString w2.trace kind name).getD cur =
    (w.dev.featureString w.trace kind name).getD cur
  rw [h.2.1, hans]

theorem sim_index (v : List String) (i : Int) : Sim (index v i) (index v i) := by
  intro w w2 h
  unfold index
  split
  · exact ⟨rfl, h⟩
  · split
    · exact ⟨rfl, h⟩
    · exact ⟨rfl, h⟩

theorem sim_vectorAssign (c : Int) : Sim (vectorAssign c) (vectorAssign c) := by
  intro w w2 h
  have hd : w2.dev = w.dev := h.2.1
  by_cases hc : c < 0 ∨ (w.dev.limit : Int) < c
  · rw [vectorAssign_throws hc, vectorAssign_throws (by rw [hd]; exact hc)]
    exact ⟨rfl, h⟩
  · rw [vectorAssign_fits (by omega) (by omega),
      vectorAssign_fits (by omega) (by rw [hd]; omega)]
    exact ⟨rfl, h⟩

theorem sim_getCaps_bind {α : Type} (f f2 : Capabilities → Prog α)
    (hf : ∀ c c2, c.sameTriggers c2 → Sim (f c) (f2 c2)) :
    Sim (getCaps >>= f) (getCaps >>= f2) := by
  intro w w2 h
  exact hf w.caps w2.caps h.2.2.2.2.2.2.1 w w2 h

theorem sim_inquireEntryNames (feature : String) (todo : Nat) :
    ∀ i, Sim (inquireEntryNames feature (fun _ => Prog.pure ()) todo i)
      (inquireEntryNames feature (fun _ => Prog.pure ()) todo i) := by
  induction todo with
  | zero => intro i; exact sim_pure _
  | succ n ih =>
    intro i
    unfold inquireEntryNames
    exact sim_bind (sim_MdigInquireFeatureString _ _ _) (fun name =>
      sim_bind (sim_pure _) (fun _ => sim_bind (ih (i + 1)) (fun _ => sim_pure _)))

theorem sim_printTriggerSources (names : List String) :
    ∀ i, Sim (printTriggerSources names i) (printTriggerSources names i) := by
  induction names with
  | nil => intro i; exact sim_pure _
  | cons n rest ih =>
    intro i
    unfold printTriggerSources
    exact sim_bind (sim_emit _) (fun _ => ih (i + 1))

theorem sim_selectionLoop (Cnt : MIL_INT) (names : List String) (fuel : Nat) :
    Sim (selectionLoop Cnt names fuel) (selectionLoop Cnt names fuel) := by
  induction fuel with
  | zero => exact sim_halt _
  | succ n ih =>
    unfold selectionLoop
    refine sim_bind (sim_scanf _) (fun sel => sim_ite ?_ ?_)
    · exact sim_bind (sim_index _ _) (fun _ => sim_bind (sim_emit _) (fun _ => sim_pure _))
    · exact sim_bind (sim_emit _) (fun _ => ih)

theorem sim_SelectTriggerSource : Sim SelectTriggerSource SelectTriggerSource := by
  unfold SelectTriggerSource
  repeat' first
    | exact sim_pure _
    | exact sim_emit _
    | exact sim_MdigInquireFeatureInt _ _ _
    | exact sim_vectorAssign _
    | exact sim_index _ _
    | exact sim_inquireEntryNames _ _ _
    | exact sim_printTriggerSources _ _
    | exact sim_fueled _ (fun w w2 h => by rw [h.2.2.2.1]) (sim_selectionLoop _ _)
    | apply sim_bind
    | apply sim_ite
    | intro _

theorem silent_menuPrints (caps : Capabilities) : silent (menuPrints caps) = [] := by
  unfold menuPrints menuOptions
  cases caps.ContinuousAMSupport <;> cases caps.MultiFrameAMSupport <;>
    cases caps.SingleFrameAMSupport <;> rfl

theorem sim_printMenu : Sim printMenu printMenu := by
  intro w w2 h
  rw [printMenu_apply, printMenu_apply]
  exact ⟨rfl, agree_prints h _ _ (silent_menuPrints _) (silent_menuPrints _)⟩

theorem sim_menuSwitch (s : TriggerSetup) (again : Prog TriggerSetup) (ha : Sim again again) :
    Sim (menuSwitch s again) (menuSwitch s again) := by
  unfold menuSwitch
  refine sim_bind sim_MosGetch (fun sel => sim_ite ?_ (sim_ite ?_ (sim_ite ?_ ?_)))
  · repeat' first
      | exact sim_pure _
      | exact sim_emit _
      | exact sim_SelectTriggerSource
      | apply sim_bind
      | intro _
  · repeat' first
      | exact sim_pure _
      | exact sim_emit _
      | exact sim_scanf _
      | exact sim_SelectTriggerSource
      | apply sim_bind
      | intro _
  · refine sim_getCaps_bind _ _ (fun c c2 hc => ?_)
    simp only [hc.2.2]
    repeat' first
      | exact sim_pure _
      | exact sim_emit _
      | exact sim_SelectTriggerSource
      | apply sim_bind
      | apply sim_ite
      | intro _
  · exact sim_bind (sim_emit _) (fun _ => ha)

theorem sim_menuLoop (s : TriggerSetup) (fuel : Nat) :
    Sim (menuLoop s fuel) (menuLoop s fuel) := by
  induction fuel with
  | zero => exact sim_halt _
  | succ n ih =>
    unfold menuLoop
    exact sim_bind sim_printMenu (fun _ => sim_menuSwitch s _ ih)

theorem sim_SetTriggerControls (s : TriggerSetup) :
    Sim (SetTriggerControls s) (SetTriggerControls s) := by
  unfold SetTriggerControls
  refine sim_getCaps_bind _ _ (fun c c2 hc => ?_)
  simp only [hc.1, hc.2.1, hc.2.2]
  refine sim_ite ?_ (sim_ite ?_ (sim_pure _))
  · exact sim_fueled _ (fun w w2 h => by rw [h.2.2.1]) (sim_menuLoop s)
  · repeat' first
      | exact sim_pure _
      | exact sim_emit _
      | exact sim_SelectTriggerSource
      | apply sim_bind
      | intro _

theorem agree_facts {α : Type} {o o2 : Outcome α} (h : o.agree o2) :
    o2.value? = o.value? ∧ o2.stopped = o.stopped ∧ Agree o.world o2.world := by
  cases o with
  | ret a w =>
    cases o2 with
    | ret a2 w2 => obtain ⟨rfl, hw⟩ := h; exact ⟨rfl, rfl, hw⟩
    | halt r2 w2 => exact h.elim
  | halt r w =>
    cases o2 with
    | ret a2 w2 => exact h.elim
    | halt r2 w2 => obtain ⟨rfl, hw⟩ := h; exact ⟨rfl, rfl, hw⟩

theorem featureWrites_silent (evs : List Event) :
    featureWrites (silent evs) = featureWrites evs := by
  induction evs with
  | nil => rfl
  | cons e t ih =>
    cases e <;>
      simp_all [featureWrites, silent, List.filter_cons, Event.isPrint, List.filterMap_cons]

theorem keysRead_silent (evs : List Event) : keysRead (silent evs) = keysRead evs := by
  induction evs with
  | nil => rfl
  | cons e t ih =>
    cases e <;>
      simp_all [keysRead, silent, List.filter_cons, Event.isPrint, List.filterMap_cons]

theorem twoSourceCamera_printBlind : twoSourceCamera.printBlind := by
  intro h1 h2 _
  exact ⟨rfl, rfl, rfl, rfl, rfl, rfl⟩

/-- C20. `SetTriggerControls` does not depend on `ContinuousAMSupport`,
`MultiFrameAMSupport` or `SingleFrameAMSupport`.  Take a device whose answers do not
depend on what the program has printed, and two runs from worlds that differ only in
these three flags, so with the same pending keys and numbers.  Then both return or both
stop for the same reason, with the same `Type`, `NbFrames`, `oTriggerSelector` and
`SoftwareTriggerSelected`; they make the same calls apart from console output, in the
same order, so they read the same keys, accepting and rejecting the same ones, and make
the same feature writes. -/
theorem SetTriggerControls_ignores_support_flags (s : TriggerSetup) (w : World)
    (a b c : Bool) (hdev : w.dev.printBlind) :
    (SetTriggerControls s (withSupportFlags w a b c)).value? =
      (SetTriggerControls s w).value? ∧
    (SetTriggerControls s (withSupportFlags w a b c)).stopped =
      (SetTriggerControls s w).stopped ∧
    silent (newEvents (withSupportFlags w a b c)
        (SetTriggerControls s (withSupportFlags w a b c))) =
      silent (newEvents w (SetTriggerControls s w)) ∧
    featureWrites (newEvents (withSupportFlags w a b c)
        (SetTriggerControls s (withSupportFlags w a b c))) =
      featureWrites (newEvents w (SetTriggerControls s w)) ∧
    keysRead (newEvents (withSupportFlags w a b c)
        (SetTriggerControls s (withSupportFlags w a b c))) =
      keysRead (newEvents w (SetTriggerControls s w)) := by
  have hA : Agree w (withSupportFlags w a b c) :=
    ⟨hdev, rfl, rfl, rfl, rfl, rfl, ⟨rfl, rfl, rfl⟩, rfl⟩
  obtain ⟨hv, hs, hw⟩ := agree_facts (sim_SetTriggerControls s w _ hA)
  obtain ⟨evs, he, _⟩ := SetTriggerControls_emits s w
  obtain ⟨evs2, he2, _⟩ := SetTriggerControls_emits s (withSupportFlags w a b c)
  have ht := hw.2.2.2.2.2.2.2
  rw [he, he2] at ht
  have ht2 : silent (w.trace ++ evs2) = silent (w.trace ++ evs) := ht
  rw [silent_append, silent_append] at ht2
  have hsil : silent evs2 = silent evs := List.append_cancel_left ht2
  rw [newEvents_eq he, newEvents_eq he2]
  refine ⟨hv, hs, hsil, ?_, ?_⟩
  · rw [← featureWrites_silent evs2, ← featureWrites_silent evs, hsil]
  · rw [← keysRead_silent evs2, ← keysRead_silent evs, hsil]

theorem SetTriggerControls_ignores_support_flags_witness :
    multiFrameMenuWorld.dev.printBlind ∧
    multiFrameMenuWorld.caps.MultiFrameAMSupport = false ∧
    optionM ∉ newEvents multiFrameMenuWorld
      (SetTriggerControls initialSetup multiFrameMenuWorld) ∧
    (SetTriggerControls initialSetup multiFrameMenuWorld).value? =
      some { TriggerType := .eMultiFrame, NbFrames := 3, oTriggerSelector := "AcquisitionStart",
             SoftwareTriggerSelected := true } ∧
    (SetTriggerControls initialSetup (withSupportFlags multiFrameMenuWorld true true true)).value? =
      (SetTriggerControls initialSetup multiFrameMenuWorld).value? :=
  ⟨twoSourceCamera_printBlind, by decide, by decide!, by decide!,
    (SetTriggerControls_ignores_support_flags initialSetup multiFrameMenuWorld true true true
      twoSourceCamera_printBlind).1⟩

/-! ## The text of the frame counter -/

/-- C24. The decimal text `ProcessingFunction` formats for the frame counter fits its
buffer: when the counter after the increment is between 1 and 2^63 - 1, the hook formats
it with `%lld` into the buffer of `STRING_LENGTH_MAX = 20` characters, the text it draws
is the decimal text of the counter, and that text has at most 19 characters, so it fits
with its terminator. -/
theorem ProcessingFunction_text_fits (ModifiedBufferId : MIL_ID) (d : HookDataStruct)
    (h1 : 1 ≤ d.ProcessedImageCount + 1) (h2 : d.ProcessedImageCount + 1 ≤ 2 ^ 63 - 1) :
    STRING_LENGTH_MAX = 20 ∧
    HookCall.MosSprintf STRING_LENGTH_MAX "%lld" [.d (d.ProcessedImageCount + 1)] ∈
      (ProcessingFunction ModifiedBufferId d).2.2 ∧
    ∀ buffer x y text,
      HookCall.MgraText buffer x y text ∈ (ProcessingFunction ModifiedBufferId d).2.2 →
      text = toString (d.ProcessedImageCount + 1) ∧ text.length ≤ 19 ∧
        text.length + 1 ≤ STRING_LENGTH_MAX := by
  refine ⟨rfl, by simp [ProcessingFunction], ?_⟩
  intro buffer x y text hmem
  have ht : text = toString (d.ProcessedImageCount + 1) := by
    simp [ProcessingFunction] at hmem
    exact hmem.2.2.2
  have hlen : ∀ c : Int, 1 ≤ c → c ≤ 2 ^ 63 - 1 → (toString c).length ≤ 19 := by
    intro c c1 c2
    obtain ⟨n, hn⟩ := Int.eq_ofNat_of_zero_le (by omega : 0 ≤ c)
    subst hn
    have hlt : n < 10 ^ 19 := by
      norm_num at c2 ⊢
      omega
    exact Nat.repr_length n 19 (by decide) hlt
  rw [ht]
  have hl := hlen _ h1 h2
  exact ⟨rfl, hl, by unfold STRING_LENGTH_MAX; omega⟩

theorem ProcessingFunction_text_fits_witness :
    (1 : Int) ≤ (2 ^ 63 - 2) + 1 ∧ ((2 ^ 63 - 2) + 1 : Int) ≤ 2 ^ 63 - 1 ∧
    ∀ buffer x y text,
      HookCall.MgraText buffer x y text ∈
        (ProcessingFunction 7
          { MilDigitizer := 1, MilImageDisp := 2, ProcessedImageCount := 2 ^ 63 - 2 }).2.2 →
      text = toString ((2 ^ 63 - 2 : Int) + 1) ∧ text.length ≤ 19 ∧
        text.length + 1 ≤ STRING_LENGTH_MAX :=
  ⟨by decide, by decide,
    (ProcessingFunction_text_fits 7
      { MilDigitizer := 1, MilImageDisp := 2, ProcessedImageCount := 2 ^ 63 - 2 }
      (by decide) (by decide)).2.2⟩

/-! ## Addresses in the transport layer report -/

theorem ldiff_255 (m : Nat) : Nat.ldiff 255 m = 255 - m % 256 := by
  have hlt : m % 256 < 2 ^ 8 := Nat.mod_lt _ (by decide)
  have hsub : 255 - m % 256 = 2 ^ 8 - (m % 256 + 1) := by omega
  rw [hsub]
  apply Nat.eq_of_testBit_eq
  intro i
  have h255 : Nat.testBit 255 i = decide (i < 8) := Nat.testBit_two_pow_sub_one 8 i
  have hmod : Nat.testBit (m % 256) i = (decide (i < 8) && Nat.testBit m i) :=
    Nat.testBit_mod_two_pow m 8 i
  rw [Nat.testBit_ldiff, Nat.testBit_two_pow_sub_succ hlt, h255, hmod]
  cases decide (i < 8) <;> simp

theorem land_255 (x : Int) : Int.land x 255 = x % 256 := by
  cases x with
  | ofNat m =>
    show ((Nat.land m 255 : Nat) : Int) = (m : Int) % 256
    have h2 : Nat.land m 255 = m % 256 := Nat.and_pow_two_sub_one_eq_mod m 8
    rw [h2]
    norm_cast
  | negSucc m =>
    show ((Nat.ldiff 255 m : Nat) : Int) = Int.negSucc m % 256
    rw [ldiff_255, Int.negSucc_eq]
    have := Nat.mod_lt m (by decide : 0 < 256)
    omega

theorem byteAt_eq_shiftedByte (v : Int) (k : Nat) (hk : k ≤ 7) :
    byteAt v k = shiftedByte v k := by
  unfold byteAt shiftedByte
  rw [land_255, Int.shiftRight_eq_div_pow]
  interval_cases k <;> norm_num <;> omega

theorem byteAt_range (v : Int) (k : Nat) : 0 ≤ byteAt v k ∧ byteAt v k ≤ 255 := by
  unfold byteAt
  omega

theorem ite_emit (c : Prop) [Decidable c] (a b : Event) :
    (if c then emit a else emit b) = emit (if c then a else b) := by
  split <;> rfl

theorem macLine_eq (v : Int) :
    (if v = -1 then Event.MosPrintf "%30s N/A\n" [.s "MAC Address:"]
      else .MosPrintf "%30s %.2X-%.2X-%.2X-%.2X-%.2X-%.2X\n" [.s "MAC Address:",
        .d (byteAt v 5), .d (byteAt v 4), .d (byteAt v 3), .d (byteAt v 2),
        .d (byteAt v 1), .d (byteAt v 0)]) = macLine v := by
  unfold macLine
  simp only [byteAt_eq_shiftedByte v _ (by decide : 5 ≤ 7),
    byteAt_eq_shiftedByte v _ (by decide : 4 ≤ 7), byteAt_eq_shiftedByte v _ (by decide : 3 ≤ 7),
    byteAt_eq_shiftedByte v _ (by decide : 2 ≤ 7), byteAt_eq_shiftedByte v _ (by decide : 1 ≤ 7),
    byteAt_eq_shiftedByte v _ (by decide : 0 ≤ 7)]

theorem ipLine_eq (v : Int) :
    (if v = -1 then Event.MosPrintf "%30s N/A\n" [.s "Current IP Address:"]
      else .MosPrintf "%30s %d.%d.%d.%d\n" [.s "Current IP Address:",
        .d (byteAt v 3), .d (byteAt v 2), .d (byteAt v 1), .d (byteAt v 0)]) = ipLine v := by
  unfold ipLine
  simp only [byteAt_eq_shiftedByte v _ (by decide : 3 ≤ 7),
    byteAt_eq_shiftedByte v _ (by decide : 2 ≤ 7), byteAt_eq_shiftedByte v _ (by decide : 1 ≤ 7),
    byteAt_eq_shiftedByte v _ (by decide : 0 ≤ 7)]

theorem CameraPrintTransportLayerControls_exact (w : World) :
    ∃ (w2 : World), CameraPrintTransportLayerControls w = .ret () w2 ∧
      ∃ (versionLine packetLine : Event), w2.trace = w.trace ++
        [.MdigInquireFeature .value "GevVersionMajor",
         .MdigInquireFeature .value "GevVersionMinor",
         .MdigInquireFeature .value "GevSCPSPacketSize",
         .MdigInquireFeature .value "GevMACAddress",
         .MdigInquireFeature .value "GevCurrentIPAddress",
         .MosPrintf "\n-------------- Camera Transport Layer Controls -------------\n\n" [],
         versionLine, macLine (macAddress w), ipLine (currentIp w), packetLine] := by
  unfold CameraPrintTransportLayerControls
  simp only [bind_apply, MdigInquireFeatureInt, andThen_ret, MosPrintf, ite_emit, emit_apply,
    List.append_assoc, List.cons_append, List.nil_append, macLine_eq, ipLine_eq]
  refine ⟨_, rfl, ?_, ?_, ?_⟩
  rotate_left 2
  · exact rfl

theorem shiftedByte_range (v : Int) (k : Nat) : 0 ≤ shiftedByte v k ∧ shiftedByte v k ≤ 255 := by
  unfold shiftedByte
  rw [land_255]
  omega

/-- C25. `CameraPrintTransportLayerControls` always returns, and after its five queries
and the heading and version lines it prints the MAC address line and then the IP address
line.  A line is `N/A` exactly when the value read is still `-1`.  For any other value
`v` the IP line has the format `%d.%d.%d.%d` with the bytes `(v>>24)&255`, `(v>>16)&255`,
`(v>>8)&255`, `v&255`, and the MAC line has the format `%.2X` six times, joined by `-`,
with the bytes `(v>>40)&255` down to `v&255`; every byte is between 0 and 255, so each
`%.2X` gives two upper-case hexadecimal digits.  The value 0 is printed as an address of
zero bytes. -/
theorem CameraPrintTransportLayerControls_prints_addresses (w : World) :
    (CameraPrintTransportLayerControls w).returns = true ∧
    (∃ versionLine packetLine : Event,
      newEvents w (CameraPrintTransportLayerControls w) =
        [.MdigInquireFeature .value "GevVersionMajor",
         .MdigInquireFeature .value "GevVersionMinor",
         .MdigInquireFeature .value "GevSCPSPacketSize",
         .MdigInquireFeature .value "GevMACAddress",
         .MdigInquireFeature .value "GevCurrentIPAddress",
         .MosPrintf "\n-------------- Camera Transport Layer Controls -------------\n\n" [],
         versionLine, macLine (macAddress w), ipLine (currentIp w), packetLine]) ∧
    (macLine (macAddress w) = .MosPrintf "%30s N/A\n" [.s "MAC Address:"] ↔
      macAddress w = -1) ∧
    (ipLine (currentIp w) = .MosPrintf "%30s N/A\n" [.s "Current IP Address:"] ↔
      currentIp w = -1) ∧
    (macAddress w ≠ -1 → macLine (macAddress w) =
      .MosPrintf "%30s %.2X-%.2X-%.2X-%.2X-%.2X-%.2X\n" [.s "MAC Address:",
        .d (shiftedByte (macAddress w) 5), .d (shiftedByte (macAddress w) 4),
        .d (shiftedByte (macAddress w) 3), .d (shiftedByte (macAddress w) 2),
        .d (shiftedByte (macAddress w) 1), .d (shiftedByte (macAddress w) 0)]) ∧
    (currentIp w ≠ -1 → ipLine (currentIp w) =
      .MosPrintf "%30s %d.%d.%d.%d\n" [.s "Current IP Address:",
        .d (shiftedByte (currentIp w) 3), .d (shiftedByte (currentIp w) 2),
        .d (shiftedByte (currentIp w) 1), .d (shiftedByte (currentIp w) 0)]) ∧
    (∀ (v : Int) (k : Nat), 0 ≤ shiftedByte v k ∧ shiftedByte v k ≤ 255) ∧
    macLine 0 = .MosPrintf "%30s %.2X-%.2X-%.2X-%.2X-%.2X-%.2X\n"
      [.s "MAC Address:", .d 0, .d 0, .d 0, .d 0, .d 0, .d 0] ∧
    ipLine 0 = .MosPrintf "%30s %d.%d.%d.%d\n"
      [.s "Current IP Address:", .d 0, .d 0, .d 0, .d 0] := by
  obtain ⟨w2, hrun, vl, pl, ht⟩ := CameraPrintTransportLayerControls_exact w
  refine ⟨by rw [hrun]; rfl, ⟨vl, pl, ?_⟩, ?_, ?_, ?_, ?_, shiftedByte_range, by decide!,
    by decide!⟩
  · apply newEvents_eq
    rw [hrun]
    exact ht
  · unfold macLine
    constructor
    · intro h
      by_contra hne
      rw [if_neg hne] at h
      simp at h
    · intro h
      rw [if_pos h]
  · unfold ipLine
    constructor
    · intro h
      by_contra hne
      rw [if_neg hne] at h
      simp at h
    · intro h
      rw [if_pos h]
  · intro hne
    unfold macLine
    rw [if_neg hne]
  · intro hne
    unfold ipLine
    rw [if_neg hne]

theorem CameraPrintTransportLayerControls_prints_addresses_witness :
    ((newEvents (sampleWorld addressCamera Capabilities.initial [] [])
      (CameraPrintTransportLayerControls
        (sampleWorld addressCamera Capabilities.initial [] []))).drop 7).take 2 =
      [.MosPrintf "%30s %.2X-%.2X-%.2X-%.2X-%.2X-%.2X\n"
         [.s "MAC Address:", .d 0, .d 0, .d 0, .d 0, .d 0, .d 0],
       .MosPrintf "%30s %d.%d.%d.%d\n"
         [.s "Current IP Address:", .d 192, .d 168, .d 1, .d 10]] := by
  obtain ⟨vl, pl, h⟩ := (CameraPrintTransportLayerControls_prints_addresses
    (sampleWorld addressCamera Capabilities.initial [] [])).2.1
  rw [h]
  show [macLine (macAddress (sampleWorld addressCamera Capabilities.initial [] [])),
    ipLine (currentIp (sampleWorld addressCamera Capabilities.initial [] []))] = _
  decide!

/-! ## The selection of the trigger source -/

theorem printTriggerSources_apply (names : List String) :
    ∀ (i : Nat) (w : World), printTriggerSources names i w =
      .ret () { w with trace := w.trace ++ sourceLines names i } := by
  induction names with
  | nil => intro i w; simp [printTriggerSources, sourceLines]
  | cons a t ih =>
    intro i w
    unfold printTriggerSources
    simp only [bind_apply, MosPrintf, emit_apply, andThen_ret, ih, sourceLines,
      List.append_assoc, List.singleton_append]

theorem SelectTriggerSource_menu (w : World) (hpos : 0 < sourceCount w)
    (hfit : sourceCount w ≤ (w.dev.limit : Int)) :
    SelectTriggerSource w =
      ((fun w1 => selectionLoop (sourceCount w) (sourceNames w) (w1.nums.length + 1) w1) >>=
        fun Selection => index (sourceNames w) Selection >>= fun chosen =>
        MdigControlFeature "TriggerSource" (.str chosen) >>= fun _ =>
        if chosen = "Software" then Prog.pure true else Prog.pure false)
        { w with trace := w.trace ++ sourceMenu w } := by
  have hne : sourceCount w ≠ 0 := by omega
  have hnn : ¬ sourceCount w < 0 := by omega
  have hlen : (sourceNames w).length = (sourceCount w).toNat :=
    entryNamesFrom_length _ _ _ _ _
  have hnames := inquireEntryNames_run "TriggerSource" (fun _ => Prog.pure ()) (fun _ c => c)
    (fun _ _ => rfl) (sourceCount w).toNat 0
    { w with trace := w.trace ++ [sourcePrompt] ++
        [.MdigInquireFeature .enumEntryCount "TriggerSource"] }
  have hsn : entryNamesFrom w.dev "TriggerSource" (sourceCount w).toNat 0
      (w.trace ++ [sourcePrompt] ++ [.MdigInquireFeature .enumEntryCount "TriggerSource"]) =
      sourceNames w := by
    unfold sourceNames
    simp
  simp only [hsn] at hnames
  have h0 : (0 : Int).toNat < (sourceNames w).length := by
    rw [hlen]
    simp only [Int.toNat_zero]
    omega
  rw [SelectTriggerSource_apply, if_pos hne]
  have hva : vectorAssign (sourceCount w)
      { w with trace := w.trace ++ [sourcePrompt] ++
          [.MdigInquireFeature .enumEntryCount "TriggerSource"] } =
      .ret (sourceCount w).toNat
        { w with trace := w.trace ++ [sourcePrompt] ++
            [.MdigInquireFeature .enumEntryCount "TriggerSource"] } :=
    vectorAssign_fits (by omega) hfit
  simp only [bind_apply, hva, andThen_ret, hnames,
    index_of_lt _ 0 (le_refl 0) h0, MosPrintf, emit_apply, printTriggerSources_apply, foldl_keep]
  simp only [sourceMenu, Int.toNat_zero, List.append_assoc, List.cons_append,
    List.nil_append]

theorem selectionLoop_exact (Cnt : MIL_INT) (names : List String)
    (hlen : names.length = Cnt.toNat) (sel : Int) (rest : List Int) (h0 : 0 ≤ sel)
    (h1 : sel < Cnt) :
    ∀ (rej : List Int) (w : World) (fuel : Nat), w.nums = rej ++ sel :: rest →
      (∀ n ∈ rej, ¬ (0 ≤ n ∧ n < Cnt)) → rej.length < fuel →
      selectionLoop Cnt names fuel w = .ret sel { w with
        nums := rest
        trace := w.trace ++ rejections rej ++
          [.scanf "%d" sel, .MosPrintf "%s selected\n" [.s (names.getD sel.toNat "")]] } := by
  intro rej
  induction rej with
  | nil =>
    intro w fuel hn _ hf
    cases fuel with
    | zero => simp at hf
    | succ f =>
      have h2 : (sel : Int) < Cnt := h1
      have hidx : sel.toNat < names.length := by omega
      have hv : 0 ≤ sel ∧ sel < Cnt := ⟨h0, h1⟩
      unfold selectionLoop
      simp only [List.nil_append] at hn
      simp only [bind_apply, scanf, hn, andThen_ret, hv, and_self, if_true,
        index_of_lt names sel h0 hidx, MosPrintf, emit_apply, Prog_pure_apply, rejections,
        List.append_nil, List.append_assoc, List.cons_append, List.nil_append]
  | cons n t ih =>
    intro w fuel hn hrej hf
    cases fuel with
    | zero => simp at hf
    | succ f =>
      have hf2 : t.length < f := by simpa using hf
      have hv : ¬ (0 ≤ n ∧ n < Cnt) := hrej n (List.mem_cons_self _ _)
      have hn2 : w.nums = n :: (t ++ sel :: rest) := by simpa using hn
      unfold selectionLoop
      simp only [bind_apply, scanf, hn2, andThen_ret, hv, if_false, MosPrintf, emit_apply]
      rw [ih _ f rfl (fun x hx => hrej x (List.mem_cons_of_mem _ hx)) hf2]
      simp only [rejections, List.append_assoc, List.cons_append, List.nil_append]

theorem selectionLoop_blocked (Cnt : MIL_INT) (names : List String) :
    ∀ (rej : List Int) (w : World) (fuel : Nat), w.nums = rej →
      (∀ n ∈ rej, ¬ (0 ≤ n ∧ n < Cnt)) → rej.length < fuel →
      selectionLoop Cnt names fuel w = .halt .hang { w with
        nums := []
        trace := w.trace ++ rejections rej } := by
  intro rej
  induction rej with
  | nil =>
    intro w fuel hn _ hf
    cases fuel with
    | zero => simp at hf
    | succ f =>
      unfold selectionLoop
      simp only [bind_apply, scanf, hn, andThen_halt, rejections, List.append_nil]
      cases w
      simp_all
  | cons n t ih =>
    intro w fuel hn hrej hf
    cases fuel with
    | zero => simp at hf
    | succ f =>
      have hf2 : t.length < f := by simpa using hf
      have hv : ¬ (0 ≤ n ∧ n < Cnt) := hrej n (List.mem_cons_self _ _)
      unfold selectionLoop
      simp only [bind_apply, scanf, hn, andThen_ret, hv, if_false, MosPrintf, emit_apply]
      rw [ih _ f rfl (fun x hx => hrej x (List.mem_cons_of_mem _ hx)) hf2]
      simp only [rejections, List.append_assoc, List.cons_append, List.nil_append]

theorem split_at_first {α : Type} (p : α → Prop) [DecidablePred p] (l : List α) :
    (∀ x ∈ l, ¬ p x) ∨ ∃ a x b, l = a ++ x :: b ∧ (∀ y ∈ a, ¬ p y) ∧ p x := by
  induction l with
  | nil => left; simp
  | cons c l ih =>
    by_cases hc : p c
    · right
      exact ⟨[], c, l, rfl, by simp, hc⟩
    · rcases ih with h | ⟨a, x, b, h1, h2, h3⟩
      · left
        intro y hy
        rcases List.mem_cons.mp hy with rfl | hy
        · exact hc
        · exact h y hy
      · right
        refine ⟨c :: a, x, b, by rw [h1]; rfl, ?_, h3⟩
        intro y hy
        rcases List.mem_cons.mp hy with rfl | hy
        · exact hc
        · exact h2 y hy

theorem featureWrites_append (a b : List Event) :
    featureWrites (a ++ b) = featureWrites a ++ featureWrites b := by
  simp [featureWrites, List.filterMap_append]

theorem featureWrites_entryQueries (feature : String) (todo : Nat) :
    ∀ i, featureWrites (entryQueries feature todo i) = [] := by
  induction todo with
  | zero => intro i; rfl
  | succ n ih =>
    intro i
    have h := ih (i + 1)
    simp only [featureWrites] at h ⊢
    simp only [entryQueries, List.filterMap_cons, h]

theorem featureWrites_sourceLines (names : List String) :
    ∀ i, featureWrites (sourceLines names i) = [] := by
  induction names with
  | nil => intro i; rfl
  | cons a t ih =>
    intro i
    have h := ih (i + 1)
    simp only [featureWrites] at h ⊢
    simp only [sourceLines, List.filterMap_cons, h]

theorem featureWrites_rejections (rej : List Int) : featureWrites (rejections rej) = [] := by
  induction rej with
  | nil => rfl
  | cons a t ih =>
    simp only [featureWrites] at ih ⊢
    simp only [rejections, List.filterMap_cons, ih]

theorem featureWrites_sourceMenu (w : World) : featureWrites (sourceMenu w) = [] := by
  unfold sourceMenu
  simp only [featureWrites_append, featureWrites_entryQueries, featureWrites_sourceLines,
    List.append_nil]
  rfl

theorem SelectTriggerSource_selected (w : World) (hpos : 0 < sourceCount w)
    (hfit : sourceCount w ≤ (w.dev.limit : Int))
    (rej : List Int) (sel : Int) (rest : List Int) (hn : w.nums = rej ++ sel :: rest)
    (hrej : ∀ n ∈ rej, ¬ (0 ≤ n ∧ n < sourceCount w)) (h0 : 0 ≤ sel)
    (h1 : sel < sourceCount w) :
    SelectTriggerSource w =
      .ret (decide ((sourceNames w).getD sel.toNat "" = "Software")) { w with
        nums := rest
        trace := w.trace ++ (sourceMenu w ++ rejections rej ++
          [.scanf "%d" sel, .MosPrintf "%s selected\n" [.s ((sourceNames w).getD sel.toNat "")],
           .MdigControlFeature "TriggerSource" (.str ((sourceNames w).getD sel.toNat ""))]) } := by
  have hlen : (sourceNames w).length = (sourceCount w).toNat :=
    entryNamesFrom_length _ _ _ _ _
  have h2 : (sel : Int) < sourceCount w := h1
  have hidx : sel.toNat < (sourceNames w).length := by omega
  have hloop := selectionLoop_exact (sourceCount w) (sourceNames w) hlen sel rest h0 h1 rej
    { w with trace := w.trace ++ sourceMenu w } (w.nums.length + 1) hn hrej
    (by rw [hn, List.length_append]; omega)
  rw [SelectTriggerSource_menu w hpos hfit, bind_apply]
  simp only [hloop, andThen_ret, bind_apply, index_of_lt _ sel h0 hidx, MdigControlFeature,
    emit_apply]
  by_cases hsw : (sourceNames w).getD sel.toNat "" = "Software"
  · simp only [hsw, if_true, decide_True, Prog_pure_apply, List.append_assoc,
      List.cons_append, List.nil_append]
  · simp only [hsw, if_false, decide_False, Prog_pure_apply, List.append_assoc,
      List.cons_append, List.nil_append]

theorem SelectTriggerSource_blocked (w : World) (hpos : 0 < sourceCount w)
    (hfit : sourceCount w ≤ (w.dev.limit : Int))
    (hrej : ∀ n ∈ w.nums, ¬ (0 ≤ n ∧ n < sourceCount w)) :
    SelectTriggerSource w =
      .halt .hang { w with
        nums := []
        trace := w.trace ++ (sourceMenu w ++ rejections w.nums) } := by
  have hloop := selectionLoop_blocked (sourceCount w) (sourceNames w) w.nums
    { w with trace := w.trace ++ sourceMenu w } (w.nums.length + 1) rfl hrej
    (Nat.lt_succ_self _)
  rw [SelectTriggerSource_menu w hpos hfit, bind_apply]
  simp only [hloop, andThen_halt, List.append_assoc]

/-- C21. In `SelectTriggerSource` with at least one source counted, the list of names
has as many entries as the device counted.  When the vector can be sized for the count,
the sources are enumerated and the loop rejects every pending number that is not an
index into the list, with the complaint `Invalid selection.` and another read and no
other call, and accepts the first number that is one: the run then returns, and its
calls are the menu of the sources, the rejected reads, the accepted read, the
confirmation and one feature write, `TriggerSource` with the name at the accepted index,
which is an index inside the list.  When no pending number is accepted the run makes no
feature write and blocks at the next read.  When the count is beyond what the host can
allocate, the resize throws right after the count query: no source is enumerated, no
number is read and the list is never indexed.  No run stops for an index outside the
list. -/
theorem SelectTriggerSource_selection_in_bounds (w : World) (hpos : 1 ≤ sourceCount w) :
    (sourceNames w).length = (sourceCount w).toNat ∧ 0 < (sourceNames w).length ∧
    (sourceCount w ≤ (w.dev.limit : Int) →
      ∀ (rej : List Int) (sel : Int) (rest : List Int), w.nums = rej ++ sel :: rest →
      (∀ n ∈ rej, ¬ (0 ≤ n ∧ n < sourceCount w)) → 0 ≤ sel ∧ sel < sourceCount w →
      sel.toNat < (sourceNames w).length ∧
      (SelectTriggerSource w).value? =
        some (decide ((sourceNames w).getD sel.toNat "" = "Software")) ∧
      (SelectTriggerSource w).world.nums = rest ∧
      newEvents w (SelectTriggerSource w) =
        sourceMenu w ++ rejections rej ++
          [.scanf "%d" sel, .MosPrintf "%s selected\n" [.s ((sourceNames w).getD sel.toNat "")],
           .MdigControlFeature "TriggerSource" (.str ((sourceNames w).getD sel.toNat ""))] ∧
      featureWrites (newEvents w (SelectTriggerSource w)) =
        [("TriggerSource", .str ((sourceNames w).getD sel.toNat ""))]) ∧
    (sourceCount w ≤ (w.dev.limit : Int) →
      (∀ n ∈ w.nums, ¬ (0 ≤ n ∧ n < sourceCount w)) →
      (SelectTriggerSource w).stopped = some .hang ∧
      newEvents w (SelectTriggerSource w) = sourceMenu w ++ rejections w.nums ∧
      featureWrites (newEvents w (SelectTriggerSource w)) = []) ∧
    ((w.dev.limit : Int) < sourceCount w →
      (SelectTriggerSource w).stopped = some .exception ∧
      newEvents w (SelectTriggerSource w) =
        [sourcePrompt, .MdigInquireFeature .enumEntryCount "TriggerSource"]) ∧
    (SelectTriggerSource w).stopped ≠ some .outOfBounds := by
  have hp : 0 < sourceCount w := by omega
  have hlen : (sourceNames w).length = (sourceCount w).toNat :=
    entryNamesFrom_length _ _ _ _ _
  have hthrow : (w.dev.limit : Int) < sourceCount w →
      (SelectTriggerSource w).stopped = some .exception ∧
      newEvents w (SelectTriggerSource w) =
        [sourcePrompt, .MdigInquireFeature .enumEntryCount "TriggerSource"] := by
    intro hbad
    rw [SelectTriggerSource_refused w (Or.inr hbad)]
    refine ⟨rfl, ?_⟩
    apply newEvents_eq
    simp only [world_halt, List.append_assoc, List.cons_append, List.nil_append]
  by_cases hfit : sourceCount w ≤ (w.dev.limit : Int)
  swap
  · refine ⟨hlen, by omega, fun h => absurd h hfit, fun h => absurd h hfit, hthrow, ?_⟩
    rw [(hthrow (by omega)).1]
    simp
  have hsel : ∀ (rej : List Int) (sel : Int) (rest : List Int), w.nums = rej ++ sel :: rest →
      (∀ n ∈ rej, ¬ (0 ≤ n ∧ n < sourceCount w)) → 0 ≤ sel ∧ sel < sourceCount w →
      newEvents w (SelectTriggerSource w) =
        sourceMenu w ++ rejections rej ++
          [.scanf "%d" sel, .MosPrintf "%s selected\n" [.s ((sourceNames w).getD sel.toNat "")],
           .MdigControlFeature "TriggerSource" (.str ((sourceNames w).getD sel.toNat ""))] := by
    intro rej sel rest hn hrej hv
    apply newEvents_eq
    rw [SelectTriggerSource_selected w hp hfit rej sel rest hn hrej hv.1 hv.2]
    rfl
  have hblk : (∀ n ∈ w.nums, ¬ (0 ≤ n ∧ n < sourceCount w)) →
      newEvents w (SelectTriggerSource w) = sourceMenu w ++ rejections w.nums := by
    intro hrej
    apply newEvents_eq
    rw [SelectTriggerSource_blocked w hp hfit hrej]
    rfl
  refine ⟨hlen, by omega, ?_, ?_, hthrow, ?_⟩
  · intro _ rej sel rest hn hrej hv
    have h2 : (sel : Int) < sourceCount w := hv.2
    refine ⟨by omega, ?_, ?_, hsel rej sel rest hn hrej hv, ?_⟩
    · rw [SelectTriggerSource_selected w hp hfit rej sel rest hn hrej hv.1 hv.2]
      rfl
    · rw [SelectTriggerSource_selected w hp hfit rej sel rest hn hrej hv.1 hv.2]
      rfl
    · rw [hsel rej sel rest hn hrej hv, featureWrites_append, featureWrites_append,
        featureWrites_sourceMenu, featureWrites_rejections]
      rfl
  · intro _ hrej
    refine ⟨?_, hblk hrej, ?_⟩
    · rw [SelectTriggerSource_blocked w hp hfit hrej]
      rfl
    · rw [hblk hrej, featureWrites_append, featureWrites_sourceMenu, featureWrites_rejections]
      rfl
  · rcases split_at_first (fun n : Int => 0 ≤ n ∧ n < sourceCount w) w.nums with
      hall | ⟨rej, sel, rest, hn, hrej, hv⟩
    · rw [SelectTriggerSource_blocked w hp hfit hall]
      simp [Outcome.stopped]
    · rw [SelectTriggerSource_selected w hp hfit rej sel rest hn hrej hv.1 hv.2]
      simp [Outcome.stopped]

theorem SelectTriggerSource_selection_in_bounds_witness :
    1 ≤ sourceCount selectionWorld ∧
    (SelectTriggerSource selectionWorld).value? =
      some (decide ((sourceNames selectionWorld).getD (1 : Int).toNat "" = "Software")) ∧
    newEvents selectionWorld (SelectTriggerSource selectionWorld) =
      sourceMenu selectionWorld ++ rejections [5, -1] ++
        [.scanf "%d" 1,
         .MosPrintf "%s selected\n" [.s ((sourceNames selectionWorld).getD (1 : Int).toNat "")],
         .MdigControlFeature "TriggerSource"
           (.str ((sourceNames selectionWorld).getD (1 : Int).toNat ""))] ∧
    featureWrites (newEvents selectionWorld (SelectTriggerSource selectionWorld)) =
      [("TriggerSource", .str "Software")] := by
  obtain ⟨-, h2, -, h4, h5⟩ := (SelectTriggerSource_selection_in_bounds selectionWorld
    (by decide)).2.2.1 (by decide!) [5, -1] 1 [] rfl (by decide) (by decide)
  refine ⟨by decide, h2, h4, ?_⟩
  rw [h5]
  decide

/-! ## The processing calls of the acquisition -/

theorem processCalls_append (a b : List Event) :
    processCalls (a ++ b) = processCalls a ++ processCalls b := by
  simp [processCalls, List.filterMap_append]

theorem processCalls_of_kinds {ks : List Kind} {evs : List Event}
    (h : ∀ e ∈ evs, e.kind ∈ ks) (hk : Kind.process ∉ ks) : processCalls evs = [] := by
  unfold processCalls
  rw [List.filterMap_eq_nil_iff]
  intro e he
  have := h e he
  cases e <;> simp_all [Event.kind]

theorem alternating_nil : Alternating [] :=
  ⟨[], 0, .start, 0, [], rfl, rfl, Or.inl rfl⟩

theorem softwareTriggerLoop_quiet (t : eTriggerType) (sel : String) (fuel : Nat) :
    Emits [Kind.console, .controlFeature, .executeFeature] (softwareTriggerLoop t sel fuel) := by
  induction fuel with
  | zero => exact Emits.halt _ _
  | succ n ih =>
    unfold softwareTriggerLoop
    repeat' first
      | exact Emits.pure _ _
      | exact ih
      | exact MosGetch_emits (by decide)
      | exact MdigControlFeature_emits _ _ (by decide)
      | exact MdigExecuteFeature_emits _ (by decide)
      | apply Emits.bind
      | apply Emits.ite
      | intro _

theorem waitForStop_quiet (s : TriggerSetup) :
    Emits [Kind.console, .controlFeature, .executeFeature] (waitForStop s) := by
  unfold waitForStop
  repeat' first
    | exact Emits.pure _ _
    | exact MosGetch_emits (by decide)
    | exact MosKbhit_emits (by decide)
    | exact Emits.fueled _ (softwareTriggerLoop_quiet _ _)
    | apply Emits.bind
    | apply Emits.ite
    | intro _

theorem processLoop_calls (s : TriggerSetup) (bufs : List MIL_ID) (size : Nat)
    (op0 : ProcessOp) (fuel : Nat) :
    ∀ w : World, ∃ (evs : List Event) (n : Nat)
      (last : List (List MIL_ID × MIL_INT × ProcessOp)),
      (processLoop s bufs size op0 fuel w).world.trace = w.trace ++ evs ∧
      processCalls evs = restartCalls bufs size op0 n ++ last ∧
      (last = [] ∨ last = [(bufs, (size : MIL_INT), op0)] ∨
        last = [(bufs, (size : MIL_INT), op0), (bufs, (size : MIL_INT), .stop)]) := by
  induction fuel with
  | zero =>
    intro w
    exact ⟨[], 0, [], by simp [processLoop], rfl, Or.inl rfl⟩
  | succ f ih =>
    intro w
    obtain ⟨ev1, h1, k1⟩ := waitForStop_quiet s
      { w with trace := w.trace ++ [.MdigProcess bufs size op0] }
    have hq : processCalls ev1 = [] := processCalls_of_kinds k1 (by decide)
    unfold processLoop
    simp only [bind_apply, emit_apply, andThen_ret]
    cases hw : waitForStop s { w with trace := w.trace ++ [.MdigProcess bufs size op0] } with
    | halt r w2 =>
      rw [hw] at h1
      refine ⟨.MdigProcess bufs size op0 :: ev1, 0, [(bufs, (size : MIL_INT), op0)], ?_, ?_,
        Or.inr (Or.inl rfl)⟩
      · simp only [andThen_halt]
        simpa [List.append_assoc] using h1
      · have : processCalls (Event.MdigProcess bufs size op0 :: ev1) =
            (bufs, (size : MIL_INT), op0) :: processCalls ev1 := by
          simp [processCalls, List.filterMap_cons]
        rw [this, hq]
        rfl
    | ret Done w2 =>
      rw [hw] at h1
      simp only [world_ret] at h1
      by_cases hd : Done ≠ 0
      · simp only [bind_apply, emit_apply, andThen_ret, hd, if_true, Prog_pure_apply, ne_eq,
          not_false_eq_true]
        refine ⟨.MdigProcess bufs size op0 :: (ev1 ++ [.MdigProcess bufs size .stop]), 0,
          [(bufs, (size : MIL_INT), op0), (bufs, (size : MIL_INT), .stop)], ?_, ?_,
          Or.inr (Or.inr rfl)⟩
        · simp only [world_ret, h1, List.append_assoc, List.cons_append, List.nil_append]
        · have : processCalls (Event.MdigProcess bufs size op0 ::
              (ev1 ++ [.MdigProcess bufs size .stop])) =
              (bufs, (size : MIL_INT), op0) ::
                (processCalls ev1 ++ [(bufs, (size : MIL_INT), .stop)]) := by
            simp [processCalls, List.filterMap_cons, List.filterMap_append]
          rw [this, hq]
          rfl
      · have hd0 : Done = 0 := by
          by_contra h
          exact hd h
        simp only [bind_apply, emit_apply, andThen_ret, hd0, ne_eq, not_true_eq_false, if_false]
        obtain ⟨evs, n, last, ht, hc, hl⟩ := ih
          { w2 with trace := w2.trace ++ [.MdigProcess bufs size .stopWait] }
        refine ⟨.MdigProcess bufs size op0 :: (ev1 ++ .MdigProcess bufs size .stopWait :: evs),
          n + 1, last, ?_, ?_, hl⟩
        · rw [ht]
          simp only [h1, List.append_assoc, List.cons_append, List.nil_append]
        · have : processCalls (Event.MdigProcess bufs size op0 ::
              (ev1 ++ .MdigProcess bufs size .stopWait :: evs)) =
              (bufs, (size : MIL_INT), op0) ::
                (processCalls ev1 ++ (bufs, (size : MIL_INT), .stopWait) :: processCalls evs) := by
            simp [processCalls, List.filterMap_cons, List.filterMap_append]
          rw [this, hq, hc]
          rfl

theorem alternatingRun_of_emits {α : Type} {ks : List Kind} {m : Prog α} (hm : Emits ks m)
    (hk : Kind.process ∉ ks) : AlternatingRun m := by
  intro w
  obtain ⟨evs, h1, h2⟩ := hm w
  refine ⟨evs, h1, ?_⟩
  rw [processCalls_of_kinds h2 hk]
  exact alternating_nil

theorem alternatingRun_after {α β : Type} {ks : List Kind} {m : Prog α} {f : α → Prog β}
    (hm : Emits ks m) (hk : Kind.process ∉ ks) (hf : ∀ a, AlternatingRun (f a)) :
    AlternatingRun (m >>= f) := by
  intro w
  obtain ⟨e1, h1, p1⟩ := hm w
  have hq := processCalls_of_kinds p1 hk
  rw [bind_apply]
  cases hmw : m w with
  | ret a w1 =>
    obtain ⟨e2, h2, p2⟩ := hf a w1
    rw [hmw] at h1
    simp only [world_ret] at h1
    refine ⟨e1 ++ e2, ?_, ?_⟩
    · simp only [andThen_ret, h2, h1, List.append_assoc]
    · rw [processCalls_append, hq]
      exact p2
  | halt r w1 =>
    rw [hmw] at h1
    refine ⟨e1, h1, ?_⟩
    rw [hq]
    exact alternating_nil

theorem alternatingRun_before {α β : Type} {ks : List Kind} {m : Prog α} {f : α → Prog β}
    (hm : AlternatingRun m) (hf : ∀ a, Emits ks (f a)) (hk : Kind.process ∉ ks) :
    AlternatingRun (m >>= f) := by
  intro w
  obtain ⟨e1, h1, p1⟩ := hm w
  rw [bind_apply]
  cases hmw : m w with
  | ret a w1 =>
    obtain ⟨e2, h2, p2⟩ := hf a w1
    rw [hmw] at h1
    simp only [world_ret] at h1
    refine ⟨e1 ++ e2, ?_, ?_⟩
    · simp only [andThen_ret, h2, h1, List.append_assoc]
    · rw [processCalls_append, processCalls_of_kinds p2 hk, List.append_nil]
      exact p1
  | halt r w1 =>
    rw [hmw] at h1
    exact ⟨e1, h1, p1⟩

theorem alternatingRun_processLoop (s : TriggerSetup) (bufs : List MIL_ID) (size : Nat)
    (op0 : ProcessOp) (hop : op0.isStart = true) (fuel : World → Nat) :
    AlternatingRun (fun w => processLoop s bufs size op0 (fuel w) w) := by
  intro w
  obtain ⟨evs, n, last, ht, hc, hl⟩ := processLoop_calls s bufs size op0 (fuel w) w
  exact ⟨evs, ht, bufs, size, op0, n, last, hop, hc, hl⟩

theorem allocLoop_emits (len : Nat) (todo : Nat) :
    ∀ size list, Emits [Kind.inquire, .buffer] (allocLoop len todo size list) := by
  induction todo with
  | zero => intro size list; exact Emits.pure _ _
  | succ n ih =>
    intro size list
    unfold allocLoop
    repeat' first
      | exact Emits.pure _ _
      | exact Emits.halt _ _
      | exact ih _ _
      | exact MdigInquireInt_emits _ _ (by decide)
      | exact MbufAlloc2d_emits (by decide)
      | exact Emits.emit (by simp [Event.kind])
      | apply Emits.bind
      | apply Emits.ite
      | intro _

theorem alternatingRun_acquire (inf : Int) (s : TriggerSetup) :
    AlternatingRun (acquire inf s) := by
  have hQ : Kind.process ∉ [Kind.errorPrint, Kind.inquire, .buffer, .other, .console,
      .controlFeature] := by decide
  have hE : Kind.errorPrint ∈ [Kind.errorPrint, Kind.inquire, .buffer, .other, .console,
      .controlFeature] := by decide
  have hC : Kind.console ∈ [Kind.errorPrint, Kind.inquire, .buffer, .other, .console,
      .controlFeature] := by decide
  have hsub : ∀ k ∈ [Kind.inquire, Kind.buffer], k ∈ [Kind.errorPrint, Kind.inquire, .buffer,
      .other, .console, .controlFeature] := by decide
  have hsub2 : ∀ k ∈ [Kind.errorPrint, Kind.controlFeature], k ∈ [Kind.errorPrint,
      Kind.inquire, .buffer, .other, .console, .controlFeature] := by decide
  have hsub3 : ∀ k ∈ [Kind.buffer], k ∈ [Kind.errorPrint, Kind.inquire, .buffer,
      .other, .console, .controlFeature] := by decide
  have hop : (if s.TriggerType = .eMultiFrame then ProcessOp.sequenceCount s.NbFrames
      else ProcessOp.start).isStart = true := by
    split <;> rfl
  unfold acquire
  refine alternatingRun_after (Emits.ite (Emits.pure _ _) (arrayNew_emits _ _)) hQ (fun len => ?_)
  refine alternatingRun_after (MappControlError_emits _ hE) hQ (fun _ => ?_)
  refine alternatingRun_after ((allocLoop_emits _ _ _ _).mono hsub) hQ (fun p => ?_)
  refine alternatingRun_after (MappControlError_emits _ hE) hQ (fun _ => ?_)
  refine alternatingRun_after (Emits.emit (by decide)) hQ (fun _ => ?_)
  refine alternatingRun_after
    (Emits.ite (MosPrintf_emits _ _ hC) (MosPrintf_emits _ _ hC)) hQ (fun _ => ?_)
  refine alternatingRun_after (MosPrintf_emits _ _ hC) hQ (fun _ => ?_)
  exact alternatingRun_before (alternatingRun_processLoop _ _ _ _ hop _)
    (fun _ => Emits.bind (ResetTriggerControls_emits.mono hsub2)
      (fun _ => (freeLoop_emits _ _).mono hsub3)) hQ

theorem alternatingRun_DoTriggeredAcquisition (inf : Int) :
    AlternatingRun (DoTriggeredAcquisition inf) := by
  unfold DoTriggeredAcquisition
  exact alternatingRun_after (SetTriggerControls_emits _) (by decide)
    (fun s => alternatingRun_acquire inf s)

theorem restartCalls_succ (bufs : List MIL_ID) (size : MIL_INT) (op0 : ProcessOp) (n : Nat) :
    restartCalls bufs size op0 (n + 1) =
      restartCalls bufs size op0 n ++ [(bufs, size, op0), (bufs, size, .stopWait)] := by
  induction n with
  | zero => rfl
  | succ k ih =>
    show (bufs, size, op0) :: (bufs, size, ProcessOp.stopWait) ::
        restartCalls bufs size op0 (k + 1) =
      ((bufs, size, op0) :: (bufs, size, ProcessOp.stopWait) :: restartCalls bufs size op0 k) ++
        [(bufs, size, op0), (bufs, size, .stopWait)]
    rw [ih]
    rfl

theorem alternating_ends_with_stop (X : List (List MIL_ID × MIL_INT × ProcessOp))
    (bufs : List MIL_ID) (size : MIL_INT) (h : Alternating (X ++ [(bufs, size, .stop)])) :
    ∃ (op0 : ProcessOp) (n : Nat), op0.isStart = true ∧
      X = restartCalls bufs size op0 n ++ [(bufs, size, op0)] := by
  obtain ⟨b, sz, op0, n, last, hop, hc, hl⟩ := h
  rcases hl with rfl | rfl | rfl
  · rw [List.append_nil] at hc
    cases n with
    | zero =>
      have := congrArg List.length hc
      simp [restartCalls] at this
    | succ k =>
      rw [restartCalls_succ] at hc
      have hc2 : X ++ [(bufs, size, ProcessOp.stop)] =
          (restartCalls b sz op0 k ++ [(b, sz, op0)]) ++ [(b, sz, .stopWait)] := by
        rw [hc]
        simp
      have := (List.append_inj' hc2 rfl).2
      simp at this
  · have := (List.append_inj' hc rfl).2
    simp only [List.cons.injEq, Prod.mk.injEq, and_true] at this
    obtain ⟨_, _, h3⟩ := this
    rw [← h3] at hop
    cases hop
  · have hc2 : X ++ [(bufs, size, ProcessOp.stop)] =
        (restartCalls b sz op0 n ++ [(b, sz, op0)]) ++ [(b, sz, .stop)] := by
      rw [hc]
      simp
    obtain ⟨h1, h2⟩ := List.append_inj' hc2 rfl
    simp only [List.cons.injEq, Prod.mk.injEq, and_true] at h2
    obtain ⟨rfl, rfl⟩ := h2
    exact ⟨op0, n, hop, h1⟩

theorem processCalls_frees (bufs : List MIL_ID) :
    processCalls (bufs.map Event.MbufFree) = [] := by
  refine @processCalls_of_kinds [Kind.buffer] _ ?_ (by decide)
  intro e he
  obtain ⟨x, _, rfl⟩ := List.mem_map.mp he
  simp [Event.kind]

/-- C22. In every run of `DoTriggeredAcquisition`, whether it returns or not, the
`MdigProcess` calls alternate between starts and stops, beginning with a start; all of
them pass the same buffer list and the same count, and every stop that is followed by
another start is `M_STOP + M_WAIT`.  A run that returns ends the alternation with a
`M_STOP`, which is followed only by the calls of `ResetTriggerControls` and the
`MbufFree` calls; no buffer is freed before it.  A run that does not return (it waits
for a key, or the array allocation throws) has made an initial part of such an
alternation. -/
theorem DoTriggeredAcquisition_process_calls_alternate (inf : Int) (w : World) :
    Alternating (processCalls (newEvents w (DoTriggeredAcquisition inf w))) ∧
    (∀ w2, DoTriggeredAcquisition inf w = .ret () w2 →
      ∃ (before : List Event) (bufs : List MIL_ID) (op0 : ProcessOp) (n : Nat),
        op0.isStart = true ∧
        newEvents w (DoTriggeredAcquisition inf w) =
          before ++ [.MdigProcess bufs bufs.length .stop] ++ resetEvents ++
            bufs.reverse.map .MbufFree ∧
        processCalls before =
          restartCalls bufs bufs.length op0 n ++ [(bufs, (bufs.length : MIL_INT), op0)] ∧
        freed before = []) := by
  have hall : Alternating (processCalls (newEvents w (DoTriggeredAcquisition inf w))) := by
    obtain ⟨evs, h1, h2⟩ := alternatingRun_DoTriggeredAcquisition inf w
    rw [newEvents_eq h1]
    exact h2
  refine ⟨hall, ?_⟩
  intro w2 hret
  obtain ⟨setup, pre, loop, bufs, hev, hs, ha, hf, hp, hl⟩ := DoTriggeredAcquisition_ret hret
  have hcalls : processCalls (newEvents w (DoTriggeredAcquisition inf w)) =
      processCalls (setup ++ pre ++ loop) ++ [(bufs, (bufs.length : MIL_INT), .stop)] := by
    rw [hev]
    have hr : processCalls resetEvents = [] := rfl
    have hone : processCalls [Event.MdigProcess bufs bufs.length .stop] =
        [(bufs, (bufs.length : MIL_INT), .stop)] := rfl
    simp only [processCalls_append, hr, processCalls_frees, hone, List.append_nil]
  rw [hcalls] at hall
  obtain ⟨op0, n, hop, hX⟩ := alternating_ends_with_stop _ _ _ hall
  refine ⟨setup ++ pre ++ loop, bufs, op0, n, hop, hev, hX, ?_⟩
  have f1 : freed setup = [] := freed_eq_nil (fun e he h => by
    have := hs e he
    rw [h] at this
    simp [setupKinds] at this)
  have f3 : freed loop = [] := freed_eq_nil (fun e he h => by
    have := hl e he
    rw [h] at this
    simp [loopKinds] at this)
  rw [freed_append, freed_append, f1, hf, f3]
  rfl

theorem DoTriggeredAcquisition_process_calls_alternate_witness :
    Alternating (processCalls (newEvents restartWorld (DoTriggeredAcquisition (-1) restartWorld))) ∧
    processCalls (newEvents restartWorld (DoTriggeredAcquisition (-1) restartWorld)) =
      [([1, 2, 3, 4, 5, 6, 7, 8, 9, 10], 10, .start),
       ([1, 2, 3, 4, 5, 6, 7, 8, 9, 10], 10, .stopWait),
       ([1, 2, 3, 4, 5, 6, 7, 8, 9, 10], 10, .start),
       ([1, 2, 3, 4, 5, 6, 7, 8, 9, 10], 10, .stop)] :=
  ⟨(DoTriggeredAcquisition_process_calls_alternate (-1) restartWorld).1, by decide!⟩

/-! ## The bounds of the grab buffer list -/

theorem waits_pure {α : Type} (a : α) : Waits (Prog.pure a : Prog α) := by
  intro w
  exact Or.inl rfl

theorem waits_hang {α : Type} : Waits (fun w => (Outcome.halt .hang w : Outcome α)) := by
  intro w
  exact Or.inr rfl

theorem waits_emit (e : Event) : Waits (emit e) := by
  intro w
  exact Or.inl rfl

theorem waits_bind {α β : Type} {m : Prog α} {f : α → Prog β} (hm : Waits m)
    (hf : ∀ a, Waits (f a)) : Waits (m >>= f) := by
  intro w
  have h := hm w
  rw [bind_apply]
  cases hmw : m w with
  | ret a w1 => exact hf a w1
  | halt r w1 =>
    rw [hmw] at h
    exact h

theorem waits_ite {α : Type} {c : Prop} [Decidable c] {m n : Prog α}
    (hm : Waits m) (hn : Waits n) : Waits (if c then m else n) := by
  split
  · exact hm
  · exact hn

theorem waits_fueled {α : Type} {g : Nat → Prog α} (n : World → Nat)
    (h : ∀ k, Waits (g k)) : Waits (fun w => g (n w) w) := by
  intro w
  exact h (n w) w

theorem waits_MosGetch : Waits MosGetch := by
  intro w
  unfold MosGetch
  cases w.keys with
  | nil => exact Or.inr rfl
  | cons k ks => exact Or.inl rfl

theorem waits_MosKbhit : Waits MosKbhit := by
  intro w
  unfold MosKbhit
  cases w.kbhit with
  | nil => exact Or.inr rfl
  | cons k ks => exact Or.inl rfl

theorem waits_softwareTriggerLoop (t : eTriggerType) (sel : String) (fuel : Nat) :
    Waits (softwareTriggerLoop t sel fuel) := by
  induction fuel with
  | zero => exact waits_hang
  | succ n ih =>
    unfold softwareTriggerLoop
    repeat' first
      | exact waits_pure _
      | exact ih
      | exact waits_MosGetch
      | exact waits_emit _
      | apply waits_bind
      | apply waits_ite
      | intro _

theorem waits_waitForStop (s : TriggerSetup) : Waits (waitForStop s) := by
  unfold waitForStop
  repeat' first
    | exact waits_pure _
    | exact waits_MosGetch
    | exact waits_MosKbhit
    | exact waits_fueled _ (waits_softwareTriggerLoop _ _)
    | apply waits_bind
    | apply waits_ite
    | intro _

theorem waits_processLoop (s : TriggerSetup) (bufs : List MIL_ID) (size : Nat)
    (op0 : ProcessOp) (fuel : Nat) : Waits (processLoop s bufs size op0 fuel) := by
  induction fuel with
  | zero => exact waits_hang
  | succ n ih =>
    unfold processLoop
    repeat' first
      | exact waits_pure _
      | exact ih
      | exact waits_emit _
      | exact waits_waitForStop _
      | apply waits_bind
      | apply waits_ite
      | intro _

theorem mem_processCalls (evs : List Event) (b : List MIL_ID) (sz : MIL_INT) (op : ProcessOp) :
    Event.MdigProcess b sz op ∈ evs ↔ (b, sz, op) ∈ processCalls evs := by
  unfold processCalls
  rw [List.mem_filterMap]
  constructor
  · intro h
    exact ⟨_, h, rfl⟩
  · rintro ⟨e, he, h⟩
    cases e <;> simp at h
    obtain ⟨rfl, rfl, rfl⟩ := h
    exact he

theorem mem_restartCalls (bufs : List MIL_ID) (size : MIL_INT) (op0 : ProcessOp) (n : Nat)
    (c : List MIL_ID × MIL_INT × ProcessOp) (h : c ∈ restartCalls bufs size op0 n) :
    c.1 = bufs ∧ c.2.1 = size := by
  induction n with
  | zero => simp [restartCalls] at h
  | succ k ih =>
    simp only [restartCalls, List.mem_cons] at h
    rcases h with rfl | rfl | h
    · exact ⟨rfl, rfl⟩
    · exact ⟨rfl, rfl⟩
    · exact ih h

/-- The part of `DoTriggeredAcquisition` after the set-up, up to the processing loop,
when the array can hold the frames asked for. -/
theorem acquire_reaches_loop (inf : Int) (s : TriggerSetup) (w : World)
    (hfit : if s.NbFrames = inf then inf ≤ 10
      else 0 ≤ s.NbFrames ∧ s.NbFrames ≤ (w.dev.limit : Int)) :
    ∃ (list : List MIL_ID) (size : Nat) (w1 : World) (pre : List Event),
      size ≤ arrayLength inf s.NbFrames ∧ size ≤ list.length ∧
      w1.trace = w.trace ++ pre ∧ processCalls pre = [] ∧ (allocated pre).length = size ∧
      acquire inf s w =
        ((fun w2 => processLoop s (list.take size) size
            (if s.TriggerType = .eMultiFrame then .sequenceCount s.NbFrames else .start)
            (w2.keys.length + w2.kbhit.length + 1) w2) >>= fun _ =>
          ResetTriggerControls >>= fun _ => freeLoop list size) w1 := by
  have hlen : (if s.NbFrames = inf then Prog.pure 10 else arrayNew s.NbFrames) w =
      .ret (arrayLength inf s.NbFrames) w ∧ 0 + s.NbFrames.toNat ≤ arrayLength inf s.NbFrames := by
    unfold arrayLength
    by_cases hn : s.NbFrames = inf
    · rw [if_pos hn] at hfit ⊢
      rw [if_pos hn]
      exact ⟨rfl, by omega⟩
    · rw [if_neg hn] at hfit ⊢
      rw [if_neg hn]
      exact ⟨arrayNew_fits hfit.1 hfit.2, by omega⟩
  obtain ⟨hl1, hl2⟩ := hlen
  obtain ⟨list, size, w1, ha⟩ := allocLoop_returns (arrayLength inf s.NbFrames)
    s.NbFrames.toNat 0 [] { w with trace := w.trace ++ [.MappControlError false] } hl2
  obtain ⟨evsA, a1, a2, a3, a4, a5, a6, a7, a8⟩ := allocLoop_spec _ _ _ _ _ _ _ _ ha rfl
    (Nat.zero_le _)
  simp only [List.nil_append] at a4 a5
  have hsz : size ≤ list.length := by
    have := congrArg List.length a4
    rw [List.length_take, ← a5] at this
    omega
  have hmsg : (if s.SoftwareTriggerSelected then
        MosPrintf "\n\nPress <t> to do a software trigger.\n" []
      else MosPrintf "\n\nWaiting for a input trigger signal.\n" []) =
      MosPrintf (if s.SoftwareTriggerSelected then "\n\nPress <t> to do a software trigger.\n"
        else "\n\nWaiting for a input trigger signal.\n") [] := by
    split <;> rfl
  refine ⟨list, size,
    { w1 with trace := w1.trace ++ [.MappControlError true] ++
        [.MdigControl "M_GRAB_TIMEOUT" "M_INFINITE"] ++
        [.MosPrintf (if s.SoftwareTriggerSelected then "\n\nPress <t> to do a software trigger.\n"
          else "\n\nWaiting for a input trigger signal.\n") []] ++
        [.MosPrintf "Press any other key to quit.\n\n" []] },
    [.MappControlError false] ++ evsA ++ [.MappControlError true,
      .MdigControl "M_GRAB_TIMEOUT" "M_INFINITE",
      .MosPrintf (if s.SoftwareTriggerSelected then "\n\nPress <t> to do a software trigger.\n"
        else "\n\nWaiting for a input trigger signal.\n") [],
      .MosPrintf "Press any other key to quit.\n\n" []],
    a6, hsz, ?_, ?_, ?_, ?_⟩
  · simp only [a1, List.append_assoc, List.cons_append, List.nil_append]
  · have hA : processCalls evsA = [] := processCalls_of_kinds a2 (by decide)
    simp only [processCalls_append, hA]
    rfl
  · have h1 : allocated [Event.MappControlError false] = [] := rfl
    have h2 : allocated [Event.MappControlError true,
      .MdigControl "M_GRAB_TIMEOUT" "M_INFINITE",
      .MosPrintf (if s.SoftwareTriggerSelected then "\n\nPress <t> to do a software trigger.\n"
        else "\n\nWaiting for a input trigger signal.\n") [],
      .MosPrintf "Press any other key to quit.\n\n" []] = [] := rfl
    rw [allocated_append, allocated_append, h1, h2, List.nil_append, List.append_nil, a5]
  · unfold acquire
    rw [hmsg]
    simp only [bind_apply, hl1, andThen_ret, MappControlError, emit_apply, ha, MosPrintf]

theorem acquire_refused (inf : Int) (s : TriggerSetup) (w : World) (h1 : s.NbFrames ≠ inf)
    (h2 : s.NbFrames < 0 ∨ (w.dev.limit : Int) < s.NbFrames) :
    acquire inf s w = .halt .exception w := by
  unfold acquire
  rw [bind_apply, if_neg h1, arrayNew_throws h2, andThen_halt]

/-- C23. For a frame count `NbFrames ≥ 1`, and for `NbFrames = M_INFINITE` when the macro
is at most 10 (it is `-1` in `mil.h`), the part of `DoTriggeredAcquisition` after the
set-up never stops for an index out of bounds.  It throws exactly when the array cannot
be allocated, for a frame count beyond the limit of the host, and then it has made no
call: no array exists and none is indexed.  Otherwise the allocation loop ends with
`MilGrabBufferListSize` at most the length of the array and at most the number of slots
written, the buffers counted are the ones allocated, the processing loop is run with
that count, and the free loop starts from it.  In every run, returning or not, each
`MdigProcess` call is passed a count that is at most the array length, with a buffer
list of that many entries. -/
theorem DoTriggeredAcquisition_buffer_list_in_bounds (inf : Int) (s : TriggerSetup)
    (w : World) (hn : 1 ≤ s.NbFrames ∨ s.NbFrames = inf) (hinf : s.NbFrames = inf → inf ≤ 10) :
    (∀ w0, SetTriggerControls initialSetup w0 = .ret s w →
      DoTriggeredAcquisition inf w0 = acquire inf s w) ∧
    (acquire inf s w).stopped ≠ some .outOfBounds ∧
    ((acquire inf s w).stopped = some .exception ↔
      s.NbFrames ≠ inf ∧ (w.dev.limit : Int) < s.NbFrames) ∧
    (s.NbFrames ≠ inf ∧ (w.dev.limit : Int) < s.NbFrames →
      newEvents w (acquire inf s w) = []) ∧
    (s.NbFrames = inf ∨ s.NbFrames ≤ (w.dev.limit : Int) →
      ∃ (list : List MIL_ID) (size : Nat) (w1 : World) (pre : List Event),
      size ≤ arrayLength inf s.NbFrames ∧ size ≤ list.length ∧
      w1.trace = w.trace ++ pre ∧ processCalls pre = [] ∧ (allocated pre).length = size ∧
      acquire inf s w =
        ((fun w2 => processLoop s (list.take size) size
            (if s.TriggerType = .eMultiFrame then .sequenceCount s.NbFrames else .start)
            (w2.keys.length + w2.kbhit.length + 1) w2) >>= fun _ =>
          ResetTriggerControls >>= fun _ => freeLoop list size) w1) ∧
    (∀ (buffers : List MIL_ID) (size : MIL_INT) (op : ProcessOp),
      Event.MdigProcess buffers size op ∈ newEvents w (acquire inf s w) →
      size ≤ (arrayLength inf s.NbFrames : Int) ∧ (buffers.length : Int) = size) := by
  have hdo : ∀ w0, SetTriggerControls initialSetup w0 = .ret s w →
      DoTriggeredAcquisition inf w0 = acquire inf s w := by
    intro w0 h0
    unfold DoTriggeredAcquisition
    rw [bind_ret h0]
  by_cases hbad : s.NbFrames ≠ inf ∧ (w.dev.limit : Int) < s.NbFrames
  · have hr := acquire_refused inf s w hbad.1 (Or.inr hbad.2)
    refine ⟨hdo, ?_, ?_, ?_, ?_, ?_⟩
    · rw [hr]
      simp [Outcome.stopped]
    · rw [hr]
      exact ⟨fun _ => hbad, fun _ => rfl⟩
    · intro _
      rw [hr]
      simp [newEvents]
    · intro hok
      rcases hok with h | h
      · exact absurd h hbad.1
      · omega
    · intro buffers sz op hmem
      rw [hr] at hmem
      simp [newEvents] at hmem
  have hfit : if s.NbFrames = inf then inf ≤ 10
      else 0 ≤ s.NbFrames ∧ s.NbFrames ≤ (w.dev.limit : Int) := by
    by_cases h : s.NbFrames = inf
    · rw [if_pos h]
      exact hinf h
    · rw [if_neg h]
      rcases hn with h1 | h1
      · exact ⟨by omega, by
          by_contra hc
          exact hbad ⟨h, by omega⟩⟩
      · exact absurd h1 h
  obtain ⟨list, size, w1, pre, b1, b2, ht, hq, hal, hrun⟩ := acquire_reaches_loop inf s w hfit
  have hstop : (acquire inf s w).stopped = none ∨ (acquire inf s w).stopped = some .hang := by
    rw [hrun]
    have hw : Waits ((fun w2 => processLoop s (list.take size) size
        (if s.TriggerType = .eMultiFrame then .sequenceCount s.NbFrames else .start)
        (w2.keys.length + w2.kbhit.length + 1) w2) >>= fun _ =>
        ResetTriggerControls >>= fun _ => freeLoop list size) := by
      refine waits_bind (waits_fueled _ (waits_processLoop _ _ _ _)) (fun _ => ?_)
      intro w3
      left
      rw [bind_apply, ResetTriggerControls_apply, andThen_ret, freeLoop_apply _ _ _ b2]
      rfl
    exact hw w1
  refine ⟨hdo, ?_, ?_, fun h => absurd h hbad,
    fun _ => ⟨list, size, w1, pre, b1, b2, ht, hq, hal, hrun⟩, ?_⟩
  · rcases hstop with h | h <;> rw [h] <;> simp
  · constructor
    · intro he
      rcases hstop with h | h <;> rw [h] at he <;> cases he
    · intro h
      exact absurd h hbad
  · intro buffers sz op hmem
    obtain ⟨evs, n, last, hlt, hc, hl⟩ := processLoop_calls s (list.take size) size
      (if s.TriggerType = .eMultiFrame then .sequenceCount s.NbFrames else .start)
      (w1.keys.length + w1.kbhit.length + 1) w1
    have hlen : (list.take size).length = size := by
      rw [List.length_take]
      omega
    have hcalls : processCalls (newEvents w (acquire inf s w)) = processCalls evs := by
      rw [hrun, bind_apply]
      cases hp : processLoop s (list.take size) size
          (if s.TriggerType = .eMultiFrame then .sequenceCount s.NbFrames else .start)
          (w1.keys.length + w1.kbhit.length + 1) w1 with
      | ret u w2 =>
        rw [hp] at hlt
        simp only [world_ret] at hlt
        have hnew : newEvents w ((Outcome.ret u w2).andThen fun _ =>
            ResetTriggerControls >>= fun _ => freeLoop list size) =
            pre ++ evs ++ resetEvents ++ (list.take size).reverse.map .MbufFree := by
          apply newEvents_eq
          rw [andThen_ret, bind_apply, ResetTriggerControls_apply, andThen_ret,
            freeLoop_apply _ _ _ b2]
          simp only [world_ret, hlt, ht, List.append_assoc]
        rw [hnew]
        have hr : processCalls resetEvents = [] := rfl
        simp only [processCalls_append, hq, hr, processCalls_frees, List.append_nil,
          List.nil_append]
      | halt r w2 =>
        rw [hp] at hlt
        have hnew : newEvents w ((Outcome.halt r w2 : Outcome Unit).andThen fun _ =>
            ResetTriggerControls >>= fun _ => freeLoop list size) = pre ++ evs := by
          apply newEvents_eq
          rw [andThen_halt]
          simpa [ht, List.append_assoc] using hlt
        rw [hnew, processCalls_append, hq, List.nil_append]
    have hin : (buffers, sz, op) ∈ restartCalls (list.take size) (size : MIL_INT)
        (if s.TriggerType = .eMultiFrame then .sequenceCount s.NbFrames else .start) n ++ last := by
      rw [← hc, ← hcalls]
      exact (mem_processCalls _ _ _ _).mp hmem
    have hboth : buffers = list.take size ∧ sz = (size : MIL_INT) := by
      rcases List.mem_append.mp hin with h | h
      · exact mem_restartCalls _ _ _ _ _ h
      · rcases hl with rfl | rfl | rfl
        · simp at h
        · simp only [List.mem_singleton, Prod.mk.injEq] at h
          exact ⟨h.1, h.2.1⟩
        · simp only [List.mem_cons, List.mem_singleton, Prod.mk.injEq, List.not_mem_nil,
            or_false] at h
          rcases h with h | h
          · exact ⟨h.1, h.2.1⟩
          · exact ⟨h.1, h.2.1⟩
    obtain ⟨rfl, rfl⟩ := hboth
    constructor
    · exact_mod_cast b1
    · rw [hlen]

theorem DoTriggeredAcquisition_buffer_list_in_bounds_witness :
    ((1 : Int) ≤ 3 ∨ (3 : Int) = -1) ∧ ((3 : Int) = -1 → (-1 : Int) ≤ 10) ∧
    ∀ (buffers : List MIL_ID) (size : MIL_INT) (op : ProcessOp),
      Event.MdigProcess buffers size op ∈
        newEvents (sampleWorld bareDevice Capabilities.initial [key 'q'] [])
          (acquire (-1) (TriggerSetup.mk .eMultiFrame 3 "AcquisitionStart" true)
            (sampleWorld bareDevice Capabilities.initial [key 'q'] [])) →
      size ≤ (arrayLength (-1) 3 : Int) ∧ (buffers.length : Int) = size :=
  ⟨by decide, by decide,
    (DoTriggeredAcquisition_buffer_list_in_bounds (-1)
      (TriggerSetup.mk .eMultiFrame 3 "AcquisitionStart" true)
      (sampleWorld bareDevice Capabilities.initial [key 'q'] [])
      (by decide) (by decide)).2.2.2.2.2⟩

/-! ## The device stays as it is -/

theorem keepsDev_pure {α : Type} (a : α) : KeepsDev (Prog.pure a : Prog α) := by
  intro w
  rfl

theorem keepsDev_halt {α : Type} (r : Halt) :
    KeepsDev (fun w => (Outcome.halt r w : Outcome α)) := by
  intro w
  rfl

theorem keepsDev_bind {α β : Type} {m : Prog α} {f : α → Prog β}
    (hm : KeepsDev m) (hf : ∀ a, KeepsDev (f a)) : KeepsDev (m >>= f) := by
  intro w
  have h1 := hm w
  rw [bind_apply]
  cases hmw : m w with
  | ret a w1 =>
    rw [hmw] at h1
    rw [andThen_ret, hf a w1]
    exact h1
  | halt r w1 =>
    rw [hmw] at h1
    exact h1

theorem keepsDev_ite {α : Type} {c : Prop} [Decidable c] {m n : Prog α}
    (hm : KeepsDev m) (hn : KeepsDev n) : KeepsDev (if c then m else n) := by
  split
  · exact hm
  · exact hn

theorem keepsDev_fueled {α : Type} {g : Nat → Prog α} (n : World → Nat)
    (h : ∀ k, KeepsDev (g k)) : KeepsDev (fun w => g (n w) w) := by
  intro w
  exact h (n w) w

theorem keepsDev_emit (e : Event) : KeepsDev (emit e) := by
  intro w
  rfl

theorem keepsDev_MosPrintf (fmt : String) (args : List Arg) : KeepsDev (MosPrintf fmt args) :=
  keepsDev_emit _

theorem keepsDev_MappControlError (b : Bool) : KeepsDev (MappControlError b) :=
  keepsDev_emit _

theorem keepsDev_MdigControlFeature (name : String) (v : FeatureValue) :
    KeepsDev (MdigControlFeature name v) :=
  keepsDev_emit _

theorem keepsDev_MdigExecuteFeature (name : String) : KeepsDev (MdigExecuteFeature name) :=
  keepsDev_emit _

theorem keepsDev_getCaps : KeepsDev getCaps := by
  intro w
  rfl

theorem keepsDev_MosGetch : KeepsDev MosGetch := by
  intro w
  unfold MosGetch
  split <;> rfl

theorem keepsDev_MosKbhit : KeepsDev MosKbhit := by
  intro w
  unfold MosKbhit
  split <;> rfl

theorem keepsDev_scanf (fmt : String) : KeepsDev (scanf fmt) := by
  intro w
  unfold scanf
  split <;> rfl

theorem keepsDev_MbufAlloc2d : KeepsDev MbufAlloc2d := by
  intro w
  unfold MbufAlloc2d
  split <;> rfl

theorem keepsDev_MsysInquire : KeepsDev MsysInquire := by
  intro w
  rfl

theorem keepsDev_MdigInquireFeatureString (kind : FeatureKind) (name cur : String) :
    KeepsDev (MdigInquireFeatureString kind name cur) := by
  intro w
  rfl

theorem keepsDev_MdigInquireFeatureInt (kind : FeatureKind) (name : String) (cur : Int) :
    KeepsDev (MdigInquireFeatureInt kind name cur) := by
  intro w
  rfl

theorem keepsDev_MdigInquireFeatureBool (kind : FeatureKind) (name : String) (cur : Bool) :
    KeepsDev (MdigInquireFeatureBool kind name cur) := by
  intro w
  rfl

theorem keepsDev_MdigInquireFeatureDouble (kind : FeatureKind) (name : String)
    (cur : MIL_DOUBLE) : KeepsDev (MdigInquireFeatureDouble kind name cur) := by
  intro w
  rfl

theorem keepsDev_MdigInquireString (what cur : String) :
    KeepsDev (MdigInquireString what cur) := by
  intro w
  rfl

theorem keepsDev_MdigInquireInt (what : String) (cur : Int) :
    KeepsDev (MdigInquireInt what cur) := by
  intro w
  rfl

theorem keepsDev_index (v : List String) (i : Int) : KeepsDev (index v i) := by
  intro w
  unfold index
  split
  · rfl
  · split <;> rfl

theorem keepsDev_vectorAssign (c : MIL_INT) : KeepsDev (vectorAssign c) := by
  intro w
  rcases vectorAssign_cases c w with e | e <;> rw [e] <;> rfl

theorem keepsDev_arrayNew (n : Int) : KeepsDev (arrayNew n) := by
  intro w
  rcases arrayNew_cases n w with e | e <;> rw [e] <;> rfl

theorem keepsDev_inquireEntryNames (feature : String) (body : String → Prog Unit)
    (hb : ∀ s, KeepsDev (body s)) (todo : Nat) :
    ∀ i, KeepsDev (inquireEntryNames feature body todo i) := by
  induction todo with
  | zero => intro i; exact keepsDev_pure _
  | succ n ih =>
    intro i
    unfold inquireEntryNames
    exact keepsDev_bind (keepsDev_MdigInquireFeatureString _ _ _) (fun name =>
      keepsDev_bind (hb name) (fun _ => keepsDev_bind (ih (i + 1)) (fun _ => keepsDev_pure _)))

theorem keepsDev_forEach {α : Type} (body : α → Prog Unit) (hb : ∀ a, KeepsDev (body a))
    (l : List α) : KeepsDev (forEach body l) := by
  induction l with
  | nil => exact keepsDev_pure _
  | cons a t ih =>
    unfold forEach
    exact keepsDev_bind (hb a) (fun _ => ih)

theorem keepsDev_inquireSelected (selector : String) (queried : List String)
    (entries : List String) : KeepsDev (inquireSelected selector queried entries) := by
  have hrow : KeepsDev (queried.foldr
      (fun name (acc : Prog (List String)) => do
        let v ← MilGige.MdigInquireFeatureString .value name ""
        let vs ← acc
        Prog.pure (v :: vs))
      (Prog.pure [])) := by
    induction queried with
    | nil => exact keepsDev_pure _
    | cons q t ih =>
      exact keepsDev_bind (keepsDev_MdigInquireFeatureString _ _ _) (fun _ =>
        keepsDev_bind ih (fun _ => keepsDev_pure _))
  induction entries with
  | nil => exact keepsDev_pure _
  | cons e t ih =>
    unfold inquireSelected
    exact keepsDev_bind (keepsDev_MdigControlFeature _ _) (fun _ =>
      keepsDev_bind hrow (fun _ => keepsDev_bind ih (fun _ => keepsDev_pure _)))

theorem keepsDev_inquireEnum (feature : String) :
    KeepsDev (inquireEnum feature (fun _ => Prog.pure ()) (fun _ => Prog.pure ())) := by
  unfold inquireEnum
  refine keepsDev_bind (keepsDev_MdigInquireFeatureInt _ _ _)
    (fun c => keepsDev_ite ?_ (keepsDev_pure _))
  exact keepsDev_bind (keepsDev_vectorAssign _) (fun size =>
    keepsDev_bind (keepsDev_pure _) (fun _ =>
      keepsDev_bind (keepsDev_inquireEntryNames _ _ (fun _ => keepsDev_pure _) _ _)
        (fun _ => keepsDev_pure _)))

theorem keepsDev_CameraPrintDeviceControls : KeepsDev CameraPrintDeviceControls := by
  unfold CameraPrintDeviceControls
  repeat' first
    | exact keepsDev_MosPrintf _ _
    | exact keepsDev_MdigInquireFeatureString _ _ _
    | exact keepsDev_MdigInquireString _ _
    | apply keepsDev_bind
    | intro _

theorem keepsDev_CameraPrintTransportLayerControls :
    KeepsDev CameraPrintTransportLayerControls := by
  unfold CameraPrintTransportLayerControls
  repeat' first
    | exact keepsDev_MosPrintf _ _
    | exact keepsDev_MdigInquireFeatureInt _ _ _
    | apply keepsDev_bind
    | apply keepsDev_ite
    | intro _

theorem keepsDev_CameraPrintImageFormatControls :
    KeepsDev CameraPrintImageFormatControls := by
  unfold CameraPrintImageFormatControls
  repeat' first
    | exact keepsDev_MosPrintf _ _
    | exact keepsDev_MdigInquireFeatureInt _ _ _
    | exact keepsDev_MdigInquireFeatureBool _ _ _
    | exact keepsDev_inquireEnum _
    | exact keepsDev_forEach _ (fun _ => keepsDev_MosPrintf _ _) _
    | apply keepsDev_bind
    | apply keepsDev_ite
    | intro _

theorem keepsDev_CameraPrintEventControls : KeepsDev CameraPrintEventControls := by
  unfold CameraPrintEventControls
  repeat' first
    | exact keepsDev_MosPrintf _ _
    | exact keepsDev_inquireEnum _
    | exact keepsDev_forEach _ (fun _ => keepsDev_MosPrintf _ _) _
    | apply keepsDev_bind
    | apply keepsDev_ite
    | intro _

theorem keepsDev_CameraPrintIOControls : KeepsDev CameraPrintIOControls := by
  unfold CameraPrintIOControls
  repeat' first
    | exact keepsDev_MosPrintf _ _
    | exact keepsDev_inquireEnum _
    | exact keepsDev_inquireSelected _ _ _
    | exact keepsDev_forEach _ (fun _ => keepsDev_MosPrintf _ _) _
    | apply keepsDev_bind
    | apply keepsDev_ite
    | intro _

theorem keepsDev_CameraPrintCounterAndTimerControls :
    KeepsDev CameraPrintCounterAndTimerControls := by
  unfold CameraPrintCounterAndTimerControls
  repeat' first
    | exact keepsDev_MosPrintf _ _
    | exact keepsDev_inquireEnum _
    | exact keepsDev_inquireSelected _ _ _
    | exact keepsDev_forEach _ (fun _ => keepsDev_MosPrintf _ _) _
    | apply keepsDev_bind
    | apply keepsDev_ite
    | intro _

theorem keepsDev_printFlags (mask : String → Int) (Capability : MIL_INT)
    (flags : List (String × String)) : KeepsDev (printFlags mask Capability flags) := by
  induction flags with
  | nil => exact keepsDev_pure _
  | cons x t ih =>
    obtain ⟨name, text⟩ := x
    unfold printFlags
    exact keepsDev_bind (keepsDev_ite (keepsDev_MosPrintf _ _) (keepsDev_pure _))
      (fun _ => ih)

theorem keepsDev_printCapabilities (mask : String → Int) (what title : String)
    (flags : List (String × String)) :
    KeepsDev (printCapabilities mask what title flags) := by
  unfold printCapabilities
  exact keepsDev_bind (keepsDev_MdigInquireInt _ _) (fun _ =>
    keepsDev_bind (keepsDev_MosPrintf _ _)
      (fun _ => keepsDev_ite (keepsDev_MosPrintf _ _) (keepsDev_printFlags _ _ _)))

theorem keepsDev_CameraPrintDeviceCapabilities (mask : String → Int) :
    KeepsDev (CameraPrintDeviceCapabilities mask) := by
  unfold CameraPrintDeviceCapabilities capabilitiesHeading pressEnterToContinue
  repeat' first
    | exact keepsDev_pure _
    | exact keepsDev_MosPrintf _ _
    | exact keepsDev_MosGetch
    | exact keepsDev_printCapabilities _ _ _ _
    | apply keepsDev_bind
    | intro _

theorem keepsDev_printTriggerSources (l : List String) :
    ∀ i, KeepsDev (printTriggerSources l i) := by
  induction l with
  | nil => intro i; exact keepsDev_pure _
  | cons a t ih =>
    intro i
    unfold printTriggerSources
    exact keepsDev_bind (keepsDev_MosPrintf _ _) (fun _ => ih _)

theorem keepsDev_selectionLoop (Cnt : MIL_INT) (names : List String) (fuel : Nat) :
    KeepsDev (selectionLoop Cnt names fuel) := by
  induction fuel with
  | zero => exact keepsDev_halt _
  | succ n ih =>
    unfold selectionLoop
    repeat' first
      | exact keepsDev_pure _
      | exact ih
      | exact keepsDev_MosPrintf _ _
      | exact keepsDev_scanf _
      | exact keepsDev_index _ _
      | apply keepsDev_bind
      | apply keepsDev_ite
      | intro _

theorem keepsDev_SelectTriggerSource : KeepsDev SelectTriggerSource := by
  unfold SelectTriggerSource
  repeat' first
    | exact keepsDev_pure _
    | exact keepsDev_MosPrintf _ _
    | exact keepsDev_MdigInquireFeatureInt _ _ _
    | exact keepsDev_MdigControlFeature _ _
    | exact keepsDev_vectorAssign _
    | exact keepsDev_index _ _
    | exact keepsDev_inquireEntryNames _ _ (fun _ => keepsDev_pure _) _ _
    | exact keepsDev_printTriggerSources _ _
    | exact keepsDev_fueled _ (keepsDev_selectionLoop _ _)
    | apply keepsDev_bind
    | apply keepsDev_ite
    | intro _

theorem keepsDev_printMenu : KeepsDev printMenu := by
  unfold printMenu
  repeat' first
    | exact keepsDev_pure _
    | exact keepsDev_getCaps
    | exact keepsDev_MosPrintf _ _
    | apply keepsDev_bind
    | apply keepsDev_ite
    | intro _

theorem keepsDev_menuSwitch (s : TriggerSetup) (again : Prog TriggerSetup)
    (ha : KeepsDev again) : KeepsDev (menuSwitch s again) := by
  unfold menuSwitch
  repeat' first
    | exact keepsDev_pure _
    | exact ha
    | exact keepsDev_getCaps
    | exact keepsDev_MosGetch
    | exact keepsDev_scanf _
    | exact keepsDev_MosPrintf _ _
    | exact keepsDev_MdigControlFeature _ _
    | exact keepsDev_SelectTriggerSource
    | apply keepsDev_bind
    | apply keepsDev_ite
    | intro _

theorem keepsDev_menuLoop (s : TriggerSetup) (fuel : Nat) : KeepsDev (menuLoop s fuel) := by
  induction fuel with
  | zero => exact keepsDev_halt _
  | succ n ih =>
    unfold menuLoop
    exact keepsDev_bind keepsDev_printMenu (fun _ => keepsDev_menuSwitch _ _ ih)

theorem keepsDev_SetTriggerControls (s : TriggerSetup) : KeepsDev (SetTriggerControls s) := by
  unfold SetTriggerControls
  repeat' first
    | exact keepsDev_pure _
    | exact keepsDev_getCaps
    | exact keepsDev_MosPrintf _ _
    | exact keepsDev_MdigControlFeature _ _
    | exact keepsDev_SelectTriggerSource
    | exact keepsDev_fueled _ (keepsDev_menuLoop _)
    | apply keepsDev_bind
    | apply keepsDev_ite
    | intro _

theorem keepsDev_ResetTriggerControls : KeepsDev ResetTriggerControls := by
  intro w
  rw [ResetTriggerControls_apply]
  rfl

theorem keepsDev_allocLoop (len : Nat) (todo : Nat) :
    ∀ size list, KeepsDev (allocLoop len todo size list) := by
  induction todo with
  | zero => intro size list; exact keepsDev_pure _
  | succ n ih =>
    intro size list
    unfold allocLoop
    repeat' first
      | exact keepsDev_pure _
      | exact keepsDev_halt _
      | exact ih _ _
      | exact keepsDev_MdigInquireInt _ _
      | exact keepsDev_MbufAlloc2d
      | exact keepsDev_emit _
      | apply keepsDev_bind
      | apply keepsDev_ite
      | intro _

theorem keepsDev_softwareTriggerLoop (t : eTriggerType) (sel : String) (fuel : Nat) :
    KeepsDev (softwareTriggerLoop t sel fuel) := by
  induction fuel with
  | zero => exact keepsDev_halt _
  | succ n ih =>
    unfold softwareTriggerLoop
    repeat' first
      | exact keepsDev_pure _
      | exact ih
      | exact keepsDev_MosGetch
      | exact keepsDev_MdigControlFeature _ _
      | exact keepsDev_MdigExecuteFeature _
      | apply keepsDev_bind
      | apply keepsDev_ite
      | intro _

theorem keepsDev_waitForStop (s : TriggerSetup) : KeepsDev (waitForStop s) := by
  unfold waitForStop
  repeat' first
    | exact keepsDev_pure _
    | exact keepsDev_MosGetch
    | exact keepsDev_MosKbhit
    | exact keepsDev_fueled _ (keepsDev_softwareTriggerLoop _ _)
    | apply keepsDev_bind
    | apply keepsDev_ite
    | intro _

theorem keepsDev_processLoop (s : TriggerSetup) (buffers : List MIL_ID) (size : Nat)
    (StartOp : ProcessOp) (fuel : Nat) :
    KeepsDev (processLoop s buffers size StartOp fuel) := by
  induction fuel with
  | zero => exact keepsDev_halt _
  | succ n ih =>
    unfold processLoop
    repeat' first
      | exact keepsDev_pure _
      | exact ih
      | exact keepsDev_emit _
      | exact keepsDev_waitForStop s
      | apply keepsDev_bind
      | apply keepsDev_ite
      | intro _

theorem keepsDev_freeLoop (list : List MIL_ID) (size : Nat) :
    KeepsDev (freeLoop list size) := by
  induction size with
  | zero => exact keepsDev_pure _
  | succ n ih =>
    unfold freeLoop
    split
    · exact keepsDev_bind (keepsDev_emit _) (fun _ => ih)
    · exact keepsDev_halt _

theorem keepsDev_acquire (inf : Int) (s : TriggerSetup) : KeepsDev (acquire inf s) := by
  unfold acquire
  repeat' first
    | exact keepsDev_pure _
    | exact keepsDev_arrayNew _
    | exact keepsDev_allocLoop _ _ _ _
    | exact keepsDev_fueled _ (keepsDev_processLoop _ _ _ _)
    | exact keepsDev_ResetTriggerControls
    | exact keepsDev_freeLoop _ _
    | exact keepsDev_MosPrintf _ _
    | exact keepsDev_emit _
    | apply keepsDev_bind
    | apply keepsDev_ite
    | intro _

theorem keepsDev_DoTriggeredAcquisition (inf : Int) :
    KeepsDev (DoTriggeredAcquisition inf) := by
  unfold DoTriggeredAcquisition
  exact keepsDev_bind (keepsDev_SetTriggerControls _) (fun _ => keepsDev_acquire _ _)

theorem keepsDev_quitUnsupported : KeepsDev quitUnsupported := by
  unfold quitUnsupported
  repeat' first
    | exact keepsDev_pure _
    | exact keepsDev_MosPrintf _ _
    | exact keepsDev_MosGetch
    | exact keepsDev_emit _
    | apply keepsDev_bind
    | intro _

theorem keepsDev_offerTriggeredAcquisition (inf : Int) :
    KeepsDev (offerTriggeredAcquisition inf) := by
  unfold offerTriggeredAcquisition
  repeat' first
    | exact keepsDev_pure _
    | exact keepsDev_getCaps
    | exact keepsDev_MosPrintf _ _
    | exact keepsDev_MosGetch
    | exact keepsDev_DoTriggeredAcquisition _
    | apply keepsDev_bind
    | apply keepsDev_ite
    | intro _

/-! ## How a run of the main function ends -/

theorem settles_MsysInquire (inf : Int) : Settles inf MsysInquire :=
  fun _ _ => ⟨rfl, Or.inl rfl⟩

end MilGige
